import Mathlib

/-!
# kDrive synchronisation engine: conflict resolver, operation generator, network jobs

Shallow embedding of `ConflictResolverWorker`
(`src/libsyncengine/reconciliation/conflict_resolver/conflictresolverworker.cpp`),
`OperationGeneratorWorker`
(`src/libsyncengine/reconciliation/operation_generator/operationgeneratorworker.cpp`) and
`AbstractNetworkJob` (`src/libsyncengine/jobs/network/abstractnetworkjob.cpp`).

Modelling conventions

* `std::shared_ptr<Node>` is `Option NodePtr`; `none` is the null pointer. The node
  objects live in a heap `State.nodes : NodePtr → Node`.
* A function returns `none` when the C++ dereferences a null pointer or an empty
  `std::optional`, or when a recursion over the node heap exceeds the depth `fuel`
  (the C++ recursion would not return on a cyclic `children` relation).
* `std::unordered_set` is a duplicate-free list in insertion order, `std::unordered_map`
  a finite partial function.
* Log statements are not modelled.
* A path is the list of its components; an absolute path starts with the empty component
  of the root directory, and `_localPath` has no trailing separator. Sizes of names and paths
  are counted in bytes of the UTF-8 encoding, as `std::string::size` does outside Windows.
* `int64_t` values are integers; an addition or subtraction of the code is followed by
  `wrapInt64`.
* Classes whose implementation is not part of the sources (update tree, sync database,
  platform inconsistency checker, the helpers of `OperationProcessor`) are taken as the
  fields of `Env` and `GeneratorEnv`.
-/

namespace KDC

abbrev NodeId := String
abbrev DbNodeId := Int
abbrev SyncName := String
/-- A `std::filesystem::path` in normal form, as the list of its components. -/
abbrev SyncPath := List SyncName
abbrev NodePtr := Nat

inductive ReplicaSide where
  | Unknown | Local | Remote
  deriving DecidableEq, Repr

inductive NodeType where
  | Unknown | File | Directory
  deriving DecidableEq, Repr

inductive OperationType where
  | None | Create | Move | Edit | Delete
  deriving DecidableEq, Repr

inductive ConflictType where
  | None
  | MoveParentDelete
  | MoveDelete
  | CreateParentDelete
  | MoveMoveSource
  | MoveMoveDest
  | MoveCreate
  | EditDelete
  | CreateCreate
  | EditEdit
  | MoveMoveCycle
  deriving DecidableEq, Repr

inductive ExitCode where
  | Unknown | Ok | NeedRestart | NetworkError | InvalidToken | DataError | DbError
  | BackError | SystemError | FatalError | OperationCanceled | RateLimited | TokenRefreshed
  deriving DecidableEq, Repr

inductive ExitCause where
  | Unknown | InvalidName | ApiErr | FileTooBig | NotFound | QuotaExceeded | FileAlreadyExist
  | NetworkTimeout | SocketsDefuncted | FileAccessError | MoveToTrashFailed | InvalidSnapshot
  | UnexpectedFileSystemEvent | NotEnoughDiskSpace | RedirectionError
  deriving DecidableEq, Repr

/-- The suffix kinds of `PlatformInconsistencyCheckerUtility` used by the resolver. -/
inductive SuffixType where
  | Conflict | Orphan
  deriving DecidableEq, Repr

/-- Fields of `Node` read or written by the resolver, the operation generator and the update
tree worker, except the
status, which the generator state holds. `children` is the iteration order of the node's child
map. -/
structure Node where
  side : ReplicaSide := ReplicaSide.Unknown
  type : NodeType := NodeType.Unknown
  idb : Option DbNodeId := none
  id : Option NodeId := none
  name : SyncName := ""
  changeEvents : List OperationType := []
  moveOrigin : Option SyncPath := none
  moveOriginParentDbId : Option DbNodeId := none
  parentNode : Option NodePtr := none
  children : List NodePtr := []
  size : Int := 0
  isSharedFolder : Bool := false
  validLocalName : SyncName := ""

/-- `Node::hasChangeEvent`: the event is one of the node's change events. -/
def Node.hasChangeEvent (n : Node) (t : OperationType) : Bool :=
  n.changeEvents.contains t

structure Conflict where
  node : NodePtr
  correspondingNode : NodePtr
  type : ConflictType
  deriving DecidableEq, Repr

/-- A `SyncOperation` with the default values of a freshly constructed operation. -/
structure SyncOperation where
  type : OperationType := OperationType.None
  affectedNode : Option NodePtr := none
  correspondingNode : Option NodePtr := none
  targetSide : ReplicaSide := ReplicaSide.Unknown
  /-- the `_omit` member (`omit` is reserved in Lean) -/
  omit_ : Bool := false
  newName : SyncName := ""
  newParentNode : Option NodePtr := none
  conflict : Option Conflict := none
  deriving DecidableEq, Repr

/-- Reply of a `SyncDb` query: the boolean returned by the call, the `found` out-parameter
and the value out-parameter. -/
structure DbReply (α : Type) where
  ok : Bool
  found : Bool
  value : α

/-- Collaborators of the resolver whose code is not part of the sources. -/
structure Env where
  /-- `_syncPal->_localPath` -/
  localPath : SyncPath
  /-- `_syncPal->updateTree(side)->rootNode()` -/
  rootNode : ReplicaSide → NodePtr
  /-- `_syncPal->updateTree(side)->getNodeById(id)` -/
  getNodeById : ReplicaSide → NodeId → Option NodePtr
  /-- `_syncPal->updateTree(side)->getNodeByPath(path)` -/
  getNodeByPath : ReplicaSide → SyncPath → Option NodePtr
  /-- `Node::getPath` -/
  getPath : NodePtr → SyncPath
  /-- `SyncDb::ids(side, ids, found)` -/
  syncDb_ids : ReplicaSide → DbReply (List NodeId)
  /-- `SyncDb::ancestor(side, id1, id2, ret, found)` -/
  syncDb_ancestor : ReplicaSide → NodeId → NodeId → DbReply Bool
  /-- `SyncDb::dbId(side, nodeId, dbNodeId, found)` -/
  syncDb_dbId : ReplicaSide → NodeId → DbReply DbNodeId
  /-- `SyncDb::id(side, dbNodeId, nodeId, found)` -/
  syncDb_id : ReplicaSide → DbNodeId → DbReply NodeId
  /-- `PlatformInconsistencyCheckerUtility::generateNewValidName` -/
  generateNewValidName : SyncPath → SuffixType → SyncName
  /-- `PlatformInconsistencyCheckerUtility::checkPathLength`: true when the path is too long -/
  checkPathLength : Nat → NodeType → Bool
  /-- `isConflictsWithLocalRename` -/
  isConflictsWithLocalRename : ConflictType → Bool
  /-- `OperationProcessor::correspondingNodeInOtherTree` -/
  correspondingNodeInOtherTree : NodePtr → Option NodePtr
  /-- `OperationProcessor::correspondingNodeDirect` -/
  correspondingNodeDirect : Option NodePtr → Option NodePtr
  /-- `OperationProcessor::isABelowB` -/
  isABelowB : NodePtr → NodePtr → Bool
  /-- `SyncOperationList::startUpdate` -/
  startUpdate : List SyncOperation → List SyncOperation

/-- Mutable state touched by the resolver: the node heap, the operation list
`_syncPal->_syncOps`, the member `_registeredOrphans` and `_syncPal->_restart`. -/
structure State where
  nodes : NodePtr → Node
  syncOps : List SyncOperation
  registeredOrphans : DbNodeId → Option ReplicaSide
  restart : Bool

/-! ## Paths and containers -/

/-- `path.parent_path()` -/
def parent_path (p : SyncPath) : SyncPath := p.dropLast

/-- `path.filename()` -/
def filename (p : SyncPath) : SyncName := p.getLast?.getD ""

/-- `lhs / rhs` for a relative path `rhs`: the components of both. When `rhs` is empty (the
path of a root node) the result ends with a separator, that is with an empty last component,
and its parent path is `lhs`. -/
def appendPath (lhs rhs : SyncPath) : SyncPath :=
  if rhs = [] then lhs ++ [""] else lhs ++ rhs

/-- `name.size()` of a `SyncName`: the number of code units of the string, which are the bytes
of its UTF-8 encoding (`SyncName` is `std::string` outside Windows). -/
def nameSize (name : SyncName) : Nat := name.utf8ByteSize

/-- `path.native().size()`: the size in bytes of the components joined by one separator
each; the root directory, whose only component is the empty one, is the separator alone. -/
def nativeSize (p : SyncPath) : Nat :=
  if p = [""] then 1 else nameSize (String.intercalate "/" p)

/-- `std::unordered_set::insert` -/
def setInsert {α : Type} [DecidableEq α] (s : List α) (x : α) : List α :=
  if x ∈ s then s else s ++ [x]

/-- `std::unordered_map::insert`: an existing entry is kept. -/
def mapInsert (m : DbNodeId → Option ReplicaSide) (k : DbNodeId) (v : ReplicaSide) :
    DbNodeId → Option ReplicaSide :=
  fun x => if x = k then (match m k with | some w => some w | none => some v) else m x

/-- `SyncOperationList::pushOp` -/
def pushOp (s : State) (op : SyncOperation) : State :=
  { s with syncOps := s.syncOps ++ [op] }

/-- `Node::setMoveOrigin` on the node behind a pointer. -/
def setMoveOrigin (s : State) (p : NodePtr) (origin : SyncPath) : State :=
  { s with nodes := fun q => if q = p then { s.nodes p with moveOrigin := some origin } else s.nodes q }

/-- Modelled from the spec: `Conflict::localNode` (conflict.cpp is not part of the sources):
the node of the pair that lies on the local replica. -/
def Conflict.localNode (s : State) (c : Conflict) : NodePtr :=
  if (s.nodes c.node).side = ReplicaSide.Local then c.node else c.correspondingNode

/-- Modelled from the spec: `Conflict::remoteNode` (conflict.cpp is not part of the sources):
the node of the pair that lies on the remote replica. -/
def Conflict.remoteNode (s : State) (c : Conflict) : NodePtr :=
  if (s.nodes c.node).side = ReplicaSide.Remote then c.node else c.correspondingNode

/-- Modelled from the spec: `ConflictQueue::hasConflict` (conflictqueue is not part of the
sources): the queue holds a conflict of the given type. -/
def hasConflict (queue : List Conflict) (t : ConflictType) : Bool :=
  queue.any (fun c => decide (c.type = t))

/-- Modelled from the spec: `Node::getChildExcept` (node.cpp is not part of the sources): the
first child with the given name that does not carry the excepted change event. -/
def getChildExcept (s : State) (p : NodePtr) (name : SyncName) (except : OperationType) :
    Option NodePtr :=
  (s.nodes p).children.find?
    (fun c => decide ((s.nodes c).name = name) && !(s.nodes c).hasChangeEvent except)

/-! ## ConflictResolverWorker -/

/-- `ConflictResolverWorker::generateConflictedName`; returns the boolean result and the
out-parameter `newName`. -/
def generateConflictedName (env : Env) (s : State) (node : NodePtr) (isOrphanNode : Bool) :
    Bool × SyncName :=
  let absoluteLocalFilePath := appendPath env.localPath (env.getPath node)
  let newName := env.generateNewValidName absoluteLocalFilePath
    (if isOrphanNode then SuffixType.Orphan else SuffixType.Conflict)
  let pathSize := nativeSize (parent_path absoluteLocalFilePath) + 1 + nameSize newName
  if env.checkPathLength pathSize (s.nodes node).type then (false, newName) else (true, newName)

/-- `ConflictResolverWorker::findAllChildNodes`, with the recursion depth bounded by the
first argument. -/
def findAllChildNodes (nodes : NodePtr → Node) :
    Nat → NodePtr → List NodePtr → Option (List NodePtr)
  | 0, _, _ => none
  | fuel + 1, parentNode, children =>
    (nodes parentNode).children.foldlM
      (fun acc childNode =>
        (if (nodes childNode).type = NodeType.Directory
          then findAllChildNodes nodes fuel childNode acc
          else some acc).bind
        (fun acc1 => some (setInsert acc1 childNode)))
      children

/-- Loop body of `ConflictResolverWorker::findAllChildNodeIdsFromDb` over the node ids of
the database. -/
def findAllChildNodeIdsFromDbLoop (env : Env) (side : ReplicaSide) (parentId : Option NodeId) :
    List NodeId → List DbNodeId → Option (ExitCode × List DbNodeId)
  | [], childrenDbIds => some (ExitCode.Ok, childrenDbIds)
  | nodeId :: rest, childrenDbIds =>
    match parentId with
    | none => none
    | some pid =>
      if nodeId = pid then findAllChildNodeIdsFromDbLoop env side parentId rest childrenDbIds
      else
        let a := env.syncDb_ancestor side pid nodeId
        if !a.ok then some (ExitCode.DbError, childrenDbIds)
        else if !a.found then some (ExitCode.DataError, childrenDbIds)
        else if a.value then
          let d := env.syncDb_dbId side nodeId
          if !d.ok then some (ExitCode.DbError, childrenDbIds)
          else if !d.found then some (ExitCode.DataError, childrenDbIds)
          else findAllChildNodeIdsFromDbLoop env side parentId rest (setInsert childrenDbIds d.value)
        else findAllChildNodeIdsFromDbLoop env side parentId rest childrenDbIds

/-- `ConflictResolverWorker::findAllChildNodeIdsFromDb` -/
def findAllChildNodeIdsFromDb (env : Env) (s : State) (parentNode : NodePtr)
    (childrenDbIds : List DbNodeId) : Option (ExitCode × List DbNodeId) :=
  let r := env.syncDb_ids (s.nodes parentNode).side
  if !r.ok then some (ExitCode.DbError, childrenDbIds)
  else if !r.found then some (ExitCode.DataError, childrenDbIds)
  else findAllChildNodeIdsFromDbLoop env (s.nodes parentNode).side (s.nodes parentNode).id
    r.value childrenDbIds

/-- `ConflictResolverWorker::undoMove`; the operation is the `moveOp` handed in, the result
is the exit code and the operation as left by the call. -/
def undoMove (env : Env) (s : State) (moveNode : NodePtr) (moveOp : SyncOperation) :
    ExitCode × SyncOperation :=
  match (s.nodes moveNode).moveOrigin with
  | none => (ExitCode.DataError, moveOp)
  | some originPath =>
    match env.getNodeByPath (s.nodes moveNode).side (parent_path originPath) with
    | none => (ExitCode.DataError, moveOp)
    | some originParentNode =>
      let undoPossible : Bool :=
        if env.isABelowB originParentNode moveNode
            || (s.nodes originParentNode).hasChangeEvent OperationType.Delete then false
        else
          match getChildExcept s originParentNode (filename originPath) OperationType.Delete with
          | some potentialOriginNode =>
            if (s.nodes potentialOriginNode).hasChangeEvent OperationType.Create
                || (s.nodes potentialOriginNode).hasChangeEvent OperationType.Move then false
            else true
          | none => true
      let op1 : SyncOperation :=
        if undoPossible then
          { moveOp with newParentNode := some originParentNode, newName := filename originPath }
        else
          { moveOp with
            newParentNode := some (env.rootNode (s.nodes moveNode).side),
            newName := (generateConflictedName env s moveNode false).2 }
      (ExitCode.Ok,
        { op1 with
          type := OperationType.Move,
          affectedNode := env.correspondingNodeInOtherTree moveNode,
          correspondingNode := some moveNode,
          targetSide := (s.nodes moveNode).side })

/-- The loop over `allChildNodeDbIds` in the `ConflictTypeMoveDelete` case of
`generateOperations`; an exit code other than `Ok` is the early `return` of the case. -/
def orphanLoop (env : Env) (conflict : Conflict) (deleteNode : NodePtr)
    (deletedChildNodeDbIds : List DbNodeId) : List DbNodeId → State → Option (ExitCode × State)
  | [], s => some (ExitCode.Ok, s)
  | dbId :: rest, s =>
    if dbId ∈ deletedChildNodeDbIds then
      orphanLoop env conflict deleteNode deletedChildNodeDbIds rest s
    else
      let r := env.syncDb_id (s.nodes deleteNode).side dbId
      if !r.ok then some (ExitCode.DbError, s)
      else if !r.found then some (ExitCode.DataError, s)
      else
        match env.getNodeById (s.nodes deleteNode).side r.value with
        | none => none
        | some orphanNode =>
          match env.correspondingNodeInOtherTree orphanNode with
          | none => some (ExitCode.DataError, s)
          | some correspondingOrphanNode =>
            let s1 := setMoveOrigin s orphanNode (env.getPath orphanNode)
            let op : SyncOperation :=
              { type := OperationType.Move,
                affectedNode := some orphanNode,
                correspondingNode := some correspondingOrphanNode,
                targetSide := (s1.nodes correspondingOrphanNode).side,
                omit_ := true,
                newName := (generateConflictedName env s1 orphanNode true).2,
                newParentNode := some (env.rootNode (s1.nodes orphanNode).side),
                conflict := some conflict }
            let s2 := pushOp s1 op
            let s3 : State :=
              { s2 with
                registeredOrphans :=
                  mapInsert s2.registeredOrphans dbId (s2.nodes deleteNode).side }
            orphanLoop env conflict deleteNode deletedChildNodeDbIds rest s3

/-- The loop that fills `deletedChildNodeDbIds` from `allDeletedChildNodes`; `none` when a
child node has no db id (`*childNode->idb()` on an empty optional). -/
def collectDbIds (s : State) : List NodePtr → List DbNodeId → Option (List DbNodeId)
  | [], acc => some acc
  | childNode :: rest, acc =>
    match (s.nodes childNode).idb with
    | none => none
    | some dbId => collectDbIds s rest (setInsert acc dbId)

/-- The local variable `deleteNode` of `generateOperations`. -/
def deleteNodeOf (s : State) (conflict : Conflict) : NodePtr :=
  if (s.nodes conflict.node).hasChangeEvent OperationType.Delete
    then conflict.node else conflict.correspondingNode

/-- The local variable `editNode` of `generateOperations`. -/
def editNodeOf (s : State) (conflict : Conflict) : NodePtr :=
  if (s.nodes conflict.node).hasChangeEvent OperationType.Edit
    then conflict.node else conflict.correspondingNode

/-- The local variable `moveNode` of `generateOperations`. -/
def moveNodeOf (s : State) (conflict : Conflict) : NodePtr :=
  if (s.nodes conflict.node).hasChangeEvent OperationType.Move
    then conflict.node else conflict.correspondingNode

/-- The condition under which the `ConflictTypeMoveDelete` case leaves the conflict to the
Move-ParentDelete conflict. -/
def moveDeleteDeferred (env : Env) (conflictQueue : List Conflict) (s : State)
    (conflict : Conflict) : Bool :=
  match env.correspondingNodeDirect (s.nodes (moveNodeOf s conflict)).parentNode with
  | none => false
  | some correspondingMoveNodeParent =>
    (s.nodes correspondingMoveNodeParent).hasChangeEvent OperationType.Delete
      && hasConflict conflictQueue ConflictType.MoveParentDelete

/-- The local variable `loserNode` of the `ConflictTypeMoveMoveSource` case, for the db id of
`conflict.node()`. -/
def loserNodeOf (s : State) (conflict : Conflict) (dbId : DbNodeId) : NodePtr :=
  match s.registeredOrphans dbId with
  | some side =>
    if side = ReplicaSide.Local then conflict.remoteNode s else conflict.localNode s
  | none => conflict.localNode s

/-- The cases `ConflictTypeCreateCreate`, `ConflictTypeEditEdit`, `ConflictTypeMoveCreate` and
`ConflictTypeMoveMoveDest` of the switch in `generateOperations`. -/
def caseRenameLocal (env : Env) (s : State) (conflict : Conflict) :
    Option (ExitCode × State × Bool) :=
  let op0 : SyncOperation :=
    { type := OperationType.Move,
      affectedNode := some (conflict.remoteNode s),
      correspondingNode := some (conflict.localNode s),
      targetSide := ReplicaSide.Local }
  let r := generateConflictedName env s (conflict.localNode s) false
  let op1 : SyncOperation :=
    if !r.1 then { op0 with newParentNode := some (env.rootNode ReplicaSide.Local) } else op0
  let op : SyncOperation := { op1 with newName := r.2, conflict := some conflict }
  some (ExitCode.Ok, pushOp s op, env.isConflictsWithLocalRename conflict.type)

/-- The case `ConflictTypeEditDelete` of the switch in `generateOperations`. -/
def caseEditDelete (env : Env) (fuel : Nat) (s : State) (conflict : Conflict) :
    Option (ExitCode × State × Bool) :=
  let deleteNode := deleteNodeOf s conflict
  let editNode := editNodeOf s conflict
  match (s.nodes deleteNode).parentNode with
  | none => none
  | some deleteParent =>
    if (s.nodes deleteParent).hasChangeEvent OperationType.Delete then
      let moveOp : SyncOperation :=
        { type := OperationType.Move,
          affectedNode := some deleteNode,
          correspondingNode := some editNode,
          targetSide := (s.nodes editNode).side,
          newName := (generateConflictedName env s (conflict.localNode s) false).2,
          newParentNode := some (env.rootNode (s.nodes deleteNode).side),
          conflict := some conflict }
      let s1 := pushOp s moveOp
      match findAllChildNodes s1.nodes fuel deleteNode [] with
      | none => none
      | some _ =>
        let deleteOp : SyncOperation :=
          { type := OperationType.Delete,
            affectedNode := some deleteNode,
            correspondingNode := some editNode,
            targetSide := (s1.nodes editNode).side,
            omit_ := true,
            conflict := some conflict }
        some (ExitCode.Ok, pushOp s1 deleteOp, false)
    else
      match findAllChildNodes s.nodes fuel editNode [] with
      | none => none
      | some _ =>
        let deleteOp : SyncOperation :=
          { type := OperationType.Delete,
            affectedNode := some editNode,
            correspondingNode := some deleteNode,
            targetSide := (s.nodes deleteNode).side,
            omit_ := true,
            conflict := some conflict }
        some (ExitCode.Ok, pushOp s deleteOp, false)

/-- The case `ConflictTypeMoveDelete` of the switch in `generateOperations`. -/
def caseMoveDelete (env : Env) (fuel : Nat) (conflictQueue : List Conflict) (s : State)
    (conflict : Conflict) : Option (ExitCode × State × Bool) :=
  let deleteNode := deleteNodeOf s conflict
  let moveNode := moveNodeOf s conflict
  if moveDeleteDeferred env conflictQueue s conflict then some (ExitCode.Ok, s, true)
  else
    match findAllChildNodes s.nodes fuel deleteNode [] with
    | none => none
    | some allDeletedChildNodes =>
      match collectDbIds s allDeletedChildNodes [] with
      | none => none
      | some deletedChildNodeDbIds =>
        let afterOrphans : Option (ExitCode × State) :=
          if (s.nodes deleteNode).type = NodeType.Directory then
            match findAllChildNodeIdsFromDb env s deleteNode [] with
            | none => none
            | some (res, allChildNodeDbIds) =>
              if res ≠ ExitCode.Ok then some (res, s)
              else orphanLoop env conflict deleteNode deletedChildNodeDbIds allChildNodeDbIds s
          else some (ExitCode.Ok, s)
        match afterOrphans with
        | none => none
        | some (res, s1) =>
          if res ≠ ExitCode.Ok then some (res, s1, false)
          else
            let op : SyncOperation :=
              { type := OperationType.Delete,
                affectedNode := some deleteNode,
                correspondingNode := some moveNode,
                targetSide := (s1.nodes moveNode).side,
                omit_ := true,
                conflict := some conflict }
            some (ExitCode.Ok, pushOp s1 op, false)

/-- The common body of the cases `ConflictTypeMoveParentDelete`, `ConflictTypeMoveMoveSource`
and `ConflictTypeMoveMoveCycle`: undo the move of the given node and push the operation. -/
def caseUndoMove (env : Env) (s : State) (conflict : Conflict) (node : NodePtr) :
    Option (ExitCode × State × Bool) :=
  let r := undoMove env s node {}
  if r.1 ≠ ExitCode.Ok then some (r.1, s, false)
  else some (ExitCode.Ok, pushOp s { r.2 with conflict := some conflict }, false)

/-- The case `ConflictTypeCreateParentDelete` of the switch in `generateOperations`. -/
def caseCreateParentDelete (env : Env) (s : State) (conflict : Conflict) :
    Option (ExitCode × State × Bool) :=
  let deleteNode := deleteNodeOf s conflict
  match env.correspondingNodeInOtherTree deleteNode with
  | none => none
  | some correspondingNode =>
    let op : SyncOperation :=
      { type := OperationType.Delete,
        affectedNode := some deleteNode,
        correspondingNode := some correspondingNode,
        targetSide := (s.nodes correspondingNode).side,
        conflict := some conflict }
    some (ExitCode.Ok, pushOp s op, false)

/-- `ConflictResolverWorker::generateOperations`. The conflict queue is only read
(`hasConflict`). The result is the exit code, the state left behind and the out-parameter
`continueSolving`. -/
def generateOperations (env : Env) (fuel : Nat) (conflictQueue : List Conflict) (s : State)
    (conflict : Conflict) : Option (ExitCode × State × Bool) :=
  match conflict.type with
  | ConflictType.CreateCreate => caseRenameLocal env s conflict
  | ConflictType.EditEdit => caseRenameLocal env s conflict
  | ConflictType.MoveCreate => caseRenameLocal env s conflict
  | ConflictType.MoveMoveDest => caseRenameLocal env s conflict
  | ConflictType.EditDelete => caseEditDelete env fuel s conflict
  | ConflictType.MoveDelete => caseMoveDelete env fuel conflictQueue s conflict
  | ConflictType.MoveParentDelete => caseUndoMove env s conflict (moveNodeOf s conflict)
  | ConflictType.CreateParentDelete => caseCreateParentDelete env s conflict
  | ConflictType.MoveMoveSource =>
    match (s.nodes conflict.node).idb with
    | none => none
    | some dbId => caseUndoMove env s conflict (loserNodeOf s conflict dbId)
  | ConflictType.MoveMoveCycle => caseUndoMove env s conflict (conflict.localNode s)
  | ConflictType.None => some (ExitCode.DataError, s, false)

/-- Outcome of `ConflictResolverWorker::execute`: the state and the conflict queue it leaves,
the exit code given to `setDone`, and, as a ghost value, the calls of `generateOperations`
it made with their exit code and `continueSolving`. -/
structure ExecuteResult where
  state : State
  conflictQueue : List Conflict
  exitCode : ExitCode
  calls : List (Conflict × ExitCode × Bool)

/-- The `while (!_syncPal->_conflictQueue->empty())` loop of `execute`; the first list is the
conflict queue in priority order, its head being `top()`. -/
def executeLoop (env : Env) (fuel : Nat) :
    List Conflict → State → ExitCode → List (Conflict × ExitCode × Bool) → Option ExecuteResult
  | [], s, exitCode, calls =>
    some { state := s, conflictQueue := [], exitCode := exitCode, calls := calls }
  | top :: rest, s, _, calls =>
    match generateOperations env fuel (top :: rest) s top with
    | none => none
    | some (exitCode, s1, continueSolving) =>
      let calls1 := calls ++ [(top, exitCode, continueSolving)]
      if exitCode ≠ ExitCode.Ok then
        some { state := s1, conflictQueue := top :: rest, exitCode := exitCode, calls := calls1 }
      else if continueSolving then executeLoop env fuel rest s1 exitCode calls1
      else some { state := s1, conflictQueue := [], exitCode := exitCode, calls := calls1 }

/-- `ConflictResolverWorker::execute` -/
def execute (env : Env) (fuel : Nat) (conflictQueue : List Conflict) (s : State) :
    Option ExecuteResult :=
  let s0 : State := { s with syncOps := env.startUpdate s.syncOps }
  match executeLoop env fuel conflictQueue s0 ExitCode.Unknown [] with
  | none => none
  | some r => some { r with state := { r.state with restart := true } }

/-! ## A sample synchronisation pair

Two mirrored trees `/A/f.txt`, `/B`: the local nodes are `0` (root), `1` (`A`), `2` (`f.txt`),
`3` (`B`), the remote nodes are `10`, `11`, `12`, `13`. -/

/-- Static part of the sample nodes; the change events and move origins are given per
scenario. -/
def sampleNodes (events : NodePtr → List OperationType) (origin : NodePtr → Option SyncPath) :
    NodePtr → Node
  | 0 => { side := ReplicaSide.Local, type := NodeType.Directory, idb := some 1, id := some "l0",
           name := "", changeEvents := events 0, moveOrigin := origin 0, children := [1, 3] }
  | 1 => { side := ReplicaSide.Local, type := NodeType.Directory, idb := some 2, id := some "lA",
           name := "A", changeEvents := events 1, moveOrigin := origin 1, parentNode := some 0,
           children := [2] }
  | 2 => { side := ReplicaSide.Local, type := NodeType.File, idb := some 3, id := some "lf",
           name := "f.txt", changeEvents := events 2, moveOrigin := origin 2,
           parentNode := some 1 }
  | 3 => { side := ReplicaSide.Local, type := NodeType.Directory, idb := some 4, id := some "lB",
           name := "B", changeEvents := events 3, moveOrigin := origin 3, parentNode := some 0 }
  | 10 => { side := ReplicaSide.Remote, type := NodeType.Directory, idb := some 1,
            id := some "r0", name := "", changeEvents := events 10, moveOrigin := origin 10,
            children := [11, 13] }
  | 11 => { side := ReplicaSide.Remote, type := NodeType.Directory, idb := some 2,
            id := some "rA", name := "A", changeEvents := events 11, moveOrigin := origin 11,
            parentNode := some 10, children := [12] }
  | 12 => { side := ReplicaSide.Remote, type := NodeType.File, idb := some 3, id := some "rf",
            name := "f.txt", changeEvents := events 12, moveOrigin := origin 12,
            parentNode := some 11 }
  | 13 => { side := ReplicaSide.Remote, type := NodeType.Directory, idb := some 4,
            id := some "rB", name := "B", changeEvents := events 13, moveOrigin := origin 13,
            parentNode := some 10 }
  | _ => {}

/-- Sample state: empty operation list, given orphan registry. -/
def sampleState (events : NodePtr → List OperationType) (origin : NodePtr → Option SyncPath)
    (orphans : DbNodeId → Option ReplicaSide) : State :=
  { nodes := sampleNodes events origin, syncOps := [], registeredOrphans := orphans,
    restart := false }

/-- Height of the sample nodes in their tree. -/
def sampleRank : NodePtr → Nat
  | 0 => 2
  | 1 => 1
  | 10 => 2
  | 11 => 1
  | _ => 0

/-- Path of the sample nodes. -/
def samplePath : NodePtr → SyncPath
  | 1 => ["A"]
  | 2 => ["A", "f.txt"]
  | 3 => ["B"]
  | 11 => ["A"]
  | 12 => ["A", "f.txt"]
  | 13 => ["B"]
  | _ => []

/-- Path lookup in the sample trees. -/
def sampleNodeByPath : ReplicaSide → SyncPath → Option NodePtr
  | ReplicaSide.Local, [] => some 0
  | ReplicaSide.Local, ["A"] => some 1
  | ReplicaSide.Local, ["A", "f.txt"] => some 2
  | ReplicaSide.Local, ["B"] => some 3
  | ReplicaSide.Remote, [] => some 10
  | ReplicaSide.Remote, ["A"] => some 11
  | ReplicaSide.Remote, ["A", "f.txt"] => some 12
  | ReplicaSide.Remote, ["B"] => some 13
  | _, _ => none

/-- Node id lookup in the sample trees. -/
def sampleNodeById : ReplicaSide → NodeId → Option NodePtr
  | ReplicaSide.Local, "l0" => some 0
  | ReplicaSide.Local, "lA" => some 1
  | ReplicaSide.Local, "lf" => some 2
  | ReplicaSide.Local, "lB" => some 3
  | ReplicaSide.Remote, "r0" => some 10
  | ReplicaSide.Remote, "rA" => some 11
  | ReplicaSide.Remote, "rf" => some 12
  | ReplicaSide.Remote, "rB" => some 13
  | _, _ => none

/-- The node with the same db id in the other sample tree. -/
def sampleCorresponding : NodePtr → Option NodePtr
  | 0 => some 10
  | 1 => some 11
  | 2 => some 12
  | 3 => some 13
  | 10 => some 0
  | 11 => some 1
  | 12 => some 2
  | 13 => some 3
  | _ => none

/-- Sample database: the baseline `/A/f.txt`, `/B` on both sides; `dbOk` is the result of
`SyncDb::ids`. -/
def sampleEnv (dbOk : Bool) : Env :=
  { localPath := ["", "home", "kdrive"],
    rootNode := fun side => if side = ReplicaSide.Remote then 10 else 0,
    getNodeById := sampleNodeById,
    getNodeByPath := sampleNodeByPath,
    getPath := samplePath,
    syncDb_ids := fun side =>
      { ok := dbOk, found := true,
        value := if side = ReplicaSide.Remote then ["r0", "rA", "rf", "rB"]
                 else ["l0", "lA", "lf", "lB"] },
    syncDb_ancestor := fun _ a b =>
      { ok := true, found := true,
        value := decide (a = "l0" ∨ a = "r0" ∨ (a = "lA" ∧ b = "lf") ∨ (a = "rA" ∧ b = "rf")) },
    syncDb_dbId := fun _ n =>
      { ok := true, found := true,
        value := if n = "lA" ∨ n = "rA" then 2 else if n = "lf" ∨ n = "rf" then 3
                 else if n = "lB" ∨ n = "rB" then 4 else 1 },
    syncDb_id := fun side d =>
      { ok := true, found := true,
        value := if side = ReplicaSide.Remote then
                   (if d = 2 then "rA" else if d = 3 then "rf" else if d = 4 then "rB" else "r0")
                 else
                   (if d = 2 then "lA" else if d = 3 then "lf" else if d = 4 then "lB" else "l0") },
    generateNewValidName := fun p t =>
      filename p ++ (if t = SuffixType.Orphan then " (orphan)" else " (conflicting copy)"),
    checkPathLength := fun n _ => decide (255 < n),
    isConflictsWithLocalRename := fun t =>
      decide (t = ConflictType.CreateCreate ∨ t = ConflictType.EditEdit ∨
        t = ConflictType.MoveCreate ∨ t = ConflictType.MoveMoveDest),
    correspondingNodeInOtherTree := sampleCorresponding,
    correspondingNodeDirect := fun p => p.bind sampleCorresponding,
    isABelowB := fun _ _ => false,
    startUpdate := fun ops => ops }

/-- The sample database with the file of `A` named `éééé.txt`, whose four letters take two
bytes each, and a path length limit of 45 bytes. -/
def utf8Env : Env :=
  { sampleEnv true with
    getPath := fun p => if p = 2 ∨ p = 12 then ["A", "éééé.txt"] else samplePath p,
    checkPathLength := fun n _ => decide (45 < n) }

/-- Sample state for a Move-Delete conflict with an orphan: starting from the baseline
`/A/f.txt`, `/B`, the file `f.txt` was moved to the root and `A` deleted on the local side,
while `A` was moved on the remote side. In the local tree `A` has no children any more. -/
def orphanSampleState (orphans : DbNodeId → Option ReplicaSide) : State :=
  { nodes := fun p =>
      match p with
      | 0 => { side := ReplicaSide.Local, type := NodeType.Directory, idb := some 1,
               id := some "l0", name := "", children := [1, 2, 3] }
      | 1 => { side := ReplicaSide.Local, type := NodeType.Directory, idb := some 2,
               id := some "lA", name := "A", changeEvents := [OperationType.Delete],
               parentNode := some 0 }
      | 2 => { side := ReplicaSide.Local, type := NodeType.File, idb := some 3,
               id := some "lf", name := "f.txt", changeEvents := [OperationType.Move],
               moveOrigin := some ["A", "f.txt"], parentNode := some 0 }
      | 11 => { side := ReplicaSide.Remote, type := NodeType.Directory, idb := some 2,
                id := some "rA", name := "A2", changeEvents := [OperationType.Move],
                moveOrigin := some ["A"], parentNode := some 10, children := [12] }
      | q => sampleNodes (fun _ => []) (fun _ => none) q,
    syncOps := [],
    registeredOrphans := orphans,
    restart := false }

/-- A call of `generateOperations` recorded by `execute` resolved a conflict of a type without
local rename: the exit code is `Ok`, the type is EditDelete, MoveDelete, MoveParentDelete,
CreateParentDelete, MoveMoveSource or MoveMoveCycle, and `continueSolving` is false (for these
types `continueSolving` is only set by a MoveDelete conflict that is deferred). -/
def resolvedWithoutRename (call : Conflict × ExitCode × Bool) : Bool :=
  decide (call.2.1 = ExitCode.Ok) && !call.2.2 &&
    decide (call.1.type ∈ [ConflictType.EditDelete, ConflictType.MoveDelete,
      ConflictType.MoveParentDelete, ConflictType.CreateParentDelete,
      ConflictType.MoveMoveSource, ConflictType.MoveMoveCycle])

/-! ## Update tree shape -/

/-- The `children` relation of the heap is well founded: `rank` decreases from a node to each
of its children. -/
def WellRanked (nodes : NodePtr → Node) (rank : NodePtr → Nat) : Prop :=
  ∀ p c, c ∈ (nodes p).children → rank c < rank p

/-- Only directories have children. -/
def OnlyDirectoriesHaveChildren (nodes : NodePtr → Node) : Prop :=
  ∀ n, (nodes n).type ≠ NodeType.Directory → (nodes n).children = []

/-- Descendants of a node in the update tree: the transitive closure of `children`. -/
inductive TreeDescendant (nodes : NodePtr → Node) : NodePtr → NodePtr → Prop where
  | child {p c : NodePtr} : c ∈ (nodes p).children → TreeDescendant nodes p c
  | step {p c d : NodePtr} :
      c ∈ (nodes p).children → TreeDescendant nodes c d → TreeDescendant nodes p d

/-- The db id belongs to a DB descendant of the node: it is the db id of a node id of the
node's side, other than the node's own id, for which `SyncDb::ancestor` holds. -/
def IsDbDescendant (env : Env) (s : State) (parentNode : NodePtr) (d : DbNodeId) : Prop :=
  ∃ pid nodeId, (s.nodes parentNode).id = some pid ∧
    nodeId ∈ (env.syncDb_ids (s.nodes parentNode).side).value ∧ nodeId ≠ pid ∧
    (env.syncDb_ancestor (s.nodes parentNode).side pid nodeId).value = true ∧
    (env.syncDb_dbId (s.nodes parentNode).side nodeId).value = d

/-- The db id belongs to some descendant of the node in the update tree. -/
def IsTreeDescendantDbId (s : State) (parentNode : NodePtr) (d : DbNodeId) : Prop :=
  ∃ m, TreeDescendant s.nodes parentNode m ∧ (s.nodes m).idb = some d

/-- The operation is the DB-only Move of the orphan with the given db id on the given side:
the affected node is the tree node of that db id, the new parent is the root node of the
orphan's tree and the new name is built with the orphan suffix. -/
def IsOrphanMove (env : Env) (s : State) (c : Conflict) (side : ReplicaSide) (d : DbNodeId)
    (op : SyncOperation) : Prop :=
  ∃ n corr, env.getNodeById side (env.syncDb_id side d).value = some n ∧
    env.correspondingNodeInOtherTree n = some corr ∧
    op = { type := OperationType.Move,
           affectedNode := some n,
           correspondingNode := some corr,
           targetSide := (s.nodes corr).side,
           omit_ := true,
           newName := env.generateNewValidName (appendPath env.localPath (env.getPath n))
             SuffixType.Orphan,
           newParentNode := some (env.rootNode (s.nodes n).side),
           conflict := some c }

/-! ## OperationGeneratorWorker

Shallow embedding of `OperationGeneratorWorker`
(`src/libsyncengine/reconciliation/operation_generator/operationgeneratorworker.cpp`). The
generator changes nothing in the update trees but the status of the nodes; the nodes are
therefore part of `GeneratorEnv` and the statuses are a map of the generator state. A failed
`assert(correspondingNode)` counts as a dereference of a null pointer. The pause loop of
`execute` is not modelled. -/

inductive NodeStatus where
  | Unprocessed | PartiallyProcessed | Processed
  deriving DecidableEq, Repr

/-- The value an `int64_t` holds when the exact result of an addition or a subtraction is `x`:
the integer between `-2^63` and `2^63 - 1` that equals `x` modulo `2^64`. Sizes, the free
space and `_bytesToDownload` are `int64_t` in the code; the model takes the wrapping result for
an overflow. -/
def wrapInt64 (x : Int) : Int :=
  (x + 9223372036854775808) % 18446744073709551616 - 9223372036854775808

/-- The integer is a value of `int64_t`. -/
def isInt64 (x : Int) : Prop :=
  -9223372036854775808 ≤ x ∧ x < 9223372036854775808

/-- What the generator reads: the two update trees and the collaborators whose code is not
part of the sources. -/
structure GeneratorEnv where
  /-- the node objects of both update trees -/
  nodes : NodePtr → Node
  /-- `_syncPal->updateTree(side)->rootNode()` -/
  rootNode : ReplicaSide → Option NodePtr
  /-- `OperationProcessor::correspondingNodeInOtherTree` -/
  correspondingNodeInOtherTree : NodePtr → Option NodePtr
  /-- `OperationProcessor::isPseudoConflict` -/
  isPseudoConflict : NodePtr → NodePtr → Bool
  /-- `Node::finalLocalName` -/
  finalLocalName : NodePtr → SyncName
  /-- `_syncPal->_vfsMode == VirtualFileModeOff` -/
  vfsModeOff : Bool
  /-- `Utility::freeDiskSpace(_syncPal->_localPath)` -/
  freeDiskSpace : Int
  /-- `Utility::freeDiskSpaceLimit()` -/
  freeDiskSpaceLimit : Int
  /-- `stopAsked()` at the start of the pass with the given index of the exploration loop -/
  stopAsked : Nat → Bool

/-- What the generator writes: the status of the nodes, `_syncPal->_syncOps`, `_deletedNodes`,
`_bytesToDownload`, `_syncPal->_restart` and the exit cause of the worker. -/
structure GeneratorState where
  status : NodePtr → NodeStatus
  syncOps : List SyncOperation
  deletedNodes : List NodeId
  bytesToDownload : Int
  restart : Bool
  exitCause : ExitCause

/-- Modelled from the spec: `otherSide` (not part of the sources): the other replica. -/
def otherSide (side : ReplicaSide) : ReplicaSide :=
  match side with
  | ReplicaSide.Local => ReplicaSide.Remote
  | ReplicaSide.Remote => ReplicaSide.Local
  | ReplicaSide.Unknown => ReplicaSide.Unknown

/-- `Node::setStatus` on the node behind a pointer. -/
def setStatus (status : NodePtr → NodeStatus) (p : NodePtr) (v : NodeStatus) :
    NodePtr → NodeStatus :=
  fun q => if q = p then v else status q

/-- `OperationGeneratorWorker::findAndMarkAllChildNodes`, with the recursion depth bounded by
the first argument; the result is the status map it leaves. -/
def findAndMarkAllChildNodes (nodes : NodePtr → Node) :
    Nat → NodePtr → (NodePtr → NodeStatus) → Option (NodePtr → NodeStatus)
  | 0, _, _ => none
  | fuel + 1, parentNode, status =>
    (nodes parentNode).children.foldlM
      (fun st childNode =>
        (if (nodes childNode).type = NodeType.Directory
          then findAndMarkAllChildNodes nodes fuel childNode st
          else some st).bind
        (fun st1 => some (setStatus st1 childNode NodeStatus.Processed)))
      status

/-- `OperationGeneratorWorker::generateCreateOperation` -/
def generateCreateOperation (env : GeneratorEnv) (st : GeneratorState) (currentNode : NodePtr)
    (correspondingNode : Option NodePtr) : GeneratorState :=
  let pseudo : Bool :=
    match correspondingNode with
    | some c => env.isPseudoConflict currentNode c
    | none => false
  let op0 : SyncOperation :=
    if pseudo then { omit_ := true, correspondingNode := correspondingNode } else {}
  let status1 :=
    match correspondingNode with
    | some c => if pseudo then setStatus st.status c NodeStatus.Processed else st.status
    | none => st.status
  let targetSide := otherSide (env.nodes currentNode).side
  let op : SyncOperation :=
    { op0 with
      type := OperationType.Create,
      affectedNode := some currentNode,
      targetSide := targetSide,
      newName :=
        if targetSide = ReplicaSide.Local then env.finalLocalName currentNode
        else (env.nodes currentNode).name }
  { st with
    status := setStatus status1 currentNode NodeStatus.Processed,
    syncOps := st.syncOps ++ [op],
    bytesToDownload :=
      if !op.omit_ ∧ env.vfsModeOff ∧ op.targetSide = ReplicaSide.Local
          ∧ (env.nodes currentNode).type = NodeType.File
        then wrapInt64 (st.bytesToDownload + (env.nodes currentNode).size)
        else st.bytesToDownload }

/-- `OperationGeneratorWorker::generateEditOperation`; `none` when there is no corresponding
node. -/
def generateEditOperation (env : GeneratorEnv) (st : GeneratorState) (currentNode : NodePtr)
    (correspondingNode : Option NodePtr) : Option GeneratorState :=
  match correspondingNode with
  | none => none
  | some c =>
    let pseudo := env.isPseudoConflict currentNode c
    let status1 := if pseudo then setStatus st.status c NodeStatus.Processed else st.status
    let op : SyncOperation :=
      { type := OperationType.Edit,
        affectedNode := some currentNode,
        correspondingNode := some c,
        targetSide := (env.nodes c).side,
        omit_ := pseudo }
    let status2 :=
      if (env.nodes currentNode).hasChangeEvent OperationType.Move
          ∧ status1 currentNode = NodeStatus.Unprocessed
        then setStatus status1 currentNode NodeStatus.PartiallyProcessed
        else setStatus status1 currentNode NodeStatus.Processed
    some
      { st with
        status := status2,
        syncOps := st.syncOps ++ [op],
        bytesToDownload :=
          if !op.omit_ ∧ env.vfsModeOff ∧ op.targetSide = ReplicaSide.Local
              ∧ (env.nodes currentNode).type = NodeType.File
            then wrapInt64 (st.bytesToDownload
              + wrapInt64 ((env.nodes currentNode).size - (env.nodes c).size))
            else st.bytesToDownload }

/-- `OperationGeneratorWorker::generateMoveOperation`; `none` when there is no corresponding
node. -/
def generateMoveOperation (env : GeneratorEnv) (st : GeneratorState) (currentNode : NodePtr)
    (correspondingNode : Option NodePtr) : Option GeneratorState :=
  match correspondingNode with
  | none => none
  | some c =>
    let pseudo := env.isPseudoConflict currentNode c
    let status1 := if pseudo then setStatus st.status c NodeStatus.Processed else st.status
    let renamedOnly : Bool :=
      decide ((env.nodes currentNode).side = ReplicaSide.Remote)
        && decide ((env.nodes c).validLocalName = "")
        && decide ((env.nodes currentNode).validLocalName = (env.nodes c).name)
    let targetSide := (env.nodes c).side
    let op : SyncOperation :=
      { type := OperationType.Move,
        affectedNode := some currentNode,
        correspondingNode := some c,
        targetSide := targetSide,
        omit_ := pseudo || renamedOnly,
        newName :=
          if targetSide = ReplicaSide.Local then env.finalLocalName currentNode
          else (env.nodes currentNode).name }
    let status2 :=
      if (env.nodes currentNode).hasChangeEvent OperationType.Edit
          ∧ status1 currentNode = NodeStatus.Unprocessed
        then setStatus status1 currentNode NodeStatus.PartiallyProcessed
        else setStatus status1 currentNode NodeStatus.Processed
    some { st with status := status2, syncOps := st.syncOps ++ [op] }

/-- `OperationGeneratorWorker::generateDeleteOperation`; `none` when there is no corresponding
node, when the node has no parent, when the parent or the node has no id, or when the marking
of a subtree does not return. -/
def generateDeleteOperation (env : GeneratorEnv) (markFuel : Nat) (st : GeneratorState)
    (currentNode : NodePtr) (correspondingNode : Option NodePtr) : Option GeneratorState :=
  match correspondingNode with
  | none => none
  | some c =>
    match (env.nodes currentNode).parentNode with
    | none => none
    | some parent =>
      match (env.nodes parent).id with
      | none => none
      | some parentId =>
        if parentId ∈ st.deletedNodes then some st
        else
          let omitOp : Bool := (env.nodes c).hasChangeEvent OperationType.Delete
          match findAndMarkAllChildNodes env.nodes markFuel currentNode st.status with
          | none => none
          | some status1 =>
            let status2 := setStatus status1 currentNode NodeStatus.Processed
            let op : SyncOperation :=
              { type := OperationType.Delete,
                affectedNode := some currentNode,
                correspondingNode := some c,
                targetSide := (env.nodes c).side,
                omit_ := omitOp }
            match findAndMarkAllChildNodes env.nodes markFuel c status2 with
            | none => none
            | some status3 =>
              let status4 := setStatus status3 c NodeStatus.Processed
              match (env.nodes currentNode).id with
              | none => none
              | some currentId =>
                some
                  { st with
                    status := status4,
                    syncOps := st.syncOps ++ [op],
                    restart := if omitOp then true else st.restart,
                    deletedNodes := setInsert st.deletedNodes currentId }

/-- The body of the exploration loop of `execute` for a node that is not `Processed`, from
the lookup of the corresponding node on. The exit code `DataError` stands for the `break`,
`Unknown` for the normal end of the body. -/
def visitNode (env : GeneratorEnv) (markFuel : Nat) (st : GeneratorState)
    (currentNode : NodePtr) : Option (ExitCode × GeneratorState) :=
  let n := env.nodes currentNode
  let correspondingNode := env.correspondingNodeInOtherTree currentNode
  if correspondingNode = none ∧ n.hasChangeEvent OperationType.Create = false
      ∧ (n.hasChangeEvent OperationType.Delete = true
        ∨ n.hasChangeEvent OperationType.Edit = true
        ∨ n.hasChangeEvent OperationType.Move = true) then
    some (ExitCode.DataError, st)
  else
    let st1 :=
      if n.hasChangeEvent OperationType.Create = true
          ∧ ¬ (n.side = ReplicaSide.Local ∧ n.isSharedFolder = true)
        then generateCreateOperation env st currentNode correspondingNode else st
    (if n.hasChangeEvent OperationType.Delete
      then generateDeleteOperation env markFuel st1 currentNode correspondingNode
      else some st1).bind fun st2 =>
    (if n.hasChangeEvent OperationType.Edit
      then generateEditOperation env st2 currentNode correspondingNode
      else some st2).bind fun st3 =>
    (if n.hasChangeEvent OperationType.Move
      then generateMoveOperation env st3 currentNode correspondingNode
      else some st3).bind fun st4 =>
    some (ExitCode.Unknown, st4)

/-- The `while (!_queuedToExplore.empty())` loop of `execute`. The first argument bounds the
number of passes, the second is the index of the pass; the result is the exit code at the
end of the loop, the queue left and the state. -/
def exploreLoop (env : GeneratorEnv) (markFuel : Nat) :
    Nat → Nat → List (Option NodePtr) → GeneratorState →
      Option (ExitCode × List (Option NodePtr) × GeneratorState)
  | _, _, [], st => some (ExitCode.Unknown, [], st)
  | 0, _, _ :: _, _ => none
  | fuel + 1, pass, front :: rest, st =>
    if env.stopAsked pass then some (ExitCode.Ok, front :: rest, st)
    else
      match front with
      | none => exploreLoop env markFuel fuel (pass + 1) rest st
      | some currentNode =>
        let queue := rest ++ (env.nodes currentNode).children.map some
        if st.status currentNode = NodeStatus.Processed then
          exploreLoop env markFuel fuel (pass + 1) queue st
        else
          match visitNode env markFuel st currentNode with
          | none => none
          | some (ExitCode.DataError, st1) => some (ExitCode.DataError, queue, st1)
          | some (_, st1) => exploreLoop env markFuel fuel (pass + 1) queue st1

/-- Outcome of `OperationGeneratorWorker::execute`: the exit code given to `setDone`, the
state, and what is left in the member `_queuedToExplore`. -/
structure GeneratorResult where
  exitCode : ExitCode
  state : GeneratorState
  queued : List (Option NodePtr)

/-- The state in which the exploration loop of `execute` starts: operation list, byte count
and deleted ids cleared, every node `Unprocessed` (`markAllNodesUnprocessed`). -/
def initialGeneratorState (st : GeneratorState) : GeneratorState :=
  { st with
    status := fun _ => NodeStatus.Unprocessed,
    syncOps := [],
    deletedNodes := [],
    bytesToDownload := 0 }

/-- `OperationGeneratorWorker::execute`. `queued` is the content of the member
`_queuedToExplore` when `execute` starts (`execute` does not clear it; it is empty after a run
whose loop ended normally); the two root nodes are pushed behind it. -/
def generatorExecute (env : GeneratorEnv) (markFuel fuel : Nat)
    (queued : List (Option NodePtr)) (st : GeneratorState) : Option GeneratorResult :=
  match exploreLoop env markFuel fuel 0
      (queued ++ [env.rootNode ReplicaSide.Local, env.rootNode ReplicaSide.Remote])
      (initialGeneratorState st) with
  | none => none
  | some (loopCode, queue, st1) =>
    let exitCode1 :=
      if loopCode = ExitCode.Unknown ∧ queue = [] then ExitCode.Ok else loopCode
    if 0 < st1.bytesToDownload ∧ 0 ≤ env.freeDiskSpace
        ∧ env.freeDiskSpace < wrapInt64 (st1.bytesToDownload + env.freeDiskSpaceLimit) then
      some { exitCode := ExitCode.SystemError,
             state := { st1 with exitCause := ExitCause.NotEnoughDiskSpace },
             queued := queue }
    else some { exitCode := exitCode1, state := st1, queued := queue }

/-- The node behind an optional pointer is a file. -/
def isFile? (env : GeneratorEnv) (p : Option NodePtr) : Bool :=
  match p with
  | some a => decide ((env.nodes a).type = NodeType.File)
  | none => false

/-- Size of the node behind an optional pointer. -/
def sizeOf? (env : GeneratorEnv) (p : Option NodePtr) : Int :=
  match p with
  | some a => (env.nodes a).size
  | none => 0

/-- The bytes that `generateCreateOperation` and `generateEditOperation` add to
`_bytesToDownload` for the operation they push, as an exact integer (the code wraps the
sum). -/
def opBytes (env : GeneratorEnv) (op : SyncOperation) : Int :=
  if op.omit_ = false ∧ env.vfsModeOff = true ∧ op.targetSide = ReplicaSide.Local then
    match op.type, op.affectedNode with
    | OperationType.Create, some a =>
      if (env.nodes a).type = NodeType.File then (env.nodes a).size else 0
    | OperationType.Edit, some a =>
      if (env.nodes a).type = NodeType.File
        then (env.nodes a).size - sizeOf? env op.correspondingNode else 0
    | _, _ => 0
  else 0

/-- The byte budget in the words of the specification: with virtual files off, the sum of the
sizes of the files of the non-omitted Create operations targeting the local side plus the sum
of (node size - corresponding node size) over the non-omitted Edit operations targeting the
local side; zero with virtual files on. -/
def byteBudget (env : GeneratorEnv) (ops : List SyncOperation) : Int :=
  if env.vfsModeOff then
    ((ops.filter (fun op =>
        decide (op.type = OperationType.Create) && !op.omit_
          && decide (op.targetSide = ReplicaSide.Local)
          && isFile? env op.affectedNode)).map
      (fun op => sizeOf? env op.affectedNode)).sum
    + ((ops.filter (fun op =>
        decide (op.type = OperationType.Edit) && !op.omit_
          && decide (op.targetSide = ReplicaSide.Local))).map
      (fun op => sizeOf? env op.affectedNode - sizeOf? env op.correspondingNode)).sum
  else 0

/-- The operation marks the node `Processed` without being an operation of that node: it is
a Delete and the node lies below its affected node, or is its corresponding node or lies below
it; or it is an operation of a pseudo-conflict whose corresponding node is the node. -/
def MarkedBy (env : GeneratorEnv) (q : NodePtr) (op : SyncOperation) : Prop :=
  (op.type = OperationType.Delete ∧
    ∃ N c, op.affectedNode = some N ∧ op.correspondingNode = some c ∧
      (TreeDescendant env.nodes N q ∨ q = c ∨ TreeDescendant env.nodes c q)) ∨
  (op.type ≠ OperationType.Delete ∧ op.correspondingNode = some q ∧
    ∃ m, op.affectedNode = some m ∧ env.isPseudoConflict m q = true)

/-- The generator state `st1` arises from `st` by pushing the operations `block` for the node
`n`. -/
structure Emits (env : GeneratorEnv) (n : NodePtr) (st st1 : GeneratorState)
    (block : List SyncOperation) : Prop where
  ops : st1.syncOps = st.syncOps ++ block
  affected : ∀ op ∈ block, op.affectedNode = some n ∧
    (env.nodes n).hasChangeEvent op.type = true
  mono : ∀ q, st.status q = NodeStatus.Processed → st1.status q = NodeStatus.Processed
  started : ∀ q, st.status q ≠ NodeStatus.Unprocessed → st1.status q ≠ NodeStatus.Unprocessed
  marked : ∀ q, st1.status q = NodeStatus.Processed →
    st.status q = NodeStatus.Processed ∨ q = n ∨ ∃ op ∈ block, MarkedBy env q op
  bytes : ∀ total, st.bytesToDownload = wrapInt64 total →
    st1.bytesToDownload = wrapInt64 (total + (block.map (opBytes env)).sum)
  deletedMono : ∀ i ∈ st.deletedNodes, i ∈ st1.deletedNodes
  deletedNew : ∀ i ∈ st1.deletedNodes, i ∈ st.deletedNodes ∨
    ((env.nodes n).id = some i ∧ ∃ op ∈ block, op.type = OperationType.Delete)
  deletes : ∀ op ∈ block, op.type = OperationType.Delete →
    ∃ c i, op.correspondingNode = some c ∧ st1.status c = NodeStatus.Processed ∧
      (env.nodes n).id = some i ∧ i ∈ st1.deletedNodes ∧
      (OnlyDirectoriesHaveChildren env.nodes →
        ∀ d, TreeDescendant env.nodes n d ∨ TreeDescendant env.nodes c d →
          st1.status d = NodeStatus.Processed)
  pseudo : ∀ op ∈ block, op.type ≠ OperationType.Delete →
    ∀ c, env.correspondingNodeInOtherTree n = some c → env.isPseudoConflict n c = true →
      op.omit_ = true ∧ op.correspondingNode = some c ∧ st1.status c = NodeStatus.Processed

/-- Bound on the number of passes of the exploration loop over a queue: one pass for a null
pointer, `weight` passes for a node and the nodes below it. -/
def queueWeight (weight : NodePtr → Nat) : List (Option NodePtr) → Nat
  | [] => 0
  | none :: rest => 1 + queueWeight weight rest
  | some p :: rest => weight p + queueWeight weight rest

/-- The update trees are well formed for the generator: the trees are finite (`weight`
exceeds the sum of the weights of the children, and is below the depth bound of the model), a
created node that carries another event has a corresponding node, and a deleted node has an
id and a parent with an id. -/
structure WellFormedTrees (env : GeneratorEnv) (weight : NodePtr → Nat) (markFuel : Nat) :
    Prop where
  finite : ∀ p, ((env.nodes p).children.map weight).sum < weight p
  depth : ∀ p, weight p < markFuel
  created : ∀ n, (env.nodes n).hasChangeEvent OperationType.Create = true →
    ((env.nodes n).hasChangeEvent OperationType.Delete = true
      ∨ (env.nodes n).hasChangeEvent OperationType.Edit = true
      ∨ (env.nodes n).hasChangeEvent OperationType.Move = true) →
    ∃ c, env.correspondingNodeInOtherTree n = some c
  deleted : ∀ n, (env.nodes n).hasChangeEvent OperationType.Delete = true →
    ∃ p pid i, (env.nodes n).parentNode = some p ∧ (env.nodes p).id = some pid ∧
      (env.nodes n).id = some i

/-- Every change event of the node is accounted for in the state: an operation of that type
with the node as affected node is in the list, or the event is the Create of a shared folder
of the local side, or it is a Delete and the id of the node's parent is among the deleted
ids. -/
def Handled (env : GeneratorEnv) (st : GeneratorState) (n : NodePtr) : Prop :=
  ∀ t, (env.nodes n).hasChangeEvent t = true →
    t = OperationType.Create ∨ t = OperationType.Delete ∨ t = OperationType.Edit
      ∨ t = OperationType.Move →
    (∃ op ∈ st.syncOps, op.type = t ∧ op.affectedNode = some n) ∨
    (t = OperationType.Create ∧ (env.nodes n).side = ReplicaSide.Local ∧
      (env.nodes n).isSharedFolder = true) ∨
    (t = OperationType.Delete ∧ ∃ p pid, (env.nodes n).parentNode = some p ∧
      (env.nodes p).id = some pid ∧ pid ∈ st.deletedNodes)

/-- What holds of the generator state between two passes of the exploration loop. -/
structure GenInv (env : GeneratorEnv) (st : GeneratorState) : Prop where
  bytes : st.bytesToDownload = wrapInt64 ((st.syncOps.map (opBytes env)).sum)
  affected : ∀ op ∈ st.syncOps, ∃ n, op.affectedNode = some n ∧
    (env.nodes n).hasChangeEvent op.type = true
  done : ∀ op ∈ st.syncOps, ∀ n, op.affectedNode = some n → st.status n = NodeStatus.Processed
  blocks : ∀ n, ∃ pre block post, st.syncOps = pre ++ block ++ post ∧
    (∀ op ∈ pre, op.affectedNode ≠ some n) ∧ (∀ op ∈ post, op.affectedNode ≠ some n) ∧
    (∀ op ∈ block, op.affectedNode = some n) ∧
    (block.map (fun op => op.type)).Sublist
      [OperationType.Create, OperationType.Delete, OperationType.Edit, OperationType.Move]
  deletes : ∀ pre op post, st.syncOps = pre ++ op :: post → op.type = OperationType.Delete →
    ∃ N c, op.affectedNode = some N ∧ op.correspondingNode = some c ∧
      st.status c = NodeStatus.Processed ∧
      (OnlyDirectoriesHaveChildren env.nodes →
        (∀ d, TreeDescendant env.nodes N d ∨ TreeDescendant env.nodes c d →
          st.status d = NodeStatus.Processed) ∧
        (∀ o ∈ post, ∀ d, o.affectedNode = some d → TreeDescendant env.nodes N d → d = N))
  pseudo : ∀ pre op post, st.syncOps = pre ++ op :: post → op.type ≠ OperationType.Delete →
    ∀ X c, op.affectedNode = some X → env.correspondingNodeInOtherTree X = some c →
      env.isPseudoConflict X c = true →
      op.omit_ = true ∧ op.correspondingNode = some c ∧ st.status c = NodeStatus.Processed ∧
        (c ≠ X → ∀ o ∈ post, o.affectedNode ≠ some c)
  marked : ∀ n, st.status n = NodeStatus.Processed →
    Handled env st n ∨ ∃ op ∈ st.syncOps, MarkedBy env n op
  deletedIds : ∀ i ∈ st.deletedNodes, ∃ op ∈ st.syncOps, op.type = OperationType.Delete ∧
    ∃ N, op.affectedNode = some N ∧ (env.nodes N).id = some i

/-- The change events of the node are accounted for, or an operation of the list has marked
the node `Processed`. -/
def Covered (env : GeneratorEnv) (st : GeneratorState) (n : NodePtr) : Prop :=
  Handled env st n ∨ ∃ op ∈ st.syncOps, MarkedBy env n op

/-- The node is queued for exploration, or lies below a queued node. -/
def Pending (env : GeneratorEnv) (queue : List (Option NodePtr)) (n : NodePtr) : Prop :=
  ∃ m, some m ∈ queue ∧ (n = m ∨ TreeDescendant env.nodes m n)

/-- The operation list accounts for the change event `t` of the node `n` in the words of the
specification: the list has an operation of that type with the node as affected node, or the
node lies below a node for which a Delete was emitted, or the event is the mirror half of a
pseudo-conflict whose operation was emitted from the corresponding node, or the node is a
shared folder created on the local side. -/
def SpecAccountsFor (env : GeneratorEnv) (ops : List SyncOperation) (n : NodePtr)
    (t : OperationType) : Prop :=
  (∃ op ∈ ops, op.type = t ∧ op.affectedNode = some n) ∨
  (∃ op ∈ ops, op.type = OperationType.Delete ∧
    ∃ N, op.affectedNode = some N ∧ TreeDescendant env.nodes N n) ∨
  (∃ op ∈ ops, op.type = t ∧ op.correspondingNode = some n ∧
    ∃ m, op.affectedNode = some m ∧ env.isPseudoConflict m n = true) ∨
  (t = OperationType.Create ∧ (env.nodes n).side = ReplicaSide.Local ∧
    (env.nodes n).isSharedFolder = true)

/-- A point of the walk of `OperationGeneratorWorker::execute`: the index of the next pass of
the exploration loop, the queue `_queuedToExplore` and the generator state. -/
structure LoopConfig where
  pass : Nat
  queue : List (Option NodePtr)
  state : GeneratorState

/-- One pass of the exploration loop that goes on to the next pass; `none` when the loop ends
in this pass (empty queue, stop request, `break` on a data error) or the pass does not
return. -/
def loopPass (env : GeneratorEnv) (markFuel : Nat) (c : LoopConfig) : Option LoopConfig :=
  match c.queue with
  | [] => none
  | front :: rest =>
    if env.stopAsked c.pass then none
    else
      match front with
      | none => some { pass := c.pass + 1, queue := rest, state := c.state }
      | some currentNode =>
        let queue := rest ++ (env.nodes currentNode).children.map some
        if c.state.status currentNode = NodeStatus.Processed then
          some { pass := c.pass + 1, queue := queue, state := c.state }
        else
          match visitNode env markFuel c.state currentNode with
          | none => none
          | some (ExitCode.DataError, _) => none
          | some (_, st1) => some { pass := c.pass + 1, queue := queue, state := st1 }

/-- The walk after the given number of passes, when none of them ends the loop. -/
def loopPrefix (env : GeneratorEnv) (markFuel : Nat) : Nat → LoopConfig → Option LoopConfig
  | 0, c => some c
  | k + 1, c => (loopPass env markFuel c).bind (loopPrefix env markFuel k)

/-- The point at which the walk of `execute` starts. -/
def startConfig (env : GeneratorEnv) (queued : List (Option NodePtr)) (st : GeneratorState) :
    LoopConfig :=
  { pass := 0,
    queue := queued ++ [env.rootNode ReplicaSide.Local, env.rootNode ReplicaSide.Remote],
    state := initialGeneratorState st }

/-- No two nodes of the update trees have the same id. -/
def UniqueIds (env : GeneratorEnv) : Prop :=
  ∀ a b i, (env.nodes a).id = some i → (env.nodes b).id = some i → a = b

/-- Every node is among the children of its parent. -/
def ChildrenOfParents (env : GeneratorEnv) : Prop :=
  ∀ n p, (env.nodes n).parentNode = some p → n ∈ (env.nodes p).children

/-! ## A sample run of the operation generator

Local tree (root `0`): the directory `A` (`1`) with the file `g.txt` (`5`) was deleted, the
file `m.txt` (`2`) was moved, the file `e.txt` (`3`) was edited and moved, the file `n.txt`
(`4`) was created; the directory `P` (`6`) with the file `h.txt` (`7`) is unchanged. Remote
tree (root `10`): `A` (`11`) is unchanged but its file `g.txt` (`15`) was edited, `m.txt`
(`12`) was moved in the same way as on the local side and edited, `e.txt` (`13`) is unchanged,
`f.txt` (`14`) was created, and in the directory `P` (`16`), whose remote id happens to equal
the local id of `A`, the file `h.txt` (`17`) was deleted. -/

def genNodes : NodePtr → Node
  | 0 => { side := ReplicaSide.Local, type := NodeType.Directory, id := some "1",
           children := [1, 2, 3, 4, 6] }
  | 1 => { side := ReplicaSide.Local, type := NodeType.Directory, id := some "42", name := "A",
           changeEvents := [OperationType.Delete], parentNode := some 0, children := [5] }
  | 2 => { side := ReplicaSide.Local, type := NodeType.File, id := some "44", name := "m.txt",
           changeEvents := [OperationType.Move], parentNode := some 0 }
  | 3 => { side := ReplicaSide.Local, type := NodeType.File, id := some "45", name := "e.txt",
           changeEvents := [OperationType.Edit, OperationType.Move], parentNode := some 0,
           size := 7 }
  | 4 => { side := ReplicaSide.Local, type := NodeType.File, id := some "46", name := "n.txt",
           changeEvents := [OperationType.Create], parentNode := some 0, size := 4 }
  | 5 => { side := ReplicaSide.Local, type := NodeType.File, id := some "43", name := "g.txt",
           parentNode := some 1 }
  | 6 => { side := ReplicaSide.Local, type := NodeType.Directory, id := some "47", name := "P",
           parentNode := some 0, children := [7] }
  | 7 => { side := ReplicaSide.Local, type := NodeType.File, id := some "48", name := "h.txt",
           parentNode := some 6 }
  | 10 => { side := ReplicaSide.Remote, type := NodeType.Directory, id := some "101",
            children := [11, 12, 13, 14, 16] }
  | 11 => { side := ReplicaSide.Remote, type := NodeType.Directory, id := some "102",
            name := "A", parentNode := some 10, children := [15] }
  | 12 => { side := ReplicaSide.Remote, type := NodeType.File, id := some "104",
            name := "m.txt", changeEvents := [OperationType.Move, OperationType.Edit],
            parentNode := some 10 }
  | 13 => { side := ReplicaSide.Remote, type := NodeType.File, id := some "105",
            name := "e.txt", parentNode := some 10, size := 5 }
  | 14 => { side := ReplicaSide.Remote, type := NodeType.File, id := some "106",
            name := "f.txt", changeEvents := [OperationType.Create], parentNode := some 10,
            size := 10 }
  | 15 => { side := ReplicaSide.Remote, type := NodeType.File, id := some "103",
            name := "g.txt", changeEvents := [OperationType.Edit], parentNode := some 11,
            size := 3 }
  | 16 => { side := ReplicaSide.Remote, type := NodeType.Directory, id := some "42",
            name := "P", parentNode := some 10, children := [17] }
  | 17 => { side := ReplicaSide.Remote, type := NodeType.File, id := some "108",
            name := "h.txt", changeEvents := [OperationType.Delete], parentNode := some 16 }
  | _ => {}

/-- The node of the other sample tree that stands for the same item; the created files have
none. -/
def genCorresponding (p : NodePtr) : Option NodePtr :=
  if p = 4 ∨ p = 14 then none
  else if p < 8 then some (p + 10)
  else if 10 ≤ p ∧ p < 18 then some (p - 10)
  else none

/-- The sample synchronisation: virtual files off, no stop request, `free` bytes of free disk
space and a floor of 100 bytes; only the two moves of `m.txt` are a pseudo-conflict. -/
def genEnv (free : Int) : GeneratorEnv :=
  { nodes := genNodes,
    rootNode := fun side =>
      match side with
      | ReplicaSide.Local => some 0
      | ReplicaSide.Remote => some 10
      | ReplicaSide.Unknown => none,
    correspondingNodeInOtherTree := genCorresponding,
    isPseudoConflict := fun a b => decide ((a = 2 ∧ b = 12) ∨ (a = 12 ∧ b = 2)),
    finalLocalName := fun p => (genNodes p).name,
    vfsModeOff := true,
    freeDiskSpace := free,
    freeDiskSpaceLimit := 100,
    stopAsked := fun _ => false }

/-- Number of nodes of the subtree of a sample node, plus one for a root. -/
def genWeight (p : NodePtr) : Nat :=
  if p = 0 ∨ p = 10 then 8
  else if p = 1 ∨ p = 6 ∨ p = 11 ∨ p = 16 then 2
  else 1

/-- The generator state before the sample run. -/
def genState : GeneratorState :=
  { status := fun _ => NodeStatus.Processed,
    syncOps := [],
    deletedNodes := ["7"],
    bytesToDownload := 3,
    restart := false,
    exitCause := ExitCause.Unknown }

/-- The operations of the sample run. -/
def genOps : List SyncOperation :=
  [{ type := OperationType.Delete, affectedNode := some 1, correspondingNode := some 11,
     targetSide := ReplicaSide.Remote },
   { type := OperationType.Move, affectedNode := some 2, correspondingNode := some 12,
     targetSide := ReplicaSide.Remote, omit_ := true, newName := "m.txt" },
   { type := OperationType.Edit, affectedNode := some 3, correspondingNode := some 13,
     targetSide := ReplicaSide.Remote },
   { type := OperationType.Move, affectedNode := some 3, correspondingNode := some 13,
     targetSide := ReplicaSide.Remote, newName := "e.txt" },
   { type := OperationType.Create, affectedNode := some 4, targetSide := ReplicaSide.Remote,
     newName := "n.txt" },
   { type := OperationType.Create, affectedNode := some 14, targetSide := ReplicaSide.Local,
     newName := "f.txt" }]

/-- The sample nodes, except that the remote directory `P` (`16`) has the id `107`: no two
nodes have the same id. -/
def genNodesDistinct (p : NodePtr) : Node :=
  { genNodes p with id := if p = 16 then some "107" else (genNodes p).id }

/-- The sample synchronisation on the nodes with distinct ids. -/
def genEnvDistinct (free : Int) : GeneratorEnv :=
  { genEnv free with nodes := genNodesDistinct }

/-- The node that has a given id in `genNodesDistinct`. -/
def genIdOwner : NodeId → NodePtr
  | "1" => 0
  | "42" => 1
  | "44" => 2
  | "45" => 3
  | "46" => 4
  | "43" => 5
  | "47" => 6
  | "48" => 7
  | "101" => 10
  | "102" => 11
  | "104" => 12
  | "105" => 13
  | "106" => 14
  | "103" => 15
  | "107" => 16
  | _ => 17

/-- The operations of the sample run on the nodes with distinct ids: those of `genOps` and
the Delete of the remote `h.txt`. -/
def genOpsDistinct : List SyncOperation :=
  genOps ++
    [{ type := OperationType.Delete, affectedNode := some 17, correspondingNode := some 7,
       targetSide := ReplicaSide.Local }]

/-- The sample synchronisation, except that the local `g.txt` (`5`), which lies in the deleted
directory `A`, was edited in the same way as the remote `g.txt` (`15`): the two edits are a
pseudo-conflict. -/
def genEnvPseudo (free : Int) : GeneratorEnv :=
  { genEnv free with
    nodes := fun p =>
      if p = 5 then { genNodes 5 with changeEvents := [OperationType.Edit] } else genNodes p,
    isPseudoConflict := fun a b =>
      decide ((a = 2 ∧ b = 12) ∨ (a = 12 ∧ b = 2) ∨ (a = 5 ∧ b = 15) ∨ (a = 15 ∧ b = 5)) }

/-- The sample synchronisation, except that the local `e.txt` (`3`), which was edited and
moved, was deleted as well. -/
def genEnvDeleted (free : Int) : GeneratorEnv :=
  { genEnv free with
    nodes := fun p =>
      if p = 3 then
        { genNodes 3 with
          changeEvents := [OperationType.Delete, OperationType.Edit, OperationType.Move] }
      else genNodes p }

/-! ## AbstractNetworkJob

Shallow embedding of `AbstractNetworkJob::isManagedError`, `runJob`, `receiveResponse` and
`processSocketError` (`src/libsyncengine/jobs/network/abstractnetworkjob.cpp`). What the HTTP
session, the virtual handlers of the concrete job and the abort flag do during one pass of the
request loop is given by an `Attempt`; the session pointer itself is not modelled. -/

/-- `#define MAX_TRIALS 5` -/
def MAX_TRIALS : Int := 5

/-- `AbstractNetworkJob::isManagedError` -/
def isManagedError (exitCode : ExitCode) (exitCause : ExitCause) : Bool :=
  match exitCode with
  | ExitCode.BackError =>
    decide (exitCause ∈ [ExitCause.InvalidName, ExitCause.ApiErr, ExitCause.FileTooBig,
      ExitCause.NotFound, ExitCause.QuotaExceeded, ExitCause.FileAlreadyExist])
  | ExitCode.NetworkError => decide (exitCause = ExitCause.NetworkTimeout)
  | _ => false

/-- The HTTP statuses `receiveResponse` distinguishes. -/
inductive HttpStatus where
  | HTTP_OK | HTTP_FOUND | HTTP_TOO_MANY_REQUESTS | HTTP_NOT_FOUND | HTTP_OTHER
  deriving DecidableEq, Repr

/-- How a call of a virtual or library function ends: it returns true, returns false, or
throws. -/
inductive CallOutcome where
  | returnedTrue | returnedFalse | threw
  deriving DecidableEq, Repr

/-- Effect of a call that may set `_exitCode` and `_exitCause`: how it ends and the values of
the two members when it ends. -/
structure CallResult where
  outcome : CallOutcome
  exitCode : ExitCode
  exitCause : ExitCause
  deriving DecidableEq, Repr

/-- The members of `AbstractNetworkJob` read and written by `runJob`. -/
structure NetworkJob where
  exitCode : ExitCode := ExitCode.Unknown
  exitCause : ExitCause := ExitCause.Unknown
  /-- the member `_trials` -/
  trials : Int := 1
  deriving DecidableEq, Repr

/-- What happens around the job during one pass of the request loop. The handlers get the
current `_exitCode` and `_exitCause`. -/
structure Attempt where
  /-- `canRun()`; `threw` is a `Poco::Exception` -/
  canRun : ExitCode → ExitCause → CallResult
  /-- `canceled` after `setData` -/
  setDataCanceled : Bool
  /-- `canceled` after `setQueryParameters` -/
  setQueryParametersCanceled : Bool
  /-- `sendRequest(uri)` -/
  sendRequest : ExitCode → ExitCause → CallResult
  /-- `isAborted()` after a failed `sendRequest` -/
  abortedAfterSend : Bool
  /-- `_session->receiveResponse` throws or leaves a failed stream -/
  receiveSocketError : Bool
  /-- `isAborted()` in `processSocketError` -/
  abortedInSocketError : Bool
  /-- the socket error is `EBADF` -/
  socketErrorIsEBADF : Bool
  /-- `isAborted()` in `receiveResponse` once the response has arrived -/
  abortedOnResponse : Bool
  /-- `_resHttp.getStatus()` -/
  status : HttpStatus
  /-- `handleResponse(stream)` -/
  handleResponse : ExitCode → ExitCause → CallResult
  /-- `isAborted()` in the redirection case -/
  abortedOnRedirect : Bool
  /-- `followRedirect(stream)`, the redirected exchange taken as a whole -/
  followRedirect : ExitCode → ExitCause → CallResult
  /-- `isAborted()` in the error case -/
  abortedOnError : Bool
  /-- `handleError(stream, uri)` -/
  handleError : ExitCode → ExitCause → CallResult
  /-- `isAborted()` after a failed `receiveResponse` -/
  abortedAfterReceive : Bool
  /-- `_timeoutHelper.isTimeoutDetected()` after the duration was added -/
  timeoutDetected : Bool

/-- `AbstractNetworkJob::processSocketError(msg, jobId, err, errMsg)`: the returned boolean and
the job. -/
def processSocketError (a : Attempt) (job : NetworkJob) : Bool × NetworkJob :=
  if a.abortedInSocketError then (true, { job with exitCode := ExitCode.Ok })
  else
    (false,
      { job with
        exitCause :=
          if a.socketErrorIsEBADF then ExitCause.SocketsDefuncted else ExitCause.Unknown })

/-- `AbstractNetworkJob::receiveResponse`: `none` when an exception leaves the function, else
the returned boolean; and the job. -/
def receiveResponse (a : Attempt) (job : NetworkJob) : Option Bool × NetworkJob :=
  if a.receiveSocketError then
    let r := processSocketError a job
    (some r.1, r.2)
  else if a.abortedOnResponse then (some true, job)
  else
    let errorCase (job : NetworkJob) : Option Bool × NetworkJob :=
      if !a.abortedOnError then
        let h := a.handleError job.exitCode job.exitCause
        let job1 : NetworkJob := { job with exitCode := h.exitCode, exitCause := h.exitCause }
        match h.outcome with
        | CallOutcome.threw => (some false, job1)
        | CallOutcome.returnedFalse => (some false, job1)
        | CallOutcome.returnedTrue => (some true, job1)
      else (some true, job)
    match a.status with
    | HttpStatus.HTTP_OK =>
      let h := a.handleResponse job.exitCode job.exitCause
      let job1 : NetworkJob := { job with exitCode := h.exitCode, exitCause := h.exitCause }
      match h.outcome with
      | CallOutcome.threw => (some false, job1)
      | CallOutcome.returnedFalse => (some false, job1)
      | CallOutcome.returnedTrue => (some true, job1)
    | HttpStatus.HTTP_FOUND =>
      if !a.abortedOnRedirect then
        let h := a.followRedirect job.exitCode job.exitCause
        let job1 : NetworkJob := { job with exitCode := h.exitCode, exitCause := h.exitCause }
        match h.outcome with
        | CallOutcome.threw => (none, job1)
        | CallOutcome.returnedFalse => (some false, job1)
        | CallOutcome.returnedTrue => (some true, job1)
      else (some true, job)
    | HttpStatus.HTTP_TOO_MANY_REQUESTS =>
      errorCase { job with exitCode := ExitCode.RateLimited }
    | HttpStatus.HTTP_NOT_FOUND => errorCase job
    | HttpStatus.HTTP_OTHER => errorCase job

/-- How one pass of the body of the request loop ends. -/
inductive LoopExit where
  | continue_ | break_ | return_
  deriving DecidableEq, Repr

/-- The job after `sendRequest` in `runJob`: an exception sets `NetworkError`. -/
def afterSendRequest (snd : CallResult) (job : NetworkJob) : NetworkJob :=
  match snd.outcome with
  | CallOutcome.threw =>
    { job with exitCode := ExitCode.NetworkError, exitCause := snd.exitCause }
  | _ => { job with exitCode := snd.exitCode, exitCause := snd.exitCause }

/-- The branch `if (!ret)` of `runJob` after `sendRequest`. -/
def onSendFailure (a : Attempt) (trials : Int) (job : NetworkJob) : LoopExit × NetworkJob :=
  if a.abortedAfterSend then (LoopExit.break_, { job with exitCode := ExitCode.Ok })
  else if job.exitCode = ExitCode.NetworkError ∧ job.exitCause = ExitCause.SocketsDefuncted then
    (LoopExit.break_, job)
  else if trials < job.trials then (LoopExit.continue_, job)
  else (LoopExit.break_, job)

/-- The branch `if (!ret)` of `runJob` after `receiveResponse`. -/
def onReceiveFailure (a : Attempt) (trials : Int) (job : NetworkJob) : LoopExit × NetworkJob :=
  if a.abortedAfterReceive then (LoopExit.break_, { job with exitCode := ExitCode.Ok })
  else
    let job1 : NetworkJob :=
      if job.exitCode = ExitCode.NetworkError ∧ a.timeoutDetected
        then { job with exitCause := ExitCause.NetworkTimeout } else job
    if trials < job1.trials then (LoopExit.continue_, job1)
    else (LoopExit.break_, job1)

/-- The end of the loop body of `runJob`, once the response has been received. -/
def onReceiveSuccess (job : NetworkJob) : LoopExit × NetworkJob :=
  if job.exitCode = ExitCode.TokenRefreshed ∨ job.exitCode = ExitCode.RateLimited then
    (LoopExit.continue_, { job with exitCode := ExitCode.Ok, trials := job.trials + 1 })
  else if isManagedError job.exitCode job.exitCause then (LoopExit.break_, job)
  else (LoopExit.break_, { job with exitCode := ExitCode.Ok })

/-- The body of the `for` loop of `AbstractNetworkJob::runJob` for the loop counter
`trials`. -/
def requestLoopBody (a : Attempt) (trials : Int) (job : NetworkJob) : LoopExit × NetworkJob :=
  let c := a.canRun job.exitCode job.exitCause
  let job0 : NetworkJob := { job with exitCode := c.exitCode, exitCause := c.exitCause }
  match c.outcome with
  | CallOutcome.returnedFalse => (LoopExit.return_, job0)
  | CallOutcome.threw => (LoopExit.break_, { job0 with exitCode := ExitCode.NetworkError })
  | CallOutcome.returnedTrue =>
    if a.setDataCanceled then (LoopExit.break_, { job0 with exitCode := ExitCode.DataError })
    else if a.setQueryParametersCanceled then
      (LoopExit.break_, { job0 with exitCode := ExitCode.DataError })
    else
      let snd := a.sendRequest job0.exitCode job0.exitCause
      let job1 := afterSendRequest snd job0
      if snd.outcome ≠ CallOutcome.returnedTrue then onSendFailure a trials job1
      else
        match receiveResponse a job1 with
        | (none, job2) => onReceiveFailure a trials { job2 with exitCode := ExitCode.NetworkError }
        | (some false, job2) => onReceiveFailure a trials job2
        | (some true, job2) => onReceiveSuccess job2

/-- The `for (int trials = 1; trials <= std::min(_trials, MAX_TRIALS); trials++)` loop of
`runJob`, from the loop counter `trials` on; the first argument bounds the number of tests of
the loop condition. The result is the job and the number of passes through the body. -/
def requestLoop (attempts : Nat → Attempt) :
    Nat → Nat → NetworkJob → Nat → Option (NetworkJob × Nat)
  | 0, _, _, _ => none
  | fuel + 1, trials, job, passes =>
    if (trials : Int) ≤ min job.trials MAX_TRIALS then
      match requestLoopBody (attempts trials) trials job with
      | (LoopExit.continue_, job1) => requestLoop attempts fuel (trials + 1) job1 (passes + 1)
      | (LoopExit.break_, job1) => some (job1, passes + 1)
      | (LoopExit.return_, job1) => some (job1, passes + 1)
    else some (job, passes)

/-- `AbstractNetworkJob::runJob`: the job it leaves and the number of passes through the
request loop; `attempts n` describes the pass with loop counter `n`, `urlSet` tells whether
`getUrl()` is non-empty. -/
def runJob (attempts : Nat → Attempt) (urlSet : Bool) (job : NetworkJob) :
    Option (NetworkJob × Nat) :=
  if !urlSet then some (job, 0)
  else requestLoop attempts 6 1 job 0

/-- A pass that is answered with HTTP 429 and whose `handleError` returns true without
touching the exit code. -/
def rateLimitedAttempt : Attempt :=
  { canRun := fun c k => { outcome := CallOutcome.returnedTrue, exitCode := c, exitCause := k },
    setDataCanceled := false,
    setQueryParametersCanceled := false,
    sendRequest := fun c k =>
      { outcome := CallOutcome.returnedTrue, exitCode := c, exitCause := k },
    abortedAfterSend := false,
    receiveSocketError := false,
    abortedInSocketError := false,
    socketErrorIsEBADF := false,
    abortedOnResponse := false,
    status := HttpStatus.HTTP_TOO_MANY_REQUESTS,
    handleResponse := fun c k =>
      { outcome := CallOutcome.returnedTrue, exitCode := c, exitCause := k },
    abortedOnRedirect := false,
    followRedirect := fun c k =>
      { outcome := CallOutcome.returnedTrue, exitCode := c, exitCause := k },
    abortedOnError := false,
    handleError := fun c k =>
      { outcome := CallOutcome.returnedTrue, exitCode := c, exitCause := k },
    abortedAfterReceive := false,
    timeoutDetected := false }

/-- The pass reaches `sendRequest`: `canRun` returns true and neither `setData` nor
`setQueryParameters` cancels. -/
def reachesSend (a : Attempt) (job : NetworkJob) : Bool :=
  decide ((a.canRun job.exitCode job.exitCause).outcome = CallOutcome.returnedTrue)
    && !a.setDataCanceled && !a.setQueryParametersCanceled

/-- The job when `sendRequest` has been called in a pass that reaches it. -/
def jobAfterSend (a : Attempt) (job : NetworkJob) : NetworkJob :=
  let c := a.canRun job.exitCode job.exitCause
  afterSendRequest (a.sendRequest c.exitCode c.exitCause)
    { job with exitCode := c.exitCode, exitCause := c.exitCause }

/-- Sending the request fails: `sendRequest` returns false or throws (`ret` is false). -/
def sendFails (a : Attempt) (job : NetworkJob) : Bool :=
  let c := a.canRun job.exitCode job.exitCause
  decide ((a.sendRequest c.exitCode c.exitCause).outcome ≠ CallOutcome.returnedTrue)

/-- Receiving the response fails: `receiveResponse` returns false or throws (`ret` is
false). -/
def receiveFails (a : Attempt) (job : NetworkJob) : Bool :=
  decide ((receiveResponse a (jobAfterSend a job)).1 ≠ some true)

/-- A pass whose `sendRequest` sets `NetworkError` and returns false while the job is
aborted. -/
def abortedSendAttempt : Attempt :=
  { rateLimitedAttempt with
    sendRequest := fun _ _ =>
      { outcome := CallOutcome.returnedFalse, exitCode := ExitCode.NetworkError,
        exitCause := ExitCause.Unknown },
    abortedAfterSend := true }

/-! ## TimeoutHelper

Shallow embedding of `AbstractNetworkJob::TimeoutHelper::add`, `clearAllEvents` and
`deleteOldestEvents` (`src/libsyncengine/jobs/network/abstractnetworkjob.cpp`). The class
declaration is not part of the sources: the constants `PRECISION` and `PERIOD` are parameters,
`SyncTime` is taken as a signed 64-bit integer, so that the difference of two clock values is
exact. The rounding `lround(duration.count() / PRECISION) * PRECISION` is floating point
arithmetic: `add` is modelled on the rounded duration. The clock value
`static_cast<unsigned int>(time(NULL))` is an argument. The mutex is not modelled: the calls
are taken one after the other. -/

/-- The members `_maxDuration` and `_eventsQueue` (front first) of `TimeoutHelper`. -/
structure TimeoutHelper where
  maxDuration : Nat
  eventsQueue : List Nat
  deriving DecidableEq, Repr

/-- `TimeoutHelper::clearAllEvents` -/
def TimeoutHelper.clearAllEvents (h : TimeoutHelper) : TimeoutHelper :=
  { h with eventsQueue := [] }

/-- `TimeoutHelper::add`, from the rounded duration `roundDuration` on; `eventTime` is the
clock value. -/
def TimeoutHelper.add (h : TimeoutHelper) (roundDuration eventTime : Nat) : TimeoutHelper :=
  if h.maxDuration ≤ roundDuration then
    let h1 :=
      if h.maxDuration < roundDuration
        then ({ h with maxDuration := roundDuration } : TimeoutHelper).clearAllEvents
        else h
    { h1 with eventsQueue := h1.eventsQueue ++ [eventTime] }
  else h

/-- A sequence of calls of `add`, each given by its rounded duration and its clock value. -/
def TimeoutHelper.addAll (h : TimeoutHelper) (calls : List (Nat × Nat)) : TimeoutHelper :=
  calls.foldl (fun h1 call => h1.add call.1 call.2) h

/-- The `while (eventTime - _eventsQueue.front() > PERIOD)` loop of `deleteOldestEvents`;
`none` when `front()` is called on an empty queue. -/
def deleteOldestLoop (period : Int) (eventTime : Nat) : List Nat → Option (List Nat)
  | [] => none
  | front :: rest =>
    if (eventTime : Int) - (front : Int) > period
      then deleteOldestLoop period eventTime rest
      else some (front :: rest)

/-- `TimeoutHelper::deleteOldestEvents`: the queue it leaves; `none` when `front()` is called
on an empty queue. -/
def TimeoutHelper.deleteOldestEvents (period : Int) (eventTime : Nat) (h : TimeoutHelper) :
    Option TimeoutHelper :=
  if h.eventsQueue ≠ [] then
    (deleteOldestLoop period eventTime h.eventsQueue).map
      (fun q => { h with eventsQueue := q })
  else some h

/-! ## SyncNodeCache

Shallow embedding of `SyncNodeCache` (`src/libsyncengine/requests/syncnodecache.cpp`). The
class `SyncDb` and the enumeration `SyncNodeType` are not part of the sources: a database is
a value of a type `Db` with the two calls of `SyncDbCalls`, a sync node type is the integer
of its enumerator, and the first and last enumerator of the loop of `initCache` are
parameters. A `std::shared_ptr<SyncDb>` is a `SyncDbPtr` into the heap `databases`. -/

abbrev SyncDbPtr := Nat
abbrev SyncNodeType := Int

/-- The calls of `SyncDb` used by the cache and the bounds of the loop of `initCache`. -/
structure SyncDbCalls (Db : Type) where
  /-- `SyncNodeTypeBlackList` -/
  firstType : SyncNodeType
  /-- `SyncNodeTypeTmpLocalBlacklist` -/
  lastType : SyncNodeType
  /-- `SyncDb::selectAllSyncNodes(type, nodeIdSet)`: `none` when it returns false -/
  selectAllSyncNodes : Db → SyncNodeType → Option (List NodeId)
  /-- `SyncDb::updateAllSyncNodes(type, nodeIdSet)`: the returned boolean and the database -/
  updateAllSyncNodes : Db → SyncNodeType → List NodeId → Bool × Db

/-- The members `_syncDbMap` and `_syncNodesMap` of the cache, and the databases behind the
pointers. -/
structure SyncNodeCache (Db : Type) where
  syncDbMap : Int → Option SyncDbPtr
  syncNodesMap : Int → Option (SyncNodeType → Option (List NodeId))
  databases : SyncDbPtr → Db

/-- `_syncNodesMap[syncDbId][type] = nodeIdSet`: `operator[]` creates the entry of the sync
when it is missing. -/
def assignSyncNodes (m : Int → Option (SyncNodeType → Option (List NodeId)))
    (syncDbId : Int) (type : SyncNodeType) (nodeIdSet : List NodeId) :
    Int → Option (SyncNodeType → Option (List NodeId)) :=
  fun i =>
    if i = syncDbId then
      some (fun t => if t = type then some nodeIdSet else ((m syncDbId).getD (fun _ => none)) t)
    else m i

/-- `SyncNodeCache::syncNodes`: the exit code and the set written to the out-parameter. -/
def SyncNodeCache.syncNodes {Db : Type} (c : SyncNodeCache Db) (syncDbId : Int)
    (type : SyncNodeType) : ExitCode × Option (List NodeId) :=
  match c.syncNodesMap syncDbId with
  | none => (ExitCode.DataError, none)
  | some types =>
    match types type with
    | none => (ExitCode.DataError, none)
    | some nodeIdSet => (ExitCode.Ok, some nodeIdSet)

/-- `SyncNodeCache::update` -/
def SyncNodeCache.update {Db : Type} (db : SyncDbCalls Db) (c : SyncNodeCache Db)
    (syncDbId : Int) (type : SyncNodeType) (syncNodes : List NodeId) :
    ExitCode × SyncNodeCache Db :=
  match c.syncDbMap syncDbId with
  | none => (ExitCode.DataError, c)
  | some syncDb =>
    match c.syncNodesMap syncDbId with
    | none => (ExitCode.DataError, c)
    | some types =>
      match types type with
      | none => (ExitCode.DataError, c)
      | some _ =>
        let c1 : SyncNodeCache Db :=
          { c with syncNodesMap := assignSyncNodes c.syncNodesMap syncDbId type syncNodes }
        let r := db.updateAllSyncNodes (c1.databases syncDb) type syncNodes
        let c2 : SyncNodeCache Db :=
          { c1 with databases := fun p => if p = syncDb then r.2 else c1.databases p }
        if !r.1 then (ExitCode.DbError, c2) else (ExitCode.Ok, c2)

/-- The values of `typeInt` in the loop of `initCache`. -/
def syncNodeTypes {Db : Type} (db : SyncDbCalls Db) : List SyncNodeType :=
  (List.range (db.lastType - db.firstType + 1).toNat).map
    (fun k : Nat => db.firstType + (k : Int))

/-- The loop of `initCache` over the sync node types. -/
def initCacheLoop {Db : Type} (db : SyncDbCalls Db) (syncDbId : Int) (syncDb : SyncDbPtr) :
    List SyncNodeType → SyncNodeCache Db → ExitCode × SyncNodeCache Db
  | [], c => (ExitCode.Ok, c)
  | type :: rest, c =>
    match db.selectAllSyncNodes (c.databases syncDb) type with
    | none => (ExitCode.DbError, c)
    | some nodeIdSet =>
      initCacheLoop db syncDbId syncDb rest
        { c with syncNodesMap := assignSyncNodes c.syncNodesMap syncDbId type nodeIdSet }

/-- `SyncNodeCache::initCache` -/
def SyncNodeCache.initCache {Db : Type} (db : SyncDbCalls Db) (c : SyncNodeCache Db)
    (syncDbId : Int) (syncDb : SyncDbPtr) : ExitCode × SyncNodeCache Db :=
  initCacheLoop db syncDbId syncDb (syncNodeTypes db)
    { c with syncDbMap := fun i => if i = syncDbId then some syncDb else c.syncDbMap i }

/-- `SyncNodeCache::clearCache` -/
def SyncNodeCache.clearCache {Db : Type} (c : SyncNodeCache Db) (syncDbId : Int) :
    ExitCode × SyncNodeCache Db :=
  match c.syncDbMap syncDbId with
  | none => (ExitCode.DataError, c)
  | some _ =>
    match c.syncNodesMap syncDbId with
    | none => (ExitCode.DataError, c)
    | some _ =>
      (ExitCode.Ok,
        { c with
          syncDbMap := fun i => if i = syncDbId then none else c.syncDbMap i,
          syncNodesMap := fun i => if i = syncDbId then none else c.syncNodesMap i })

/-- A sample database: the stored sets per type; a write fails when the database is read
only. -/
structure SampleDb where
  readOnly : Bool
  nodes : SyncNodeType → List NodeId

/-- The calls of the sample database, with the sync node types `1` to `5`. -/
def sampleDbCalls : SyncDbCalls SampleDb :=
  { firstType := 1,
    lastType := 5,
    selectAllSyncNodes := fun d type => some (d.nodes type),
    updateAllSyncNodes := fun d type s =>
      if d.readOnly then (false, d)
      else (true, { d with nodes := fun t => if t = type then s else d.nodes t }) }

/-- A cache without any sync, over one database that holds the black list `["7"]`. -/
def emptyCache (readOnly : Bool) : SyncNodeCache SampleDb :=
  { syncDbMap := fun _ => none,
    syncNodesMap := fun _ => none,
    databases := fun _ =>
      { readOnly := readOnly, nodes := fun t => if t = 1 then ["7"] else [] } }

/-! ## LocalDeleteJob

`src/src/libsyncengine/jobs/local/localdeletejob.cpp`. -/

/-- The call `runJob` makes on `_absolutePath`: none when `canRun` fails,
`Utility::moveItemToTrash`, or `std::filesystem::remove_all`. -/
inductive DeleteCall where
  | NoCall | MoveItemToTrash | RemoveAll
  deriving DecidableEq, Repr

/-- The members of a `LocalDeleteJob` that `canRun` and `runJob` read or write. -/
structure LocalDeleteJob where
  relativePath : SyncPath
  absolutePath : SyncPath
  isDehydratedPlaceholder : Bool
  remoteNodeId : NodeId
  forceToTrash : Bool
  bypassCheck : Bool
  exitCode : ExitCode
  exitCause : ExitCause
  deriving DecidableEq, Repr

/-- What the job reads from outside: the preference, the file system and the remote
replica. -/
structure LocalDeleteEnv where
  /-- `ParametersCache::instance()->parameters().moveToTrash()` -/
  moveToTrash : Bool
  /-- `IoHelper::checkIfPathExists`: the returned boolean and `exists` -/
  checkIfPathExists : SyncPath → Bool × Bool
  /-- `GetFileInfoJob::hasHttpError` after the synchronous run -/
  hasHttpError : NodeId → Bool
  /-- `GetFileInfoJob::getStatusCode` -/
  getStatusCode : NodeId → Nat
  /-- `job.path().relative_path()` of the `GetFileInfoJob` -/
  remotePath : NodeId → SyncPath
  /-- `Utility::moveItemToTrash` -/
  moveItemToTrash : SyncPath → Bool
  /-- `ec.value()` after `std::filesystem::remove_all` -/
  removeAll : SyncPath → Int

/-- The first constructor of `LocalDeleteJob`; the checks are not bypassed. -/
def LocalDeleteJob.create (syncPath relativePath : SyncPath) (isDehydratedPlaceholder : Bool)
    (remoteId : NodeId) (forceToTrash : Bool) : LocalDeleteJob :=
  { relativePath := relativePath,
    absolutePath := syncPath ++ relativePath,
    isDehydratedPlaceholder := isDehydratedPlaceholder,
    remoteNodeId := remoteId,
    forceToTrash := forceToTrash,
    bypassCheck := false,
    exitCode := ExitCode.Unknown,
    exitCause := ExitCause.Unknown }

/-- `Poco::Net::HTTPResponse::HTTP_FORBIDDEN` -/
def HTTP_FORBIDDEN : Nat := 403

/-- `Poco::Net::HTTPResponse::HTTP_NOT_FOUND` -/
def HTTP_NOT_FOUND : Nat := 404

/-- `LocalDeleteJob::canRun`: the returned boolean and the job with its exit code. -/
def LocalDeleteJob.canRun (env : LocalDeleteEnv) (job : LocalDeleteJob) :
    Bool × LocalDeleteJob :=
  if job.bypassCheck then (true, job)
  else
    let r := env.checkIfPathExists job.absolutePath
    if !r.1 then
      (false, { job with exitCode := ExitCode.SystemError,
                         exitCause := ExitCause.FileAccessError })
    else if !r.2 then
      (false, { job with exitCode := ExitCode.NeedRestart,
                         exitCause := ExitCause.UnexpectedFileSystemEvent })
    else if job.remoteNodeId.isEmpty then
      (false, { job with exitCode := ExitCode.SystemError,
                         exitCause := ExitCause.FileAccessError })
    else
      let itemFound : Bool :=
        if env.hasHttpError job.remoteNodeId then
          if env.getStatusCode job.remoteNodeId = HTTP_FORBIDDEN ∨
              env.getStatusCode job.remoteNodeId = HTTP_NOT_FOUND then false
          else true
        else true
      if itemFound then
        if job.relativePath = env.remotePath job.remoteNodeId then
          (false, { job with exitCode := ExitCode.DataError,
                             exitCause := ExitCause.InvalidSnapshot })
        else (true, job)
      else (true, job)

/-- `LocalDeleteJob::runJob`: the job with its exit code, and the call made on
`_absolutePath`. -/
def LocalDeleteJob.runJob (env : LocalDeleteEnv) (job : LocalDeleteJob) :
    LocalDeleteJob × DeleteCall :=
  let r := job.canRun env
  if !r.1 then (r.2, DeleteCall.NoCall)
  else
    let job1 := r.2
    if (env.moveToTrash && !job1.isDehydratedPlaceholder) || job1.forceToTrash then
      let success := env.moveItemToTrash job1.absolutePath
      let job2 := { job1 with exitCode := ExitCode.Ok }
      if !success then
        ({ job2 with exitCode := ExitCode.SystemError,
                     exitCause := ExitCause.MoveToTrashFailed }, DeleteCall.MoveItemToTrash)
      else (job2, DeleteCall.MoveItemToTrash)
    else
      if env.removeAll job1.absolutePath ≠ 0 then
        ({ job1 with exitCode := ExitCode.SystemError,
                     exitCause := ExitCause.FileAccessError }, DeleteCall.RemoveAll)
      else ({ job1 with exitCode := ExitCode.Ok }, DeleteCall.RemoveAll)

/-- A local replica where the item exists, the remote replica answers 404 for it, and both
ways of deleting succeed. -/
def deleteEnv ( moveToTrash : Bool) : LocalDeleteEnv :=
  { moveToTrash := moveToTrash,
    checkIfPathExists := fun _ => (true, true),
    hasHttpError := fun _ => true,
    getStatusCode := fun _ => HTTP_NOT_FOUND,
    remotePath := fun _ => [],
    moveItemToTrash := fun _ => true,
    removeAll := fun _ => 0 }

/-- A delete job for `Dir 1/File 1.1` of the sync folder `sync`. -/
def deleteJob (isDehydratedPlaceholder forceToTrash : Bool) : LocalDeleteJob :=
  LocalDeleteJob.create ["sync"] ["Dir 1", "File 1.1"] isDehydratedPlaceholder "id11"
    forceToTrash

/-! ## UpdateTreeWorker::getOriginPath

`updatetreeworker.cpp` and `node.cpp` are not part of the sources; the header
`src/src/libsyncengine/update_detection/update_detector/updatetreeworker.h` declares
`getOriginPath`, and `testGetOriginPath` to `testGetOriginPath4` of
`src/test/libsyncengine/update_detection/update_detector/testupdatetreeworker.cpp` call it. -/

/-- Modelled from the spec: `Node::getPath` (node.cpp is not part of the sources): the path
after all moves, that is the names of the node and of its ancestors below the root, read along
the parent pointers. `none` when the root is not reached within `fuel` steps. -/
def nodePath (nodes : NodePtr → Node) : Nat → NodePtr → Option SyncPath
  | 0, _ => none
  | fuel + 1, n =>
    match (nodes n).parentNode with
    | none => some []
    | some p =>
      match nodePath nodes fuel p with
      | none => none
      | some parentPath => some (parentPath ++ [(nodes n).name])

/-- A node that was moved in this pass: it carries its move origin and the db id of the parent
it had there. -/
def movedNode (n : Node) : Bool :=
  n.moveOriginParentDbId.isSome && n.moveOrigin.isSome

/-- Modelled from the spec: the walk of `UpdateTreeWorker::getOriginPath`
(updatetreeworker.cpp is not part of the sources): "the builder resolves origin paths by
walking ancestors and composing their origins". The walk goes up from the node and collects
the names; at the first moved node it takes the file name of the move origin and the path that
the database gives for the origin parent, and stops. `names` are the names collected so far,
topmost first; `dbPath` is the path of a db id in the database (`none` when the database has no
such node, which ends the walk with `DataError`). -/
def originWalk (nodes : NodePtr → Node) (dbPath : DbNodeId → Option SyncPath) :
    Nat → NodePtr → List SyncName → Option (ExitCode × SyncPath)
  | 0, _, _ => none
  | fuel + 1, n, names =>
    match (nodes n).parentNode with
    | none => some (ExitCode.Ok, names)
    | some p =>
      if movedNode (nodes n) then
        match (nodes n).moveOriginParentDbId.bind dbPath with
        | none => some (ExitCode.DataError, [])
        | some originParentPath =>
          some (ExitCode.Ok,
            originParentPath ++ filename ((nodes n).moveOrigin.getD []) :: names)
      else originWalk nodes dbPath fuel p ((nodes n).name :: names)

/-- Modelled from the spec: `UpdateTreeWorker::getOriginPath` (updatetreeworker.cpp is not
part of the sources): the exit code and the path written to the out-parameter, the path the
node had before any move of this pass. -/
def getOriginPath (nodes : NodePtr → Node) (dbPath : DbNodeId → Option SyncPath) (fuel : Nat)
    (n : NodePtr) : Option (ExitCode × SyncPath) :=
  originWalk nodes dbPath fuel n []

/-- The node `a` is the node `n` or one of its ancestors. -/
inductive AncestorOrSelf (nodes : NodePtr → Node) : NodePtr → NodePtr → Prop where
  | self (n : NodePtr) : AncestorOrSelf nodes n n
  | step {a p n : NodePtr} :
      (nodes n).parentNode = some p → AncestorOrSelf nodes a p → AncestorOrSelf nodes a n

/-- The database is the state before the moves of this pass: the root is at the empty path, a
node that was not moved is in the database under its parent with its name, and a moved node is
in the database under its origin parent with the file name of its move origin. -/
structure DbBaseline (nodes : NodePtr → Node) (dbPath : DbNodeId → Option SyncPath) :
    Prop where
  root : ∀ n d, (nodes n).parentNode = none → (nodes n).idb = some d → dbPath d = some []
  unmoved : ∀ n p d, (nodes n).parentNode = some p → movedNode (nodes n) = false →
    (nodes n).idb = some d →
    ∃ dp parentPath, (nodes p).idb = some dp ∧ dbPath dp = some parentPath ∧
      dbPath d = some (parentPath ++ [(nodes n).name])
  moved : ∀ n p d dp origin, (nodes n).parentNode = some p →
    (nodes n).moveOriginParentDbId = some dp → (nodes n).moveOrigin = some origin →
    (nodes n).idb = some d →
    ∃ parentPath, dbPath dp = some parentPath ∧
      dbPath d = some (parentPath ++ [filename origin])

/-- The update tree of `setUpUpdateTree` below `Dir 4`: the root `0`, `Dir 4` (`1`),
`Dir 4.1` (`2`), `Dir 4.1.1` (`3`) and `File 4.1.1.1` (`4`), with db ids `10` to `14`, after
the changes of `testGetOriginPath4`: `Dir 4.1.1` was moved under `Dir 4`, then
`File 4.1.1.1` was renamed. -/
def originNodes : NodePtr → Node
  | 0 => { type := NodeType.Directory, idb := some 10, children := [1] }
  | 1 => { type := NodeType.Directory, idb := some 11, id := some "id4", name := "Dir 4",
           parentNode := some 0, children := [2, 3] }
  | 2 => { type := NodeType.Directory, idb := some 12, id := some "id41", name := "Dir 4.1",
           parentNode := some 1, children := [] }
  | 3 => { type := NodeType.Directory, idb := some 13, id := some "id411",
           name := "Dir 4.1.1", changeEvents := [OperationType.Move],
           moveOrigin := some ["Dir 4", "Dir 4.1", "Dir 4.1.1"],
           moveOriginParentDbId := some 12, parentNode := some 1, children := [4] }
  | 4 => { type := NodeType.File, idb := some 14, id := some "id4111",
           name := "File 4.1.1.1 renamed", changeEvents := [OperationType.Move],
           moveOrigin := some ["Dir 4", "Dir 4.1.1", "File 4.1.1.1"],
           moveOriginParentDbId := some 13, parentNode := some 3 }
  | _ => {}

/-- The paths of the database of `setUpDbTree` for the db ids of `originNodes`. -/
def originDbPath : DbNodeId → Option SyncPath
  | 10 => some []
  | 11 => some ["Dir 4"]
  | 12 => some ["Dir 4", "Dir 4.1"]
  | 13 => some ["Dir 4", "Dir 4.1", "Dir 4.1.1"]
  | 14 => some ["Dir 4", "Dir 4.1", "Dir 4.1.1", "File 4.1.1.1"]
  | _ => none

/-! ## UpdateTreeWorker::step4DeleteFile

`updatetreeworker.cpp` is not part of the sources; the header
`src/src/libsyncengine/update_detection/update_detector/updatetreeworker.h` declares
`step4DeleteFile`, and `testStep4` and `testClearTreeStep4` of
`src/test/libsyncengine/update_detection/update_detector/testupdatetreeworker.cpp` call it. -/

/-- `FSOperation`, with the arguments of its constructor in the tests. -/
structure FSOperation where
  operationType : OperationType
  nodeId : NodeId
  objectType : NodeType
  createdAt : Int
  lastModified : Int
  size : Int
  path : SyncPath
  deriving DecidableEq, Repr

/-- A node of the update tree together with the path under which
`UpdateTree::getNodeByPath` finds it. -/
structure PathNode where
  path : SyncPath
  id : NodeId
  type : NodeType
  changeEvents : List OperationType
  createdAt : Int
  lastmodified : Int
  size : Int
  deriving DecidableEq, Repr

/-- `Node::insertChangeEvent`: the change events of a node are a set. -/
def PathNode.insertChangeEvent (n : PathNode) (e : OperationType) : PathNode :=
  if e ∈ n.changeEvents then n else { n with changeEvents := n.changeEvents ++ [e] }

/-- A Delete operation on a file. -/
def isDeleteFile (op : FSOperation) : Bool :=
  decide (op.operationType = OperationType.Delete) && decide (op.objectType = NodeType.File)

/-- A Create operation on a file. -/
def isCreateFile (op : FSOperation) : Bool :=
  decide (op.operationType = OperationType.Create) && decide (op.objectType = NodeType.File)

/-- The nodes of the tree at a path. -/
def nodesAtPath (tree : List PathNode) (path : SyncPath) : List PathNode :=
  tree.filter (fun n => decide (n.path = path))

/-- Modelled from the spec: the special case of step 4 of the update tree worker
(updatetreeworker.cpp is not part of the sources), "delete+create at the same path by distinct
ids": the Create operation on a file at the path of the Delete operation with another id. -/
def createAtSamePath (ops : List FSOperation) (deleteOp : FSOperation) : Option FSOperation :=
  ops.find? (fun op =>
    isCreateFile op && decide (op.path = deleteOp.path) && decide (op.nodeId ≠ deleteOp.nodeId))

/-- Modelled from the spec: what step 4 does to the node at the path of a Delete operation
(updatetreeworker.cpp is not part of the sources): it marks the file deleted, or, when a Create
operation by another id is at the same path, the node becomes the creating node and carries an
Edit event. The times and the size are those of the operation, as `testStep4` asserts for
`lastmodified`. -/
def markDeletedFile (createOp : Option FSOperation) (deleteOp : FSOperation) (n : PathNode) :
    PathNode :=
  match createOp with
  | some op =>
    ({ n with id := op.nodeId, createdAt := op.createdAt, lastmodified := op.lastModified,
              size := op.size }).insertChangeEvent OperationType.Edit
  | none =>
    ({ n with createdAt := deleteOp.createdAt, lastmodified := deleteOp.lastModified,
              size := deleteOp.size }).insertChangeEvent OperationType.Delete

/-- Modelled from the spec: the node step 4 adds at the path of a Delete operation when the
tree has none there (updatetreeworker.cpp is not part of the sources): a node with the deleted
id and a Delete event, or, when a Create operation by another id is at the same path, a node
with the creating id and an Edit event. -/
def newDeletedFile (createOp : Option FSOperation) (deleteOp : FSOperation) : PathNode :=
  match createOp with
  | some op =>
    { path := deleteOp.path, id := op.nodeId, type := op.objectType,
      changeEvents := [OperationType.Edit], createdAt := op.createdAt,
      lastmodified := op.lastModified, size := op.size }
  | none =>
    { path := deleteOp.path, id := deleteOp.nodeId, type := deleteOp.objectType,
      changeEvents := [OperationType.Delete], createdAt := deleteOp.createdAt,
      lastmodified := deleteOp.lastModified, size := deleteOp.size }

/-- Modelled from the spec: the body of the loop of `UpdateTreeWorker::step4DeleteFile` for one
Delete operation on a file (updatetreeworker.cpp is not part of the sources): "mark files
deleted. Special case: delete+create at the same path by distinct ids collapses to an edit on
the creating node". -/
def deleteFile (ops : List FSOperation) (tree : List PathNode) (deleteOp : FSOperation) :
    List PathNode :=
  if tree.any (fun n => decide (n.path = deleteOp.path)) then
    tree.map (fun n =>
      if n.path = deleteOp.path then markDeletedFile (createAtSamePath ops deleteOp) deleteOp n
      else n)
  else tree ++ [newDeletedFile (createAtSamePath ops deleteOp) deleteOp]

/-- Modelled from the spec: `UpdateTreeWorker::step4DeleteFile` (updatetreeworker.cpp is not
part of the sources): the Delete operations on files of the operation set are applied to the
tree one after the other, in the order of the set. -/
def step4DeleteFile (ops : List FSOperation) (tree : List PathNode) : List PathNode :=
  (ops.filter isDeleteFile).foldl (deleteFile ops) tree

/-- The operations of `testStep4`. -/
def step4Ops : List FSOperation :=
  [{ operationType := OperationType.Delete, nodeId := "id4111", objectType := NodeType.File,
     createdAt := 1654798667, lastModified := 1654798667, size := 12345,
     path := ["Dir 4", "Dir 4.1", "Dir 4.1.1", "File 4.1.1.1"] },
   { operationType := OperationType.Delete, nodeId := "id51", objectType := NodeType.File,
     createdAt := 1654788552, lastModified := 1654788552, size := 12345,
     path := ["Dir 5", "File 5.1"] },
   { operationType := OperationType.Create, nodeId := "id511", objectType := NodeType.File,
     createdAt := 1654798336, lastModified := 1654798336, size := 12345,
     path := ["Dir 5", "File 5.1"] }]

/-- The files of the tree of `testStep4` that the operations name: `File 4.1.1.1` is in the
tree, `File 5.1` is not. -/
def step4Tree : List PathNode :=
  [{ path := ["Dir 4", "Dir 4.1", "Dir 4.1.1", "File 4.1.1.1"], id := "id4111",
     type := NodeType.File, changeEvents := [], createdAt := 1654788079,
     lastmodified := 1654788079, size := 12345 }]

/-! ## Basic facts -/

/-- The name produced by `generateConflictedName`. -/
theorem generateConflictedName_snd (env : Env) (s : State) (n : NodePtr) (b : Bool) :
    (generateConflictedName env s n b).2
      = env.generateNewValidName (appendPath env.localPath (env.getPath n))
          (if b then SuffixType.Orphan else SuffixType.Conflict) := by
  simp only [generateConflictedName]
  split_ifs <;> rfl

/-- The boolean returned by `generateConflictedName`: the path length check did not fire. -/
theorem generateConflictedName_fst (env : Env) (s : State) (n : NodePtr) (b : Bool) :
    (generateConflictedName env s n b).1
      = !env.checkPathLength
          (nativeSize (parent_path (appendPath env.localPath (env.getPath n))) + 1 +
            nameSize (env.generateNewValidName (appendPath env.localPath (env.getPath n))
              (if b then SuffixType.Orphan else SuffixType.Conflict)))
          (s.nodes n).type := by
  simp only [generateConflictedName]
  split_ifs <;> simp_all

/-- When the moved node has a move origin whose parent directory is found in its tree,
`undoMove` returns `Ok` and leaves a Move operation for that node on its own side. -/
theorem undoMove_of_origin (env : Env) (s : State) (n : NodePtr) (op0 : SyncOperation)
    (origin : SyncPath) (p : NodePtr)
    (hO : (s.nodes n).moveOrigin = some origin)
    (hP : env.getNodeByPath (s.nodes n).side (parent_path origin) = some p) :
    (undoMove env s n op0).1 = ExitCode.Ok ∧
    (undoMove env s n op0).2.type = OperationType.Move ∧
    (undoMove env s n op0).2.correspondingNode = some n ∧
    (undoMove env s n op0).2.targetSide = (s.nodes n).side ∧
    (undoMove env s n op0).2.affectedNode = env.correspondingNodeInOtherTree n ∧
    (undoMove env s n op0).2.omit_ = op0.omit_ := by
  simp only [undoMove, hO, hP, true_and]
  split_ifs <;> rfl

/-- When the moved node has no move origin, or the parent directory of the origin is not
found, `undoMove` returns `DataError`. -/
theorem undoMove_of_missing (env : Env) (s : State) (n : NodePtr) (op0 : SyncOperation)
    (h : (s.nodes n).moveOrigin = none ∨
      ∃ origin, (s.nodes n).moveOrigin = some origin ∧
        env.getNodeByPath (s.nodes n).side (parent_path origin) = none) :
    undoMove env s n op0 = (ExitCode.DataError, op0) := by
  rcases h with h | ⟨origin, h1, h2⟩
  · simp [undoMove, h]
  · simp [undoMove, h1, h2]

/-- The loop of `findAllChildNodes` over a list of children completes when every child has
a rank below the remaining depth. -/
theorem findAllChildNodes_loop_isSome (nodes : NodePtr → Node) (fuel : Nat)
    (rank : NodePtr → Nat)
    (ih : ∀ p acc, rank p < fuel → ∃ r, findAllChildNodes nodes fuel p acc = some r) :
    ∀ (l : List NodePtr), (∀ c ∈ l, rank c < fuel) → ∀ acc : List NodePtr,
      ∃ r, l.foldlM
        (fun acc childNode =>
          (if (nodes childNode).type = NodeType.Directory
            then findAllChildNodes nodes fuel childNode acc
            else some acc).bind
          (fun acc1 => some (setInsert acc1 childNode))) acc = some r := by
  intro l
  induction l with
  | nil => intro _ acc; exact ⟨acc, rfl⟩
  | cons c rest ihl =>
    intro hl acc
    have hc : rank c < fuel := hl c (List.mem_cons_self _ _)
    have hrest : ∀ x ∈ rest, rank x < fuel := fun x hx => hl x (List.mem_cons_of_mem _ hx)
    rw [List.foldlM_cons]
    by_cases hdir : (nodes c).type = NodeType.Directory
    · obtain ⟨r1, hr1⟩ := ih c acc hc
      simp only [hdir, if_true, hr1, Option.bind_eq_bind, Option.some_bind]
      exact ihl hrest _
    · simp only [hdir, if_false, Option.bind_eq_bind, Option.some_bind]
      exact ihl hrest _

/-- `findAllChildNodes` returns on a well-founded tree when the depth bound exceeds the rank
of the start node. -/
theorem findAllChildNodes_isSome (nodes : NodePtr → Node) (rank : NodePtr → Nat)
    (hR : WellRanked nodes rank) :
    ∀ (fuel : Nat) (p : NodePtr) (acc : List NodePtr), rank p < fuel →
      ∃ r, findAllChildNodes nodes fuel p acc = some r := by
  intro fuel
  induction fuel with
  | zero => intro p acc h; exact absurd h (Nat.not_lt_zero _)
  | succ fuel ih =>
    intro p acc hp
    unfold findAllChildNodes
    apply findAllChildNodes_loop_isSome nodes fuel rank ih
    intro c hc
    have := hR p c hc
    omega

/-- The children of the sample nodes. -/
theorem sampleNodes_children (events : NodePtr → List OperationType)
    (origin : NodePtr → Option SyncPath) (p : NodePtr) :
    (sampleNodes events origin p).children
      = if p = 0 then [1, 3] else if p = 1 then [2] else if p = 10 then [11, 13]
        else if p = 11 then [12] else [] := by
  unfold sampleNodes
  split <;> simp_all

/-- The sample trees are well founded. -/
theorem sampleNodes_wellRanked (events : NodePtr → List OperationType)
    (origin : NodePtr → Option SyncPath) :
    WellRanked (sampleNodes events origin) sampleRank := by
  intro p c hc
  rw [sampleNodes_children] at hc
  split_ifs at hc with h0 h1 h10 h11
  · subst h0
    simp only [List.mem_cons, List.mem_singleton, List.not_mem_nil, or_false] at hc
    rcases hc with rfl | rfl <;> decide
  · subst h1
    simp only [List.mem_singleton] at hc
    subst hc
    decide
  · subst h10
    simp only [List.mem_cons, List.mem_singleton, List.not_mem_nil, or_false] at hc
    rcases hc with rfl | rfl <;> decide
  · subst h11
    simp only [List.mem_singleton] at hc
    subst hc
    decide
  · simp at hc

/-- Membership in the result of `std::unordered_set::insert`. -/
theorem mem_setInsert {α : Type} [DecidableEq α] (l : List α) (x y : α) :
    y ∈ setInsert l x ↔ y ∈ l ∨ y = x := by
  unfold setInsert
  split_ifs with h
  · constructor
    · exact Or.inl
    · rintro (h1 | h1)
      · exact h1
      · rw [h1]; exact h
  · simp

/-- `std::unordered_set::insert` keeps the elements distinct. -/
theorem nodup_setInsert {α : Type} [DecidableEq α] (l : List α) (x : α) (h : l.Nodup) :
    (setInsert l x).Nodup := by
  unfold setInsert
  split_ifs with hx
  · exact h
  · rw [List.nodup_append]
    refine ⟨h, List.nodup_singleton x, ?_⟩
    intro a ha hb
    rw [List.mem_singleton] at hb
    subst hb
    exact hx ha

/-- A descendant is a child or the descendant of a child. -/
theorem treeDescendant_iff (nodes : NodePtr → Node) (p m : NodePtr) :
    TreeDescendant nodes p m ↔
      ∃ c ∈ (nodes p).children, m = c ∨ TreeDescendant nodes c m := by
  constructor
  · intro h
    cases h with
    | child hc => exact ⟨m, hc, Or.inl rfl⟩
    | step hc hd => exact ⟨_, hc, Or.inr hd⟩
  · rintro ⟨c, hc, h | h⟩
    · rw [h]; exact TreeDescendant.child hc
    · exact TreeDescendant.step hc h

/-- The loop of `findAllChildNodes` over a list of children collects exactly these children
and their descendants. -/
theorem findAllChildNodes_loop_mem (nodes : NodePtr → Node) (fuel : Nat)
    (hF : OnlyDirectoriesHaveChildren nodes)
    (ih : ∀ p acc r, findAllChildNodes nodes fuel p acc = some r →
      ∀ m, m ∈ r ↔ m ∈ acc ∨ TreeDescendant nodes p m) :
    ∀ (l acc r : List NodePtr),
      l.foldlM
        (fun acc childNode =>
          (if (nodes childNode).type = NodeType.Directory
            then findAllChildNodes nodes fuel childNode acc
            else some acc).bind
          (fun acc1 => some (setInsert acc1 childNode))) acc = some r →
      ∀ m, m ∈ r ↔ m ∈ acc ∨ ∃ c ∈ l, m = c ∨ TreeDescendant nodes c m := by
  intro l
  induction l with
  | nil =>
    intro acc r h m
    simp only [List.foldlM_nil, pure, Option.some.injEq] at h
    subst h
    simp
  | cons c rest ihl =>
    intro acc r h m
    rw [List.foldlM_cons] at h
    by_cases hdir : (nodes c).type = NodeType.Directory
    · simp only [hdir, if_true, Option.bind_eq_bind] at h
      cases hr1 : findAllChildNodes nodes fuel c acc with
      | none => simp [hr1] at h
      | some r1 =>
        simp only [hr1, Option.some_bind] at h
        rw [ihl _ _ h m, mem_setInsert, ih c acc r1 hr1 m]
        simp only [List.mem_cons, exists_eq_or_imp]
        generalize (∃ a ∈ rest, m = a ∨ TreeDescendant nodes a m) = E
        tauto
    · simp only [hdir, if_false, Option.bind_eq_bind, Option.some_bind] at h
      have hno : ¬ TreeDescendant nodes c m := by
        intro hd
        rw [treeDescendant_iff] at hd
        obtain ⟨x, hx, _⟩ := hd
        rw [hF c hdir] at hx
        simp at hx
      rw [ihl _ _ h m, mem_setInsert]
      simp only [List.mem_cons, exists_eq_or_imp]
      generalize (∃ a ∈ rest, m = a ∨ TreeDescendant nodes a m) = E
      tauto

/-- When `findAllChildNodes` returns, it has added exactly the descendants of the start node
in the update tree. -/
theorem findAllChildNodes_mem (nodes : NodePtr → Node)
    (hF : OnlyDirectoriesHaveChildren nodes) :
    ∀ (fuel : Nat) (p : NodePtr) (acc r : List NodePtr),
      findAllChildNodes nodes fuel p acc = some r →
      ∀ m, m ∈ r ↔ m ∈ acc ∨ TreeDescendant nodes p m := by
  intro fuel
  induction fuel with
  | zero => intro p acc r h; simp [findAllChildNodes] at h
  | succ fuel ih =>
    intro p acc r h m
    unfold findAllChildNodes at h
    rw [findAllChildNodes_loop_mem nodes fuel hF ih _ _ _ h m, treeDescendant_iff]

/-- The db ids collected from a list of nodes. -/
theorem collectDbIds_mem (s : State) :
    ∀ (l : List NodePtr) (acc r : List DbNodeId), collectDbIds s l acc = some r →
      ∀ d, d ∈ r ↔ d ∈ acc ∨ ∃ n ∈ l, (s.nodes n).idb = some d := by
  intro l
  induction l with
  | nil =>
    intro acc r h d
    simp only [collectDbIds, Option.some.injEq] at h
    subst h
    simp
  | cons n rest ih =>
    intro acc r h d
    unfold collectDbIds at h
    cases hn : (s.nodes n).idb with
    | none => simp [hn] at h
    | some x =>
      simp only [hn] at h
      rw [ih _ _ h d, mem_setInsert]
      simp only [List.mem_cons, exists_eq_or_imp, hn, Option.some.injEq]
      constructor
      · rintro ((h1 | h1) | h1)
        · exact Or.inl h1
        · exact Or.inr (Or.inl h1.symm)
        · exact Or.inr (Or.inr h1)
      · rintro (h1 | h1 | h1)
        · exact Or.inl (Or.inl h1)
        · exact Or.inl (Or.inr h1.symm)
        · exact Or.inr h1

/-- The db ids collected by the loop of `findAllChildNodeIdsFromDb` when it ends with `Ok`. -/
theorem findAllChildNodeIdsFromDbLoop_spec (env : Env) (side : ReplicaSide)
    (parentId : Option NodeId) :
    ∀ (l : List NodeId) (acc r : List DbNodeId),
      findAllChildNodeIdsFromDbLoop env side parentId l acc = some (ExitCode.Ok, r) →
      (acc.Nodup → r.Nodup) ∧
      ∀ d, d ∈ r ↔ d ∈ acc ∨ ∃ pid nodeId, parentId = some pid ∧ nodeId ∈ l ∧ nodeId ≠ pid ∧
        (env.syncDb_ancestor side pid nodeId).value = true ∧
        (env.syncDb_dbId side nodeId).value = d := by
  intro l
  induction l with
  | nil =>
    intro acc r h
    simp only [findAllChildNodeIdsFromDbLoop, Option.some.injEq, Prod.mk.injEq, true_and] at h
    subst h
    simp
  | cons nodeId rest ih =>
    intro acc r h
    unfold findAllChildNodeIdsFromDbLoop at h
    cases hp : parentId with
    | none => simp [hp] at h
    | some pid =>
      simp only [hp] at h
      by_cases hself : nodeId = pid
      · simp only [hself, if_true] at h
        rw [← hp] at h
        obtain ⟨hn, hm⟩ := ih _ _ h
        refine ⟨hn, fun d => ?_⟩
        rw [hm d]
        constructor
        · rintro (h1 | ⟨pid1, n1, e1, e2, e3, e4, e5⟩)
          · exact Or.inl h1
          · exact Or.inr ⟨pid1, n1, by rw [← hp]; exact e1, List.mem_cons_of_mem _ e2, e3, e4, e5⟩
        · rintro (h1 | ⟨pid1, n1, e1, e2, e3, e4, e5⟩)
          · exact Or.inl h1
          · rcases List.mem_cons.mp e2 with e2 | e2
            · exfalso
              have : pid1 = pid := by injection e1 with e1; exact e1.symm
              rw [e2, hself, this] at e3
              exact e3 rfl
            · exact Or.inr ⟨pid1, n1, by rw [hp]; exact e1, e2, e3, e4, e5⟩
      · simp only [hself, if_false] at h
        by_cases hok : (env.syncDb_ancestor side pid nodeId).ok = true
        swap
        · simp [hok] at h
        by_cases hfound : (env.syncDb_ancestor side pid nodeId).found = true
        swap
        · simp [hok, hfound] at h
        simp only [hok, hfound, Bool.not_true, Bool.false_eq_true, if_false] at h
        by_cases hanc : (env.syncDb_ancestor side pid nodeId).value = true
        · simp only [hanc, if_true] at h
          by_cases hok2 : (env.syncDb_dbId side nodeId).ok = true
          swap
          · simp [hok2] at h
          by_cases hfound2 : (env.syncDb_dbId side nodeId).found = true
          swap
          · simp [hok2, hfound2] at h
          simp only [hok2, hfound2, Bool.not_true, Bool.false_eq_true, if_false] at h
          rw [← hp] at h
          obtain ⟨hn, hm⟩ := ih _ _ h
          refine ⟨fun ha => hn (nodup_setInsert _ _ ha), fun d => ?_⟩
          rw [hm d, mem_setInsert]
          constructor
          · rintro ((h1 | h1) | ⟨pid1, n1, e1, e2, e3, e4, e5⟩)
            · exact Or.inl h1
            · exact Or.inr ⟨pid, nodeId, rfl, List.mem_cons_self _ _, hself, hanc, h1.symm⟩
            · exact Or.inr ⟨pid1, n1, by rw [← hp]; exact e1, List.mem_cons_of_mem _ e2, e3, e4, e5⟩
          · rintro (h1 | ⟨pid1, n1, e1, e2, e3, e4, e5⟩)
            · exact Or.inl (Or.inl h1)
            · rcases List.mem_cons.mp e2 with e2 | e2
              · subst e2
                exact Or.inl (Or.inr e5.symm)
              · exact Or.inr ⟨pid1, n1, by rw [hp]; exact e1, e2, e3, e4, e5⟩
        · simp only [hanc, Bool.false_eq_true, if_false] at h
          rw [← hp] at h
          obtain ⟨hn, hm⟩ := ih _ _ h
          refine ⟨hn, fun d => ?_⟩
          rw [hm d]
          constructor
          · rintro (h1 | ⟨pid1, n1, e1, e2, e3, e4, e5⟩)
            · exact Or.inl h1
            · exact Or.inr ⟨pid1, n1, by rw [← hp]; exact e1, List.mem_cons_of_mem _ e2, e3, e4, e5⟩
          · rintro (h1 | ⟨pid1, n1, e1, e2, e3, e4, e5⟩)
            · exact Or.inl h1
            · rcases List.mem_cons.mp e2 with e2 | e2
              · exfalso
                have : pid1 = pid := by injection e1 with e1; exact e1.symm
                rw [e2, this] at e4
                exact hanc e4
              · exact Or.inr ⟨pid1, n1, by rw [hp]; exact e1, e2, e3, e4, e5⟩

/-- The registry after inserting a list of db ids for one side: an id of the list that had
no entry now has the side, every other entry is as before. -/
theorem foldl_mapInsert_apply (side : ReplicaSide) :
    ∀ (l : List DbNodeId) (m : DbNodeId → Option ReplicaSide) (k : DbNodeId),
      (l.foldl (fun m d => mapInsert m d side) m) k
        = if k ∈ l then (match m k with | some w => some w | none => some side) else m k := by
  intro l
  induction l with
  | nil => intro m k; simp
  | cons d rest ih =>
    intro m k
    rw [List.foldl_cons, ih]
    by_cases hk : k = d
    · subst hk
      simp only [List.mem_cons, true_or, if_true, mapInsert]
      cases hm : m k <;> simp
    · simp only [List.mem_cons, hk, false_or, mapInsert, if_false]

/-- The orphan loop of the Move-Delete case: it only appends DB-only Move operations, it
keeps the side of every node, and when it ends with `Ok` it has pushed the orphan Move of
every db id of the list that is not a db id of the deleted subtree, in order, and inserted
these db ids into the registry. -/
theorem orphanLoop_spec (env : Env) (c : Conflict) (deleteNode : NodePtr)
    (deleted : List DbNodeId) (s0 : State) :
    ∀ (l : List DbNodeId) (s : State) (code : ExitCode) (s1 : State),
      (∀ q, (s.nodes q).side = (s0.nodes q).side) →
      orphanLoop env c deleteNode deleted l s = some (code, s1) →
      ∃ moves : List SyncOperation,
        s1.syncOps = s.syncOps ++ moves ∧
        (∀ op ∈ moves, op.type = OperationType.Move ∧ op.omit_ = true) ∧
        (∀ q, (s1.nodes q).side = (s0.nodes q).side) ∧
        s1.restart = s.restart ∧
        (code = ExitCode.Ok →
          List.Forall₂ (IsOrphanMove env s0 c (s0.nodes deleteNode).side)
            (l.filter (fun d => decide (d ∉ deleted))) moves ∧
          s1.registeredOrphans
            = (l.filter (fun d => decide (d ∉ deleted))).foldl
                (fun m d => mapInsert m d (s0.nodes deleteNode).side) s.registeredOrphans) := by
  intro l
  induction l with
  | nil =>
    intro s code s1 _ h
    simp only [orphanLoop, Option.some.injEq, Prod.mk.injEq] at h
    obtain ⟨_, rfl⟩ := h
    exact ⟨[], by simp, by simp, by assumption, rfl, fun _ => ⟨by simp, by simp⟩⟩
  | cons d rest ih =>
    intro s code s1 hside h
    unfold orphanLoop at h
    by_cases hd : d ∈ deleted
    · simp only [hd, if_true] at h
      obtain ⟨moves, h1, h2, h3, h4, h5⟩ := ih s code s1 hside h
      refine ⟨moves, h1, h2, h3, h4, fun hc => ?_⟩
      have hf : (d :: rest).filter (fun d => decide (d ∉ deleted))
          = rest.filter (fun d => decide (d ∉ deleted)) := by
        simp [List.filter_cons, hd]
      rw [hf]
      exact h5 hc
    · simp only [hd, if_false] at h
      rw [hside deleteNode] at h
      by_cases hok : (env.syncDb_id (s0.nodes deleteNode).side d).ok = true
      swap
      · simp only [hok, Bool.not_false, if_true, Option.some.injEq, Prod.mk.injEq] at h
        obtain ⟨hcode, rfl⟩ := h
        exact ⟨[], by simp, by simp, hside, rfl, fun hc => by rw [← hcode] at hc; cases hc⟩
      by_cases hfound : (env.syncDb_id (s0.nodes deleteNode).side d).found = true
      swap
      · simp only [hok, hfound, Bool.not_true, Bool.false_eq_true, if_false, Bool.not_false,
          if_true, Option.some.injEq, Prod.mk.injEq] at h
        obtain ⟨hcode, rfl⟩ := h
        exact ⟨[], by simp, by simp, hside, rfl, fun hc => by rw [← hcode] at hc; cases hc⟩
      simp only [hok, hfound, Bool.not_true, Bool.false_eq_true, if_false] at h
      cases hn : env.getNodeById (s0.nodes deleteNode).side
          (env.syncDb_id (s0.nodes deleteNode).side d).value with
      | none => simp [hn] at h
      | some n =>
        simp only [hn] at h
        cases hcorr : env.correspondingNodeInOtherTree n with
        | none =>
          simp only [hcorr, Option.some.injEq, Prod.mk.injEq] at h
          obtain ⟨hcode, rfl⟩ := h
          exact ⟨[], by simp, by simp, hside, rfl, fun hc => by rw [← hcode] at hc; cases hc⟩
        | some corr =>
          simp only [hcorr] at h
          have hside1 : ∀ q, ((setMoveOrigin s n (env.getPath n)).nodes q).side
              = (s0.nodes q).side := by
            intro q
            simp only [setMoveOrigin]
            split_ifs with hq
            · rw [hq]; exact hside n
            · exact hside q
          obtain ⟨moves, h1, h2, h3, h4, h5⟩ :=
            ih _ code s1 (by intro q; exact hside1 q) h
          refine ⟨{ type := OperationType.Move,
                    affectedNode := some n,
                    correspondingNode := some corr,
                    targetSide := ((setMoveOrigin s n (env.getPath n)).nodes corr).side,
                    omit_ := true,
                    newName :=
                      (generateConflictedName env (setMoveOrigin s n (env.getPath n)) n true).2,
                    newParentNode :=
                      some (env.rootNode ((setMoveOrigin s n (env.getPath n)).nodes n).side),
                    conflict := some c } :: moves, ?_, ?_, h3, ?_, fun hc => ?_⟩
          · rw [h1]
            simp [pushOp, setMoveOrigin]
          · intro op hop
            rcases List.mem_cons.mp hop with hop | hop
            · rw [hop]
              exact ⟨rfl, rfl⟩
            · exact h2 op hop
          · rw [h4]
            rfl
          · obtain ⟨h6, h7⟩ := h5 hc
            have hf : (d :: rest).filter (fun d => decide (d ∉ deleted))
                = d :: rest.filter (fun d => decide (d ∉ deleted)) := by
              simp [List.filter_cons, hd]
            rw [hf]
            refine ⟨List.Forall₂.cons ⟨n, corr, hn, hcorr, ?_⟩ h6, ?_⟩
            · simp only [pushOp, generateConflictedName_snd, if_true, hside1]
            · rw [h7, List.foldl_cons]
              simp only [pushOp, hside1]
              rfl

/-- What the Move-Delete case leaves behind when it is not deferred: a list of DB-only Moves,
followed, when the exit code is `Ok`, by the DB-only Delete of the deleted node. For a deleted
directory and exit code `Ok` the Moves are the orphan Moves of the distinct db ids `orphans`,
which are the DB descendants that are not in the deleted subtree of the update tree, and these
db ids have been inserted into the registry. -/
theorem caseMoveDelete_spec (env : Env) (fuel : Nat) (queue : List Conflict) (s : State)
    (c : Conflict) (code : ExitCode) (s1 : State) (cont : Bool)
    (hDef : moveDeleteDeferred env queue s c = false)
    (h : caseMoveDelete env fuel queue s c = some (code, s1, cont)) :
    cont = false ∧
    ∃ moves : List SyncOperation,
      (∀ op ∈ moves, op.type = OperationType.Move ∧ op.omit_ = true) ∧
      (code ≠ ExitCode.Ok → s1.syncOps = s.syncOps ++ moves) ∧
      (code = ExitCode.Ok →
        s1.syncOps = s.syncOps ++ moves ++
          [{ type := OperationType.Delete,
             affectedNode := some (deleteNodeOf s c),
             correspondingNode := some (moveNodeOf s c),
             targetSide := (s.nodes (moveNodeOf s c)).side,
             omit_ := true,
             conflict := some c }] ∧
        ((s.nodes (deleteNodeOf s c)).type ≠ NodeType.Directory →
          moves = [] ∧ s1.registeredOrphans = s.registeredOrphans) ∧
        ((s.nodes (deleteNodeOf s c)).type = NodeType.Directory →
          ∃ orphans : List DbNodeId,
            orphans.Nodup ∧
            (OnlyDirectoriesHaveChildren s.nodes →
              ∀ d, d ∈ orphans ↔
                IsDbDescendant env s (deleteNodeOf s c) d ∧
                  ¬ IsTreeDescendantDbId s (deleteNodeOf s c) d) ∧
            List.Forall₂ (IsOrphanMove env s c (s.nodes (deleteNodeOf s c)).side) orphans moves ∧
            s1.registeredOrphans
              = orphans.foldl (fun m d => mapInsert m d (s.nodes (deleteNodeOf s c)).side)
                  s.registeredOrphans)) := by
  unfold caseMoveDelete at h
  simp only [hDef, Bool.false_eq_true, if_false] at h
  cases hall : findAllChildNodes s.nodes fuel (deleteNodeOf s c) [] with
  | none => simp [hall] at h
  | some allDeleted =>
    simp only [hall] at h
    cases hcol : collectDbIds s allDeleted [] with
    | none => simp [hcol] at h
    | some deleted =>
      simp only [hcol] at h
      by_cases hdir : (s.nodes (deleteNodeOf s c)).type = NodeType.Directory
      swap
      · simp only [hdir, if_false, ne_eq, not_true_eq_false, Option.some.injEq,
          Prod.mk.injEq] at h
        obtain ⟨rfl, rfl, rfl⟩ := h
        refine ⟨rfl, [], by simp, fun hne => absurd rfl hne, fun _ => ⟨by simp [pushOp], ?_, ?_⟩⟩
        · intro _
          exact ⟨rfl, rfl⟩
        · intro hd
          exact absurd hd hdir
      · simp only [hdir, if_true] at h
        cases hdb : findAllChildNodeIdsFromDb env s (deleteNodeOf s c) [] with
        | none => simp [hdb] at h
        | some rdb =>
          obtain ⟨res, dbIds⟩ := rdb
          simp only [hdb] at h
          by_cases hres : res = ExitCode.Ok
          swap
          · simp only [ne_eq, hres, not_false_eq_true, if_true, Option.some.injEq,
              Prod.mk.injEq] at h
            obtain ⟨rfl, rfl, rfl⟩ := h
            exact ⟨rfl, [], by simp, fun _ => by simp, fun hc => absurd hc hres⟩
          · subst hres
            simp only [ne_eq, not_true_eq_false, if_false] at h
            cases hloop : orphanLoop env c (deleteNodeOf s c) deleted dbIds s with
            | none => simp [hloop] at h
            | some rl =>
              obtain ⟨codeL, sL⟩ := rl
              simp only [hloop] at h
              obtain ⟨moves, hm1, hm2, hm3, _, hm5⟩ :=
                orphanLoop_spec env c (deleteNodeOf s c) deleted s dbIds s codeL sL
                  (fun _ => rfl) hloop
              by_cases hcl : codeL = ExitCode.Ok
              swap
              · simp only [ne_eq, hcl, not_false_eq_true, if_true, Option.some.injEq,
                  Prod.mk.injEq] at h
                obtain ⟨rfl, rfl, rfl⟩ := h
                exact ⟨rfl, moves, hm2, fun _ => hm1, fun hc => absurd hc hcl⟩
              · subst hcl
                simp only [ne_eq, not_true_eq_false, if_false, Option.some.injEq,
                  Prod.mk.injEq] at h
                obtain ⟨rfl, rfl, rfl⟩ := h
                obtain ⟨hf2, hreg⟩ := hm5 rfl
                refine ⟨rfl, moves, hm2, fun hne => absurd rfl hne, fun _ => ⟨?_, ?_, ?_⟩⟩
                · simp [pushOp, hm1, hm3]
                · intro hnd
                  exact absurd hdir hnd
                · intro _
                  -- the db ids returned by the database query
                  have hdbspec : (dbIds.Nodup) ∧ ∀ d, d ∈ dbIds ↔
                      IsDbDescendant env s (deleteNodeOf s c) d := by
                    unfold findAllChildNodeIdsFromDb at hdb
                    by_cases hok : (env.syncDb_ids (s.nodes (deleteNodeOf s c)).side).ok = true
                    swap
                    · simp [hok] at hdb
                    by_cases hfd : (env.syncDb_ids (s.nodes (deleteNodeOf s c)).side).found = true
                    swap
                    · simp [hok, hfd] at hdb
                    simp only [hok, hfd, Bool.not_true, Bool.false_eq_true, if_false] at hdb
                    obtain ⟨hn, hmem⟩ := findAllChildNodeIdsFromDbLoop_spec env _ _ _ _ _ hdb
                    refine ⟨hn List.nodup_nil, fun d => ?_⟩
                    rw [hmem d]
                    simp only [List.not_mem_nil, false_or]
                    constructor
                    · rintro ⟨pid, nodeId, e1, e2, e3, e4, e5⟩
                      exact ⟨pid, nodeId, e1, e2, e3, e4, e5⟩
                    · rintro ⟨pid, nodeId, e1, e2, e3, e4, e5⟩
                      exact ⟨pid, nodeId, e1, e2, e3, e4, e5⟩
                  refine ⟨dbIds.filter (fun d => decide (d ∉ deleted)),
                    hdbspec.1.filter _, ?_, hf2, hreg⟩
                  intro hF d
                  have hdel : d ∈ deleted ↔ IsTreeDescendantDbId s (deleteNodeOf s c) d := by
                    rw [collectDbIds_mem s _ _ _ hcol d]
                    simp only [List.not_mem_nil, false_or]
                    unfold IsTreeDescendantDbId
                    constructor
                    · rintro ⟨n, hn, hidb⟩
                      have := (findAllChildNodes_mem s.nodes hF fuel _ _ _ hall n).mp hn
                      simp only [List.not_mem_nil, false_or] at this
                      exact ⟨n, this, hidb⟩
                    · rintro ⟨n, hn, hidb⟩
                      exact ⟨n, (findAllChildNodes_mem s.nodes hF fuel _ _ _ hall n).mpr
                        (Or.inr hn), hidb⟩
                  rw [List.mem_filter, hdbspec.2 d, ← hdel]
                  simp

/-- In the sample trees only directories have children. -/
theorem sampleNodes_shape (events : NodePtr → List OperationType)
    (origin : NodePtr → Option SyncPath) :
    OnlyDirectoriesHaveChildren (sampleNodes events origin) := by
  intro n hn
  rw [sampleNodes_children]
  unfold sampleNodes at hn
  split_ifs with h0 h1 h10 h11
  · subst h0; simp at hn
  · subst h1; simp at hn
  · subst h10; simp at hn
  · subst h11; simp at hn
  · rfl

/-- In the orphan sample only directories have children. -/
theorem orphanSampleState_shape (orphans : DbNodeId → Option ReplicaSide) :
    OnlyDirectoriesHaveChildren (orphanSampleState orphans).nodes := by
  intro n hn
  by_cases h0 : n = 0
  · subst h0; exact absurd rfl hn
  by_cases h1 : n = 1
  · subst h1; rfl
  by_cases h2 : n = 2
  · subst h2; rfl
  by_cases h11 : n = 11
  · subst h11; exact absurd rfl hn
  have hq : (orphanSampleState orphans).nodes n
      = sampleNodes (fun _ => []) (fun _ => none) n := by
    unfold orphanSampleState
    dsimp only
    split <;> first | contradiction | rfl
  rw [hq] at hn ⊢
  exact sampleNodes_shape _ _ n hn

/-- The operations pushed by the Edit-Delete case on a well-founded tree whose deleted node
has a parent: a Move and a DB-only Delete when the parent carries a delete event, a single
DB-only Delete of the edit node otherwise. -/
theorem caseEditDelete_spec (env : Env) (fuel : Nat) (queue : List Conflict) (s : State)
    (c : Conflict) (deleteParent : NodePtr) (rank : NodePtr → Nat)
    (hType : c.type = ConflictType.EditDelete)
    (hParentNode : (s.nodes (deleteNodeOf s c)).parentNode = some deleteParent)
    (hRank : WellRanked s.nodes rank)
    (hFuelD : rank (deleteNodeOf s c) < fuel)
    (hFuelE : rank (editNodeOf s c) < fuel) :
    ((s.nodes deleteParent).hasChangeEvent OperationType.Delete = true →
      generateOperations env fuel queue s c
        = some (ExitCode.Ok,
            { s with
              syncOps := s.syncOps ++
                [{ type := OperationType.Move,
                   affectedNode := some (deleteNodeOf s c),
                   correspondingNode := some (editNodeOf s c),
                   targetSide := (s.nodes (editNodeOf s c)).side,
                   omit_ := false,
                   newName := env.generateNewValidName
                     (appendPath env.localPath (env.getPath (c.localNode s))) SuffixType.Conflict,
                   newParentNode := some (env.rootNode (s.nodes (deleteNodeOf s c)).side),
                   conflict := some c },
                 { type := OperationType.Delete,
                   affectedNode := some (deleteNodeOf s c),
                   correspondingNode := some (editNodeOf s c),
                   targetSide := (s.nodes (editNodeOf s c)).side,
                   omit_ := true,
                   conflict := some c }] },
            false)) ∧
    ((s.nodes deleteParent).hasChangeEvent OperationType.Delete = false →
      generateOperations env fuel queue s c
        = some (ExitCode.Ok,
            { s with
              syncOps := s.syncOps ++
                [{ type := OperationType.Delete,
                   affectedNode := some (editNodeOf s c),
                   correspondingNode := some (deleteNodeOf s c),
                   targetSide := (s.nodes (deleteNodeOf s c)).side,
                   omit_ := true,
                   conflict := some c }] },
            false)) := by
  obtain ⟨rd, hrd⟩ := findAllChildNodes_isSome s.nodes rank hRank fuel (deleteNodeOf s c) [] hFuelD
  obtain ⟨re, hre⟩ := findAllChildNodes_isSome s.nodes rank hRank fuel (editNodeOf s c) [] hFuelE
  constructor
  · intro hdel
    simp [generateOperations, hType, caseEditDelete, hParentNode, hdel, pushOp, hrd,
      generateConflictedName_snd]
  · intro hdel
    simp [generateOperations, hType, caseEditDelete, hParentNode, hdel, pushOp, hre]

/-- The undo cases never set `continueSolving`. -/
theorem caseUndoMove_continue (env : Env) (s s1 : State) (c : Conflict) (n : NodePtr)
    (code : ExitCode) (cont : Bool)
    (h : caseUndoMove env s c n = some (code, s1, cont)) : cont = false := by
  unfold caseUndoMove at h
  dsimp only at h
  split_ifs at h
  · simp only [Option.some.injEq, Prod.mk.injEq] at h
    exact h.2.2.symm
  · simp only [Option.some.injEq, Prod.mk.injEq] at h
    exact h.2.2.symm

/-- `generateOperations` sets `continueSolving` only for a rename-aside conflict or for a
MoveDelete conflict that is deferred. -/
theorem generateOperations_continue (env : Env) (fuel : Nat) (queue : List Conflict)
    (s s1 : State) (c : Conflict) (code : ExitCode)
    (h : generateOperations env fuel queue s c = some (code, s1, true)) :
    (c.type = ConflictType.CreateCreate ∨ c.type = ConflictType.EditEdit ∨
      c.type = ConflictType.MoveCreate ∨ c.type = ConflictType.MoveMoveDest) ∨
    (c.type = ConflictType.MoveDelete ∧ moveDeleteDeferred env queue s c = true) := by
  unfold generateOperations at h
  cases hT : c.type <;> simp only [hT] at h
  · simp at h
  · exact absurd (caseUndoMove_continue env s s1 c _ code true h) (by decide)
  · right
    refine ⟨rfl, ?_⟩
    by_contra hdef
    have hdef : moveDeleteDeferred env queue s c = false := by
      simpa using hdef
    have := (caseMoveDelete_spec env fuel queue s c code s1 true hdef h).1
    simp at this
  · unfold caseCreateParentDelete at h
    dsimp only at h
    split at h <;> simp at h
  · split at h
    · simp at h
    · exact absurd (caseUndoMove_continue env s s1 c _ code true h) (by decide)
  · simp
  · simp
  · unfold caseEditDelete at h
    dsimp only at h
    split at h
    · simp at h
    · split_ifs at h
      · split at h <;> simp at h
      · split at h <;> simp at h
  · simp
  · simp
  · exact absurd (caseUndoMove_continue env s s1 c _ code true h) (by decide)

/-- The calls recorded by the loop of `execute`: at most one of them ends the loop (exit code
other than `Ok`, or `continueSolving` false), and a call with `continueSolving` true is a
rename-aside conflict or a MoveDelete conflict. -/
theorem executeLoop_calls (env : Env) (fuel : Nat) :
    ∀ (queue : List Conflict) (s : State) (exitCode : ExitCode)
      (calls : List (Conflict × ExitCode × Bool)) (r : ExecuteResult),
      executeLoop env fuel queue s exitCode calls = some r →
      ∃ added : List (Conflict × ExitCode × Bool),
        r.calls = calls ++ added ∧
        (added.filter (fun call => !call.2.2 || decide (call.2.1 ≠ ExitCode.Ok))).length ≤ 1 ∧
        (∀ call ∈ added, call.2.2 = true →
          (call.1.type = ConflictType.CreateCreate ∨ call.1.type = ConflictType.EditEdit ∨
            call.1.type = ConflictType.MoveCreate ∨ call.1.type = ConflictType.MoveMoveDest) ∨
          call.1.type = ConflictType.MoveDelete) := by
  intro queue
  induction queue with
  | nil =>
    intro s exitCode calls r h
    simp only [executeLoop, Option.some.injEq] at h
    subst h
    exact ⟨[], by simp, by simp, by simp⟩
  | cons top rest ih =>
    intro s exitCode calls r h
    unfold executeLoop at h
    cases hgen : generateOperations env fuel (top :: rest) s top with
    | none => simp [hgen] at h
    | some g =>
      obtain ⟨code, s1, cont⟩ := g
      simp only [hgen] at h
      have hcall : cont = true →
          (top.type = ConflictType.CreateCreate ∨ top.type = ConflictType.EditEdit ∨
            top.type = ConflictType.MoveCreate ∨ top.type = ConflictType.MoveMoveDest) ∨
          top.type = ConflictType.MoveDelete := by
        intro hc
        subst hc
        rcases generateOperations_continue env fuel _ s s1 top code hgen with h1 | h1
        · exact Or.inl h1
        · exact Or.inr h1.1
      by_cases hcode : code = ExitCode.Ok
      swap
      · simp only [ne_eq, hcode, not_false_eq_true, if_true, Option.some.injEq] at h
        subst h
        refine ⟨[(top, code, cont)], rfl, ?_, ?_⟩
        · exact (List.length_filter_le _ _).trans (by simp)
        · intro call hcallmem hc
          simp only [List.mem_singleton] at hcallmem
          subst hcallmem
          exact hcall hc
      · subst hcode
        simp only [ne_eq, not_true_eq_false, if_false] at h
        cases cont with
        | false =>
          simp only [Bool.false_eq_true, if_false, Option.some.injEq] at h
          subst h
          refine ⟨[(top, ExitCode.Ok, false)], rfl, ?_, ?_⟩
          · exact (List.length_filter_le _ _).trans (by simp)
          · intro call hcallmem hc
            simp only [List.mem_singleton] at hcallmem
            subst hcallmem
            exact hcall hc
        | true =>
          simp only [if_true] at h
          obtain ⟨added, h1, h2, h3⟩ := ih _ _ _ _ h
          refine ⟨(top, ExitCode.Ok, true) :: added, ?_, ?_, ?_⟩
          · rw [h1]
            simp
          · simpa [List.filter_cons] using h2
          · intro call hcallmem hc
            rcases List.mem_cons.mp hcallmem with hm | hm
            · subst hm
              exact hcall rfl
            · exact h3 call hm hc

/-- From a loop counter of at least 1 on, the request loop of `runJob` ends after at most
`6 - trials` further passes, provided it may test its condition `7 - trials` times. -/
theorem requestLoop_terminates (attempts : Nat → Attempt) :
    ∀ (fuel trials : Nat) (job : NetworkJob) (passes : Nat),
      1 ≤ fuel → 7 ≤ trials + fuel →
      ∃ r, requestLoop attempts fuel trials job passes = some r ∧
        r.2 ≤ passes + (6 - trials) := by
  intro fuel
  induction fuel with
  | zero => intro trials job passes h; omega
  | succ fuel ih =>
    intro trials job passes _ hsum
    unfold requestLoop
    by_cases hcond : (trials : Int) ≤ min job.trials MAX_TRIALS
    · have h5 : trials ≤ 5 := by
        have := min_le_right job.trials MAX_TRIALS
        unfold MAX_TRIALS at this hcond
        omega
      simp only [hcond, if_true]
      cases hb : requestLoopBody (attempts trials) trials job with
      | mk ex job1 =>
        cases ex with
        | continue_ =>
          obtain ⟨r, hr, hle⟩ := ih (trials + 1) job1 (passes + 1) (by omega) (by omega)
          exact ⟨r, hr, by omega⟩
        | break_ => exact ⟨_, rfl, by simp only; omega⟩
        | return_ => exact ⟨_, rfl, by simp only; omega⟩
    · simp only [hcond, if_false]
      exact ⟨_, rfl, by simp⟩

/-- A pass answered with HTTP 429 whose `handleError` returns true: the exit code is reset to
`Ok`, `_trials` is raised by one and the loop continues. -/
theorem requestLoopBody_rateLimited (trials : Int) (job : NetworkJob) :
    requestLoopBody rateLimitedAttempt trials job
      = (LoopExit.continue_, { job with exitCode := ExitCode.Ok, trials := job.trials + 1 }) := by
  simp [requestLoopBody, rateLimitedAttempt, receiveResponse, afterSendRequest,
    onReceiveSuccess]

/-- `receiveResponse` does not touch `_trials`. -/
theorem receiveResponse_trials (a : Attempt) (job : NetworkJob) :
    (receiveResponse a job).2.trials = job.trials := by
  unfold receiveResponse processSocketError
  dsimp only
  by_cases h1 : a.receiveSocketError = true
  · simp only [h1, if_true]
    split_ifs <;> rfl
  · simp only [h1, Bool.false_eq_true, if_false]
    by_cases h2 : a.abortedOnResponse = true
    · simp only [h2, if_true]
    · simp only [h2, Bool.false_eq_true, if_false]
      cases a.status <;> dsimp only
      · split <;> rfl
      · split_ifs
        · split <;> rfl
        · rfl
      · split_ifs
        · split <;> rfl
        · rfl
      · split_ifs
        · split <;> rfl
        · rfl
      · split_ifs
        · split <;> rfl
        · rfl

/-- A pass through the body of the request loop leaves `_trials` as it is, or raises it by
one; the latter only together with `continue` and the exit code reset to `Ok`. -/
theorem requestLoopBody_trials (a : Attempt) (trials : Int) (job : NetworkJob) :
    (requestLoopBody a trials job).2.trials = job.trials ∨
    ((requestLoopBody a trials job).2.trials = job.trials + 1 ∧
      (requestLoopBody a trials job).1 = LoopExit.continue_ ∧
      (requestLoopBody a trials job).2.exitCode = ExitCode.Ok) := by
  have hsend : ∀ (snd : CallResult) (j : NetworkJob),
      (afterSendRequest snd j).trials = j.trials := by
    intro snd j
    unfold afterSendRequest
    split <;> rfl
  have hfailS : ∀ j, (onSendFailure a trials j).2.trials = j.trials := by
    intro j
    unfold onSendFailure
    split_ifs <;> rfl
  have hfailR : ∀ j, (onReceiveFailure a trials j).2.trials = j.trials := by
    intro j
    unfold onReceiveFailure
    dsimp only
    split_ifs <;> rfl
  have hsucc : ∀ j, (onReceiveSuccess j).2.trials = j.trials ∨
      ((onReceiveSuccess j).2.trials = j.trials + 1 ∧
        (onReceiveSuccess j).1 = LoopExit.continue_ ∧
        (onReceiveSuccess j).2.exitCode = ExitCode.Ok) := by
    intro j
    unfold onReceiveSuccess
    split_ifs
    · exact Or.inr ⟨rfl, rfl, rfl⟩
    · exact Or.inl rfl
    · exact Or.inl rfl
  unfold requestLoopBody
  dsimp only
  split
  · exact Or.inl rfl
  · exact Or.inl rfl
  · split_ifs
    · exact Or.inl rfl
    · exact Or.inl rfl
    · left
      rw [hfailS, hsend]
    · have hr := receiveResponse_trials a
        (afterSendRequest
          (a.sendRequest (a.canRun job.exitCode job.exitCause).exitCode
            (a.canRun job.exitCode job.exitCause).exitCause)
          { job with exitCode := (a.canRun job.exitCode job.exitCause).exitCode,
                     exitCause := (a.canRun job.exitCode job.exitCause).exitCause })
      rw [hsend] at hr
      split
      · rename_i job2 heq
        rw [heq] at hr
        left
        rw [hfailR]
        exact hr
      · rename_i job2 heq
        rw [heq] at hr
        left
        rw [hfailR]
        exact hr
      · rename_i job2 heq
        rw [heq] at hr
        rcases hsucc job2 with h | h
        · left
          rw [h]
          exact hr
        · right
          refine ⟨?_, h.2.1, h.2.2⟩
          rw [h.1]
          simp only at hr
          rw [hr]

/-! ## Facts about the operation generator -/

/-- An `int64_t` value is its own wrapping result. -/
theorem wrapInt64_of_isInt64 (x : Int) (h : isInt64 x) : wrapInt64 x = x := by
  unfold isInt64 at h
  unfold wrapInt64
  omega

/-- A wrapping result is an `int64_t` value. -/
theorem isInt64_wrapInt64 (x : Int) : isInt64 (wrapInt64 x) := by
  unfold isInt64 wrapInt64
  omega

/-- Wrapping the left summand first does not change the wrapping result of a sum. -/
theorem wrapInt64_add_left (a b : Int) : wrapInt64 (wrapInt64 a + b) = wrapInt64 (a + b) := by
  unfold wrapInt64
  omega

/-- Wrapping the right summand first does not change the wrapping result of a sum. -/
theorem wrapInt64_add_right (a b : Int) : wrapInt64 (a + wrapInt64 b) = wrapInt64 (a + b) := by
  unfold wrapInt64
  omega

theorem setStatus_same (status : NodePtr → NodeStatus) (p : NodePtr) (v : NodeStatus) :
    setStatus status p v p = v := by
  simp [setStatus]

theorem setStatus_other (status : NodePtr → NodeStatus) (p q : NodePtr) (v : NodeStatus)
    (h : q ≠ p) : setStatus status p v q = status q := by
  simp [setStatus, h]

/-- Setting a node to `Processed` keeps every `Processed` node `Processed`. -/
theorem setStatus_processed_mono (status : NodePtr → NodeStatus) (p q : NodePtr)
    (h : status q = NodeStatus.Processed) :
    setStatus status p NodeStatus.Processed q = NodeStatus.Processed := by
  unfold setStatus
  split_ifs
  · rfl
  · exact h

/-- The loop of `findAndMarkAllChildNodes` over a list of children returns when every child
has a rank below the remaining depth. -/
theorem findAndMark_loop_isSome (nodes : NodePtr → Node) (fuel : Nat) (rank : NodePtr → Nat)
    (ih : ∀ p st, rank p < fuel → ∃ r, findAndMarkAllChildNodes nodes fuel p st = some r) :
    ∀ (l : List NodePtr), (∀ c ∈ l, rank c < fuel) → ∀ st : NodePtr → NodeStatus,
      ∃ r, l.foldlM
        (fun st childNode =>
          (if (nodes childNode).type = NodeType.Directory
            then findAndMarkAllChildNodes nodes fuel childNode st
            else some st).bind
          (fun st1 => some (setStatus st1 childNode NodeStatus.Processed))) st = some r := by
  intro l
  induction l with
  | nil => intro _ st; exact ⟨st, rfl⟩
  | cons c rest ihl =>
    intro hl st
    have hc : rank c < fuel := hl c (List.mem_cons_self _ _)
    have hrest : ∀ x ∈ rest, rank x < fuel := fun x hx => hl x (List.mem_cons_of_mem _ hx)
    rw [List.foldlM_cons]
    by_cases hdir : (nodes c).type = NodeType.Directory
    · obtain ⟨r1, hr1⟩ := ih c st hc
      simp only [hdir, if_true, hr1, Option.bind_eq_bind, Option.some_bind]
      exact ihl hrest _
    · simp only [hdir, if_false, Option.bind_eq_bind, Option.some_bind]
      exact ihl hrest _

/-- `findAndMarkAllChildNodes` returns on a well-founded tree when the depth bound exceeds the
rank of the start node. -/
theorem findAndMark_isSome (nodes : NodePtr → Node) (rank : NodePtr → Nat)
    (hR : WellRanked nodes rank) :
    ∀ (fuel : Nat) (p : NodePtr) (st : NodePtr → NodeStatus), rank p < fuel →
      ∃ r, findAndMarkAllChildNodes nodes fuel p st = some r := by
  intro fuel
  induction fuel with
  | zero => intro p st h; exact absurd h (Nat.not_lt_zero _)
  | succ fuel ih =>
    intro p st hp
    unfold findAndMarkAllChildNodes
    apply findAndMark_loop_isSome nodes fuel rank ih
    intro c hc
    have := hR p c hc
    omega

/-- What the loop of `findAndMarkAllChildNodes` over a list of children does to a status: it
is unchanged, or it is `Processed` and the node is one of the children or a descendant of
one; and the children themselves end `Processed`. -/
theorem findAndMark_loop_spec (nodes : NodePtr → Node) (fuel : Nat)
    (ih : ∀ p st r, findAndMarkAllChildNodes nodes fuel p st = some r →
      ∀ q, r q = st q ∨ (r q = NodeStatus.Processed ∧ TreeDescendant nodes p q)) :
    ∀ (l : List NodePtr) (st r : NodePtr → NodeStatus),
      l.foldlM
        (fun st childNode =>
          (if (nodes childNode).type = NodeType.Directory
            then findAndMarkAllChildNodes nodes fuel childNode st
            else some st).bind
          (fun st1 => some (setStatus st1 childNode NodeStatus.Processed))) st = some r →
      (∀ q, r q = st q ∨
        (r q = NodeStatus.Processed ∧ ∃ c ∈ l, q = c ∨ TreeDescendant nodes c q)) ∧
      (∀ c ∈ l, r c = NodeStatus.Processed) := by
  intro l
  induction l with
  | nil =>
    intro st r h
    simp only [List.foldlM_nil, pure, Option.some.injEq] at h
    subst h
    exact ⟨fun q => Or.inl rfl, by simp⟩
  | cons c rest ihl =>
    intro st r h
    rw [List.foldlM_cons] at h
    have key : ∀ st1, (∀ q, st1 q = st q ∨
          (st1 q = NodeStatus.Processed ∧ TreeDescendant nodes c q)) →
        List.foldlM
          (fun st childNode =>
            (if (nodes childNode).type = NodeType.Directory
              then findAndMarkAllChildNodes nodes fuel childNode st
              else some st).bind
            (fun st1 => some (setStatus st1 childNode NodeStatus.Processed)))
          (setStatus st1 c NodeStatus.Processed) rest = some r →
        (∀ q, r q = st q ∨
          (r q = NodeStatus.Processed ∧ ∃ x ∈ c :: rest, q = x ∨ TreeDescendant nodes x q)) ∧
        (∀ x ∈ c :: rest, r x = NodeStatus.Processed) := by
      intro st1 h1 hfold
      obtain ⟨hA, hB⟩ := ihl _ _ hfold
      have hc : r c = NodeStatus.Processed := by
        rcases hA c with hq | ⟨hq, _⟩
        · rw [hq, setStatus_same]
        · exact hq
      refine ⟨fun q => ?_, fun x hx => ?_⟩
      · rcases hA q with hq | ⟨hq, x, hx, hxq⟩
        · by_cases hqc : q = c
          · subst hqc
            exact Or.inr ⟨hc, q, List.mem_cons_self _ _, Or.inl rfl⟩
          · rw [setStatus_other _ _ _ _ hqc] at hq
            rcases h1 q with h1q | ⟨h1q, hd⟩
            · exact Or.inl (hq.trans h1q)
            · exact Or.inr ⟨hq.trans h1q, c, List.mem_cons_self _ _, Or.inr hd⟩
        · exact Or.inr ⟨hq, x, List.mem_cons_of_mem _ hx, hxq⟩
      · rcases List.mem_cons.mp hx with hx | hx
        · rw [hx]; exact hc
        · exact hB x hx
    by_cases hdir : (nodes c).type = NodeType.Directory
    · simp only [hdir, if_true, Option.bind_eq_bind] at h
      cases hr1 : findAndMarkAllChildNodes nodes fuel c st with
      | none => simp [hr1] at h
      | some st1 =>
        simp only [hr1, Option.some_bind] at h
        exact key st1 (ih c st st1 hr1) h
    · simp only [hdir, if_false, Option.bind_eq_bind, Option.some_bind] at h
      exact key st (fun q => Or.inl rfl) h

/-- What `findAndMarkAllChildNodes` does to a status: it is unchanged, or it is `Processed`
and the node is a descendant of the start node. -/
theorem findAndMark_spec (nodes : NodePtr → Node) :
    ∀ (fuel : Nat) (p : NodePtr) (st r : NodePtr → NodeStatus),
      findAndMarkAllChildNodes nodes fuel p st = some r →
      ∀ q, r q = st q ∨ (r q = NodeStatus.Processed ∧ TreeDescendant nodes p q) := by
  intro fuel
  induction fuel with
  | zero => intro p st r h; simp [findAndMarkAllChildNodes] at h
  | succ fuel ih =>
    intro p st r h q
    unfold findAndMarkAllChildNodes at h
    rcases (findAndMark_loop_spec nodes fuel ih _ _ _ h).1 q with hq | ⟨hq, hd⟩
    · exact Or.inl hq
    · exact Or.inr ⟨hq, (treeDescendant_iff nodes p q).mpr hd⟩

/-- `findAndMarkAllChildNodes` keeps every `Processed` node `Processed`. -/
theorem findAndMark_mono (nodes : NodePtr → Node) (fuel : Nat) (p : NodePtr)
    (st r : NodePtr → NodeStatus) (h : findAndMarkAllChildNodes nodes fuel p st = some r)
    (q : NodePtr) (hq : st q = NodeStatus.Processed) : r q = NodeStatus.Processed := by
  rcases findAndMark_spec nodes fuel p st r h q with h1 | h1
  · rw [h1]; exact hq
  · exact h1.1

/-- Where only directories have children, the loop of `findAndMarkAllChildNodes` over a list
of children leaves these children and all their descendants `Processed`. -/
theorem findAndMark_loop_complete (nodes : NodePtr → Node) (fuel : Nat)
    (hF : OnlyDirectoriesHaveChildren nodes)
    (ih : ∀ p st r, findAndMarkAllChildNodes nodes fuel p st = some r →
      ∀ q, TreeDescendant nodes p q → r q = NodeStatus.Processed) :
    ∀ (l : List NodePtr) (st r : NodePtr → NodeStatus),
      l.foldlM
        (fun st childNode =>
          (if (nodes childNode).type = NodeType.Directory
            then findAndMarkAllChildNodes nodes fuel childNode st
            else some st).bind
          (fun st1 => some (setStatus st1 childNode NodeStatus.Processed))) st = some r →
      ∀ c ∈ l, ∀ q, (q = c ∨ TreeDescendant nodes c q) → r q = NodeStatus.Processed := by
  intro l
  induction l with
  | nil => intro st r _ c hc; simp at hc
  | cons c rest ihl =>
    intro st r h x hx q hq
    rw [List.foldlM_cons] at h
    have key : ∀ st1, (∀ q, TreeDescendant nodes c q → st1 q = NodeStatus.Processed) →
        List.foldlM
          (fun st childNode =>
            (if (nodes childNode).type = NodeType.Directory
              then findAndMarkAllChildNodes nodes fuel childNode st
              else some st).bind
            (fun st1 => some (setStatus st1 childNode NodeStatus.Processed)))
          (setStatus st1 c NodeStatus.Processed) rest = some r →
        r q = NodeStatus.Processed := by
      intro st1 h1 hfold
      have hmono : ∀ y, setStatus st1 c NodeStatus.Processed y = NodeStatus.Processed →
          r y = NodeStatus.Processed := by
        intro y hy
        rcases (findAndMark_loop_spec nodes fuel (findAndMark_spec nodes fuel) _ _ _ hfold).1 y
          with h2 | h2
        · rw [h2]; exact hy
        · exact h2.1
      rcases List.mem_cons.mp hx with hx | hx
      · subst hx
        apply hmono
        rcases hq with hq | hq
        · rw [hq, setStatus_same]
        · exact setStatus_processed_mono _ _ _ (h1 q hq)
      · exact ihl _ _ hfold x hx q hq
    by_cases hdir : (nodes c).type = NodeType.Directory
    · simp only [hdir, if_true, Option.bind_eq_bind] at h
      cases hr1 : findAndMarkAllChildNodes nodes fuel c st with
      | none => simp [hr1] at h
      | some st1 =>
        simp only [hr1, Option.some_bind] at h
        exact key st1 (ih c st st1 hr1) h
    · simp only [hdir, if_false, Option.bind_eq_bind, Option.some_bind] at h
      refine key st ?_ h
      intro y hy
      rw [treeDescendant_iff] at hy
      obtain ⟨z, hz, _⟩ := hy
      rw [hF c hdir] at hz
      simp at hz

/-- Where only directories have children, `findAndMarkAllChildNodes` leaves every descendant
of the start node `Processed`. -/
theorem findAndMark_complete (nodes : NodePtr → Node)
    (hF : OnlyDirectoriesHaveChildren nodes) :
    ∀ (fuel : Nat) (p : NodePtr) (st r : NodePtr → NodeStatus),
      findAndMarkAllChildNodes nodes fuel p st = some r →
      ∀ q, TreeDescendant nodes p q → r q = NodeStatus.Processed := by
  intro fuel
  induction fuel with
  | zero => intro p st r h; simp [findAndMarkAllChildNodes] at h
  | succ fuel ih =>
    intro p st r h q hq
    unfold findAndMarkAllChildNodes at h
    rw [treeDescendant_iff] at hq
    obtain ⟨c, hc, hcq⟩ := hq
    exact findAndMark_loop_complete nodes fuel hF ih _ _ _ h c hc q hcq

/-- Pushing nothing. -/
theorem Emits.refl (env : GeneratorEnv) (n : NodePtr) (st : GeneratorState) :
    Emits env n st st [] where
  ops := by simp
  affected := by simp
  mono := fun _ h => h
  started := fun _ h => h
  marked := fun _ h => Or.inl h
  bytes := by simp
  deletedMono := fun _ h => h
  deletedNew := fun _ h => Or.inl h
  deletes := by simp
  pseudo := by simp

/-- Pushing two blocks for the same node, one after the other. -/
theorem Emits.trans {env : GeneratorEnv} {n : NodePtr} {st st1 st2 : GeneratorState}
    {b1 b2 : List SyncOperation} (h1 : Emits env n st st1 b1) (h2 : Emits env n st1 st2 b2) :
    Emits env n st st2 (b1 ++ b2) where
  ops := by rw [h2.ops, h1.ops, List.append_assoc]
  affected := by
    intro op hop
    rcases List.mem_append.mp hop with h | h
    · exact h1.affected op h
    · exact h2.affected op h
  mono := fun q h => h2.mono q (h1.mono q h)
  started := fun q h => h2.started q (h1.started q h)
  marked := by
    intro q hq
    rcases h2.marked q hq with h | h | ⟨op, hop, hm⟩
    · rcases h1.marked q h with h | h | ⟨op, hop, hm⟩
      · exact Or.inl h
      · exact Or.inr (Or.inl h)
      · exact Or.inr (Or.inr ⟨op, List.mem_append_left _ hop, hm⟩)
    · exact Or.inr (Or.inl h)
    · exact Or.inr (Or.inr ⟨op, List.mem_append_right _ hop, hm⟩)
  bytes := by
    intro total ht
    rw [h2.bytes _ (h1.bytes total ht), List.map_append, List.sum_append, add_assoc]
  deletedMono := fun i h => h2.deletedMono i (h1.deletedMono i h)
  deletedNew := by
    intro i hi
    rcases h2.deletedNew i hi with h | ⟨hid, op, hop, ht⟩
    · rcases h1.deletedNew i h with h | ⟨hid, op, hop, ht⟩
      · exact Or.inl h
      · exact Or.inr ⟨hid, op, List.mem_append_left _ hop, ht⟩
    · exact Or.inr ⟨hid, op, List.mem_append_right _ hop, ht⟩
  deletes := by
    intro op hop ht
    rcases List.mem_append.mp hop with h | h
    · obtain ⟨c, i, hc, hs, hid, hi, hd⟩ := h1.deletes op h ht
      exact ⟨c, i, hc, h2.mono c hs, hid, h2.deletedMono i hi,
        fun hF d hdesc => h2.mono d (hd hF d hdesc)⟩
    · exact h2.deletes op h ht
  pseudo := by
    intro op hop ht c hc hp
    rcases List.mem_append.mp hop with h | h
    · obtain ⟨ho, hcor, hs⟩ := h1.pseudo op h ht c hc hp
      exact ⟨ho, hcor, h2.mono c hs⟩
    · exact h2.pseudo op h ht c hc hp

/-- Pushing one Create, Edit or Move operation for a node: the corresponding node `mark` has
been set to `Processed` in the case of a pseudo-conflict, then the node gets a status other
than `Unprocessed`. -/
theorem emits_single (env : GeneratorEnv) (st st1 : GeneratorState) (n : NodePtr)
    (mark : Option NodePtr) (status1 : NodePtr → NodeStatus) (v : NodeStatus)
    (op : SyncOperation)
    (hmark : ∀ c, mark = some c →
      env.isPseudoConflict n c = true ∧ op.omit_ = true ∧ op.correspondingNode = some c ∧
        status1 c = NodeStatus.Processed)
    (hpseudo : ∀ c, env.correspondingNodeInOtherTree n = some c →
      env.isPseudoConflict n c = true → mark = some c)
    (hstatus1 : ∀ q, status1 q = st.status q ∨ mark = some q)
    (hstatus : st1.status = setStatus status1 n v)
    (hv : v ≠ NodeStatus.Unprocessed)
    (hvmono : status1 n = NodeStatus.Processed → v = NodeStatus.Processed)
    (haff : op.affectedNode = some n)
    (htype : op.type ≠ OperationType.Delete)
    (hev : (env.nodes n).hasChangeEvent op.type = true)
    (hops : st1.syncOps = st.syncOps ++ [op])
    (hbytes : ∀ total, st.bytesToDownload = wrapInt64 total →
      st1.bytesToDownload = wrapInt64 (total + opBytes env op))
    (hdel : st1.deletedNodes = st.deletedNodes) :
    Emits env n st st1 [op] := by
  have hother : ∀ q, q ≠ n → st1.status q = status1 q := by
    intro q hq
    rw [hstatus, setStatus_other _ _ _ _ hq]
  have hself : st1.status n = v := by rw [hstatus, setStatus_same]
  have hmono1 : ∀ q, st.status q = NodeStatus.Processed → status1 q = NodeStatus.Processed := by
    intro q hq
    rcases hstatus1 q with h | h
    · rw [h]; exact hq
    · exact (hmark q h).2.2.2
  refine { ops := hops, affected := ?_, mono := ?_, started := ?_, marked := ?_, bytes := ?_,
           deletedMono := ?_, deletedNew := ?_, deletes := ?_, pseudo := ?_ }
  · intro o ho
    simp only [List.mem_singleton] at ho
    subst ho
    exact ⟨haff, hev⟩
  · intro q hq
    by_cases hqn : q = n
    · subst hqn
      rw [hself]
      exact hvmono (hmono1 q hq)
    · rw [hother q hqn]
      exact hmono1 q hq
  · intro q hq
    by_cases hqn : q = n
    · subst hqn
      rw [hself]
      exact hv
    · rw [hother q hqn]
      rcases hstatus1 q with h | h
      · rw [h]; exact hq
      · rw [(hmark q h).2.2.2]; decide
  · intro q hq
    by_cases hqn : q = n
    · exact Or.inr (Or.inl hqn)
    · rw [hother q hqn] at hq
      rcases hstatus1 q with h | h
      · rw [h] at hq; exact Or.inl hq
      · obtain ⟨h1, _, h3, _⟩ := hmark q h
        exact Or.inr (Or.inr ⟨op, List.mem_singleton_self _,
          Or.inr ⟨htype, h3, n, haff, h1⟩⟩)
  · intro total ht
    simpa using hbytes total ht
  · intro i hi
    rw [hdel]
    exact hi
  · intro i hi
    rw [hdel] at hi
    exact Or.inl hi
  · intro o ho ht
    simp only [List.mem_singleton] at ho
    subst ho
    exact absurd ht htype
  · intro o ho _ c hc hp
    simp only [List.mem_singleton] at ho
    subst ho
    obtain ⟨_, h2, h3, h4⟩ := hmark c (hpseudo c hc hp)
    refine ⟨h2, h3, ?_⟩
    by_cases hcn : c = n
    · subst hcn
      rw [hself]
      exact hvmono h4
    · rw [hother c hcn]
      exact h4

/-- What `generateCreateOperation` pushes. -/
theorem generateCreateOperation_emits (env : GeneratorEnv) (st : GeneratorState) (n : NodePtr)
    (hC : (env.nodes n).hasChangeEvent OperationType.Create = true) :
    ∃ op : SyncOperation,
      Emits env n st
        (generateCreateOperation env st n (env.correspondingNodeInOtherTree n)) [op] ∧
      op.type = OperationType.Create ∧
      (generateCreateOperation env st n (env.correspondingNodeInOtherTree n)).status n
        = NodeStatus.Processed := by
  cases hcorr : env.correspondingNodeInOtherTree n with
  | none =>
    refine ⟨_, emits_single env st _ n none st.status NodeStatus.Processed _
      (by intro c hc; cases hc) (by intro c hc; rw [hcorr] at hc; cases hc)
      (fun _ => Or.inl rfl) rfl (by decide) (fun _ => rfl) rfl ?_ hC rfl ?_ rfl, rfl,
      setStatus_same _ _ _⟩
    · simp [generateCreateOperation]
    · simp only [generateCreateOperation, opBytes]
      split_ifs <;> simp_all [wrapInt64_add_left]
  | some c =>
    by_cases hp : env.isPseudoConflict n c = true
    · refine ⟨_, emits_single env st _ n (some c)
        (setStatus st.status c NodeStatus.Processed) NodeStatus.Processed _
        ?_ ?_ ?_ ?_ (by decide) (fun _ => rfl) rfl ?_ hC rfl ?_ rfl, rfl, ?_⟩
      · intro c1 hc1
        cases hc1
        exact ⟨hp, by simp [generateCreateOperation, hp],
          by simp [generateCreateOperation, hp], setStatus_same _ _ _⟩
      · intro c1 hc1 _
        rw [hcorr] at hc1
        exact hc1
      · intro q
        by_cases hq : q = c
        · exact Or.inr (by rw [hq])
        · exact Or.inl (setStatus_other _ _ _ _ hq)
      · simp [generateCreateOperation, hp]
      · simp [generateCreateOperation]
      · simp [generateCreateOperation, opBytes, hp]
      · simp [generateCreateOperation, setStatus]
    · refine ⟨_, emits_single env st _ n none st.status NodeStatus.Processed _
        (by intro c hc; cases hc) ?_
        (fun _ => Or.inl rfl) ?_ (by decide) (fun _ => rfl) rfl ?_ hC rfl ?_ rfl, rfl, ?_⟩
      · intro c1 hc1 hp1
        rw [hcorr] at hc1
        cases hc1
        exact absurd hp1 hp
      · simp [generateCreateOperation, hp]
      · simp [generateCreateOperation]
      · simp only [Bool.not_eq_true] at hp
        simp only [generateCreateOperation, opBytes, hp]
        split_ifs <;> simp_all [wrapInt64_add_left]
      · simp [generateCreateOperation, setStatus]

/-- What `generateEditOperation` pushes. -/
theorem generateEditOperation_emits (env : GeneratorEnv) (st : GeneratorState) (n c : NodePtr)
    (hcorr : env.correspondingNodeInOtherTree n = some c)
    (hE : (env.nodes n).hasChangeEvent OperationType.Edit = true) :
    ∃ (st1 : GeneratorState) (op : SyncOperation),
      generateEditOperation env st n (some c) = some st1 ∧
      Emits env n st st1 [op] ∧ op.type = OperationType.Edit ∧
      (st.status n ≠ NodeStatus.Unprocessed ∨
          (env.nodes n).hasChangeEvent OperationType.Move = false →
        st1.status n = NodeStatus.Processed) ∧
      st1.status n ≠ NodeStatus.Unprocessed := by
  have hs1 : ∀ q, (if env.isPseudoConflict n c = true
        then setStatus st.status c NodeStatus.Processed else st.status) q = st.status q ∨
      (if env.isPseudoConflict n c = true then some c else none) = some q := by
    intro q
    by_cases hp : env.isPseudoConflict n c = true
    · by_cases hq : q = c
      · right; rw [if_pos hp, hq]
      · left; rw [if_pos hp, setStatus_other _ _ _ _ hq]
    · left; rw [if_neg hp]
  refine ⟨_,
    { type := OperationType.Edit, affectedNode := some n, correspondingNode := some c,
      targetSide := (env.nodes c).side, omit_ := env.isPseudoConflict n c },
    rfl, ?_, rfl, ?_, ?_⟩
  · apply emits_single env st _ n (if env.isPseudoConflict n c = true then some c else none)
      (if env.isPseudoConflict n c = true
        then setStatus st.status c NodeStatus.Processed else st.status)
      (if (env.nodes n).hasChangeEvent OperationType.Move = true
          ∧ (if env.isPseudoConflict n c = true
              then setStatus st.status c NodeStatus.Processed else st.status) n
            = NodeStatus.Unprocessed
        then NodeStatus.PartiallyProcessed else NodeStatus.Processed)
    · intro c1 hc1
      by_cases hp : env.isPseudoConflict n c = true
      · rw [if_pos hp] at hc1
        cases hc1
        exact ⟨hp, hp, rfl, by rw [if_pos hp, setStatus_same]⟩
      · rw [if_neg hp] at hc1
        cases hc1
    · intro c1 hc1 hp
      rw [hcorr] at hc1
      cases hc1
      rw [if_pos hp]
    · exact hs1
    · show (if _ then _ else _) = _
      split_ifs <;> rfl
    · split_ifs <;> decide
    · intro h
      rw [if_neg]
      rw [h]
      simp
    · rfl
    · show OperationType.Edit ≠ OperationType.Delete
      decide
    · exact hE
    · rfl
    · intro total ht
      show (if _ then _ else _) = _
      simp only [opBytes, sizeOf?]
      split_ifs <;> simp_all [wrapInt64_add_left, wrapInt64_add_right]
    · rfl
  · intro h
    show (ite _ _ _ : NodePtr → NodeStatus) n = _
    rw [if_neg]
    · exact setStatus_same _ _ _
    · rintro ⟨h1, h2⟩
      rcases h with h | h
      · apply h
        rcases hs1 n with h3 | h3
        · rw [← h3]; exact h2
        · by_cases hp : env.isPseudoConflict n c = true
          · rw [if_pos hp] at h3 h2
            cases h3
            rw [setStatus_same] at h2
            cases h2
          · rw [if_neg hp] at h3
            cases h3
      · rw [h] at h1
        cases h1
  · show (ite _ _ _ : NodePtr → NodeStatus) n ≠ _
    split_ifs <;> rw [setStatus_same] <;> decide

/-- What `generateMoveOperation` pushes. -/
theorem generateMoveOperation_emits (env : GeneratorEnv) (st : GeneratorState) (n c : NodePtr)
    (hcorr : env.correspondingNodeInOtherTree n = some c)
    (hM : (env.nodes n).hasChangeEvent OperationType.Move = true) :
    ∃ (st1 : GeneratorState) (op : SyncOperation),
      generateMoveOperation env st n (some c) = some st1 ∧
      Emits env n st st1 [op] ∧ op.type = OperationType.Move ∧
      (st.status n ≠ NodeStatus.Unprocessed ∨
          (env.nodes n).hasChangeEvent OperationType.Edit = false →
        st1.status n = NodeStatus.Processed) := by
  have hs1 : ∀ q, (if env.isPseudoConflict n c = true
        then setStatus st.status c NodeStatus.Processed else st.status) q = st.status q ∨
      (if env.isPseudoConflict n c = true then some c else none) = some q := by
    intro q
    by_cases hp : env.isPseudoConflict n c = true
    · by_cases hq : q = c
      · right; rw [if_pos hp, hq]
      · left; rw [if_pos hp, setStatus_other _ _ _ _ hq]
    · left; rw [if_neg hp]
  refine ⟨_,
    { type := OperationType.Move, affectedNode := some n, correspondingNode := some c,
      targetSide := (env.nodes c).side,
      omit_ := env.isPseudoConflict n c ||
        (decide ((env.nodes n).side = ReplicaSide.Remote)
          && decide ((env.nodes c).validLocalName = "")
          && decide ((env.nodes n).validLocalName = (env.nodes c).name)),
      newName :=
        if (env.nodes c).side = ReplicaSide.Local then env.finalLocalName n
        else (env.nodes n).name },
    rfl, ?_, rfl, ?_⟩
  · apply emits_single env st _ n (if env.isPseudoConflict n c = true then some c else none)
      (if env.isPseudoConflict n c = true
        then setStatus st.status c NodeStatus.Processed else st.status)
      (if (env.nodes n).hasChangeEvent OperationType.Edit = true
          ∧ (if env.isPseudoConflict n c = true
              then setStatus st.status c NodeStatus.Processed else st.status) n
            = NodeStatus.Unprocessed
        then NodeStatus.PartiallyProcessed else NodeStatus.Processed)
    · intro c1 hc1
      by_cases hp : env.isPseudoConflict n c = true
      · rw [if_pos hp] at hc1
        cases hc1
        exact ⟨hp, by simp [hp], rfl, by rw [if_pos hp, setStatus_same]⟩
      · rw [if_neg hp] at hc1
        cases hc1
    · intro c1 hc1 hp
      rw [hcorr] at hc1
      cases hc1
      rw [if_pos hp]
    · exact hs1
    · show (if _ then _ else _) = _
      split_ifs <;> rfl
    · split_ifs <;> decide
    · intro h
      rw [if_neg]
      rw [h]
      simp
    · rfl
    · show OperationType.Move ≠ OperationType.Delete
      decide
    · exact hM
    · rfl
    · intro total ht
      show st.bytesToDownload = _
      simpa [opBytes] using ht
    · rfl
  · intro h
    show (ite _ _ _ : NodePtr → NodeStatus) n = _
    rw [if_neg]
    · exact setStatus_same _ _ _
    · rintro ⟨h1, h2⟩
      rcases h with h | h
      · apply h
        rcases hs1 n with h3 | h3
        · rw [← h3]; exact h2
        · by_cases hp : env.isPseudoConflict n c = true
          · rw [if_pos hp] at h3 h2
            cases h3
            rw [setStatus_same] at h2
            cases h2
          · rw [if_neg hp] at h3
            cases h3
      · rw [h] at h1
        cases h1

/-- What `generateDeleteOperation` pushes: nothing when the id of the parent is among the
deleted ids, else one Delete operation. -/
theorem generateDeleteOperation_emits (env : GeneratorEnv) (markFuel : Nat)
    (st st1 : GeneratorState) (n c : NodePtr)
    (hD : (env.nodes n).hasChangeEvent OperationType.Delete = true)
    (h : generateDeleteOperation env markFuel st n (some c) = some st1) :
    (st1 = st ∧ ∃ p pid, (env.nodes n).parentNode = some p ∧ (env.nodes p).id = some pid ∧
      pid ∈ st.deletedNodes) ∨
    (∃ op : SyncOperation, Emits env n st st1 [op] ∧ op.type = OperationType.Delete ∧
      st1.status n = NodeStatus.Processed) := by
  unfold generateDeleteOperation at h
  cases hpar : (env.nodes n).parentNode with
  | none => simp [hpar] at h
  | some parent =>
    cases hpid : (env.nodes parent).id with
    | none => simp [hpar, hpid] at h
    | some parentId =>
      simp only [hpar, hpid] at h
      by_cases hmem : parentId ∈ st.deletedNodes
      · rw [if_pos hmem] at h
        cases h
        exact Or.inl ⟨rfl, parent, parentId, rfl, hpid, hmem⟩
      · rw [if_neg hmem] at h
        cases h1 : findAndMarkAllChildNodes env.nodes markFuel n st.status with
        | none => simp [h1] at h
        | some status1 =>
          simp only [h1] at h
          cases h3 : findAndMarkAllChildNodes env.nodes markFuel c
              (setStatus status1 n NodeStatus.Processed) with
          | none => simp [h3] at h
          | some status3 =>
            simp only [h3] at h
            cases hid : (env.nodes n).id with
            | none => simp [hid] at h
            | some currentId =>
              simp only [hid, Option.some.injEq] at h
              subst h
              have s1 := findAndMark_spec env.nodes markFuel n st.status status1 h1
              have s3 := findAndMark_spec env.nodes markFuel c _ status3 h3
              have hn3 : status3 n = NodeStatus.Processed :=
                findAndMark_mono env.nodes markFuel c _ status3 h3 n (setStatus_same _ _ _)
              have hmono : ∀ q, st.status q = NodeStatus.Processed →
                  setStatus status3 c NodeStatus.Processed q = NodeStatus.Processed := by
                intro q hq
                apply setStatus_processed_mono
                apply findAndMark_mono env.nodes markFuel c _ status3 h3
                apply setStatus_processed_mono
                exact findAndMark_mono env.nodes markFuel n _ status1 h1 q hq
              right
              refine ⟨{ type := OperationType.Delete, affectedNode := some n,
                        correspondingNode := some c, targetSide := (env.nodes c).side,
                        omit_ := (env.nodes c).hasChangeEvent OperationType.Delete },
                { ops := rfl, affected := ?_, mono := hmono, started := ?_, marked := ?_,
                  bytes := ?_, deletedMono := ?_, deletedNew := ?_, deletes := ?_,
                  pseudo := ?_ }, rfl, setStatus_processed_mono _ _ _ hn3⟩
              · intro o ho
                simp only [List.mem_singleton] at ho
                subst ho
                exact ⟨rfl, hD⟩
              · intro q hq
                show setStatus status3 c NodeStatus.Processed q ≠ _
                by_cases hqc : q = c
                · rw [hqc, setStatus_same]; decide
                · rw [setStatus_other _ _ _ _ hqc]
                  rcases s3 q with e3 | ⟨e3, _⟩
                  · rw [e3]
                    by_cases hqn : q = n
                    · rw [hqn, setStatus_same]; decide
                    · rw [setStatus_other _ _ _ _ hqn]
                      rcases s1 q with e1 | ⟨e1, _⟩
                      · rw [e1]; exact hq
                      · rw [e1]; decide
                  · rw [e3]; decide
              · intro q hq
                change setStatus status3 c NodeStatus.Processed q = _ at hq
                by_cases hqn : q = n
                · exact Or.inr (Or.inl hqn)
                by_cases hqc : q = c
                · exact Or.inr (Or.inr ⟨_, List.mem_singleton_self _,
                    Or.inl ⟨rfl, n, c, rfl, rfl, Or.inr (Or.inl hqc)⟩⟩)
                rw [setStatus_other _ _ _ _ hqc] at hq
                rcases s3 q with e3 | ⟨_, hd⟩
                · rw [e3, setStatus_other _ _ _ _ hqn] at hq
                  rcases s1 q with e1 | ⟨_, hd⟩
                  · rw [e1] at hq; exact Or.inl hq
                  · exact Or.inr (Or.inr ⟨_, List.mem_singleton_self _,
                      Or.inl ⟨rfl, n, c, rfl, rfl, Or.inl hd⟩⟩)
                · exact Or.inr (Or.inr ⟨_, List.mem_singleton_self _,
                    Or.inl ⟨rfl, n, c, rfl, rfl, Or.inr (Or.inr hd)⟩⟩)
              · intro total ht
                show st.bytesToDownload = _
                simpa [opBytes] using ht
              · intro i hi
                exact (mem_setInsert _ _ _).mpr (Or.inl hi)
              · intro i hi
                rcases (mem_setInsert _ _ _).mp hi with h | h
                · exact Or.inl h
                · exact Or.inr ⟨by rw [hid, h], _, List.mem_singleton_self _, rfl⟩
              · intro o ho _
                simp only [List.mem_singleton] at ho
                subst ho
                refine ⟨c, currentId, rfl, setStatus_same _ _ _, hid,
                  (mem_setInsert _ _ _).mpr (Or.inr rfl), ?_⟩
                intro hF d hd
                apply setStatus_processed_mono
                rcases hd with hd | hd
                · apply findAndMark_mono env.nodes markFuel c _ status3 h3
                  apply setStatus_processed_mono
                  exact findAndMark_complete env.nodes hF markFuel n _ status1 h1 d hd
                · exact findAndMark_complete env.nodes hF markFuel c _ status3 h3 d hd
              · intro o ho ht
                simp only [List.mem_singleton] at ho
                subst ho
                exact absurd rfl ht

/-- What one pass of the exploration loop pushes for a node: either the pass breaks with
`DataError` and leaves the state unchanged, or it pushes at most one Create, one Delete, one
Edit and one Move operation, in this order. A node for which something was pushed ends
`Processed`; an event without operation is the Create of a shared folder of the local side or
a Delete under a parent whose id is among the deleted ids. -/
theorem visitNode_spec (env : GeneratorEnv) (markFuel : Nat) (st st1 : GeneratorState)
    (n : NodePtr) (code : ExitCode) (h : visitNode env markFuel st n = some (code, st1)) :
    (code = ExitCode.DataError ∧ st1 = st ∧ env.correspondingNodeInOtherTree n = none ∧
      (env.nodes n).hasChangeEvent OperationType.Create = false ∧
      ((env.nodes n).hasChangeEvent OperationType.Delete = true
        ∨ (env.nodes n).hasChangeEvent OperationType.Edit = true
        ∨ (env.nodes n).hasChangeEvent OperationType.Move = true)) ∨
    (code = ExitCode.Unknown ∧ ∃ b1 b2 b3 b4 : List SyncOperation,
      Emits env n st st1 (b1 ++ b2 ++ b3 ++ b4) ∧
      (b1 = [] ∨ ∃ op, b1 = [op] ∧ op.type = OperationType.Create) ∧
      (b2 = [] ∨ ∃ op, b2 = [op] ∧ op.type = OperationType.Delete) ∧
      (b3 = [] ∨ ∃ op, b3 = [op] ∧ op.type = OperationType.Edit) ∧
      (b4 = [] ∨ ∃ op, b4 = [op] ∧ op.type = OperationType.Move) ∧
      (b1 ++ b2 ++ b3 ++ b4 ≠ [] → st1.status n = NodeStatus.Processed) ∧
      ((env.nodes n).hasChangeEvent OperationType.Create = true →
        b1 ≠ [] ∨ ((env.nodes n).side = ReplicaSide.Local ∧
          (env.nodes n).isSharedFolder = true)) ∧
      ((env.nodes n).hasChangeEvent OperationType.Delete = true →
        b2 ≠ [] ∨ ∃ p pid, (env.nodes n).parentNode = some p ∧ (env.nodes p).id = some pid ∧
          pid ∈ st1.deletedNodes) ∧
      ((env.nodes n).hasChangeEvent OperationType.Edit = true → b3 ≠ []) ∧
      ((env.nodes n).hasChangeEvent OperationType.Move = true → b4 ≠ [])) := by
  by_cases hdata : env.correspondingNodeInOtherTree n = none
      ∧ (env.nodes n).hasChangeEvent OperationType.Create = false
      ∧ ((env.nodes n).hasChangeEvent OperationType.Delete = true
        ∨ (env.nodes n).hasChangeEvent OperationType.Edit = true
        ∨ (env.nodes n).hasChangeEvent OperationType.Move = true)
  · simp only [visitNode, if_pos hdata, Option.some.injEq, Prod.mk.injEq] at h
    exact Or.inl ⟨h.1.symm, h.2.symm, hdata⟩
  simp only [visitNode, if_neg hdata] at h
  -- Create
  have hA : ∃ (sA : GeneratorState) (b1 : List SyncOperation),
      (if (env.nodes n).hasChangeEvent OperationType.Create = true
          ∧ ¬ ((env.nodes n).side = ReplicaSide.Local ∧ (env.nodes n).isSharedFolder = true)
        then generateCreateOperation env st n (env.correspondingNodeInOtherTree n) else st)
        = sA ∧
      Emits env n st sA b1 ∧
      (b1 = [] ∨ ∃ op, b1 = [op] ∧ op.type = OperationType.Create) ∧
      (b1 ≠ [] → sA.status n = NodeStatus.Processed) ∧
      ((env.nodes n).hasChangeEvent OperationType.Create = true →
        b1 ≠ [] ∨ ((env.nodes n).side = ReplicaSide.Local ∧
          (env.nodes n).isSharedFolder = true)) := by
    by_cases hc : (env.nodes n).hasChangeEvent OperationType.Create = true
        ∧ ¬ ((env.nodes n).side = ReplicaSide.Local ∧ (env.nodes n).isSharedFolder = true)
    · obtain ⟨op, he, ht, hs⟩ := generateCreateOperation_emits env st n hc.1
      exact ⟨_, [op], if_pos hc, he, Or.inr ⟨op, rfl, ht⟩, fun _ => hs,
        fun _ => Or.inl (by simp)⟩
    · refine ⟨st, [], if_neg hc, Emits.refl env n st, Or.inl rfl, fun hne => absurd rfl hne,
        fun hcr => Or.inr ?_⟩
      by_contra hsh
      exact hc ⟨hcr, hsh⟩
  obtain ⟨sA, b1, hsA, eA, shA, stA, covA⟩ := hA
  rw [hsA] at h
  -- Delete
  cases hB : (if (env.nodes n).hasChangeEvent OperationType.Delete = true
      then generateDeleteOperation env markFuel sA n (env.correspondingNodeInOtherTree n)
      else some sA) with
  | none => rw [hB] at h; simp at h
  | some sB =>
    rw [hB] at h
    simp only [Option.bind_eq_bind, Option.some_bind] at h
    have hB2 : ∃ b2 : List SyncOperation, Emits env n sA sB b2 ∧
        (b2 = [] ∨ ∃ op, b2 = [op] ∧ op.type = OperationType.Delete) ∧
        (b2 ≠ [] → sB.status n = NodeStatus.Processed) ∧
        ((env.nodes n).hasChangeEvent OperationType.Delete = true →
          b2 ≠ [] ∨ ∃ p pid, (env.nodes n).parentNode = some p ∧
            (env.nodes p).id = some pid ∧ pid ∈ sB.deletedNodes) := by
      by_cases hd : (env.nodes n).hasChangeEvent OperationType.Delete = true
      · rw [if_pos hd] at hB
        cases hcorr : env.correspondingNodeInOtherTree n with
        | none => rw [hcorr] at hB; simp [generateDeleteOperation] at hB
        | some c =>
          rw [hcorr] at hB
          rcases generateDeleteOperation_emits env markFuel sA sB n c hd hB with
            ⟨he, p, pid, h1, h2, h3⟩ | ⟨op, he, ht, hs⟩
          · subst he
            exact ⟨[], Emits.refl env n sB, Or.inl rfl, fun hne => absurd rfl hne,
              fun _ => Or.inr ⟨p, pid, h1, h2, h3⟩⟩
          · exact ⟨[op], he, Or.inr ⟨op, rfl, ht⟩, fun _ => hs, fun _ => Or.inl (by simp)⟩
      · rw [if_neg hd] at hB
        cases hB
        exact ⟨[], Emits.refl env n sA, Or.inl rfl, fun hne => absurd rfl hne,
          fun hd1 => absurd hd1 hd⟩
    obtain ⟨b2, eB, shB, stB, covB⟩ := hB2
    -- Edit
    cases hC : (if (env.nodes n).hasChangeEvent OperationType.Edit = true
        then generateEditOperation env sB n (env.correspondingNodeInOtherTree n)
        else some sB) with
    | none => rw [hC] at h; simp at h
    | some sC =>
      rw [hC] at h
      simp only [Option.some_bind] at h
      have hC2 : ∃ b3 : List SyncOperation, Emits env n sB sC b3 ∧
          (b3 = [] ∨ ∃ op, b3 = [op] ∧ op.type = OperationType.Edit) ∧
          (b3 ≠ [] → sB.status n ≠ NodeStatus.Unprocessed ∨
              (env.nodes n).hasChangeEvent OperationType.Move = false →
            sC.status n = NodeStatus.Processed) ∧
          (b3 ≠ [] → sC.status n ≠ NodeStatus.Unprocessed) ∧
          ((env.nodes n).hasChangeEvent OperationType.Edit = true → b3 ≠ []) := by
        by_cases hd : (env.nodes n).hasChangeEvent OperationType.Edit = true
        · rw [if_pos hd] at hC
          cases hcorr : env.correspondingNodeInOtherTree n with
          | none => rw [hcorr] at hC; simp [generateEditOperation] at hC
          | some c =>
            rw [hcorr] at hC
            obtain ⟨s, op, hs, he, ht, hst, hst2⟩ :=
              generateEditOperation_emits env sB n c hcorr hd
            rw [hs] at hC
            cases hC
            exact ⟨[op], he, Or.inr ⟨op, rfl, ht⟩, fun _ => hst, fun _ => hst2,
              fun _ => by simp⟩
        · rw [if_neg hd] at hC
          cases hC
          exact ⟨[], Emits.refl env n sB, Or.inl rfl, fun hne => absurd rfl hne,
            fun hne => absurd rfl hne, fun hd1 => absurd hd1 hd⟩
      obtain ⟨b3, eC, shC, stC, stC2, covC⟩ := hC2
      -- Move
      cases hD : (if (env.nodes n).hasChangeEvent OperationType.Move = true
          then generateMoveOperation env sC n (env.correspondingNodeInOtherTree n)
          else some sC) with
      | none => rw [hD] at h; simp at h
      | some sD =>
        rw [hD] at h
        simp only [Option.some_bind, Option.some.injEq, Prod.mk.injEq] at h
        obtain ⟨hcode, hst⟩ := h
        subst hst
        have hD2 : ∃ b4 : List SyncOperation, Emits env n sC sD b4 ∧
            (b4 = [] ∨ ∃ op, b4 = [op] ∧ op.type = OperationType.Move) ∧
            (b4 ≠ [] → sC.status n ≠ NodeStatus.Unprocessed ∨
                (env.nodes n).hasChangeEvent OperationType.Edit = false →
              sD.status n = NodeStatus.Processed) ∧
            ((env.nodes n).hasChangeEvent OperationType.Move = true → b4 ≠ []) := by
          by_cases hd : (env.nodes n).hasChangeEvent OperationType.Move = true
          · rw [if_pos hd] at hD
            cases hcorr : env.correspondingNodeInOtherTree n with
            | none => rw [hcorr] at hD; simp [generateMoveOperation] at hD
            | some c =>
              rw [hcorr] at hD
              obtain ⟨s, op, hs, he, ht, hst⟩ :=
                generateMoveOperation_emits env sC n c hcorr hd
              rw [hs] at hD
              cases hD
              exact ⟨[op], he, Or.inr ⟨op, rfl, ht⟩, fun _ => hst, fun _ => by simp⟩
          · rw [if_neg hd] at hD
            cases hD
            exact ⟨[], Emits.refl env n sC, Or.inl rfl, fun hne => absurd rfl hne,
              fun hd1 => absurd hd1 hd⟩
        obtain ⟨b4, eD, shD, stD, covD⟩ := hD2
        refine Or.inr ⟨hcode.symm, b1, b2, b3, b4, (eA.trans eB).trans eC |>.trans eD,
          shA, shB, shC, shD, ?_, covA, ?_, covC, covD⟩
        · intro hne
          -- the status of the node after the Delete stage
          have hAB : b1 ++ b2 ≠ [] → sB.status n = NodeStatus.Processed := by
            intro hne2
            by_cases hb2 : b2 = []
            · subst hb2
              rw [List.append_nil] at hne2
              exact eB.mono n (stA hne2)
            · exact stB hb2
          by_cases hb4 : b4 = []
          · subst hb4
            have hMove : (env.nodes n).hasChangeEvent OperationType.Move = false := by
              by_contra hm
              simp only [Bool.not_eq_false] at hm
              exact covD hm rfl
            by_cases hb3 : b3 = []
            · subst hb3
              simp only [List.append_nil] at hne
              exact eD.mono n (eC.mono n (hAB hne))
            · exact eD.mono n (stC hb3 (Or.inr hMove))
          · by_cases hb3 : b3 = []
            · subst hb3
              by_cases hb12 : b1 ++ b2 = []
              · have hEdit : (env.nodes n).hasChangeEvent OperationType.Edit = false := by
                  by_contra hm
                  simp only [Bool.not_eq_false] at hm
                  exact covC hm rfl
                exact stD hb4 (Or.inr hEdit)
              · apply stD hb4
                left
                rw [eC.mono n (hAB hb12)]
                decide
            · exact stD hb4 (Or.inl (stC2 hb3))
        · intro hd
          rcases covB hd with h0 | ⟨p, pid, h1, h2, h3⟩
          · exact Or.inl h0
          · exact Or.inr ⟨p, pid, h1, h2, eD.deletedMono _ (eC.deletedMono _ h3)⟩

/-- One pass of the exploration loop over a node that is not `Processed`. -/
theorem exploreLoop_visit (env : GeneratorEnv) (markFuel fuel pass : Nat) (m : NodePtr)
    (rest : List (Option NodePtr)) (st : GeneratorState)
    (hstop : env.stopAsked pass = false) (hm : st.status m ≠ NodeStatus.Processed) :
    exploreLoop env markFuel (fuel + 1) pass (some m :: rest) st
      = match visitNode env markFuel st m with
        | none => none
        | some (ExitCode.DataError, st1) =>
          some (ExitCode.DataError, rest ++ (env.nodes m).children.map some, st1)
        | some (_, st1) =>
          exploreLoop env markFuel fuel (pass + 1)
            (rest ++ (env.nodes m).children.map some) st1 := by
  rw [exploreLoop]
  simp only [hstop, Bool.false_eq_true, if_false, if_neg hm]

/-- A property of the generator state that every pass over a node keeps holds when the
exploration loop ends, whatever ends it. -/
theorem exploreLoop_state_inv (env : GeneratorEnv) (markFuel : Nat)
    (P : GeneratorState → Prop)
    (hstep : ∀ st n st1, P st → st.status n ≠ NodeStatus.Processed →
      visitNode env markFuel st n = some (ExitCode.Unknown, st1) → P st1) :
    ∀ (fuel pass : Nat) (queue : List (Option NodePtr)) (st : GeneratorState)
      (code : ExitCode) (q : List (Option NodePtr)) (st1 : GeneratorState),
      P st → exploreLoop env markFuel fuel pass queue st = some (code, q, st1) → P st1 := by
  intro fuel
  induction fuel with
  | zero =>
    intro pass queue st code q st1 hP h
    cases queue with
    | nil =>
      simp only [exploreLoop, Option.some.injEq, Prod.mk.injEq] at h
      rw [← h.2.2]; exact hP
    | cons a l => simp [exploreLoop] at h
  | succ fuel ih =>
    intro pass queue st code q st1 hP h
    cases queue with
    | nil =>
      simp only [exploreLoop, Option.some.injEq, Prod.mk.injEq] at h
      rw [← h.2.2]; exact hP
    | cons front rest =>
      by_cases hstop : env.stopAsked pass = true
      · simp only [exploreLoop, hstop, if_true, Option.some.injEq, Prod.mk.injEq] at h
        rw [← h.2.2]; exact hP
      · simp only [Bool.not_eq_true] at hstop
        cases front with
        | none =>
          simp only [exploreLoop, hstop, Bool.false_eq_true, if_false] at h
          exact ih _ _ _ _ _ _ hP h
        | some m =>
          by_cases hm : st.status m = NodeStatus.Processed
          · simp only [exploreLoop, hstop, Bool.false_eq_true, if_false, if_pos hm] at h
            exact ih _ _ _ _ _ _ hP h
          · rw [exploreLoop_visit env markFuel fuel pass m rest st hstop hm] at h
            cases hv : visitNode env markFuel st m with
            | none => rw [hv] at h; simp at h
            | some r =>
              obtain ⟨c, s⟩ := r
              rcases visitNode_spec env markFuel st s m c hv with ⟨hc, hs, _⟩ | ⟨hc, _⟩
              · subst hc
                subst hs
                rw [hv] at h
                simp only [Option.some.injEq, Prod.mk.injEq] at h
                rw [← h.2.2]; exact hP
              · subst hc
                rw [hv] at h
                exact ih _ _ _ _ _ _ (hstep st m s hP hm hv) h

/-- A property of the queue and the generator state that every pass keeps holds for the empty
queue when the exploration loop ends normally; the loop ends otherwise only on a stop request
or on a changed node without corresponding node. -/
theorem exploreLoop_queue_inv (env : GeneratorEnv) (markFuel : Nat)
    (Q : List (Option NodePtr) → GeneratorState → Prop)
    (hnone : ∀ rest st, Q (none :: rest) st → Q rest st)
    (hskip : ∀ m rest st, Q (some m :: rest) st → st.status m = NodeStatus.Processed →
      Q (rest ++ (env.nodes m).children.map some) st)
    (hvisit : ∀ m rest st st1, Q (some m :: rest) st → st.status m ≠ NodeStatus.Processed →
      visitNode env markFuel st m = some (ExitCode.Unknown, st1) →
      Q (rest ++ (env.nodes m).children.map some) st1) :
    ∀ (fuel pass : Nat) (queue : List (Option NodePtr)) (st : GeneratorState)
      (code : ExitCode) (q : List (Option NodePtr)) (st1 : GeneratorState),
      Q queue st → exploreLoop env markFuel fuel pass queue st = some (code, q, st1) →
      (code = ExitCode.Unknown ∧ q = [] ∧ Q [] st1) ∨
      (code = ExitCode.Ok ∧ ∃ i, env.stopAsked i = true) ∨
      (code = ExitCode.DataError ∧ ∃ m, env.correspondingNodeInOtherTree m = none ∧
        (env.nodes m).hasChangeEvent OperationType.Create = false ∧
        ((env.nodes m).hasChangeEvent OperationType.Delete = true
          ∨ (env.nodes m).hasChangeEvent OperationType.Edit = true
          ∨ (env.nodes m).hasChangeEvent OperationType.Move = true)) := by
  intro fuel
  induction fuel with
  | zero =>
    intro pass queue st code q st1 hQ h
    cases queue with
    | nil =>
      simp only [exploreLoop, Option.some.injEq, Prod.mk.injEq] at h
      obtain ⟨h1, h2, h3⟩ := h
      subst h1; subst h2; subst h3
      exact Or.inl ⟨rfl, rfl, hQ⟩
    | cons a l => simp [exploreLoop] at h
  | succ fuel ih =>
    intro pass queue st code q st1 hQ h
    cases queue with
    | nil =>
      simp only [exploreLoop, Option.some.injEq, Prod.mk.injEq] at h
      obtain ⟨h1, h2, h3⟩ := h
      subst h1; subst h2; subst h3
      exact Or.inl ⟨rfl, rfl, hQ⟩
    | cons front rest =>
      by_cases hstop : env.stopAsked pass = true
      · simp only [exploreLoop, hstop, if_true, Option.some.injEq, Prod.mk.injEq] at h
        exact Or.inr (Or.inl ⟨h.1.symm, pass, hstop⟩)
      · simp only [Bool.not_eq_true] at hstop
        cases front with
        | none =>
          simp only [exploreLoop, hstop, Bool.false_eq_true, if_false] at h
          exact ih _ _ _ _ _ _ (hnone _ _ hQ) h
        | some m =>
          by_cases hm : st.status m = NodeStatus.Processed
          · simp only [exploreLoop, hstop, Bool.false_eq_true, if_false, if_pos hm] at h
            exact ih _ _ _ _ _ _ (hskip _ _ _ hQ hm) h
          · rw [exploreLoop_visit env markFuel fuel pass m rest st hstop hm] at h
            cases hv : visitNode env markFuel st m with
            | none => rw [hv] at h; simp at h
            | some r =>
              obtain ⟨c, s⟩ := r
              rcases visitNode_spec env markFuel st s m c hv with ⟨hc, _, hdata⟩ | ⟨hc, _⟩
              · subst hc
                rw [hv] at h
                simp only [Option.some.injEq, Prod.mk.injEq] at h
                exact Or.inr (Or.inr ⟨h.1.symm, m, hdata⟩)
              · subst hc
                rw [hv] at h
                exact ih _ _ _ _ _ _ (hvisit _ _ _ _ hQ hm hv) h

theorem queueWeight_append (weight : NodePtr → Nat) (l : List (Option NodePtr))
    (cs : List NodePtr) :
    queueWeight weight (l ++ cs.map some) = queueWeight weight l + (cs.map weight).sum := by
  induction l with
  | nil =>
    induction cs with
    | nil => rfl
    | cons c cs ih =>
      simp only [List.nil_append, List.map_cons, queueWeight, List.sum_cons] at ih ⊢
      omega
  | cons a l ih =>
    cases a with
    | none =>
      show 1 + queueWeight weight (l ++ cs.map some) = 1 + queueWeight weight l + _
      rw [ih]; omega
    | some p =>
      show weight p + queueWeight weight (l ++ cs.map some)
        = weight p + queueWeight weight l + _
      rw [ih]; omega

/-- Finite trees are well founded. -/
theorem WellFormedTrees.wellRanked {env : GeneratorEnv} {weight : NodePtr → Nat}
    {markFuel : Nat} (hW : WellFormedTrees env weight markFuel) :
    WellRanked env.nodes weight := by
  intro p c hc
  have h1 := hW.finite p
  have h2 : weight c ≤ ((env.nodes p).children.map weight).sum :=
    List.single_le_sum (fun _ _ => Nat.zero_le _) _ (List.mem_map_of_mem weight hc)
  omega

/-- A changed node that does not end the loop with `DataError` has a corresponding node. -/
theorem WellFormedTrees.corresponding {env : GeneratorEnv} {weight : NodePtr → Nat}
    {markFuel : Nat} (hW : WellFormedTrees env weight markFuel) (n : NodePtr)
    (hdata : ¬ (env.correspondingNodeInOtherTree n = none
      ∧ (env.nodes n).hasChangeEvent OperationType.Create = false
      ∧ ((env.nodes n).hasChangeEvent OperationType.Delete = true
        ∨ (env.nodes n).hasChangeEvent OperationType.Edit = true
        ∨ (env.nodes n).hasChangeEvent OperationType.Move = true)))
    (hev : (env.nodes n).hasChangeEvent OperationType.Delete = true
        ∨ (env.nodes n).hasChangeEvent OperationType.Edit = true
        ∨ (env.nodes n).hasChangeEvent OperationType.Move = true) :
    ∃ c, env.correspondingNodeInOtherTree n = some c := by
  by_cases hc : (env.nodes n).hasChangeEvent OperationType.Create = true
  · exact hW.created n hc hev
  · simp only [Bool.not_eq_true] at hc
    cases hcorr : env.correspondingNodeInOtherTree n with
    | none => exact absurd ⟨hcorr, hc, hev⟩ hdata
    | some c => exact ⟨c, rfl⟩

/-- `generateDeleteOperation` returns on well-formed trees. -/
theorem generateDeleteOperation_isSome (env : GeneratorEnv) (weight : NodePtr → Nat)
    (markFuel : Nat) (hW : WellFormedTrees env weight markFuel) (st : GeneratorState)
    (n c : NodePtr) (hD : (env.nodes n).hasChangeEvent OperationType.Delete = true) :
    ∃ r, generateDeleteOperation env markFuel st n (some c) = some r := by
  obtain ⟨p, pid, i, hp, hpid, hi⟩ := hW.deleted n hD
  obtain ⟨s1, h1⟩ := findAndMark_isSome env.nodes weight hW.wellRanked markFuel n st.status
    (hW.depth n)
  obtain ⟨s3, h3⟩ := findAndMark_isSome env.nodes weight hW.wellRanked markFuel c
    (setStatus s1 n NodeStatus.Processed) (hW.depth c)
  simp only [generateDeleteOperation, hp, hpid, hi, h1, h3]
  split_ifs <;> exact ⟨_, rfl⟩

/-- One pass of the exploration loop returns on well-formed trees. -/
theorem visitNode_isSome (env : GeneratorEnv) (weight : NodePtr → Nat) (markFuel : Nat)
    (hW : WellFormedTrees env weight markFuel) (st : GeneratorState) (n : NodePtr) :
    ∃ r, visitNode env markFuel st n = some r := by
  by_cases hdata : env.correspondingNodeInOtherTree n = none
      ∧ (env.nodes n).hasChangeEvent OperationType.Create = false
      ∧ ((env.nodes n).hasChangeEvent OperationType.Delete = true
        ∨ (env.nodes n).hasChangeEvent OperationType.Edit = true
        ∨ (env.nodes n).hasChangeEvent OperationType.Move = true)
  · simp only [visitNode, if_pos hdata]
    exact ⟨_, rfl⟩
  have hDel : ∀ s, ∃ r, (if (env.nodes n).hasChangeEvent OperationType.Delete = true
      then generateDeleteOperation env markFuel s n (env.correspondingNodeInOtherTree n)
      else some s) = some r := by
    intro s
    by_cases hd : (env.nodes n).hasChangeEvent OperationType.Delete = true
    · obtain ⟨c, hc⟩ := hW.corresponding n hdata (Or.inl hd)
      rw [if_pos hd, hc]
      exact generateDeleteOperation_isSome env weight markFuel hW s n c hd
    · exact ⟨s, if_neg hd⟩
  have hEdit : ∀ s, ∃ r, (if (env.nodes n).hasChangeEvent OperationType.Edit = true
      then generateEditOperation env s n (env.correspondingNodeInOtherTree n)
      else some s) = some r := by
    intro s
    by_cases hd : (env.nodes n).hasChangeEvent OperationType.Edit = true
    · obtain ⟨c, hc⟩ := hW.corresponding n hdata (Or.inr (Or.inl hd))
      rw [if_pos hd, hc]
      exact ⟨_, rfl⟩
    · exact ⟨s, if_neg hd⟩
  have hMove : ∀ s, ∃ r, (if (env.nodes n).hasChangeEvent OperationType.Move = true
      then generateMoveOperation env s n (env.correspondingNodeInOtherTree n)
      else some s) = some r := by
    intro s
    by_cases hd : (env.nodes n).hasChangeEvent OperationType.Move = true
    · obtain ⟨c, hc⟩ := hW.corresponding n hdata (Or.inr (Or.inr hd))
      rw [if_pos hd, hc]
      exact ⟨_, rfl⟩
    · exact ⟨s, if_neg hd⟩
  simp only [visitNode, if_neg hdata]
  obtain ⟨sB, hB⟩ := hDel (if (env.nodes n).hasChangeEvent OperationType.Create = true
      ∧ ¬ ((env.nodes n).side = ReplicaSide.Local ∧ (env.nodes n).isSharedFolder = true)
    then generateCreateOperation env st n (env.correspondingNodeInOtherTree n) else st)
  obtain ⟨sC, hC⟩ := hEdit sB
  obtain ⟨sD, hD⟩ := hMove sC
  rw [hB]
  simp only [Option.bind_eq_bind, Option.some_bind]
  rw [hC]
  simp only [Option.some_bind]
  rw [hD]
  exact ⟨_, rfl⟩

/-- The exploration loop returns on well-formed trees when the bound on the passes is at
least the weight of the queue. -/
theorem exploreLoop_isSome (env : GeneratorEnv) (weight : NodePtr → Nat) (markFuel : Nat)
    (hW : WellFormedTrees env weight markFuel) :
    ∀ (fuel pass : Nat) (queue : List (Option NodePtr)) (st : GeneratorState),
      queueWeight weight queue ≤ fuel →
      ∃ r, exploreLoop env markFuel fuel pass queue st = some r := by
  intro fuel
  induction fuel with
  | zero =>
    intro pass queue st hq
    cases queue with
    | nil =>
      simp only [exploreLoop]
      exact ⟨_, rfl⟩
    | cons a l =>
      cases a with
      | none => simp only [queueWeight] at hq; omega
      | some p =>
        have := hW.finite p
        simp only [queueWeight] at hq
        omega
  | succ fuel ih =>
    intro pass queue st hq
    cases queue with
    | nil =>
      simp only [exploreLoop]
      exact ⟨_, rfl⟩
    | cons front rest =>
      by_cases hstop : env.stopAsked pass = true
      · simp only [exploreLoop, hstop, if_true]
        exact ⟨_, rfl⟩
      · simp only [Bool.not_eq_true] at hstop
        cases front with
        | none =>
          simp only [exploreLoop, hstop, Bool.false_eq_true, if_false]
          apply ih
          simp only [queueWeight] at hq
          omega
        | some m =>
          have hq2 : queueWeight weight (rest ++ (env.nodes m).children.map some) ≤ fuel := by
            rw [queueWeight_append]
            have := hW.finite m
            simp only [queueWeight] at hq
            omega
          by_cases hm : st.status m = NodeStatus.Processed
          · simp only [exploreLoop, hstop, Bool.false_eq_true, if_false, if_pos hm]
            exact ih _ _ _ hq2
          · rw [exploreLoop_visit env markFuel fuel pass m rest st hstop hm]
            obtain ⟨⟨c, s⟩, hv⟩ := visitNode_isSome env weight markFuel hW st m
            rcases visitNode_spec env markFuel st s m c hv with ⟨hc, _⟩ | ⟨hc, _⟩
            · subst hc
              rw [hv]
              exact ⟨_, rfl⟩
            · subst hc
              rw [hv]
              exact ih _ _ _ hq2

/-- `OperationGeneratorWorker::execute` returns on well-formed trees. -/
theorem generatorExecute_isSome (env : GeneratorEnv) (weight : NodePtr → Nat)
    (markFuel fuel : Nat) (queued : List (Option NodePtr))
    (hW : WellFormedTrees env weight markFuel) (st : GeneratorState)
    (hfuel : queueWeight weight
      (queued ++ [env.rootNode ReplicaSide.Local, env.rootNode ReplicaSide.Remote]) ≤ fuel) :
    ∃ r, generatorExecute env markFuel fuel queued st = some r := by
  obtain ⟨⟨c, q, s⟩, h⟩ := exploreLoop_isSome env weight markFuel hW fuel 0 _
    (initialGeneratorState st) hfuel
  simp only [generatorExecute, h]
  split_ifs <;> exact ⟨_, rfl⟩

/-- Where an element of a list extended at the end can lie: in the list or in the
extension. -/
theorem append_eq_append_cons {α : Type} (l b pre post : List α) (x : α)
    (h : l ++ b = pre ++ x :: post) :
    (∃ post0, l = pre ++ x :: post0 ∧ post = post0 ++ b) ∨
    (∃ pre1, pre = l ++ pre1 ∧ b = pre1 ++ x :: post) := by
  rcases List.append_eq_append_iff.mp h with ⟨a, ha, hb⟩ | ⟨c, hc, hd⟩
  · exact Or.inr ⟨a, ha, hb⟩
  · cases c with
    | nil =>
      simp only [List.append_nil, List.nil_append] at hc hd
      exact Or.inr ⟨[], by simp [hc], by simp [hd]⟩
    | cons y c =>
      simp only [List.cons_append, List.cons.injEq] at hd
      obtain ⟨hxy, hpost⟩ := hd
      subst hxy
      exact Or.inl ⟨c, hc, hpost⟩

/-- The types of the operations pushed by one pass are in the order Create, Delete, Edit,
Move, each at most once. -/
theorem block_types_sublist (b1 b2 b3 b4 : List SyncOperation)
    (h1 : b1 = [] ∨ ∃ op, b1 = [op] ∧ op.type = OperationType.Create)
    (h2 : b2 = [] ∨ ∃ op, b2 = [op] ∧ op.type = OperationType.Delete)
    (h3 : b3 = [] ∨ ∃ op, b3 = [op] ∧ op.type = OperationType.Edit)
    (h4 : b4 = [] ∨ ∃ op, b4 = [op] ∧ op.type = OperationType.Move) :
    ((b1 ++ b2 ++ b3 ++ b4).map (fun op => op.type)).Sublist
      [OperationType.Create, OperationType.Delete, OperationType.Edit, OperationType.Move] := by
  have key : ∀ (b : List SyncOperation) (t : OperationType),
      (b = [] ∨ ∃ op, b = [op] ∧ op.type = t) → (b.map (fun op => op.type)).Sublist [t] := by
    intro b t h
    rcases h with h | ⟨op, h, ht⟩
    · subst h; simp
    · subst h; simp [ht]
  simp only [List.map_append]
  exact (((key b1 _ h1).append (key b2 _ h2)).append (key b3 _ h3)).append (key b4 _ h4)

/-- `Handled` is kept when operations and deleted ids are added. -/
theorem handled_mono {env : GeneratorEnv} {st st1 : GeneratorState} {n m : NodePtr}
    {block : List SyncOperation} (e : Emits env m st st1 block) (h : Handled env st n) :
    Handled env st1 n := by
  intro t ht htt
  rcases h t ht htt with ⟨op, hop, h1⟩ | h1 | ⟨h1, p, pid, h2, h3, h4⟩
  · exact Or.inl ⟨op, by rw [e.ops]; exact List.mem_append_left _ hop, h1⟩
  · exact Or.inr (Or.inl h1)
  · exact Or.inr (Or.inr ⟨h1, p, pid, h2, h3, e.deletedMono _ h4⟩)

/-- The state in which the exploration loop starts satisfies the invariant. -/
theorem GenInv.init (env : GeneratorEnv) (st : GeneratorState) :
    GenInv env (initialGeneratorState st) where
  bytes := by
    simp only [initialGeneratorState, List.map_nil, List.sum_nil]
    rfl
  affected := by simp [initialGeneratorState]
  done := by simp [initialGeneratorState]
  blocks := fun n => ⟨[], [], [], by simp [initialGeneratorState]⟩
  deletes := by
    intro pre op post h
    simp [initialGeneratorState] at h
  pseudo := by
    intro pre op post h
    simp [initialGeneratorState] at h
  marked := by
    intro n h
    simp [initialGeneratorState] at h
  deletedIds := by simp [initialGeneratorState]

/-- After a pass over a node every change event of the node is accounted for. -/
theorem visitNode_handled {env : GeneratorEnv} {markFuel : Nat} {st st1 : GeneratorState}
    {m : NodePtr} (hv : visitNode env markFuel st m = some (ExitCode.Unknown, st1)) :
    Handled env st1 m := by
  rcases visitNode_spec env markFuel st st1 m _ hv with ⟨hc, _⟩ |
    ⟨_, b1, b2, b3, b4, e, s1, s2, s3, s4, _, c1, c2, c3, c4⟩
  · cases hc
  have hmem : ∀ (bi : List SyncOperation) (t : OperationType),
      (bi = [] ∨ ∃ op, bi = [op] ∧ op.type = t) → bi ≠ [] →
      (∀ op ∈ bi, op ∈ b1 ++ b2 ++ b3 ++ b4) →
      ∃ op ∈ st1.syncOps, op.type = t ∧ op.affectedNode = some m := by
    intro bi t hs hne hin
    rcases hs with h | ⟨op, h, ht⟩
    · exact absurd h hne
    · have hop : op ∈ b1 ++ b2 ++ b3 ++ b4 :=
        hin op (by rw [h]; exact List.mem_singleton_self _)
      exact ⟨op, by rw [e.ops]; exact List.mem_append_right _ hop, ht,
        (e.affected op hop).1⟩
  intro t ht htt
  rcases htt with htt | htt | htt | htt
  · subst htt
    rcases c1 ht with h | h
    · exact Or.inl (hmem b1 _ s1 h (by intro op hop; simp [hop]))
    · exact Or.inr (Or.inl ⟨rfl, h⟩)
  · subst htt
    rcases c2 ht with h | h
    · exact Or.inl (hmem b2 _ s2 h (by intro op hop; simp [hop]))
    · exact Or.inr (Or.inr ⟨rfl, h⟩)
  · subst htt
    exact Or.inl (hmem b3 _ s3 (c3 ht) (by intro op hop; simp [hop]))
  · subst htt
    exact Or.inl (hmem b4 _ s4 (c4 ht) (by intro op hop; simp [hop]))

/-- A pass of the exploration loop over a node that is not `Processed` keeps the
invariant. -/
theorem GenInv.step {env : GeneratorEnv} {markFuel : Nat} {st st1 : GeneratorState}
    {m : NodePtr} (inv : GenInv env st) (hm : st.status m ≠ NodeStatus.Processed)
    (hv : visitNode env markFuel st m = some (ExitCode.Unknown, st1)) :
    GenInv env st1 := by
  rcases visitNode_spec env markFuel st st1 m _ hv with ⟨hc, _⟩ |
    ⟨_, b1, b2, b3, b4, e, s1, s2, s3, s4, hdone, _⟩
  · cases hc
  have hnone : ∀ op ∈ st.syncOps, op.affectedNode ≠ some m := by
    intro op hop ha
    exact hm (inv.done op hop m ha)
  have hsub := block_types_sublist b1 b2 b3 b4 s1 s2 s3 s4
  generalize hb : b1 ++ b2 ++ b3 ++ b4 = b at e hdone hsub
  have hHandled : Handled env st1 m := visitNode_handled hv
  refine { bytes := ?_, affected := ?_, done := ?_, blocks := ?_, deletes := ?_,
           pseudo := ?_, marked := ?_, deletedIds := ?_ }
  · rw [e.bytes _ inv.bytes, e.ops, List.map_append, List.sum_append]
  · intro op hop
    rw [e.ops] at hop
    rcases List.mem_append.mp hop with h | h
    · exact inv.affected op h
    · exact ⟨m, e.affected op h⟩
  · intro op hop n hn
    rw [e.ops] at hop
    rcases List.mem_append.mp hop with h | h
    · exact e.mono n (inv.done op h n hn)
    · have := (e.affected op h).1
      rw [hn] at this
      cases this
      exact hdone (List.ne_nil_of_mem h)
  · intro n
    by_cases hnm : n = m
    · subst hnm
      exact ⟨st.syncOps, b, [], by rw [e.ops]; simp, hnone, by simp,
        fun op hop => (e.affected op hop).1, hsub⟩
    · obtain ⟨pre, blk, post, h1, h2, h3, h4, h5⟩ := inv.blocks n
      refine ⟨pre, blk, post ++ b, by rw [e.ops, h1]; simp, h2, ?_, h4, h5⟩
      intro op hop
      rcases List.mem_append.mp hop with h | h
      · exact h3 op h
      · rw [(e.affected op h).1]
        intro hh
        cases hh
        exact hnm rfl
  · intro pre op post hsplit ht
    rw [e.ops] at hsplit
    rcases append_eq_append_cons _ _ _ _ _ hsplit with ⟨post0, h1, h2⟩ | ⟨pre1, h1, h2⟩
    · obtain ⟨N, c, hN, hc, hs, hF⟩ := inv.deletes pre op post0 h1 ht
      refine ⟨N, c, hN, hc, e.mono c hs, fun hf => ⟨fun d hd => e.mono d ((hF hf).1 d hd), ?_⟩⟩
      intro o ho d hd hdesc
      rw [h2] at ho
      rcases List.mem_append.mp ho with h | h
      · exact (hF hf).2 o h d hd hdesc
      · have hdm : d = m := Option.some.inj (hd.symm.trans (e.affected o h).1)
        rw [hdm] at hdesc
        exact absurd ((hF hf).1 m (Or.inl hdesc)) hm
    · have hop : op ∈ b := by rw [h2]; simp
      obtain ⟨c, i, hc, hs, _, _, hF⟩ := e.deletes op hop ht
      refine ⟨m, c, (e.affected op hop).1, hc, hs, fun hf => ⟨hF hf, ?_⟩⟩
      intro o ho d hd _
      have ho2 : o ∈ b := by rw [h2]; simp [ho]
      exact Option.some.inj (hd.symm.trans (e.affected o ho2).1)
  · intro pre op post hsplit ht X c hX hcorr hp
    rw [e.ops] at hsplit
    rcases append_eq_append_cons _ _ _ _ _ hsplit with ⟨post0, h1, h2⟩ | ⟨pre1, h1, h2⟩
    · obtain ⟨ho, hc, hs, hlater⟩ := inv.pseudo pre op post0 h1 ht X c hX hcorr hp
      refine ⟨ho, hc, e.mono c hs, ?_⟩
      intro hne o hmem
      rw [h2] at hmem
      rcases List.mem_append.mp hmem with h | h
      · exact hlater hne o h
      · rw [(e.affected o h).1]
        intro hh
        cases hh
        exact hm hs
    · have hop : op ∈ b := by rw [h2]; simp
      have := (e.affected op hop).1
      rw [hX] at this
      cases this
      obtain ⟨ho, hc, hs⟩ := e.pseudo op hop ht c hcorr hp
      refine ⟨ho, hc, hs, ?_⟩
      intro hne o hmem
      have ho2 : o ∈ b := by rw [h2]; simp [hmem]
      rw [(e.affected o ho2).1]
      intro hh
      cases hh
      exact hne rfl
  · intro n hn
    rcases e.marked n hn with h | h | ⟨op, hop, hmk⟩
    · rcases inv.marked n h with h1 | ⟨op, hop, hmk⟩
      · exact Or.inl (handled_mono e h1)
      · exact Or.inr ⟨op, by rw [e.ops]; exact List.mem_append_left _ hop, hmk⟩
    · subst h
      exact Or.inl hHandled
    · exact Or.inr ⟨op, by rw [e.ops]; exact List.mem_append_right _ hop, hmk⟩
  · intro i hi
    rcases e.deletedNew i hi with h | ⟨hid, op, hop, ht⟩
    · obtain ⟨op, hop, h1⟩ := inv.deletedIds i h
      exact ⟨op, by rw [e.ops]; exact List.mem_append_left _ hop, h1⟩
    · exact ⟨op, by rw [e.ops]; exact List.mem_append_right _ hop, ht, m,
        (e.affected op hop).1, hid⟩

/-- How `execute` ends: with the state the exploration loop left and the exit code of the
loop (`Ok` for a normal end), unless the disk space check fails. -/
theorem generatorExecute_spec (env : GeneratorEnv) (markFuel fuel : Nat)
    (queued : List (Option NodePtr)) (st : GeneratorState) (r : GeneratorResult)
    (h : generatorExecute env markFuel fuel queued st = some r) :
    ∃ code q s1,
      exploreLoop env markFuel fuel 0
        (queued ++ [env.rootNode ReplicaSide.Local, env.rootNode ReplicaSide.Remote])
        (initialGeneratorState st) = some (code, q, s1) ∧
      ((0 < s1.bytesToDownload ∧ 0 ≤ env.freeDiskSpace
          ∧ env.freeDiskSpace < wrapInt64 (s1.bytesToDownload + env.freeDiskSpaceLimit)) ∧
        r = { exitCode := ExitCode.SystemError,
              state := { s1 with exitCause := ExitCause.NotEnoughDiskSpace },
              queued := q } ∨
       ¬ (0 < s1.bytesToDownload ∧ 0 ≤ env.freeDiskSpace
          ∧ env.freeDiskSpace < wrapInt64 (s1.bytesToDownload + env.freeDiskSpaceLimit)) ∧
        r = { exitCode := if code = ExitCode.Unknown ∧ q = [] then ExitCode.Ok else code,
              state := s1, queued := q }) := by
  unfold generatorExecute at h
  cases hl : exploreLoop env markFuel fuel 0
      (queued ++ [env.rootNode ReplicaSide.Local, env.rootNode ReplicaSide.Remote])
      (initialGeneratorState st) with
  | none => rw [hl] at h; simp at h
  | some res =>
    obtain ⟨code, q, s1⟩ := res
    rw [hl] at h
    simp only at h
    refine ⟨code, q, s1, rfl, ?_⟩
    by_cases hd : 0 < s1.bytesToDownload ∧ 0 ≤ env.freeDiskSpace
        ∧ env.freeDiskSpace < wrapInt64 (s1.bytesToDownload + env.freeDiskSpaceLimit)
    · rw [if_pos hd] at h
      exact Or.inl ⟨hd, (Option.some.inj h).symm⟩
    · rw [if_neg hd] at h
      exact Or.inr ⟨hd, (Option.some.inj h).symm⟩

/-- The invariant of the exploration loop holds of the state `execute` ends with. -/
theorem generatorExecute_inv (env : GeneratorEnv) (markFuel fuel : Nat)
    (queued : List (Option NodePtr)) (st : GeneratorState) (r : GeneratorResult)
    (h : generatorExecute env markFuel fuel queued st = some r) :
    GenInv env r.state := by
  obtain ⟨code, q, s1, hl, hr⟩ := generatorExecute_spec env markFuel fuel queued st r h
  have inv : GenInv env s1 :=
    exploreLoop_state_inv env markFuel (GenInv env)
      (fun _ _ _ hP hm hv => GenInv.step hP hm hv) fuel 0 _ _ code q s1
      (GenInv.init env st) hl
  rcases hr with ⟨_, hr⟩ | ⟨_, hr⟩
  · subst hr
    exact ⟨inv.bytes, inv.affected, inv.done, inv.blocks, inv.deletes, inv.pseudo,
      inv.marked, inv.deletedIds⟩
  · subst hr
    exact inv

/-- The exit code of `execute` is `SystemError` only when the disk space check fails. -/
theorem generatorExecute_exitCode (env : GeneratorEnv) (markFuel fuel : Nat)
    (queued : List (Option NodePtr)) (st : GeneratorState) (r : GeneratorResult)
    (h : generatorExecute env markFuel fuel queued st = some r) :
    (r.exitCode = ExitCode.SystemError ∧ r.state.exitCause = ExitCause.NotEnoughDiskSpace) ↔
      (0 < r.state.bytesToDownload ∧ 0 ≤ env.freeDiskSpace
        ∧ env.freeDiskSpace
          < wrapInt64 (r.state.bytesToDownload + env.freeDiskSpaceLimit)) := by
  obtain ⟨code, q, s1, hl, hr⟩ := generatorExecute_spec env markFuel fuel queued st r h
  have hcode := exploreLoop_queue_inv env markFuel (fun _ _ => True)
    (fun _ _ _ => trivial) (fun _ _ _ _ _ => trivial) (fun _ _ _ _ _ _ _ => trivial)
    fuel 0 _ _ code q s1 trivial hl
  rcases hr with ⟨hd, hr⟩ | ⟨hd, hr⟩
  · subst hr
    exact ⟨fun _ => hd, fun _ => ⟨rfl, rfl⟩⟩
  · subst hr
    constructor
    · rintro ⟨hc, _⟩
      exfalso
      simp only at hc
      rcases hcode with ⟨h1, h2, _⟩ | ⟨h1, _⟩ | ⟨h1, _⟩
      · rw [if_pos ⟨h1, h2⟩] at hc
        cases hc
      · subst h1
        simp at hc
      · subst h1
        simp at hc
    · intro h1
      exact absurd h1 hd

/-- Marking the corresponding node in a pseudo-conflict leaves the status of the node
itself. -/
theorem pseudoMark_other (env : GeneratorEnv) (status : NodePtr → NodeStatus) (n c : NodePtr)
    (hnc : n ≠ c) :
    (if env.isPseudoConflict n c = true
      then setStatus status c NodeStatus.Processed else status) n = status n := by
  split_ifs
  · exact setStatus_other _ _ _ _ hnc
  · rfl

/-- The children of the sample nodes of the generator. -/
theorem genNodes_children (p : NodePtr) :
    (genNodes p).children
      = if p = 0 then [1, 2, 3, 4, 6] else if p = 1 then [5] else if p = 6 then [7]
        else if p = 10 then [11, 12, 13, 14, 16] else if p = 11 then [15]
        else if p = 16 then [17] else [] := by
  unfold genNodes
  split <;> simp_all

/-- The change events of the sample nodes of the generator. -/
theorem genNodes_changeEvents (p : NodePtr) :
    (genNodes p).changeEvents
      = if p = 1 ∨ p = 17 then [OperationType.Delete]
        else if p = 2 then [OperationType.Move]
        else if p = 3 then [OperationType.Edit, OperationType.Move]
        else if p = 4 ∨ p = 14 then [OperationType.Create]
        else if p = 12 then [OperationType.Move, OperationType.Edit]
        else if p = 15 then [OperationType.Edit]
        else [] := by
  unfold genNodes
  split <;> simp_all

/-- The sample trees of the generator are well formed. -/
theorem genEnv_wellFormed (free : Int) : WellFormedTrees (genEnv free) genWeight 10 where
  finite := by
    intro p
    show ((genNodes p).children.map genWeight).sum < genWeight p
    rw [genNodes_children]
    unfold genWeight
    split_ifs <;> simp_all
  depth := by
    intro p
    unfold genWeight
    split_ifs <;> decide
  created := by
    intro n hC hev
    exfalso
    simp only [Node.hasChangeEvent, genEnv] at hC hev
    rw [genNodes_changeEvents] at hC hev
    split_ifs at hC hev <;> simp_all
  deleted := by
    intro n hD
    simp only [Node.hasChangeEvent, genEnv] at hD
    rw [genNodes_changeEvents] at hD
    split_ifs at hD with h1 <;> simp at hD
    rcases h1 with h | h
    · subst h
      exact ⟨0, "1", "42", rfl, rfl, rfl⟩
    · subst h
      exact ⟨16, "42", "108", rfl, rfl, rfl⟩

/-- In the sample trees of the generator only directories have children. -/
theorem genNodes_shape : OnlyDirectoriesHaveChildren genNodes := by
  intro n hn
  rw [genNodes_children]
  unfold genNodes at hn
  split_ifs with h0 h1 h6 h10 h11 h16
  · subst h0; simp at hn
  · subst h1; simp at hn
  · subst h6; simp at hn
  · subst h10; simp at hn
  · subst h11; simp at hn
  · subst h16; simp at hn
  · rfl

/-- In the sample trees of the generator the nodes with an edit event are files. -/
theorem genNodes_editFiles (n : NodePtr)
    (h : (genNodes n).hasChangeEvent OperationType.Edit = true) :
    (genNodes n).type = NodeType.File := by
  simp only [Node.hasChangeEvent] at h
  rw [genNodes_changeEvents] at h
  split_ifs at h with h1 h2 h3 h4 h12 h15 <;> simp at h
  · subst h3; rfl
  · subst h12; rfl
  · subst h15; rfl

/-- The rank decreases from a node to its descendants. -/
theorem treeDescendant_rank_lt (nodes : NodePtr → Node) (rank : NodePtr → Nat)
    (hR : WellRanked nodes rank) (p d : NodePtr) (h : TreeDescendant nodes p d) :
    rank d < rank p := by
  induction h with
  | child hc => exact hR _ _ hc
  | step hc _ ih => exact lt_trans ih (hR _ _ hc)

/-- In a list whose images under `f` are pairwise distinct, the elements with the image of a
member are that member alone. -/
theorem filter_eq_singleton {α β : Type} [DecidableEq β] (f : α → β) (P : α → Bool) :
    ∀ (l : List α) (x : α), x ∈ l → (l.map f).Nodup →
      (∀ y ∈ l, P y = decide (f y = f x)) → l.filter P = [x] := by
  intro l
  induction l with
  | nil => intro x hx; cases hx
  | cons a l ih =>
    intro x hx hnd hP
    rw [List.map_cons, List.nodup_cons] at hnd
    obtain ⟨ha, hnd⟩ := hnd
    by_cases hxa : x = a
    · subst hxa
      have h1 : P x = true := by rw [hP x (List.mem_cons_self _ _)]; simp
      have h2 : l.filter P = [] := by
        rw [List.filter_eq_nil_iff]
        intro y hy
        rw [hP y (List.mem_cons_of_mem _ hy)]
        simp only [decide_eq_true_eq]
        intro hfy
        exact ha (by rw [← hfy]; exact List.mem_map_of_mem f hy)
      rw [List.filter_cons, h1, if_pos rfl, h2]
    · have hxl : x ∈ l := by
        rcases List.mem_cons.mp hx with h | h
        · exact absurd h hxa
        · exact h
      have h1 : P a = false := by
        rw [hP a (List.mem_cons_self _ _)]
        simp only [decide_eq_false_iff_not]
        intro hfa
        exact ha (by rw [hfa]; exact List.mem_map_of_mem f hxl)
      rw [List.filter_cons, h1]
      simp only [Bool.false_eq_true, if_false]
      exact ih x hxl hnd (fun y hy => hP y (List.mem_cons_of_mem _ hy))

/-- The bytes counted by the generator are the byte budget of the specification, when the
affected node of every operation carries the event of the operation and the nodes with an edit
event are files. -/
theorem opBytes_sum_eq_byteBudget (env : GeneratorEnv)
    (hEF : ∀ n, (env.nodes n).hasChangeEvent OperationType.Edit = true →
      (env.nodes n).type = NodeType.File) :
    ∀ ops : List SyncOperation,
      (∀ op ∈ ops, ∃ n, op.affectedNode = some n ∧
        (env.nodes n).hasChangeEvent op.type = true) →
      (ops.map (opBytes env)).sum = byteBudget env ops := by
  intro ops
  induction ops with
  | nil => intro _; simp [byteBudget]
  | cons op ops ih =>
    intro h
    have ih1 := ih (fun o ho => h o (List.mem_cons_of_mem _ ho))
    obtain ⟨n, hn, hev⟩ := h op (List.mem_cons_self _ _)
    rw [List.map_cons, List.sum_cons, ih1]
    by_cases hv : env.vfsModeOff = true
    · simp only [byteBudget, hv, if_true, List.filter_cons]
      by_cases hC : op.type = OperationType.Create
      · have hE : op.type ≠ OperationType.Edit := by rw [hC]; decide
        by_cases hself : op.omit_ = false ∧ op.targetSide = ReplicaSide.Local
          ∧ (env.nodes n).type = NodeType.File
        · obtain ⟨h1, h2, h3⟩ := hself
          simp [opBytes, isFile?, sizeOf?, hC, hn, hv, h1, h2, h3]
          omega
        · have : opBytes env op = 0 := by
            simp only [opBytes, hC, hn, hv]
            split_ifs <;> simp_all
          rw [this]
          have hf : (decide (op.type = OperationType.Create) && !op.omit_
              && decide (op.targetSide = ReplicaSide.Local)
              && isFile? env op.affectedNode) = false := by
            simp only [isFile?, hn, hC]
            by_contra hne
            simp only [Bool.not_eq_false, Bool.and_eq_true, decide_eq_true_eq,
              Bool.not_eq_true', true_and] at hne
            exact hself ⟨hne.1.1, hne.1.2, hne.2⟩
          rw [hf]
          simp [hE]
      · by_cases hE : op.type = OperationType.Edit
        · rw [hE] at hev
          have hfile := hEF n hev
          by_cases hself : op.omit_ = false ∧ op.targetSide = ReplicaSide.Local
          · obtain ⟨h1, h2⟩ := hself
            simp [opBytes, sizeOf?, hE, hn, hv, h1, h2, hfile]
            omega
          · have : opBytes env op = 0 := by
              simp only [opBytes, hE, hn, hv]
              split_ifs <;> simp_all
            rw [this]
            have hf : (decide (op.type = OperationType.Edit) && !op.omit_
                && decide (op.targetSide = ReplicaSide.Local)) = false := by
              by_contra hne
              simp only [Bool.not_eq_false, Bool.and_eq_true, decide_eq_true_eq,
                Bool.not_eq_true'] at hne
              exact hself ⟨hne.1.2, hne.2⟩
            rw [hf]
            simp [hE]
        · have : opBytes env op = 0 := by
            simp only [opBytes]
            split_ifs
            · split <;> simp_all
            · rfl
          rw [this]
          simp [hC, hE]
    · have : opBytes env op = 0 := by
        simp only [opBytes]
        rw [if_neg (fun h => hv h.2.1)]
      rw [this]
      simp [byteBudget, hv]

/-- `Covered` is kept when operations and deleted ids are added. -/
theorem covered_mono {env : GeneratorEnv} {st st1 : GeneratorState} {n m : NodePtr}
    {block : List SyncOperation} (e : Emits env m st st1 block) (h : Covered env st n) :
    Covered env st1 n := by
  rcases h with h | ⟨op, hop, hm⟩
  · exact Or.inl (handled_mono e h)
  · exact Or.inr ⟨op, by rw [e.ops]; exact List.mem_append_left _ hop, hm⟩

/-- When the exploration loop ends normally, every node that was pending at some pass is
covered. -/
theorem exploreLoop_covers (env : GeneratorEnv) (markFuel : Nat) (reach : NodePtr → Prop)
    (fuel pass : Nat) (queue : List (Option NodePtr)) (st : GeneratorState)
    (code : ExitCode) (q : List (Option NodePtr)) (st1 : GeneratorState)
    (inv : GenInv env st)
    (hreach : ∀ n, reach n → Covered env st n ∨ Pending env queue n)
    (h : exploreLoop env markFuel fuel pass queue st = some (code, q, st1)) :
    (code = ExitCode.Unknown ∧ q = [] ∧ GenInv env st1 ∧ ∀ n, reach n → Covered env st1 n) ∨
    (code = ExitCode.Ok ∧ ∃ i, env.stopAsked i = true) ∨
    (code = ExitCode.DataError ∧ ∃ m, env.correspondingNodeInOtherTree m = none ∧
      (env.nodes m).hasChangeEvent OperationType.Create = false ∧
      ((env.nodes m).hasChangeEvent OperationType.Delete = true
        ∨ (env.nodes m).hasChangeEvent OperationType.Edit = true
        ∨ (env.nodes m).hasChangeEvent OperationType.Move = true)) := by
  have key := exploreLoop_queue_inv env markFuel
    (fun queue st => GenInv env st ∧ ∀ n, reach n → Covered env st n ∨ Pending env queue n)
    ?_ ?_ ?_ fuel pass queue st code q st1 ⟨inv, hreach⟩ h
  · rcases key with ⟨h1, h2, h3, h4⟩ | h1 | h1
    · refine Or.inl ⟨h1, h2, h3, fun n hn => ?_⟩
      rcases h4 n hn with h5 | ⟨m, hm, _⟩
      · exact h5
      · cases hm
    · exact Or.inr (Or.inl h1)
    · exact Or.inr (Or.inr h1)
  · rintro rest s ⟨hi, hr⟩
    refine ⟨hi, fun n hn => ?_⟩
    rcases hr n hn with h5 | ⟨m, hm, hd⟩
    · exact Or.inl h5
    · rcases List.mem_cons.mp hm with h6 | h6
      · cases h6
      · exact Or.inr ⟨m, h6, hd⟩
  · rintro m rest s ⟨hi, hr⟩ hproc
    refine ⟨hi, fun n hn => ?_⟩
    rcases hr n hn with h5 | ⟨m1, hm, hd⟩
    · exact Or.inl h5
    · rcases List.mem_cons.mp hm with h6 | h6
      · cases h6
        rcases hd with hd | hd
        · subst hd
          exact Or.inl (hi.marked n hproc)
        · rw [treeDescendant_iff] at hd
          obtain ⟨c, hc, hcn⟩ := hd
          exact Or.inr ⟨c, List.mem_append_right _ (List.mem_map_of_mem some hc), hcn⟩
      · exact Or.inr ⟨m1, List.mem_append_left _ h6, hd⟩
  · rintro m rest s s1 ⟨hi, hr⟩ hproc hv
    refine ⟨hi.step hproc hv, fun n hn => ?_⟩
    rcases visitNode_spec env markFuel s s1 m _ hv with ⟨hc, _⟩ |
      ⟨_, b1, b2, b3, b4, e, _⟩
    · cases hc
    rcases hr n hn with h5 | ⟨m1, hm, hd⟩
    · exact Or.inl (covered_mono e h5)
    · rcases List.mem_cons.mp hm with h6 | h6
      · cases h6
        rcases hd with hd | hd
        · subst hd
          exact Or.inl (Or.inl (visitNode_handled hv))
        · rw [treeDescendant_iff] at hd
          obtain ⟨c, hc, hcn⟩ := hd
          exact Or.inr ⟨c, List.mem_append_right _ (List.mem_map_of_mem some hc), hcn⟩
      · exact Or.inr ⟨m1, List.mem_append_left _ h6, hd⟩

/-- In the sample trees of the generator every changed node that is not created has a
corresponding node. -/
theorem genEnv_corresponding {free : Int} (n : NodePtr)
    (hev : ((genEnv free).nodes n).hasChangeEvent OperationType.Delete = true
      ∨ ((genEnv free).nodes n).hasChangeEvent OperationType.Edit = true
      ∨ ((genEnv free).nodes n).hasChangeEvent OperationType.Move = true)
    (_ : ((genEnv free).nodes n).hasChangeEvent OperationType.Create = false) :
    ∃ c, (genEnv free).correspondingNodeInOtherTree n = some c := by
  simp only [Node.hasChangeEvent, genEnv] at hev
  rw [genNodes_changeEvents] at hev
  simp only [genEnv, genCorresponding]
  split_ifs at hev with h1 h2 h3 h4 h12 h15
  · rcases h1 with h | h <;> subst h <;> exact ⟨_, rfl⟩
  · subst h2; exact ⟨_, rfl⟩
  · subst h3; exact ⟨_, rfl⟩
  · simp at hev
  · subst h12; exact ⟨_, rfl⟩
  · subst h15; exact ⟨_, rfl⟩
  · simp at hev

/-- The sample run of the generator ends with `Ok` and the operations `genOps`. -/
theorem genRun_result :
    (generatorExecute (genEnv 1000) 10 16 [] genState).map
        (fun r => (r.exitCode, r.state.syncOps))
      = some (ExitCode.Ok, genOps) := by
  rfl

/-- In the sample local tree only `g.txt` lies below `A`. -/
theorem genNodes_below_A (d : NodePtr) (h : TreeDescendant genNodes 1 d) : d = 5 := by
  rw [treeDescendant_iff] at h
  obtain ⟨c, hc, hd⟩ := h
  have hc5 : c = 5 := by
    rw [genNodes_children] at hc
    simpa using hc
  subst hc5
  rcases hd with hd | hd
  · exact hd
  · rw [treeDescendant_iff] at hd
    obtain ⟨c, hc, _⟩ := hd
    rw [genNodes_children] at hc
    simp at hc

/-- A pass that goes on is a pass of `exploreLoop`. -/
theorem loopPass_exploreLoop (env : GeneratorEnv) (markFuel : Nat) (c c1 : LoopConfig)
    (h : loopPass env markFuel c = some c1) (fuel : Nat) :
    c1.pass = c.pass + 1 ∧
    exploreLoop env markFuel (fuel + 1) c.pass c.queue c.state
      = exploreLoop env markFuel fuel c1.pass c1.queue c1.state := by
  obtain ⟨pass, queue, st⟩ := c
  simp only [loopPass] at h
  cases queue with
  | nil => simp at h
  | cons front rest =>
    simp only at h
    by_cases hstop : env.stopAsked pass = true
    · simp [hstop] at h
    · simp only [Bool.not_eq_true] at hstop
      simp only [hstop, Bool.false_eq_true, if_false] at h
      cases front with
      | none =>
        simp only [Option.some.injEq] at h
        subst h
        exact ⟨rfl, by simp only [exploreLoop, hstop, Bool.false_eq_true, if_false]⟩
      | some m =>
        simp only at h
        by_cases hm : st.status m = NodeStatus.Processed
        · simp only [if_pos hm, Option.some.injEq] at h
          subst h
          exact ⟨rfl, by simp only [exploreLoop, hstop, Bool.false_eq_true, if_false,
            if_pos hm]⟩
        · simp only [if_neg hm] at h
          rw [exploreLoop_visit env markFuel fuel pass m rest st hstop hm]
          cases hv : visitNode env markFuel st m with
          | none => rw [hv] at h; simp at h
          | some r =>
            obtain ⟨code, s⟩ := r
            rcases visitNode_spec env markFuel st s m code hv with ⟨hc, _⟩ | ⟨hc, _⟩
            · subst hc
              rw [hv] at h
              simp at h
            · subst hc
              rw [hv] at h
              simp only [Option.some.injEq] at h
              subst h
              exact ⟨rfl, rfl⟩

/-- The exploration loop from the start of a prefix of the walk is the loop from its end. -/
theorem loopPrefix_exploreLoop (env : GeneratorEnv) (markFuel : Nat) :
    ∀ (k : Nat) (c c1 : LoopConfig), loopPrefix env markFuel k c = some c1 →
      c1.pass = c.pass + k ∧
      ∀ fuel, exploreLoop env markFuel (fuel + k) c.pass c.queue c.state
        = exploreLoop env markFuel fuel c1.pass c1.queue c1.state := by
  intro k
  induction k with
  | zero =>
    intro c c1 h
    simp only [loopPrefix, Option.some.injEq] at h
    subst h
    exact ⟨rfl, fun _ => rfl⟩
  | succ k ih =>
    intro c c1 h
    simp only [loopPrefix] at h
    cases hp : loopPass env markFuel c with
    | none => rw [hp] at h; simp at h
    | some c2 =>
      rw [hp] at h
      simp only [Option.some_bind] at h
      obtain ⟨h1, h2⟩ := ih c2 c1 h
      refine ⟨?_, fun fuel => ?_⟩
      · rw [h1, (loopPass_exploreLoop env markFuel c c2 hp 0).1]
        omega
      · rw [← h2 fuel, ← (loopPass_exploreLoop env markFuel c c2 hp (fuel + k)).2]
        rfl

/-- The threshold after a call of `add`. -/
theorem TimeoutHelper.add_maxDuration (h : TimeoutHelper) (r t : Nat) :
    (h.add r t).maxDuration = max h.maxDuration r := by
  simp only [TimeoutHelper.add, TimeoutHelper.clearAllEvents]
  split_ifs with h1 h2
  · simp only
    omega
  · simp only
    omega
  · omega

/-- The queue after a call of `add`. -/
theorem TimeoutHelper.add_eventsQueue (h : TimeoutHelper) (r t : Nat) :
    (h.add r t).eventsQueue
      = if r < h.maxDuration then h.eventsQueue
        else if r = h.maxDuration then h.eventsQueue ++ [t]
        else [t] := by
  simp only [TimeoutHelper.add, TimeoutHelper.clearAllEvents]
  split_ifs <;> first | rfl | omega

/-- The threshold after a sequence of calls of `add` is the largest of the initial threshold
and the durations. -/
theorem TimeoutHelper.addAll_maxDuration (calls : List (Nat × Nat)) :
    ∀ h : TimeoutHelper, h.maxDuration ≤ (h.addAll calls).maxDuration ∧
      ∀ call ∈ calls, call.1 ≤ (h.addAll calls).maxDuration := by
  induction calls with
  | nil => intro h; exact ⟨le_refl _, by simp⟩
  | cons c rest ih =>
    intro h
    have h1 := ih (h.add c.1 c.2)
    rw [TimeoutHelper.add_maxDuration] at h1
    simp only [TimeoutHelper.addAll, List.foldl_cons] at h1 ⊢
    refine ⟨by omega, ?_⟩
    intro call hc
    rcases List.mem_cons.mp hc with hc | hc
    · subst hc
      omega
    · exact h1.2 call hc

/-- One step of the computation of the queue after a sequence of calls. -/
theorem eventsQueue_step (m r t M : Nat) (q tail : List Nat) (hM : max m r ≤ M) :
    (if M = max m r
        then (if r < m then q else if r = m then q ++ [t] else [t]) else []) ++ tail
      = (if M = m then q else []) ++ (if r = M then t :: tail else tail) := by
  split_ifs <;> first | rfl | omega | simp

/-- The queue after a sequence of calls of `add`: the initial queue, if the threshold has not
changed, followed by the clock values of the calls whose duration is the final threshold. -/
theorem TimeoutHelper.addAll_eventsQueue (calls : List (Nat × Nat)) :
    ∀ h : TimeoutHelper, (h.addAll calls).eventsQueue
      = (if (h.addAll calls).maxDuration = h.maxDuration then h.eventsQueue else []) ++
        (calls.filter (fun call => decide (call.1 = (h.addAll calls).maxDuration))).map
          Prod.snd := by
  induction calls with
  | nil => intro h; simp [TimeoutHelper.addAll]
  | cons c rest ih =>
    intro h
    have h1 := ih (h.add c.1 c.2)
    have h2 := (TimeoutHelper.addAll_maxDuration rest (h.add c.1 c.2)).1
    rw [TimeoutHelper.add_maxDuration] at h1 h2
    rw [TimeoutHelper.add_eventsQueue] at h1
    have h3 : h.addAll (c :: rest) = (h.add c.1 c.2).addAll rest := rfl
    rw [h3, h1, eventsQueue_step _ _ _ _ _ _ h2, List.filter_cons]
    congr 1
    by_cases hc : c.1 = ((h.add c.1 c.2).addAll rest).maxDuration
    · rw [if_pos hc, if_pos (by simpa using hc), List.map_cons]
    · rw [if_neg hc, if_neg (by simpa using hc)]

/-- What the loop of `deleteOldestEvents` does: it reads the front of the empty queue when
every event is older than the period, else it leaves the queue from the first event on that is
not older. -/
theorem deleteOldestLoop_eq (period : Int) (eventTime : Nat) (q : List Nat) :
    deleteOldestLoop period eventTime q
      = if q.all (fun e : Nat => decide ((eventTime : Int) - (e : Int) > period)) then none
        else some (q.dropWhile (fun e : Nat => decide ((eventTime : Int) - (e : Int) > period))) := by
  induction q with
  | nil => rfl
  | cons e rest ih =>
    simp only [deleteOldestLoop, List.all_cons, List.dropWhile_cons]
    by_cases he : (eventTime : Int) - (e : Int) > period
    · simp only [he, if_true, decide_True, Bool.true_and, ih]
    · simp only [he, if_false, decide_False, Bool.false_and, Bool.false_eq_true]

/-- Membership in an integer range listed from its first element. -/
theorem mem_intRange (a b t : Int) :
    t ∈ (List.range (b - a + 1).toNat).map (fun k : Nat => a + (k : Int)) ↔ a ≤ t ∧ t ≤ b := by
  simp only [List.mem_map, List.mem_range]
  constructor
  · rintro ⟨k, hk, rfl⟩
    constructor <;> omega
  · rintro ⟨h1, h2⟩
    exact ⟨(t - a).toNat, by omega, by omega⟩

/-- The types of the loop of `initCache` are the integers from the first to the last
enumerator. -/
theorem mem_syncNodeTypes {Db : Type} (db : SyncDbCalls Db) (type : SyncNodeType) :
    type ∈ syncNodeTypes db ↔ db.firstType ≤ type ∧ type ≤ db.lastType :=
  mem_intRange db.firstType db.lastType type

/-- The set the cache holds for a pair after `_syncNodesMap[syncDbId][type] = nodeIdSet`. -/
theorem syncNodes_assign {Db : Type} (c : SyncNodeCache Db) (syncDbId : Int)
    (type : SyncNodeType) (nodeIdSet : List NodeId) (i : Int) (t : SyncNodeType) :
    ({ c with syncNodesMap := assignSyncNodes c.syncNodesMap syncDbId type nodeIdSet }
        : SyncNodeCache Db).syncNodes i t
      = if i = syncDbId ∧ t = type then (ExitCode.Ok, some nodeIdSet) else c.syncNodes i t := by
  simp only [SyncNodeCache.syncNodes, assignSyncNodes]
  by_cases hi : i = syncDbId
  · subst hi
    by_cases ht : t = type
    · simp [ht]
    · simp only [if_true, ht, if_false, false_and, and_false]
      cases c.syncNodesMap i <;> rfl
  · simp [hi]

/-- A successful loop of `initCache` leaves `_syncDbMap` and the databases as they are and
leaves a set for every type of the loop and for every type that had one. -/
theorem initCacheLoop_ok {Db : Type} (db : SyncDbCalls Db) (syncDbId : Int)
    (syncDb : SyncDbPtr) :
    ∀ (types : List SyncNodeType) (c c1 : SyncNodeCache Db),
      initCacheLoop db syncDbId syncDb types c = (ExitCode.Ok, c1) →
      c1.syncDbMap = c.syncDbMap ∧ c1.databases = c.databases ∧
      (∀ t, (t ∈ types ∨ (c.syncNodes syncDbId t).1 = ExitCode.Ok) →
        (c1.syncNodes syncDbId t).1 = ExitCode.Ok) := by
  intro types
  induction types with
  | nil =>
    intro c c1 h
    simp only [initCacheLoop, Prod.mk.injEq, true_and] at h
    subst h
    exact ⟨rfl, rfl, fun t ht => by simpa using ht⟩
  | cons type rest ih =>
    intro c c1 h
    simp only [initCacheLoop] at h
    cases hs : db.selectAllSyncNodes (c.databases syncDb) type with
    | none => rw [hs] at h; simp at h
    | some nodeIdSet =>
      rw [hs] at h
      obtain ⟨h1, h2, h3⟩ := ih _ c1 h
      refine ⟨h1, h2, fun t ht => h3 t ?_⟩
      rw [syncNodes_assign]
      by_cases htt : t = type
      · right
        rw [if_pos ⟨rfl, htt⟩]
      · rcases ht with ht | ht
        · rcases List.mem_cons.mp ht with ht | ht
          · exact absurd ht htt
          · exact Or.inl ht
        · right
          rw [if_neg (fun hh => htt hh.2)]
          exact ht

/-- The cache holds a set for a pair exactly when `syncNodes` returns `Ok`. -/
theorem syncNodes_ok_iff {Db : Type} (c : SyncNodeCache Db) (syncDbId : Int)
    (type : SyncNodeType) :
    (c.syncNodes syncDbId type).1 = ExitCode.Ok ↔
      ∃ types s, c.syncNodesMap syncDbId = some types ∧ types type = some s := by
  simp only [SyncNodeCache.syncNodes]
  cases h1 : c.syncNodesMap syncDbId with
  | none => simp
  | some types =>
    cases h2 : types type with
    | none => simp [h2]
    | some s => simp [h2]

/-- A path is its parent path followed by its file name. -/
theorem parent_path_append_filename (o : SyncPath) (ho : o ≠ []) :
    parent_path o ++ [filename o] = o := by
  rcases List.eq_nil_or_concat o with h | ⟨l, a, rfl⟩
  · exact absurd h ho
  · simp [parent_path, filename]

/-- The walk of `getOriginPath` ends whenever the walk of `getPath` does. -/
theorem originWalk_total (nodes : NodePtr → Node) (dbPath : DbNodeId → Option SyncPath) :
    ∀ (fuel : Nat) (n : NodePtr) (names : List SyncName) (cur : SyncPath),
      nodePath nodes fuel n = some cur → ∃ r, originWalk nodes dbPath fuel n names = some r := by
  intro fuel
  induction fuel with
  | zero => intro n names cur h; simp [nodePath] at h
  | succ fuel ih =>
    intro n names cur h
    simp only [nodePath] at h
    simp only [originWalk]
    cases hp : (nodes n).parentNode with
    | none => exact ⟨_, rfl⟩
    | some p =>
      rw [hp] at h
      simp only [] at h ⊢
      cases hq : nodePath nodes fuel p with
      | none => rw [hq] at h; simp at h
      | some parentPath =>
        split_ifs
        · cases (nodes n).moveOriginParentDbId.bind dbPath <;> exact ⟨_, rfl⟩
        · exact ih p _ parentPath hq

/-- Names collected before the walk are appended to its result. -/
theorem originWalk_names (nodes : NodePtr → Node) (dbPath : DbNodeId → Option SyncPath) :
    ∀ (fuel : Nat) (n : NodePtr) (names1 names2 : List SyncName) (path : SyncPath),
      originWalk nodes dbPath fuel n names1 = some (ExitCode.Ok, path) →
      originWalk nodes dbPath fuel n (names1 ++ names2)
        = some (ExitCode.Ok, path ++ names2) := by
  intro fuel
  induction fuel with
  | zero => intro n names1 names2 path h; simp [originWalk] at h
  | succ fuel ih =>
    intro n names1 names2 path h
    simp only [originWalk] at h ⊢
    cases hp : (nodes n).parentNode with
    | none =>
      rw [hp] at h
      simp only [Option.some.injEq, Prod.mk.injEq, true_and] at h
      subst h
      rfl
    | some p =>
      rw [hp] at h
      simp only [] at h ⊢
      by_cases hm : movedNode (nodes n) = true
      · rw [if_pos hm] at h ⊢
        cases hd : (nodes n).moveOriginParentDbId.bind dbPath with
        | none => rw [hd] at h; simp at h
        | some opp =>
          rw [hd] at h
          simp only [Option.some.injEq, Prod.mk.injEq, true_and] at h
          subst h
          simp
      · rw [if_neg hm] at h ⊢
        exact ih p _ names2 path h

/-- Without a moved node on the way to the root, the walk of `getOriginPath` collects the
path of `getPath`. -/
theorem originWalk_unmoved (nodes : NodePtr → Node) (dbPath : DbNodeId → Option SyncPath) :
    ∀ (fuel : Nat) (n : NodePtr) (names : List SyncName) (cur : SyncPath),
      nodePath nodes fuel n = some cur →
      (∀ a, AncestorOrSelf nodes a n → movedNode (nodes a) = false) →
      originWalk nodes dbPath fuel n names = some (ExitCode.Ok, cur ++ names) := by
  intro fuel
  induction fuel with
  | zero => intro n names cur h; simp [nodePath] at h
  | succ fuel ih =>
    intro n names cur h hall
    simp only [nodePath] at h
    simp only [originWalk]
    cases hp : (nodes n).parentNode with
    | none =>
      rw [hp] at h
      simp only [Option.some.injEq] at h
      subst h
      rfl
    | some p =>
      rw [hp] at h
      simp only [] at h ⊢
      cases hq : nodePath nodes fuel p with
      | none => rw [hq] at h; simp at h
      | some parentPath =>
        rw [hq] at h
        simp only [Option.some.injEq] at h
        subst h
        rw [if_neg (by rw [hall n (AncestorOrSelf.self n)]; decide)]
        rw [ih p _ parentPath hq (fun a ha => hall a (AncestorOrSelf.step hp ha))]
        simp

/-- When the database is the state before the moves, the walk of `getOriginPath` gives the
path of the node in the database. -/
theorem originWalk_baseline (nodes : NodePtr → Node) (dbPath : DbNodeId → Option SyncPath)
    (hdb : DbBaseline nodes dbPath) :
    ∀ (fuel : Nat) (n : NodePtr) (names : List SyncName) (cur : SyncPath) (d : DbNodeId),
      nodePath nodes fuel n = some cur → (nodes n).idb = some d →
      ∃ path, dbPath d = some path ∧
        originWalk nodes dbPath fuel n names = some (ExitCode.Ok, path ++ names) := by
  intro fuel
  induction fuel with
  | zero => intro n names cur d h; simp [nodePath] at h
  | succ fuel ih =>
    intro n names cur d h hd
    simp only [nodePath] at h
    simp only [originWalk]
    cases hp : (nodes n).parentNode with
    | none => exact ⟨[], hdb.root n d hp hd, rfl⟩
    | some p =>
      rw [hp] at h
      simp only [] at h ⊢
      cases hq : nodePath nodes fuel p with
      | none => rw [hq] at h; simp at h
      | some parentPath =>
        by_cases hm : movedNode (nodes n) = true
        · rw [if_pos hm]
          simp only [movedNode, Bool.and_eq_true, Option.isSome_iff_exists] at hm
          obtain ⟨⟨dp, hdp⟩, ⟨origin, ho⟩⟩ := hm
          obtain ⟨pp, h1, h2⟩ := hdb.moved n p d dp origin hp hdp ho hd
          refine ⟨_, h2, ?_⟩
          simp [hdp, ho, h1]
        · rw [if_neg hm]
          obtain ⟨dp, pp, h1, h2, h3⟩ :=
            hdb.unmoved n p d hp (by simpa using hm) hd
          obtain ⟨path, h4, h5⟩ := ih p ((nodes n).name :: names) parentPath dp hq h1
          rw [h2] at h4
          simp only [Option.some.injEq] at h4
          subst h4
          exact ⟨_, h3, by rw [h5]; simp⟩

/-- The database of `setUpDbTree` is the state before the moves of `testGetOriginPath4`. -/
theorem originNodes_baseline : DbBaseline originNodes originDbPath := by
  refine ⟨?_, ?_, ?_⟩
  · intro n d h1 h2
    rcases n with _ | _ | _ | _ | _ | n <;> simp [originNodes] at h1 h2
    subst h2
    rfl
  · intro n p d h1 h2 h3
    rcases n with _ | _ | _ | _ | _ | n <;> simp [originNodes, movedNode] at h1 h2 h3
    · subst h1 h3
      exact ⟨_, _, rfl, rfl, rfl⟩
    · subst h1 h3
      exact ⟨_, _, rfl, rfl, rfl⟩
  · intro n p d dp origin h1 h2 h3 h4
    rcases n with _ | _ | _ | _ | _ | n <;> simp [originNodes] at h1 h2 h3 h4
    · subst h1 h2 h3 h4
      exact ⟨_, rfl, rfl⟩
    · subst h1 h2 h3 h4
      exact ⟨_, rfl, rfl⟩

/-- Inserting a change event leaves the path of a node. -/
theorem insertChangeEvent_path (n : PathNode) (e : OperationType) :
    (n.insertChangeEvent e).path = n.path := by
  unfold PathNode.insertChangeEvent
  split_ifs <;> rfl

/-- Inserting a change event leaves the id of a node. -/
theorem insertChangeEvent_id (n : PathNode) (e : OperationType) :
    (n.insertChangeEvent e).id = n.id := by
  unfold PathNode.insertChangeEvent
  split_ifs <;> rfl

/-- Inserting a change event leaves the modification time of a node. -/
theorem insertChangeEvent_lastmodified (n : PathNode) (e : OperationType) :
    (n.insertChangeEvent e).lastmodified = n.lastmodified := by
  unfold PathNode.insertChangeEvent
  split_ifs <;> rfl

/-- The change events after `insertChangeEvent` are the former ones and the inserted one. -/
theorem mem_insertChangeEvent (n : PathNode) (e x : OperationType) :
    x ∈ (n.insertChangeEvent e).changeEvents ↔ x ∈ n.changeEvents ∨ x = e := by
  unfold PathNode.insertChangeEvent
  split_ifs with h
  · constructor
    · exact Or.inl
    · rintro (h1 | rfl)
      · exact h1
      · exact h
  · simp

/-- Step 4 leaves the path of the node it marks. -/
theorem markDeletedFile_path (createOp : Option FSOperation) (deleteOp : FSOperation)
    (n : PathNode) : (markDeletedFile createOp deleteOp n).path = n.path := by
  cases createOp <;> simp [markDeletedFile, insertChangeEvent_path]

/-- Marking the nodes at one path and then taking the nodes at a path. -/
theorem nodesAtPath_map (f : PathNode → PathNode) (hf : ∀ n, (f n).path = n.path)
    (P Q : SyncPath) :
    ∀ tree : List PathNode,
      nodesAtPath (tree.map (fun n => if n.path = P then f n else n)) Q
        = if P = Q then (nodesAtPath tree P).map f else nodesAtPath tree Q := by
  intro tree
  induction tree with
  | nil => simp [nodesAtPath]
  | cons n rest ih =>
    simp only [nodesAtPath] at ih
    simp only [nodesAtPath, List.map_cons, List.filter_cons, ih]
    by_cases hP : n.path = P <;> by_cases hQ : P = Q
    · subst hQ; simp [hP, hf]
    · have : ¬ n.path = Q := fun h => hQ (hP.symm.trans h)
      simp [hP, hQ, hf, this]
    · subst hQ; simp [hP]
    · simp [hP, hQ]

/-- A Delete operation at another path leaves the nodes at a path. -/
theorem nodesAtPath_deleteFile_other (ops : List FSOperation) (tree : List PathNode)
    (op : FSOperation) (P : SyncPath) (h : op.path ≠ P) :
    nodesAtPath (deleteFile ops tree op) P = nodesAtPath tree P := by
  unfold deleteFile
  split_ifs
  · rw [nodesAtPath_map _ (markDeletedFile_path _ _), if_neg h]
  · have : (newDeletedFile (createAtSamePath ops op) op).path = op.path := by
      unfold newDeletedFile
      cases createAtSamePath ops op <;> rfl
    simp [nodesAtPath, List.filter_append, this, h]

/-- A Delete operation marks the nodes at its path, or adds a node when there is none. -/
theorem nodesAtPath_deleteFile_same (ops : List FSOperation) (tree : List PathNode)
    (op : FSOperation) :
    nodesAtPath (deleteFile ops tree op) op.path
      = if nodesAtPath tree op.path = [] then [newDeletedFile (createAtSamePath ops op) op]
        else (nodesAtPath tree op.path).map (markDeletedFile (createAtSamePath ops op) op) := by
  have hnew : (newDeletedFile (createAtSamePath ops op) op).path = op.path := by
    unfold newDeletedFile
    cases createAtSamePath ops op <;> rfl
  unfold deleteFile
  by_cases hany : (tree.any fun n => decide (n.path = op.path)) = true
  · rw [if_pos hany, nodesAtPath_map _ (markDeletedFile_path _ _), if_pos rfl]
    have hne : nodesAtPath tree op.path ≠ [] := by
      obtain ⟨n, hn, hp⟩ := List.any_eq_true.mp hany
      intro h
      have : n ∈ nodesAtPath tree op.path := List.mem_filter.mpr ⟨hn, hp⟩
      rw [h] at this
      exact absurd this (List.not_mem_nil _)
    rw [if_neg hne]
  · rw [if_neg hany]
    have he : nodesAtPath tree op.path = [] := by
      apply List.filter_eq_nil_iff.mpr
      intro n hn hp
      exact hany (List.any_eq_true.mpr ⟨n, hn, hp⟩)
    rw [if_pos he]
    simp only [nodesAtPath] at he
    simp [nodesAtPath, List.filter_append, he, hnew]

/-- A Delete operation with a Create operation by another id at its path leaves a single node
there, with the creating id and an Edit event. -/
theorem deleteFile_collapse (ops : List FSOperation) (tree : List PathNode)
    (op c : FSOperation) (hc : createAtSamePath ops op = some c)
    (hone : (nodesAtPath tree op.path).length ≤ 1)
    (hnodel : ∀ n ∈ nodesAtPath tree op.path, OperationType.Delete ∉ n.changeEvents) :
    ∃ n, nodesAtPath (deleteFile ops tree op) op.path = [n] ∧ n.id = c.nodeId ∧
      OperationType.Edit ∈ n.changeEvents ∧ OperationType.Delete ∉ n.changeEvents := by
  rw [nodesAtPath_deleteFile_same, hc]
  cases hl : nodesAtPath tree op.path with
  | nil =>
    rw [if_pos rfl]
    exact ⟨_, rfl, rfl, by simp [newDeletedFile], by simp [newDeletedFile]⟩
  | cons n rest =>
    rw [hl] at hone hnodel
    have hrest : rest = [] := by
      cases rest with
      | nil => rfl
      | cons _ _ => simp at hone
    subst hrest
    rw [if_neg (by simp)]
    refine ⟨_, rfl, ?_, ?_, ?_⟩
    · simp [markDeletedFile, insertChangeEvent_id]
    · simp [markDeletedFile, mem_insertChangeEvent]
    · have := hnodel n (List.mem_singleton.mpr rfl)
      simp [markDeletedFile, mem_insertChangeEvent, this]

/-- A Delete operation without a Create operation by another id at its path leaves a single
node there, with a Delete event and the modification time of the operation. -/
theorem deleteFile_marks (ops : List FSOperation) (tree : List PathNode)
    (op : FSOperation) (hc : createAtSamePath ops op = none)
    (hone : (nodesAtPath tree op.path).length ≤ 1)
    (hid : ∀ n ∈ nodesAtPath tree op.path, n.id = op.nodeId) :
    ∃ n, nodesAtPath (deleteFile ops tree op) op.path = [n] ∧ n.id = op.nodeId ∧
      OperationType.Delete ∈ n.changeEvents ∧ n.lastmodified = op.lastModified := by
  rw [nodesAtPath_deleteFile_same, hc]
  cases hl : nodesAtPath tree op.path with
  | nil =>
    rw [if_pos rfl]
    exact ⟨_, rfl, rfl, by simp [newDeletedFile], rfl⟩
  | cons n rest =>
    rw [hl] at hone hid
    have hrest : rest = [] := by
      cases rest with
      | nil => rfl
      | cons _ _ => simp at hone
    subst hrest
    rw [if_neg (by simp)]
    refine ⟨_, rfl, ?_, ?_, ?_⟩
    · simp [markDeletedFile, insertChangeEvent_id, hid n (List.mem_singleton.mpr rfl)]
    · simp [markDeletedFile, mem_insertChangeEvent]
    · simp [markDeletedFile, insertChangeEvent_lastmodified]

/-- The Delete operations of a list that all collapse with one Create operation leave a single
node at the path, with the creating id, an Edit event and no Delete event. -/
theorem foldl_deleteFile_collapse (ops : List FSOperation) (c : FSOperation) (P : SyncPath) :
    ∀ (dels : List FSOperation) (tree : List PathNode),
      (∀ op ∈ dels, op.path = P → createAtSamePath ops op = some c) →
      (nodesAtPath tree P).length ≤ 1 →
      (∀ n ∈ nodesAtPath tree P, OperationType.Delete ∉ n.changeEvents) →
      ((∃ op ∈ dels, op.path = P) ∨
        ∃ n, nodesAtPath tree P = [n] ∧ n.id = c.nodeId ∧
          OperationType.Edit ∈ n.changeEvents) →
      ∃ n, nodesAtPath (dels.foldl (deleteFile ops) tree) P = [n] ∧ n.id = c.nodeId ∧
        OperationType.Edit ∈ n.changeEvents ∧ OperationType.Delete ∉ n.changeEvents := by
  intro dels
  induction dels with
  | nil =>
    intro tree _ _ hnodel h
    rcases h with ⟨op, hop, _⟩ | ⟨n, h1, h2, h3⟩
    · exact absurd hop (List.not_mem_nil _)
    · exact ⟨n, h1, h2, h3, hnodel n (by rw [h1]; exact List.mem_singleton.mpr rfl)⟩
  | cons op rest ih =>
    intro tree hall hone hnodel h
    rw [List.foldl_cons]
    have hall1 : ∀ x ∈ rest, x.path = P → createAtSamePath ops x = some c :=
      fun x hx => hall x (List.mem_cons_of_mem _ hx)
    by_cases hp : op.path = P
    · subst hp
      obtain ⟨n, h1, h2, h3, h4⟩ :=
        deleteFile_collapse ops tree op c (hall op (List.mem_cons_self _ _) rfl) hone hnodel
      refine ih _ hall1 (by rw [h1]; exact le_refl _) ?_ (Or.inr ⟨n, h1, h2, h3⟩)
      intro m hm
      rw [h1] at hm
      rw [List.mem_singleton.mp hm]
      exact h4
    · rw [← nodesAtPath_deleteFile_other ops tree op P hp] at hone hnodel h
      refine ih _ hall1 hone hnodel ?_
      rcases h with ⟨x, hx, hxp⟩ | h
      · rcases List.mem_cons.mp hx with rfl | hx
        · exact absurd hxp hp
        · exact Or.inl ⟨x, hx, hxp⟩
      · exact Or.inr h

/-- When one Delete operation only is at a path and no Create operation collapses with it, the
Delete operations of a list leave a single node at the path, with the deleted id, a Delete
event and the modification time of the operation. -/
theorem foldl_deleteFile_marks (ops : List FSOperation) (d : FSOperation)
    (hc : createAtSamePath ops d = none) :
    ∀ (dels : List FSOperation) (tree : List PathNode),
      (∀ op ∈ dels, op.path = d.path → op = d) →
      (nodesAtPath tree d.path).length ≤ 1 →
      (∀ n ∈ nodesAtPath tree d.path, n.id = d.nodeId) →
      (d ∈ dels ∨
        ∃ n, nodesAtPath tree d.path = [n] ∧ n.id = d.nodeId ∧
          OperationType.Delete ∈ n.changeEvents ∧ n.lastmodified = d.lastModified) →
      ∃ n, nodesAtPath (dels.foldl (deleteFile ops) tree) d.path = [n] ∧ n.id = d.nodeId ∧
        OperationType.Delete ∈ n.changeEvents ∧ n.lastmodified = d.lastModified := by
  intro dels
  induction dels with
  | nil =>
    intro tree _ _ _ h
    rcases h with h | h
    · exact absurd h (List.not_mem_nil _)
    · exact h
  | cons op rest ih =>
    intro tree hall hone hid h
    rw [List.foldl_cons]
    have hall1 : ∀ x ∈ rest, x.path = d.path → x = d :=
      fun x hx => hall x (List.mem_cons_of_mem _ hx)
    by_cases hp : op.path = d.path
    · have hop : op = d := hall op (List.mem_cons_self _ _) hp
      subst hop
      obtain ⟨n, h1, h2, h3, h4⟩ := deleteFile_marks ops tree op hc hone hid
      refine ih _ hall1 (by rw [h1]; exact le_refl _) ?_ (Or.inr ⟨n, h1, h2, h3, h4⟩)
      intro m hm
      rw [h1] at hm
      rw [List.mem_singleton.mp hm]
      exact h2
    · rw [← nodesAtPath_deleteFile_other ops tree op d.path hp] at hone hid h
      refine ih _ hall1 hone hid ?_
      rcases h with hx | h
      · rcases List.mem_cons.mp hx with rfl | hx
        · exact absurd rfl hp
        · exact Or.inl hx
      · exact Or.inr h

/-- With one Create operation on a file at a path, every Delete operation at the path by
another id collapses with it. -/
theorem createAtSamePath_unique (ops : List FSOperation) (op c : FSOperation)
    (hc : c ∈ ops) (hkind : isCreateFile c = true) (hpath : c.path = op.path)
    (hid : c.nodeId ≠ op.nodeId)
    (hunique : ∀ x ∈ ops, isCreateFile x = true → x.path = op.path → x = c) :
    createAtSamePath ops op = some c := by
  unfold createAtSamePath
  cases hf : ops.find? (fun x =>
      isCreateFile x && decide (x.path = op.path) && decide (x.nodeId ≠ op.nodeId)) with
  | none =>
    have := List.find?_eq_none.mp hf c hc
    simp [hkind, hpath, hid] at this
  | some x =>
    have hx := List.find?_some hf
    have hmem := List.mem_of_find?_eq_some hf
    simp only [Bool.and_eq_true, decide_eq_true_eq] at hx
    rw [hunique x hmem hx.1.1 hx.1.2]

/-- The sample trees with distinct ids are well formed. -/
theorem genEnvDistinct_wellFormed (free : Int) :
    WellFormedTrees (genEnvDistinct free) genWeight 10 where
  finite := (genEnv_wellFormed free).finite
  depth := (genEnv_wellFormed free).depth
  created := (genEnv_wellFormed free).created
  deleted := by
    intro n hD
    have hD1 : (genNodes n).hasChangeEvent OperationType.Delete = true := hD
    simp only [Node.hasChangeEvent] at hD1
    rw [genNodes_changeEvents] at hD1
    split_ifs at hD1 with h1 <;> simp at hD1
    rcases h1 with h | h
    · subst h
      exact ⟨0, "1", "42", rfl, rfl, rfl⟩
    · subst h
      exact ⟨16, "107", "108", rfl, rfl, rfl⟩

/-- In the sample synchronisation with distinct ids every changed node that is not created
has a corresponding node. -/
theorem genEnvDistinct_corresponding {free : Int} (n : NodePtr)
    (hev : ((genEnvDistinct free).nodes n).hasChangeEvent OperationType.Delete = true
      ∨ ((genEnvDistinct free).nodes n).hasChangeEvent OperationType.Edit = true
      ∨ ((genEnvDistinct free).nodes n).hasChangeEvent OperationType.Move = true)
    (hC : ((genEnvDistinct free).nodes n).hasChangeEvent OperationType.Create = false) :
    ∃ c, (genEnvDistinct free).correspondingNodeInOtherTree n = some c :=
  @genEnv_corresponding free n hev hC

/-- Every id of the sample nodes with distinct ids belongs to one node. -/
theorem genNodesDistinct_owner (a : NodePtr) (i : NodeId)
    (h : (genNodesDistinct a).id = some i) : genIdOwner i = a := by
  rcases a with _ | _ | _ | _ | _ | _ | _ | _ | _ | _ | _ | _ | _ | _ | _ | _ | _ | _ | a <;>
    simp [genNodesDistinct, genNodes] at h <;> subst h <;> rfl

/-- No two sample nodes with distinct ids have the same id. -/
theorem genEnvDistinct_uniqueIds (free : Int) : UniqueIds (genEnvDistinct free) := by
  intro a b i ha hb
  rw [← genNodesDistinct_owner a i ha, ← genNodesDistinct_owner b i hb]

/-- Every sample node is among the children of its parent. -/
theorem genEnvDistinct_childrenOfParents (free : Int) :
    ChildrenOfParents (genEnvDistinct free) := by
  intro n p h
  have h1 : (genNodes n).parentNode = some p := h
  show n ∈ (genNodes p).children
  rcases n with _ | _ | _ | _ | _ | _ | _ | _ | _ | _ | _ | _ | _ | _ | _ | _ | _ | _ | n <;>
    simp [genNodes] at h1 <;> subst h1 <;> simp [genNodes]

/-- The sample run on the nodes with distinct ids ends with `Ok` and the operations
`genOpsDistinct`. -/
theorem genRunDistinct_result :
    (generatorExecute (genEnvDistinct 1000) 10 16 [] genState).map
        (fun r => (r.exitCode, r.state.syncOps))
      = some (ExitCode.Ok, genOpsDistinct) := by
  rfl

/-- The descendants of a node in the sample trees with distinct ids are those in the sample
trees. -/
theorem genNodesDistinct_descendant (a d : NodePtr)
    (h : TreeDescendant genNodesDistinct a d) : TreeDescendant genNodes a d := by
  induction h with
  | child hc => exact TreeDescendant.child hc
  | step hc _ ih => exact TreeDescendant.step hc ih

/-- When the walk reaches a node that is not `Processed` and has a corresponding node, with no
stop requested at that pass, every change event of the node is accounted for in the state
`execute` ends with. -/
theorem reached_node_handled (env : GeneratorEnv) (weight : NodePtr → Nat)
    (markFuel fuel : Nat) (queued : List (Option NodePtr)) (st : GeneratorState)
    (hW : WellFormedTrees env weight markFuel)
    (pass : Nat) (X c : NodePtr) (rest : List (Option NodePtr)) (cfg : LoopConfig)
    (hreach : loopPrefix env markFuel pass (startConfig env queued st) = some cfg)
    (hqueue : cfg.queue = some X :: rest)
    (hstop : env.stopAsked pass = false)
    (hX : cfg.state.status X ≠ NodeStatus.Processed)
    (hcorr : env.correspondingNodeInOtherTree X = some c)
    (hpass : pass < fuel)
    (r : GeneratorResult) (hr : generatorExecute env markFuel fuel queued st = some r) :
    Handled env r.state X := by
  obtain ⟨code, q, s1, hl, hres⟩ := generatorExecute_spec env markFuel fuel queued st r hr
  have hstate : Handled env s1 X → Handled env r.state X := by
    intro h
    rcases hres with ⟨_, h1⟩ | ⟨_, h1⟩ <;> rw [h1] <;> exact h
  apply hstate
  obtain ⟨hp, hloop⟩ := loopPrefix_exploreLoop env markFuel pass _ cfg hreach
  have hp0 : cfg.pass = pass := by
    rw [hp]
    simp [startConfig]
  obtain ⟨k, hk⟩ : ∃ k, fuel = k + 1 + pass := ⟨fuel - pass - 1, by omega⟩
  have h1 := hloop (k + 1)
  simp only [startConfig] at h1
  rw [hk, h1, hqueue, hp0,
    exploreLoop_visit env markFuel k pass X rest cfg.state hstop hX] at hl
  obtain ⟨res, hv⟩ := visitNode_isSome env weight markFuel hW cfg.state X
  obtain ⟨vc, st1⟩ := res
  rcases visitNode_spec env markFuel cfg.state st1 X vc hv with ⟨_, _, hnone, _⟩ | ⟨hvc, _⟩
  · rw [hcorr] at hnone
    cases hnone
  · subst hvc
    rw [hv] at hl
    simp only at hl
    refine exploreLoop_state_inv env markFuel (fun s => Handled env s X) ?_ k (pass + 1) _ st1
      code q s1 (visitNode_handled hv) hl
    intro s n s2 hP _ hvis
    rcases visitNode_spec env markFuel s s2 n _ hvis with ⟨hcd, _⟩ | ⟨_, b1, b2, b3, b4, e, _⟩
    · cases hcd
    · exact handled_mono e hP

/-! ## C1: rename-aside conflicts -/

/-- C1: for a conflict of type CreateCreate, EditEdit, MoveCreate or MoveMoveDest,
`generateOperations` returns `Ok` and pushes exactly one operation: a Move with target side
Local, affected node the remote node of the conflict, corresponding node its local node, as
new name the conflict name generated from the local node, and `omit = false`. No operation
targets the remote side. -/
theorem renameLocal_pushes_single_local_move (env : Env) (fuel : Nat) (queue : List Conflict)
    (s : State) (c : Conflict)
    (hType : c.type = ConflictType.CreateCreate ∨ c.type = ConflictType.EditEdit ∨
      c.type = ConflictType.MoveCreate ∨ c.type = ConflictType.MoveMoveDest) :
    ∃ op : SyncOperation,
      generateOperations env fuel queue s c
        = some (ExitCode.Ok, { s with syncOps := s.syncOps ++ [op] },
            env.isConflictsWithLocalRename c.type) ∧
      op.type = OperationType.Move ∧ op.targetSide = ReplicaSide.Local ∧
      op.affectedNode = some (c.remoteNode s) ∧
      op.correspondingNode = some (c.localNode s) ∧
      op.newName = env.generateNewValidName
        (appendPath env.localPath (env.getPath (c.localNode s))) SuffixType.Conflict ∧
      op.omit_ = false := by
  have hgen : generateOperations env fuel queue s c = caseRenameLocal env s c := by
    rcases hType with h | h | h | h <;> simp [generateOperations, h]
  rw [hgen]
  refine ⟨{ type := OperationType.Move,
            affectedNode := some (c.remoteNode s),
            correspondingNode := some (c.localNode s),
            targetSide := ReplicaSide.Local,
            newName := (generateConflictedName env s (c.localNode s) false).2,
            newParentNode :=
              if (generateConflictedName env s (c.localNode s) false).1 then none
              else some (env.rootNode ReplicaSide.Local),
            conflict := some c }, ?_, rfl, rfl, rfl, rfl, ?_, rfl⟩
  · by_cases hlen : (generateConflictedName env s (c.localNode s) false).1 = true
    · simp [caseRenameLocal, pushOp, hlen]
    · simp [caseRenameLocal, pushOp, hlen]
  · simp [generateConflictedName_snd]

/-- Witness of C1: a Create-Create conflict on `/A/f.txt`. -/
theorem renameLocal_pushes_single_local_move_witness :
    ∃ op : SyncOperation,
      generateOperations (sampleEnv true) 0 []
          (sampleState (fun _ => [OperationType.Create]) (fun _ => none) (fun _ => none))
          { node := 2, correspondingNode := 12, type := ConflictType.CreateCreate }
        = some (ExitCode.Ok,
            { sampleState (fun _ => [OperationType.Create]) (fun _ => none) (fun _ => none) with
              syncOps := [] ++ [op] },
            true) ∧
      op.type = OperationType.Move ∧ op.targetSide = ReplicaSide.Local ∧
      op.affectedNode = some 12 ∧
      op.correspondingNode = some 2 ∧
      op.newName = "f.txt (conflicting copy)" ∧
      op.omit_ = false :=
  renameLocal_pushes_single_local_move (sampleEnv true) 0 []
    (sampleState (fun _ => [OperationType.Create]) (fun _ => none) (fun _ => none))
    { node := 2, correspondingNode := 12, type := ConflictType.CreateCreate } (Or.inl rfl)

/-! ## C2: DB-only deletes -/

/-- Counterexample to C2 as stated: a MoveDelete conflict (not deferred) on the deleted
directory `A`, for which the query `SyncDb::ids` fails. `generateOperations` returns `DbError`
and no Delete operation is emitted. -/
theorem moveDelete_without_delete_counterexample :
    (generateOperations (sampleEnv false) 1 [] (orphanSampleState (fun _ => none))
        { node := 1, correspondingNode := 11, type := ConflictType.MoveDelete }).map
      (fun r => (r.1, r.2.1.syncOps, r.2.2))
      = some (ExitCode.DbError, [], false) ∧
    moveDeleteDeferred (sampleEnv false) [] (orphanSampleState (fun _ => none))
        { node := 1, correspondingNode := 11, type := ConflictType.MoveDelete } = false := by
  refine ⟨rfl, rfl⟩

/-- C2 (amended): take an EditDelete conflict (on a well-founded tree, the deleted node having
a parent) or a MoveDelete conflict that is not deferred and whose resolution returns. Then
every Delete operation pushed has `omit = true`; when the exit code is `Ok` exactly one Delete
is pushed; and an EditDelete conflict always ends with `Ok`. -/
theorem dbOnly_delete_single (env : Env) (fuel : Nat) (queue : List Conflict) (s : State)
    (c : Conflict) (rank : NodePtr → Nat)
    (hCase :
      (c.type = ConflictType.EditDelete ∧
        (∃ deleteParent, (s.nodes (deleteNodeOf s c)).parentNode = some deleteParent) ∧
        WellRanked s.nodes rank ∧ rank (deleteNodeOf s c) < fuel ∧
        rank (editNodeOf s c) < fuel) ∨
      (c.type = ConflictType.MoveDelete ∧ moveDeleteDeferred env queue s c = false ∧
        (generateOperations env fuel queue s c).isSome = true)) :
    ∃ (code : ExitCode) (s1 : State) (pushed : List SyncOperation),
      generateOperations env fuel queue s c = some (code, s1, false) ∧
      s1.syncOps = s.syncOps ++ pushed ∧
      (∀ op ∈ pushed, op.type = OperationType.Delete → op.omit_ = true) ∧
      (code = ExitCode.Ok →
        (pushed.filter (fun op => decide (op.type = OperationType.Delete))).length = 1) ∧
      (c.type = ConflictType.EditDelete → code = ExitCode.Ok) := by
  rcases hCase with ⟨hType, ⟨deleteParent, hParent⟩, hRank, hFuelD, hFuelE⟩ | ⟨hType, hDef, hRun⟩
  · obtain ⟨h1, h2⟩ :=
      caseEditDelete_spec env fuel queue s c deleteParent rank hType hParent hRank hFuelD hFuelE
    cases hdel : (s.nodes deleteParent).hasChangeEvent OperationType.Delete with
    | true =>
      refine ⟨ExitCode.Ok, _, _, h1 hdel, rfl, ?_, ?_, fun _ => rfl⟩
      · intro op hop
        simp only [List.mem_cons, List.mem_singleton, List.not_mem_nil, or_false] at hop
        rcases hop with rfl | rfl
        · intro h; cases h
        · intro _; rfl
      · intro _
        simp [List.filter]
    | false =>
      refine ⟨ExitCode.Ok, _, _, h2 hdel, rfl, ?_, ?_, fun _ => rfl⟩
      · intro op hop
        simp only [List.mem_singleton] at hop
        subst hop
        intro _; rfl
      · intro _
        simp [List.filter]
  · have hgen : generateOperations env fuel queue s c = caseMoveDelete env fuel queue s c := by
      simp [generateOperations, hType]
    rw [hgen] at hRun ⊢
    cases hres : caseMoveDelete env fuel queue s c with
    | none => simp [hres] at hRun
    | some r =>
      obtain ⟨code, s1, cont⟩ := r
      obtain ⟨hcont, moves, hmoves, hfail, hok⟩ :=
        caseMoveDelete_spec env fuel queue s c code s1 cont hDef hres
      subst hcont
      have hnoDel : (moves.filter (fun op => decide (op.type = OperationType.Delete))) = [] := by
        rw [List.filter_eq_nil_iff]
        intro op hop
        have := (hmoves op hop).1
        simp [this]
      by_cases hc : code = ExitCode.Ok
      · obtain ⟨hops, _, _⟩ := hok hc
        refine ⟨code, s1, _, rfl, by rw [hops, List.append_assoc], ?_, ?_, ?_⟩
        · intro op hop hdel
          rcases List.mem_append.mp hop with hop | hop
          · exact (hmoves op hop).2
          · simp only [List.mem_singleton] at hop
            subst hop
            rfl
        · intro _
          rw [List.filter_append, hnoDel]
          simp [List.filter]
        · intro he
          rw [hType] at he
          cases he
      · refine ⟨code, s1, moves, rfl, hfail hc, ?_, fun h => absurd h hc, ?_⟩
        · intro op hop _
          exact (hmoves op hop).2
        · intro he
          rw [hType] at he
          cases he

/-- Witness of C2: the Move-Delete conflict on the deleted directory `A` with the orphan
`f.txt`; one DB-only Move is followed by the single DB-only Delete. -/
theorem dbOnly_delete_single_witness :
    ∃ (code : ExitCode) (s1 : State) (pushed : List SyncOperation),
      generateOperations (sampleEnv true) 1 [] (orphanSampleState (fun _ => none))
          { node := 1, correspondingNode := 11, type := ConflictType.MoveDelete }
        = some (code, s1, false) ∧
      s1.syncOps = [] ++ pushed ∧
      (∀ op ∈ pushed, op.type = OperationType.Delete → op.omit_ = true) ∧
      (code = ExitCode.Ok →
        (pushed.filter (fun op => decide (op.type = OperationType.Delete))).length = 1) ∧
      (ConflictType.MoveDelete = ConflictType.EditDelete → code = ExitCode.Ok) :=
  dbOnly_delete_single (sampleEnv true) 1 [] (orphanSampleState (fun _ => none))
    { node := 1, correspondingNode := 11, type := ConflictType.MoveDelete } (fun _ => 0)
    (Or.inr ⟨rfl, rfl, rfl⟩)

/-! ## C3: Edit-Delete -/

/-- Counterexample to C3 as stated: `f.txt` is edited locally, `f.txt` and its parent `A` are
deleted remotely. The Move pushed first targets the local side (the edit node's side), but its
new parent is node `10`, the root of the remote tree (the deleted node's side), not node `0`,
the root of the local tree. -/
theorem editDelete_move_parent_counterexample :
    (generateOperations (sampleEnv true) 1 []
        (sampleState (fun n => if n = 2 then [OperationType.Edit] else
            if n = 11 ∨ n = 12 then [OperationType.Delete] else [])
          (fun _ => none) (fun _ => none))
        { node := 2, correspondingNode := 12, type := ConflictType.EditDelete }).map
      (fun r => r.2.1.syncOps.map (fun op => (op.type, op.targetSide, op.newParentNode)))
      = some [(OperationType.Move, ReplicaSide.Local, some 10),
              (OperationType.Delete, ReplicaSide.Local, none)] ∧
    (sampleEnv true).rootNode ReplicaSide.Local = 0 ∧
    (sampleEnv true).rootNode ReplicaSide.Remote = 10 := by
  refine ⟨rfl, rfl, rfl⟩

/-- C3 (amended): for an EditDelete conflict on a well-founded tree whose deleted node has a
parent, `generateOperations` returns `Ok`. When that parent carries a delete event exactly two
operations are pushed, in this order: a Move with affected node the deleted node,
corresponding node the edit node, target side the edit node's side, a conflict name built
from the conflict's local node, and as new parent the root node of the update tree of the
deleted node's side; then a Delete of the deleted node with `omit = true`. When the parent
carries no delete event the only operation pushed is a Delete with `omit = true` whose
affected node is the edit node. -/
theorem editDelete_operations (env : Env) (fuel : Nat) (queue : List Conflict) (s : State)
    (c : Conflict) (deleteParent : NodePtr) (rank : NodePtr → Nat)
    (hType : c.type = ConflictType.EditDelete)
    (hParentNode : (s.nodes (deleteNodeOf s c)).parentNode = some deleteParent)
    (hRank : WellRanked s.nodes rank)
    (hFuelD : rank (deleteNodeOf s c) < fuel)
    (hFuelE : rank (editNodeOf s c) < fuel) :
    ((s.nodes deleteParent).hasChangeEvent OperationType.Delete = true →
      generateOperations env fuel queue s c
        = some (ExitCode.Ok,
            { s with
              syncOps := s.syncOps ++
                [{ type := OperationType.Move,
                   affectedNode := some (deleteNodeOf s c),
                   correspondingNode := some (editNodeOf s c),
                   targetSide := (s.nodes (editNodeOf s c)).side,
                   omit_ := false,
                   newName := env.generateNewValidName
                     (appendPath env.localPath (env.getPath (c.localNode s))) SuffixType.Conflict,
                   newParentNode := some (env.rootNode (s.nodes (deleteNodeOf s c)).side),
                   conflict := some c },
                 { type := OperationType.Delete,
                   affectedNode := some (deleteNodeOf s c),
                   correspondingNode := some (editNodeOf s c),
                   targetSide := (s.nodes (editNodeOf s c)).side,
                   omit_ := true,
                   conflict := some c }] },
            false)) ∧
    ((s.nodes deleteParent).hasChangeEvent OperationType.Delete = false →
      generateOperations env fuel queue s c
        = some (ExitCode.Ok,
            { s with
              syncOps := s.syncOps ++
                [{ type := OperationType.Delete,
                   affectedNode := some (editNodeOf s c),
                   correspondingNode := some (deleteNodeOf s c),
                   targetSide := (s.nodes (deleteNodeOf s c)).side,
                   omit_ := true,
                   conflict := some c }] },
            false)) :=
  caseEditDelete_spec env fuel queue s c deleteParent rank hType hParentNode hRank hFuelD hFuelE

/-- Witness of C3: `f.txt` edited locally, `f.txt` and its parent `A` deleted remotely. -/
theorem editDelete_operations_witness :
    (generateOperations (sampleEnv true) 3 []
        (sampleState (fun n => if n = 2 then [OperationType.Edit] else
            if n = 11 ∨ n = 12 then [OperationType.Delete] else [])
          (fun _ => none) (fun _ => none))
        { node := 2, correspondingNode := 12, type := ConflictType.EditDelete }).map
      (fun r => (r.1, r.2.1.syncOps.map (fun op => (op.type, op.affectedNode, op.omit_)), r.2.2))
      = some (ExitCode.Ok,
          [(OperationType.Move, some 12, false), (OperationType.Delete, some 12, true)],
          false) :=
  have h := (editDelete_operations (sampleEnv true) 3 []
    (sampleState (fun n => if n = 2 then [OperationType.Edit] else
        if n = 11 ∨ n = 12 then [OperationType.Delete] else [])
      (fun _ => none) (fun _ => none))
    { node := 2, correspondingNode := 12, type := ConflictType.EditDelete }
    11 sampleRank rfl rfl (sampleNodes_wellRanked _ _) (by decide) (by decide)).1 rfl
  by rw [h]; rfl

/-! ## C4: orphans of a Move-Delete conflict -/

/-- Counterexample to C4 as stated: `A` is deleted locally and moved remotely, and `f.txt`
(db id 3) is an orphan of the deleted local directory. The registry already holds db id 3 with
side Remote. The resolution returns `Ok`, but the registry still maps db id 3 to Remote and
does not contain (3, Local), Local being the side of the deleted node. -/
theorem moveDelete_registry_counterexample :
    (generateOperations (sampleEnv true) 1 []
        (orphanSampleState (fun d => if d = 3 then some ReplicaSide.Remote else none))
        { node := 1, correspondingNode := 11, type := ConflictType.MoveDelete }).map
      (fun r => (r.1, r.2.1.syncOps.map (fun op => (op.type, op.affectedNode)),
        r.2.1.registeredOrphans 3))
      = some (ExitCode.Ok,
          [(OperationType.Move, some 2), (OperationType.Delete, some 1)],
          some ReplicaSide.Remote) ∧
    ((orphanSampleState (fun d => if d = 3 then some ReplicaSide.Remote else none)).nodes
        (deleteNodeOf
          (orphanSampleState (fun d => if d = 3 then some ReplicaSide.Remote else none))
          { node := 1, correspondingNode := 11, type := ConflictType.MoveDelete })).side
      = ReplicaSide.Local := by
  refine ⟨rfl, rfl⟩

/-- C4 (amended): for a non-deferred MoveDelete conflict whose deleted node is a directory, in
an update tree where only directories have children, and whose resolution returns `Ok`: the
db ids treated as orphans are exactly the db ids of the DB descendants of the deleted node
that are not the db id of a descendant of the deleted node in the update tree. The operations
pushed are one Move per orphan (with `omit = true`, new parent the root node of the orphan's
tree and a name built with the orphan suffix), followed by the DB-only Delete. Afterwards the
registry maps each orphan db id that had no entry before to the side of the deleted node;
every entry that existed before is unchanged and no other entry is added. -/
theorem moveDelete_orphans (env : Env) (fuel : Nat) (queue : List Conflict) (s : State)
    (c : Conflict)
    (hType : c.type = ConflictType.MoveDelete)
    (hDef : moveDeleteDeferred env queue s c = false)
    (hDir : (s.nodes (deleteNodeOf s c)).type = NodeType.Directory)
    (hShape : OnlyDirectoriesHaveChildren s.nodes)
    (hRun : (generateOperations env fuel queue s c).map Prod.fst = some ExitCode.Ok) :
    ∃ (s1 : State) (orphans : List DbNodeId) (moves : List SyncOperation),
      generateOperations env fuel queue s c = some (ExitCode.Ok, s1, false) ∧
      orphans.Nodup ∧
      (∀ d, d ∈ orphans ↔
        IsDbDescendant env s (deleteNodeOf s c) d ∧
          ¬ IsTreeDescendantDbId s (deleteNodeOf s c) d) ∧
      List.Forall₂ (IsOrphanMove env s c (s.nodes (deleteNodeOf s c)).side) orphans moves ∧
      (∀ op ∈ moves, op.type = OperationType.Move ∧ op.omit_ = true) ∧
      s1.syncOps = s.syncOps ++ moves ++
        [{ type := OperationType.Delete,
           affectedNode := some (deleteNodeOf s c),
           correspondingNode := some (moveNodeOf s c),
           targetSide := (s.nodes (moveNodeOf s c)).side,
           omit_ := true,
           conflict := some c }] ∧
      (∀ k, s1.registeredOrphans k
        = if k ∈ orphans then
            (match s.registeredOrphans k with
              | some w => some w
              | none => some (s.nodes (deleteNodeOf s c)).side)
          else s.registeredOrphans k) := by
  have hgen : generateOperations env fuel queue s c = caseMoveDelete env fuel queue s c := by
    simp [generateOperations, hType]
  rw [hgen] at hRun ⊢
  cases hres : caseMoveDelete env fuel queue s c with
  | none => simp [hres] at hRun
  | some r =>
    obtain ⟨code, s1, cont⟩ := r
    simp only [hres, Option.map_some', Option.some.injEq] at hRun
    subst hRun
    obtain ⟨hcont, moves, hmoves, _, hok⟩ :=
      caseMoveDelete_spec env fuel queue s c _ s1 cont hDef hres
    obtain ⟨hops, _, hdirspec⟩ := hok rfl
    obtain ⟨orphans, hnd, hmem, hfa, hreg⟩ := hdirspec hDir
    subst hcont
    refine ⟨s1, orphans, moves, rfl, hnd, hmem hShape, hfa, hmoves, hops, fun k => ?_⟩
    rw [hreg, foldl_mapInsert_apply]

/-- Witness of C4: `A` deleted locally and moved remotely, `f.txt` (db id 3) an orphan of the
deleted directory, empty registry. -/
theorem moveDelete_orphans_witness :
    ∃ (s1 : State) (orphans : List DbNodeId) (moves : List SyncOperation),
      generateOperations (sampleEnv true) 1 [] (orphanSampleState (fun _ => none))
          { node := 1, correspondingNode := 11, type := ConflictType.MoveDelete }
        = some (ExitCode.Ok, s1, false) ∧
      orphans.Nodup ∧
      (∀ d, d ∈ orphans ↔
        IsDbDescendant (sampleEnv true) (orphanSampleState (fun _ => none)) 1 d ∧
          ¬ IsTreeDescendantDbId (orphanSampleState (fun _ => none)) 1 d) ∧
      List.Forall₂ (IsOrphanMove (sampleEnv true) (orphanSampleState (fun _ => none))
          { node := 1, correspondingNode := 11, type := ConflictType.MoveDelete }
          ReplicaSide.Local) orphans moves ∧
      (∀ op ∈ moves, op.type = OperationType.Move ∧ op.omit_ = true) ∧
      s1.syncOps = [] ++ moves ++
        [{ type := OperationType.Delete,
           affectedNode := some 1,
           correspondingNode := some 11,
           targetSide := ReplicaSide.Remote,
           omit_ := true,
           conflict :=
             some { node := 1, correspondingNode := 11, type := ConflictType.MoveDelete } }] ∧
      (∀ k, s1.registeredOrphans k
        = if k ∈ orphans then
            (match (none : Option ReplicaSide) with
              | some w => some w
              | none => some ReplicaSide.Local)
          else none) :=
  moveDelete_orphans (sampleEnv true) 1 [] (orphanSampleState (fun _ => none))
    { node := 1, correspondingNode := 11, type := ConflictType.MoveDelete }
    rfl rfl rfl (orphanSampleState_shape _) rfl

/-! ## C5: Move-Move (Source) -/

/-- Counterexample to C5 as stated: a MoveMoveSource conflict on `f.txt` whose local move
origin `/C/f.txt` has no parent directory in the local tree. `generateOperations` returns
`DataError` and no Move operation is emitted. -/
theorem moveMoveSource_without_operation_counterexample :
    (generateOperations (sampleEnv true) 0 []
        (sampleState (fun n => if n = 2 ∨ n = 12 then [OperationType.Move] else [])
          (fun n => if n = 2 then some ["C", "f.txt"] else
            if n = 12 then some ["B", "f.txt"] else none)
          (fun _ => none))
        { node := 2, correspondingNode := 12, type := ConflictType.MoveMoveSource }).map
      (fun r => (r.1, r.2.1.syncOps, r.2.2))
      = some (ExitCode.DataError, [], false) := by
  rfl

/-- C5 (amended): for a MoveMoveSource conflict whose conflicting node has a db id, the losing
node is the local node unless that db id is in the orphan registry; registered with side
Local the losing node is the remote node, registered with side Remote it is the local node.
When the undo of the losing node's move can be built (the node has a move origin whose parent
directory is found in its update tree), `generateOperations` returns `Ok` and pushes exactly
one operation, the Move built by `undoMove` for the losing node, targeting the losing node's
side. -/
theorem moveMoveSource_undoes_loser (env : Env) (fuel : Nat) (queue : List Conflict)
    (s : State) (c : Conflict) (dbId : DbNodeId) (origin : SyncPath) (originParent : NodePtr)
    (hType : c.type = ConflictType.MoveMoveSource)
    (hIdb : (s.nodes c.node).idb = some dbId)
    (hOrigin : (s.nodes (loserNodeOf s c dbId)).moveOrigin = some origin)
    (hParent : env.getNodeByPath (s.nodes (loserNodeOf s c dbId)).side (parent_path origin)
      = some originParent) :
    (s.registeredOrphans dbId = none → loserNodeOf s c dbId = c.localNode s) ∧
    (s.registeredOrphans dbId = some ReplicaSide.Local →
      loserNodeOf s c dbId = c.remoteNode s) ∧
    (s.registeredOrphans dbId = some ReplicaSide.Remote →
      loserNodeOf s c dbId = c.localNode s) ∧
    ∃ op : SyncOperation,
      generateOperations env fuel queue s c = some (ExitCode.Ok, pushOp s op, false) ∧
      op = { (undoMove env s (loserNodeOf s c dbId) {}).2 with conflict := some c } ∧
      op.type = OperationType.Move ∧
      op.correspondingNode = some (loserNodeOf s c dbId) ∧
      op.targetSide = (s.nodes (loserNodeOf s c dbId)).side := by
  obtain ⟨h1, h2, h3, h4, _, _⟩ :=
    undoMove_of_origin env s (loserNodeOf s c dbId) {} origin originParent hOrigin hParent
  refine ⟨?_, ?_, ?_, _, ?_, rfl, h2, h3, h4⟩
  · intro h
    simp [loserNodeOf, h]
  · intro h
    simp [loserNodeOf, h]
  · intro h
    simp [loserNodeOf, h]
  · simp [generateOperations, hType, hIdb, caseUndoMove, h1]

/-- Witness of C5: the sample file `f.txt` carries a move with origin `/A/f.txt` on both sides and
its db id is registered as an orphan of the local side: the remote move is undone. -/
theorem moveMoveSource_undoes_loser_witness :
    ∃ op : SyncOperation,
      generateOperations (sampleEnv true) 0 []
          (sampleState (fun n => if n = 2 ∨ n = 12 then [OperationType.Move] else [])
            (fun n => if n = 2 ∨ n = 12 then some ["A", "f.txt"] else none)
            (fun d => if d = 3 then some ReplicaSide.Local else none))
          { node := 2, correspondingNode := 12, type := ConflictType.MoveMoveSource }
        = some (ExitCode.Ok,
            pushOp (sampleState (fun n => if n = 2 ∨ n = 12 then [OperationType.Move] else [])
              (fun n => if n = 2 ∨ n = 12 then some ["A", "f.txt"] else none)
              (fun d => if d = 3 then some ReplicaSide.Local else none)) op,
            false) ∧
      op.type = OperationType.Move ∧
      op.correspondingNode = some 12 ∧
      op.targetSide = ReplicaSide.Remote :=
  have h := (moveMoveSource_undoes_loser (sampleEnv true) 0 []
    (sampleState (fun n => if n = 2 ∨ n = 12 then [OperationType.Move] else [])
      (fun n => if n = 2 ∨ n = 12 then some ["A", "f.txt"] else none)
      (fun d => if d = 3 then some ReplicaSide.Local else none))
    { node := 2, correspondingNode := 12, type := ConflictType.MoveMoveSource }
    3 ["A", "f.txt"] 11 rfl rfl rfl rfl).2.2.2
  h.elim fun op hop => ⟨op, hop.1, hop.2.2.1, hop.2.2.2.1, hop.2.2.2.2⟩

/-! ## C6: undoMove -/

/-- C6: for a moved node whose undo is possible (the parent directory of its move origin is
found in the tree, is not below the moved node, carries no delete event, and none of its
non-deleted children with the origin file name carries a create or move event), `undoMove`
returns `Ok` with a Move operation whose new parent is the tree node at
`parent_path(moveOrigin)` and whose new name is `filename(moveOrigin)`. The destination of
that operation is the move origin path itself (for a lookup that returns the node at the
requested path), so the original move applies again from there. -/
theorem undoMove_restores_origin (env : Env) (s : State) (moveNode : NodePtr)
    (moveOp : SyncOperation) (origin : SyncPath) (originParent : NodePtr)
    (hOrigin : (s.nodes moveNode).moveOrigin = some origin)
    (hParent : env.getNodeByPath (s.nodes moveNode).side (parent_path origin)
      = some originParent)
    (hBelow : env.isABelowB originParent moveNode = false)
    (hNotDeleted : (s.nodes originParent).hasChangeEvent OperationType.Delete = false)
    (hFree : ∀ ch ∈ (s.nodes originParent).children,
      (s.nodes ch).name = filename origin →
      (s.nodes ch).hasChangeEvent OperationType.Delete = false →
      (s.nodes ch).hasChangeEvent OperationType.Create = false ∧
        (s.nodes ch).hasChangeEvent OperationType.Move = false) :
    ∃ op : SyncOperation,
      undoMove env s moveNode moveOp = (ExitCode.Ok, op) ∧
      op.type = OperationType.Move ∧
      op.newParentNode = some originParent ∧
      op.newName = filename origin ∧
      op.correspondingNode = some moveNode ∧
      op.affectedNode = env.correspondingNodeInOtherTree moveNode ∧
      op.targetSide = (s.nodes moveNode).side ∧
      (env.getPath originParent = parent_path origin → origin ≠ [] →
        env.getPath originParent ++ [op.newName] = origin) := by
  have hchild : ∀ q, getChildExcept s originParent (filename origin) OperationType.Delete
      = some q →
      (s.nodes q).hasChangeEvent OperationType.Create = false ∧
        (s.nodes q).hasChangeEvent OperationType.Move = false := by
    intro q hq
    unfold getChildExcept at hq
    have hmem := List.mem_of_find?_eq_some hq
    have hprop := List.find?_some hq
    simp only [Bool.and_eq_true, decide_eq_true_eq, Bool.not_eq_true'] at hprop
    exact hFree q hmem hprop.1 hprop.2
  refine ⟨{ moveOp with
            newParentNode := some originParent,
            newName := filename origin,
            type := OperationType.Move,
            affectedNode := env.correspondingNodeInOtherTree moveNode,
            correspondingNode := some moveNode,
            targetSide := (s.nodes moveNode).side }, ?_, rfl, rfl, rfl, rfl, rfl, rfl, ?_⟩
  · simp only [undoMove, hOrigin, hParent, hBelow, hNotDeleted]
    cases hget : getChildExcept s originParent (filename origin) OperationType.Delete with
    | none => simp
    | some q =>
      obtain ⟨hc, hm⟩ := hchild q hget
      simp [hc, hm]
  · intro hp hne
    show env.getPath originParent ++ [filename origin] = origin
    rw [hp]
    unfold parent_path filename
    rw [List.getLast?_eq_getLast origin hne]
    exact List.dropLast_append_getLast hne

/-- Witness of C6: the directory `B` was moved locally from `/A/B` to `/B`; the undo puts it
back under `A` with the name `B`. -/
theorem undoMove_restores_origin_witness :
    ∃ op : SyncOperation,
      undoMove (sampleEnv true)
          (sampleState (fun n => if n = 3 then [OperationType.Move] else [])
            (fun n => if n = 3 then some ["A", "B"] else none) (fun _ => none))
          3 {}
        = (ExitCode.Ok, op) ∧
      op.type = OperationType.Move ∧
      op.newParentNode = some 1 ∧
      op.newName = "B" ∧
      op.correspondingNode = some 3 ∧
      op.affectedNode = some 13 ∧
      op.targetSide = ReplicaSide.Local ∧
      (samplePath 1 = ["A"] → ["A", "B"] ≠ [] →
        samplePath 1 ++ [op.newName] = ["A", "B"]) :=
  undoMove_restores_origin (sampleEnv true)
    (sampleState (fun n => if n = 3 then [OperationType.Move] else [])
      (fun n => if n = 3 then some ["A", "B"] else none) (fun _ => none))
    3 {} ["A", "B"] 1 rfl rfl rfl rfl (by decide)

/-! ## C7: Move-ParentDelete and Move-Move (Cycle) -/

/-- Counterexample to C7 as stated: a MoveParentDelete conflict whose moved node `f.txt` has
the move origin `/C/f.txt`, the parent of which is not found in the tree.
`generateOperations` returns `DataError` and emits no operation. -/
theorem moveParentDelete_without_operation_counterexample :
    (generateOperations (sampleEnv true) 0 []
        (sampleState (fun n => if n = 12 then [OperationType.Move] else
            if n = 3 then [OperationType.Delete] else [])
          (fun n => if n = 12 then some ["C", "f.txt"] else none)
          (fun _ => none))
        { node := 12, correspondingNode := 3, type := ConflictType.MoveParentDelete }).map
      (fun r => (r.1, r.2.1.syncOps, r.2.2))
      = some (ExitCode.DataError, [], false) := by
  rfl

/-- C7 (amended): let the undone node be, for a MoveParentDelete conflict, the node of the
pair chosen for its move event and, for a MoveMoveCycle conflict, the local node. When the
undo of its move can be built (the node has a move origin whose parent directory is found in
its update tree), `generateOperations` returns `Ok` and pushes exactly one operation: the
Move built by `undoMove`, whose corresponding node is the undone node and whose target side
is that node's side; no Delete operation is pushed. -/
theorem undoMove_conflicts_push_single_move (env : Env) (fuel : Nat) (queue : List Conflict)
    (s : State) (c : Conflict) (origin : SyncPath) (originParent : NodePtr)
    (hType : c.type = ConflictType.MoveParentDelete ∨ c.type = ConflictType.MoveMoveCycle)
    (hOrigin : (s.nodes (if c.type = ConflictType.MoveParentDelete then moveNodeOf s c
      else c.localNode s)).moveOrigin = some origin)
    (hParent : env.getNodeByPath
      (s.nodes (if c.type = ConflictType.MoveParentDelete then moveNodeOf s c
        else c.localNode s)).side (parent_path origin) = some originParent) :
    (c.type = ConflictType.MoveParentDelete →
      ((s.nodes c.node).hasChangeEvent OperationType.Move = true ∨
        (s.nodes c.correspondingNode).hasChangeEvent OperationType.Move = true) →
      (s.nodes (moveNodeOf s c)).hasChangeEvent OperationType.Move = true) ∧
    ∃ op : SyncOperation,
      generateOperations env fuel queue s c = some (ExitCode.Ok, pushOp s op, false) ∧
      op = { (undoMove env s (if c.type = ConflictType.MoveParentDelete then moveNodeOf s c
          else c.localNode s) {}).2 with conflict := some c } ∧
      op.type = OperationType.Move ∧
      op.correspondingNode = some (if c.type = ConflictType.MoveParentDelete
        then moveNodeOf s c else c.localNode s) ∧
      op.targetSide = (s.nodes (if c.type = ConflictType.MoveParentDelete
        then moveNodeOf s c else c.localNode s)).side ∧
      (∀ o ∈ (pushOp s op).syncOps, o ∉ s.syncOps → o.type ≠ OperationType.Delete) := by
  constructor
  · intro _ h
    unfold moveNodeOf
    split_ifs with h1
    · exact h1
    · rcases h with h | h
      · exact absurd h h1
      · exact h
  · obtain ⟨h1, h2, h3, h4, _, _⟩ :=
      undoMove_of_origin env s _ {} origin originParent hOrigin hParent
    refine ⟨_, ?_, rfl, h2, h3, h4, ?_⟩
    · rcases hType with h | h
      · simp only [h, if_true] at h1 ⊢
        simp [generateOperations, h, caseUndoMove, h1]
      · have hne : ¬ c.type = ConflictType.MoveParentDelete := by rw [h]; decide
        simp only [hne, if_false] at h1 ⊢
        simp [generateOperations, h, caseUndoMove, h1]
    · intro o ho hnot
      simp only [pushOp, List.mem_append, List.mem_singleton] at ho
      rcases ho with ho | ho
      · exact absurd ho hnot
      · rw [ho]
        show (undoMove env s _ {}).2.type ≠ OperationType.Delete
        rw [h2]
        decide

/-- Witness of C7: the remote sample file `f.txt` carries a move with origin `/A/f.txt`, the
local directory `B` a delete. -/
theorem undoMove_conflicts_push_single_move_witness :
    ∃ op : SyncOperation,
      generateOperations (sampleEnv true) 0 []
          (sampleState (fun n => if n = 12 then [OperationType.Move] else
              if n = 3 then [OperationType.Delete] else [])
            (fun n => if n = 12 then some ["A", "f.txt"] else none) (fun _ => none))
          { node := 12, correspondingNode := 3, type := ConflictType.MoveParentDelete }
        = some (ExitCode.Ok,
            pushOp (sampleState (fun n => if n = 12 then [OperationType.Move] else
                if n = 3 then [OperationType.Delete] else [])
              (fun n => if n = 12 then some ["A", "f.txt"] else none) (fun _ => none)) op,
            false) ∧
      op.type = OperationType.Move ∧
      op.correspondingNode = some 12 ∧
      op.targetSide = ReplicaSide.Remote :=
  have h := (undoMove_conflicts_push_single_move (sampleEnv true) 0 []
    (sampleState (fun n => if n = 12 then [OperationType.Move] else
        if n = 3 then [OperationType.Delete] else [])
      (fun n => if n = 12 then some ["A", "f.txt"] else none) (fun _ => none))
    { node := 12, correspondingNode := 3, type := ConflictType.MoveParentDelete }
    ["A", "f.txt"] 11 (Or.inl rfl) rfl rfl).2
  h.elim fun op hop => ⟨op, hop.1, hop.2.2.1, hop.2.2.2.1, hop.2.2.2.2.1⟩

/-! ## C8: Create-ParentDelete -/

/-- C8: for a CreateParentDelete conflict whose deleted node has a corresponding node in the
other tree, `generateOperations` returns `Ok` and pushes exactly one operation: a Delete with
`omit = false`, whose affected node is the node of the pair chosen for its delete event and
whose target side is the side of that node's corresponding node. -/
theorem createParentDelete_pushes_single_delete (env : Env) (fuel : Nat)
    (queue : List Conflict) (s : State) (c : Conflict) (d : NodePtr)
    (hType : c.type = ConflictType.CreateParentDelete)
    (hCorr : env.correspondingNodeInOtherTree (deleteNodeOf s c) = some d) :
    generateOperations env fuel queue s c
      = some (ExitCode.Ok,
          pushOp s
            { type := OperationType.Delete,
              affectedNode := some (deleteNodeOf s c),
              correspondingNode := some d,
              targetSide := (s.nodes d).side,
              omit_ := false,
              conflict := some c },
          false) ∧
    (((s.nodes c.node).hasChangeEvent OperationType.Delete = true ∨
        (s.nodes c.correspondingNode).hasChangeEvent OperationType.Delete = true) →
      (s.nodes (deleteNodeOf s c)).hasChangeEvent OperationType.Delete = true) := by
  constructor
  · simp [generateOperations, hType, caseCreateParentDelete, hCorr]
  · intro h
    unfold deleteNodeOf
    split_ifs with h1
    · exact h1
    · rcases h with h | h
      · exact absurd h h1
      · exact h

/-- Witness of C8: `f.txt` created locally under `A`, `A` deleted remotely. -/
theorem createParentDelete_pushes_single_delete_witness :
    generateOperations (sampleEnv true) 0 []
        (sampleState (fun n => if n = 11 then [OperationType.Delete] else
            if n = 2 then [OperationType.Create] else []) (fun _ => none) (fun _ => none))
        { node := 2, correspondingNode := 11, type := ConflictType.CreateParentDelete }
      = some (ExitCode.Ok,
          pushOp
            (sampleState (fun n => if n = 11 then [OperationType.Delete] else
              if n = 2 then [OperationType.Create] else []) (fun _ => none) (fun _ => none))
            { type := OperationType.Delete,
              affectedNode := some 11,
              correspondingNode := some 1,
              targetSide := ReplicaSide.Local,
              omit_ := false,
              conflict :=
                some { node := 2, correspondingNode := 11,
                       type := ConflictType.CreateParentDelete } },
          false) ∧
    (((sampleNodes (fun n => if n = 11 then [OperationType.Delete] else
            if n = 2 then [OperationType.Create] else []) (fun _ => none) 2).hasChangeEvent
          OperationType.Delete = true ∨
        (sampleNodes (fun n => if n = 11 then [OperationType.Delete] else
            if n = 2 then [OperationType.Create] else []) (fun _ => none) 11).hasChangeEvent
          OperationType.Delete = true) →
      (sampleNodes (fun n => if n = 11 then [OperationType.Delete] else
            if n = 2 then [OperationType.Create] else []) (fun _ => none) 11).hasChangeEvent
          OperationType.Delete = true) :=
  createParentDelete_pushes_single_delete (sampleEnv true) 0 []
    (sampleState (fun n => if n = 11 then [OperationType.Delete] else
      if n = 2 then [OperationType.Create] else []) (fun _ => none) (fun _ => none))
    { node := 2, correspondingNode := 11, type := ConflictType.CreateParentDelete } 1 rfl rfl

/-! ## C9: path length of a rename-aside -/

/-- C9: in a rename-aside resolution (CreateCreate, EditEdit, MoveCreate, MoveMoveDest) the
pushed operation has the root node of the local update tree as new parent if and only if
`checkPathLength` reports the path as too long for the length
`len(parent directory of the local node's absolute path) + 1 + len(new name)`, the lengths
being the sizes in bytes that `native().size()` and `newName.size()` give; when the check
passes no new parent is set. -/
theorem renameLocal_reparents_iff_path_too_long (env : Env) (fuel : Nat)
    (queue : List Conflict) (s : State) (c : Conflict)
    (hType : c.type = ConflictType.CreateCreate ∨ c.type = ConflictType.EditEdit ∨
      c.type = ConflictType.MoveCreate ∨ c.type = ConflictType.MoveMoveDest) :
    ∃ (op : SyncOperation) (continueSolving : Bool),
      generateOperations env fuel queue s c
        = some (ExitCode.Ok, pushOp s op, continueSolving) ∧
      (op.newParentNode = some (env.rootNode ReplicaSide.Local) ↔
        env.checkPathLength
          (nativeSize (parent_path (appendPath env.localPath (env.getPath (c.localNode s))))
            + 1 + nameSize op.newName)
          (s.nodes (c.localNode s)).type = true) ∧
      (env.checkPathLength
          (nativeSize (parent_path (appendPath env.localPath (env.getPath (c.localNode s))))
            + 1 + nameSize op.newName)
          (s.nodes (c.localNode s)).type = false → op.newParentNode = none) := by
  have hgen : generateOperations env fuel queue s c = caseRenameLocal env s c := by
    rcases hType with h | h | h | h <;> simp [generateOperations, h]
  rw [hgen]
  refine ⟨{ type := OperationType.Move,
            affectedNode := some (c.remoteNode s),
            correspondingNode := some (c.localNode s),
            targetSide := ReplicaSide.Local,
            newName := (generateConflictedName env s (c.localNode s) false).2,
            newParentNode :=
              if (generateConflictedName env s (c.localNode s) false).1 then none
              else some (env.rootNode ReplicaSide.Local),
            conflict := some c }, env.isConflictsWithLocalRename c.type, ?_, ?_, ?_⟩
  · by_cases hlen : (generateConflictedName env s (c.localNode s) false).1 = true
    · simp [caseRenameLocal, pushOp, hlen]
    · simp [caseRenameLocal, pushOp, hlen]
  · simp only [generateConflictedName_fst, generateConflictedName_snd]
    cases env.checkPathLength _ (s.nodes (c.localNode s)).type <;> simp
  · simp only [generateConflictedName_fst, generateConflictedName_snd]
    intro h
    simp only [Bool.false_eq_true, if_false] at h
    simp [h]

/-- Witness of C9: an Edit-Edit conflict on `/home/kdrive/A/éééé.txt` with a limit of 45
bytes. The parent directory takes 14 bytes and the conflict name
`éééé.txt (conflicting copy)` 31 bytes (27 characters), so the length is 46: the check fails
and the operation gets the root node of the local tree as new parent. -/
theorem renameLocal_reparents_iff_path_too_long_witness :
    (∃ (op : SyncOperation) (continueSolving : Bool),
      generateOperations utf8Env 0 []
          (sampleState (fun _ => [OperationType.Edit]) (fun _ => none) (fun _ => none))
          { node := 12, correspondingNode := 2, type := ConflictType.EditEdit }
        = some (ExitCode.Ok,
            pushOp (sampleState (fun _ => [OperationType.Edit]) (fun _ => none) (fun _ => none))
              op,
            continueSolving) ∧
      (op.newParentNode = some 0 ↔
        decide (45 < nativeSize ["", "home", "kdrive", "A"] + 1 + nameSize op.newName)
          = true) ∧
      (decide (45 < nativeSize ["", "home", "kdrive", "A"] + 1 + nameSize op.newName) = false →
        op.newParentNode = none)) ∧
    nativeSize ["", "home", "kdrive", "A"] = 14 ∧
    nameSize "éééé.txt (conflicting copy)" = 31 ∧
    "éééé.txt (conflicting copy)".length = 27 ∧
    generateOperations utf8Env 0 []
        (sampleState (fun _ => [OperationType.Edit]) (fun _ => none) (fun _ => none))
        { node := 12, correspondingNode := 2, type := ConflictType.EditEdit }
      = some (ExitCode.Ok,
          pushOp (sampleState (fun _ => [OperationType.Edit]) (fun _ => none) (fun _ => none))
            { type := OperationType.Move, affectedNode := some 12,
              correspondingNode := some 2, targetSide := ReplicaSide.Local,
              newName := "éééé.txt (conflicting copy)", newParentNode := some 0,
              conflict := some
                { node := 12, correspondingNode := 2, type := ConflictType.EditEdit } },
          true) :=
  ⟨renameLocal_reparents_iff_path_too_long utf8Env 0 []
      (sampleState (fun _ => [OperationType.Edit]) (fun _ => none) (fun _ => none))
      { node := 12, correspondingNode := 2, type := ConflictType.EditEdit }
      (Or.inr (Or.inl rfl)),
    by decide, by decide, by decide, rfl⟩

/-! ## C10: execute -/

/-- C10: when the conflict at the top of the queue is of type EditDelete, MoveDelete (not
deferred), MoveParentDelete, CreateParentDelete, MoveMoveSource or MoveMoveCycle and its
resolution returns `Ok`, `execute` makes this single call of `generateOperations`, leaves the
state produced by that call (with the restart flag set) and an empty conflict queue. Hence, for
every initial queue, at most one of the calls made by a run of `execute` resolves a conflict of
these types; the calls that set `continueSolving` are rename-aside or MoveDelete conflicts. -/
theorem execute_resolves_one_conflict_without_rename (env : Env) (fuel : Nat) :
    (∀ (top : Conflict) (rest : List Conflict) (s s1 : State) (cont : Bool),
      top.type ∈ [ConflictType.EditDelete, ConflictType.MoveDelete,
        ConflictType.MoveParentDelete, ConflictType.CreateParentDelete,
        ConflictType.MoveMoveSource, ConflictType.MoveMoveCycle] →
      (top.type = ConflictType.MoveDelete →
        moveDeleteDeferred env (top :: rest)
          { s with syncOps := env.startUpdate s.syncOps } top = false) →
      generateOperations env fuel (top :: rest)
          { s with syncOps := env.startUpdate s.syncOps } top
        = some (ExitCode.Ok, s1, cont) →
      execute env fuel (top :: rest) s
        = some { state := { s1 with restart := true },
                 conflictQueue := [],
                 exitCode := ExitCode.Ok,
                 calls := [(top, ExitCode.Ok, false)] }) ∧
    (∀ (queue : List Conflict) (s : State) (r : ExecuteResult),
      execute env fuel queue s = some r →
      (r.calls.filter resolvedWithoutRename).length ≤ 1 ∧
      (∀ call ∈ r.calls, call.2.2 = true →
        (call.1.type = ConflictType.CreateCreate ∨ call.1.type = ConflictType.EditEdit ∨
          call.1.type = ConflictType.MoveCreate ∨ call.1.type = ConflictType.MoveMoveDest) ∨
        call.1.type = ConflictType.MoveDelete)) := by
  constructor
  · intro top rest s s1 cont hType hDef hgen
    have hcont : cont = false := by
      cases hc : cont with
      | false => rfl
      | true =>
        exfalso
        subst hc
        rcases generateOperations_continue env fuel _ _ s1 top _ hgen with h | ⟨h1, h2⟩
        · rcases h with h | h | h | h <;> rw [h] at hType <;> simp at hType
        · rw [hDef h1] at h2
          cases h2
    subst hcont
    simp [execute, executeLoop, hgen]
  · intro queue s r h
    unfold execute at h
    dsimp only at h
    cases hloop : executeLoop env fuel queue { s with syncOps := env.startUpdate s.syncOps }
        ExitCode.Unknown [] with
    | none => simp [hloop] at h
    | some r0 =>
      simp only [hloop, Option.some.injEq] at h
      subst h
      obtain ⟨added, h1, h2, h3⟩ := executeLoop_calls env fuel _ _ _ _ _ hloop
      simp only [List.nil_append] at h1
      refine ⟨?_, ?_⟩
      · show (r0.calls.filter resolvedWithoutRename).length ≤ 1
        rw [h1]
        refine le_trans (List.Sublist.length_le (List.monotone_filter_right added ?_)) h2
        intro call hcall
        unfold resolvedWithoutRename at hcall
        simp only [Bool.and_eq_true, Bool.not_eq_true', decide_eq_true_eq] at hcall
        simp [hcall.1.2]
      · intro call hcall
        have hcall : call ∈ r0.calls := hcall
        rw [h1] at hcall
        exact h3 call hcall

/-- Witness of C10: the queue holds a Create-ParentDelete conflict followed by a Create-Create
conflict; only the first one is resolved and the queue is left empty. -/
theorem execute_resolves_one_conflict_without_rename_witness :
    (execute (sampleEnv true) 0
        [{ node := 2, correspondingNode := 11, type := ConflictType.CreateParentDelete },
         { node := 3, correspondingNode := 13, type := ConflictType.CreateCreate }]
        (sampleState (fun n => if n = 11 then [OperationType.Delete] else
          if n = 2 ∨ n = 3 ∨ n = 13 then [OperationType.Create] else [])
          (fun _ => none) (fun _ => none))).map
      (fun r => (r.conflictQueue, r.exitCode, r.calls, r.state.restart,
        r.state.syncOps.map (fun op => (op.type, op.affectedNode))))
      = some ([], ExitCode.Ok,
          [({ node := 2, correspondingNode := 11, type := ConflictType.CreateParentDelete },
            ExitCode.Ok, false)],
          true,
          [(OperationType.Delete, some 11)]) :=
  have h := (execute_resolves_one_conflict_without_rename (sampleEnv true) 0).1
    { node := 2, correspondingNode := 11, type := ConflictType.CreateParentDelete }
    [{ node := 3, correspondingNode := 13, type := ConflictType.CreateCreate }]
    (sampleState (fun n => if n = 11 then [OperationType.Delete] else
      if n = 2 ∨ n = 3 ∨ n = 13 then [OperationType.Create] else [])
      (fun _ => none) (fun _ => none))
    _ false (by decide) (by intro h; cases h) rfl
  by rw [h]; rfl

/-! ## C11: restart flag -/

/-- C11: `ConflictResolverWorker::execute` sets the restart flag on every path: whenever it
returns, for every conflict queue and whatever the exit code, `_syncPal->_restart` is true;
and it returns whenever its loop over the queue does, in particular for an empty queue. -/
theorem execute_sets_restart (env : Env) (fuel : Nat) (queue : List Conflict) (s : State) :
    (∀ r, execute env fuel queue s = some r → r.state.restart = true) ∧
    ((execute env fuel queue s).isSome
      = (executeLoop env fuel queue { s with syncOps := env.startUpdate s.syncOps }
          ExitCode.Unknown []).isSome) ∧
    (∃ r, execute env fuel [] s = some r ∧ r.state.restart = true ∧
      r.exitCode = ExitCode.Unknown) := by
  refine ⟨?_, ?_, ?_⟩
  · intro r h
    unfold execute at h
    dsimp only at h
    split at h
    · cases h
    · simp only [Option.some.injEq] at h
      rw [← h]
  · unfold execute
    dsimp only
    split <;> simp_all
  · exact ⟨_, rfl, rfl, rfl⟩

/-! ## C12: an operation for every change event -/

/-- C12 (amended): on well-formed update trees in which every node is among the children of
its parent and no two nodes have the same id, with no stop requested and a corresponding node
for every changed node that is not created, `execute` returns, and for every node of the two
trees and every change event the node carries, the list has an operation of that type with the
node as affected node, with only these exceptions: the node lies below a node for which a
Delete was emitted, or is the corresponding node of such a node or lies below that
corresponding node; the node is the corresponding node of a pseudo-conflict whose Create, Edit
or Move operation was emitted; the event is the create of a shared folder of the local
side. -/
theorem generator_emits_every_event (env : GeneratorEnv) (weight : NodePtr → Nat)
    (markFuel fuel : Nat) (queued : List (Option NodePtr)) (st : GeneratorState)
    (hW : WellFormedTrees env weight markFuel)
    (hparents : ChildrenOfParents env)
    (hids : UniqueIds env)
    (hfuel : queueWeight weight
      (queued ++ [env.rootNode ReplicaSide.Local, env.rootNode ReplicaSide.Remote]) ≤ fuel)
    (hstop : ∀ i, env.stopAsked i = false)
    (hcorr : ∀ n, ((env.nodes n).hasChangeEvent OperationType.Delete = true
        ∨ (env.nodes n).hasChangeEvent OperationType.Edit = true
        ∨ (env.nodes n).hasChangeEvent OperationType.Move = true) →
      (env.nodes n).hasChangeEvent OperationType.Create = false →
      ∃ c, env.correspondingNodeInOtherTree n = some c) :
    ∃ r, generatorExecute env markFuel fuel queued st = some r ∧
      ∀ root n t,
        (env.rootNode ReplicaSide.Local = some root
          ∨ env.rootNode ReplicaSide.Remote = some root) →
        (n = root ∨ TreeDescendant env.nodes root n) →
        (t = OperationType.Create ∨ t = OperationType.Delete ∨ t = OperationType.Edit
          ∨ t = OperationType.Move) →
        (env.nodes n).hasChangeEvent t = true →
        (∃ op ∈ r.state.syncOps, op.type = t ∧ op.affectedNode = some n) ∨
        (∃ op ∈ r.state.syncOps, op.type = OperationType.Delete ∧
          ∃ N c, op.affectedNode = some N ∧ op.correspondingNode = some c ∧
            (TreeDescendant env.nodes N n ∨ n = c ∨ TreeDescendant env.nodes c n)) ∨
        (∃ op ∈ r.state.syncOps, op.type ≠ OperationType.Delete ∧
          op.correspondingNode = some n ∧
          ∃ m, op.affectedNode = some m ∧ env.isPseudoConflict m n = true) ∨
        (t = OperationType.Create ∧ (env.nodes n).side = ReplicaSide.Local ∧
          (env.nodes n).isSharedFolder = true) := by
  obtain ⟨r, hr⟩ := generatorExecute_isSome env weight markFuel fuel queued hW st hfuel
  refine ⟨r, hr, fun root n t hroot hn ht hev => ?_⟩
  obtain ⟨code, q, s1, hl, hres⟩ := generatorExecute_spec env markFuel fuel queued st r hr
  have hops : r.state.syncOps = s1.syncOps := by
    rcases hres with ⟨_, h⟩ | ⟨_, h⟩ <;> rw [h]
  have hcov := exploreLoop_covers env markFuel
    (fun n => Pending env [env.rootNode ReplicaSide.Local, env.rootNode ReplicaSide.Remote] n)
    fuel 0 _ _ code q s1 (GenInv.init env st)
    (fun _ ⟨m, hm, hd⟩ => Or.inr ⟨m, List.mem_append_right _ hm, hd⟩) hl
  rcases hcov with ⟨_, _, inv, hc⟩ | ⟨_, i, hi⟩ | ⟨_, m, h1, h2, h3⟩
  · have hpend : Pending env
        [env.rootNode ReplicaSide.Local, env.rootNode ReplicaSide.Remote] n := by
      refine ⟨root, ?_, hn⟩
      rcases hroot with h | h
      · rw [h]; exact List.mem_cons_self _ _
      · rw [h]; exact List.mem_cons_of_mem _ (List.mem_cons_self _ _)
    rw [hops]
    rcases hc n hpend with hh | ⟨op, hop, hm⟩
    · rcases hh t hev ht with h | h | ⟨_, p, pid, hp, hpid, hmem⟩
      · exact Or.inl h
      · exact Or.inr (Or.inr (Or.inr h))
      · obtain ⟨op, hop, hdel, N, hN, hNid⟩ := inv.deletedIds pid hmem
        have hNp : N = p := hids N p pid hNid hpid
        subst hNp
        obtain ⟨pre, post, hsplit⟩ := List.append_of_mem hop
        obtain ⟨N1, c, hN1, hc1, _⟩ := inv.deletes pre op post hsplit hdel
        rw [hN] at hN1
        cases hN1
        exact Or.inr (Or.inl ⟨op, hop, hdel, N, c, hN, hc1,
          Or.inl (TreeDescendant.child (hparents n N hp))⟩)
    · rcases hm with ⟨h1, h2⟩ | ⟨h1, h2, h3⟩
      · exact Or.inr (Or.inl ⟨op, hop, h1, h2⟩)
      · exact Or.inr (Or.inr (Or.inl ⟨op, hop, h1, h2, h3⟩))
  · rw [hstop i] at hi
    cases hi
  · obtain ⟨c, hc⟩ := hcorr m h3 h2
    rw [hc] at h1
    cases h1

/-- C12 (amended) on the sample synchronisation with distinct ids. -/
theorem generator_emits_every_event_witness :
    ∃ r, generatorExecute (genEnvDistinct 1000) 10 16 [] genState = some r ∧
      ∀ root n t,
        ((genEnvDistinct 1000).rootNode ReplicaSide.Local = some root
          ∨ (genEnvDistinct 1000).rootNode ReplicaSide.Remote = some root) →
        (n = root ∨ TreeDescendant (genEnvDistinct 1000).nodes root n) →
        (t = OperationType.Create ∨ t = OperationType.Delete ∨ t = OperationType.Edit
          ∨ t = OperationType.Move) →
        ((genEnvDistinct 1000).nodes n).hasChangeEvent t = true →
        (∃ op ∈ r.state.syncOps, op.type = t ∧ op.affectedNode = some n) ∨
        (∃ op ∈ r.state.syncOps, op.type = OperationType.Delete ∧
          ∃ N c, op.affectedNode = some N ∧ op.correspondingNode = some c ∧
            (TreeDescendant (genEnvDistinct 1000).nodes N n ∨ n = c
              ∨ TreeDescendant (genEnvDistinct 1000).nodes c n)) ∨
        (∃ op ∈ r.state.syncOps, op.type ≠ OperationType.Delete ∧
          op.correspondingNode = some n ∧
          ∃ m, op.affectedNode = some m ∧ (genEnvDistinct 1000).isPseudoConflict m n = true) ∨
        (t = OperationType.Create ∧ ((genEnvDistinct 1000).nodes n).side = ReplicaSide.Local ∧
          ((genEnvDistinct 1000).nodes n).isSharedFolder = true) :=
  generator_emits_every_event (genEnvDistinct 1000) genWeight 10 16 [] genState
    (genEnvDistinct_wellFormed 1000) (genEnvDistinct_childrenOfParents 1000)
    (genEnvDistinct_uniqueIds 1000) (by decide) (fun _ => rfl) genEnvDistinct_corresponding

/-- C12 (counterexample): in the sample run on the nodes with distinct ids no stop is
requested and every changed node that is not created has a corresponding node, yet two change
events are accounted for by no operation and by none of the exceptions of the specification:
the edit of the remote `g.txt` (`15`), which lies below the corresponding node of the deleted
local directory `A`, and the edit of the remote `m.txt` (`12`), whose move is the mirror half
of a pseudo-conflict. -/
theorem generator_skips_events_counterexample :
    (∀ i, (genEnvDistinct 1000).stopAsked i = false) ∧
    (∀ n, (((genEnvDistinct 1000).nodes n).hasChangeEvent OperationType.Delete = true
        ∨ ((genEnvDistinct 1000).nodes n).hasChangeEvent OperationType.Edit = true
        ∨ ((genEnvDistinct 1000).nodes n).hasChangeEvent OperationType.Move = true) →
      ((genEnvDistinct 1000).nodes n).hasChangeEvent OperationType.Create = false →
      ∃ c, (genEnvDistinct 1000).correspondingNodeInOtherTree n = some c) ∧
    ∃ r, generatorExecute (genEnvDistinct 1000) 10 16 [] genState = some r ∧
      r.exitCode = ExitCode.Ok ∧ r.state.syncOps = genOpsDistinct ∧
      (genEnvDistinct 1000).rootNode ReplicaSide.Remote = some 10 ∧
      (TreeDescendant (genEnvDistinct 1000).nodes 10 15 ∧
        ((genEnvDistinct 1000).nodes 15).hasChangeEvent OperationType.Edit = true ∧
        ¬ SpecAccountsFor (genEnvDistinct 1000) r.state.syncOps 15 OperationType.Edit) ∧
      (TreeDescendant (genEnvDistinct 1000).nodes 10 12 ∧
        ((genEnvDistinct 1000).nodes 12).hasChangeEvent OperationType.Edit = true ∧
        ¬ SpecAccountsFor (genEnvDistinct 1000) r.state.syncOps 12 OperationType.Edit) := by
  refine ⟨fun _ => rfl, genEnvDistinct_corresponding, ?_⟩
  obtain ⟨r, hr⟩ := generatorExecute_isSome (genEnvDistinct 1000) genWeight 10 16 []
    (genEnvDistinct_wellFormed 1000) genState (by decide)
  have hres := genRunDistinct_result
  rw [hr] at hres
  simp only [Option.map_some', Option.some.injEq, Prod.mk.injEq] at hres
  obtain ⟨hcode, hops⟩ := hres
  have hnot : ∀ (n : NodePtr) (t : OperationType), n ≠ 5 →
      (¬ ∃ op ∈ genOpsDistinct, op.type = t ∧ op.affectedNode = some n) →
      (¬ ∃ op ∈ genOpsDistinct, op.type = t ∧ op.correspondingNode = some n) →
      ¬ ((genEnvDistinct 1000).nodes n).side = ReplicaSide.Local →
      ¬ SpecAccountsFor (genEnvDistinct 1000) genOpsDistinct n t := by
    intro n t hn h1 h2 h3 h
    rcases h with h | ⟨op, hop, ht, N, hN, hdesc⟩ | ⟨op, hop, ht, hc, _⟩ | ⟨_, h, _⟩
    · exact h1 h
    · have hdesc1 := genNodesDistinct_descendant N n hdesc
      have hN1 : N = 1 ∨ N = 17 := by
        simp only [genOpsDistinct, genOps, List.cons_append, List.nil_append, List.mem_cons,
          List.mem_singleton, List.not_mem_nil, or_false] at hop
        rcases hop with rfl | rfl | rfl | rfl | rfl | rfl | rfl <;> simp at ht hN
        · exact Or.inl hN.symm
        · exact Or.inr hN.symm
      rcases hN1 with hN1 | hN1
      · subst hN1
        exact hn (genNodes_below_A n hdesc1)
      · subst hN1
        rw [treeDescendant_iff] at hdesc1
        obtain ⟨c, hc, _⟩ := hdesc1
        rw [genNodes_children] at hc
        simp at hc
    · exact h2 ⟨op, hop, ht, hc⟩
    · exact h3 h
  refine ⟨r, hr, hcode, hops, rfl, ⟨?_, rfl, ?_⟩, ⟨?_, rfl, ?_⟩⟩
  · exact TreeDescendant.step (c := 11) (by decide) (TreeDescendant.child (by decide))
  · rw [hops]
    exact hnot 15 _ (by decide) (by decide) (by decide) (by decide)
  · exact TreeDescendant.child (by decide)
  · rw [hops]
    exact hnot 12 _ (by decide) (by decide) (by decide) (by decide)

/-! ## C13: pseudo-conflicts -/

/-- C13 (amended): on well-formed update trees, let the walk of `execute` reach, with no stop
requested at that pass, a node `X` that is not `Processed`, that carries a create, edit or move
event (not the create of a shared folder of the local side) and that is in a pseudo-conflict
with its corresponding node `c`, another node. Then `execute` returns and its list has an
operation of the type of the event with `X` as affected node; this operation has `omit = true`
and corresponding node `c`, the status of `c` is `Processed`, and no operation after it has `c`
as affected node. When `X` is the node of the pair visited first (no operation before has `c`
as affected node), the operation is the only one of its type in the list whose affected node
is `X` or `c`. -/
theorem pseudo_conflict_single_omitted_operation (env : GeneratorEnv)
    (weight : NodePtr → Nat) (markFuel fuel : Nat) (queued : List (Option NodePtr))
    (st : GeneratorState) (hW : WellFormedTrees env weight markFuel)
    (hfuel : queueWeight weight
      (queued ++ [env.rootNode ReplicaSide.Local, env.rootNode ReplicaSide.Remote]) ≤ fuel)
    (pass : Nat) (X c : NodePtr) (rest : List (Option NodePtr)) (cfg : LoopConfig)
    (t : OperationType)
    (hreach : loopPrefix env markFuel pass (startConfig env queued st) = some cfg)
    (hqueue : cfg.queue = some X :: rest)
    (hstop : env.stopAsked pass = false)
    (hX : cfg.state.status X ≠ NodeStatus.Processed)
    (hpass : pass < fuel)
    (hcorr : env.correspondingNodeInOtherTree X = some c) (hne : c ≠ X)
    (hp : env.isPseudoConflict X c = true)
    (ht : t = OperationType.Create ∨ t = OperationType.Edit ∨ t = OperationType.Move)
    (hev : (env.nodes X).hasChangeEvent t = true)
    (hshared : t = OperationType.Create →
      ¬ ((env.nodes X).side = ReplicaSide.Local ∧ (env.nodes X).isSharedFolder = true)) :
    ∃ r, generatorExecute env markFuel fuel queued st = some r ∧
      ∃ pre op post, r.state.syncOps = pre ++ op :: post ∧
        op.type = t ∧ op.affectedNode = some X ∧
        op.omit_ = true ∧ op.correspondingNode = some c ∧
        r.state.status c = NodeStatus.Processed ∧
        (∀ o ∈ post, o.affectedNode ≠ some c) ∧
        ((∀ o ∈ pre, o.affectedNode ≠ some c) →
          r.state.syncOps.filter (fun o =>
            decide (o.type = t) &&
              (decide (o.affectedNode = some X) || decide (o.affectedNode = some c)))
            = [op]) := by
  obtain ⟨r, hr⟩ := generatorExecute_isSome env weight markFuel fuel queued hW st hfuel
  have inv := generatorExecute_inv env markFuel fuel queued st r hr
  have hhandled := reached_node_handled env weight markFuel fuel queued st hW pass X c rest
    cfg hreach hqueue hstop hX hcorr hpass r hr
  have htne : t ≠ OperationType.Delete := by
    rcases ht with h | h | h <;> rw [h] <;> decide
  have hemit : ∃ op ∈ r.state.syncOps, op.type = t ∧ op.affectedNode = some X := by
    rcases hhandled t hev (by rcases ht with h | h | h <;> simp [h]) with h | ⟨h1, h2⟩ | ⟨h1, _⟩
    · exact h
    · exact absurd h2 (hshared h1)
    · exact absurd h1 htne
  obtain ⟨op, hopmem, hopt, hopX⟩ := hemit
  obtain ⟨pre, post, hsplit⟩ := List.append_of_mem hopmem
  refine ⟨r, hr, pre, op, post, hsplit, hopt, hopX, ?_⟩
  obtain ⟨ho, hc, hs, hlater⟩ :=
    inv.pseudo pre op post hsplit (by rw [hopt]; exact htne) X c hopX hcorr hp
  refine ⟨ho, hc, hs, hlater hne, fun hearlier => ?_⟩
  have hnoc : ∀ o ∈ r.state.syncOps, o.affectedNode ≠ some c := by
    intro o hmem
    rw [hsplit] at hmem
    rcases List.mem_append.mp hmem with h | h
    · exact hearlier o h
    · rcases List.mem_cons.mp h with h | h
      · rw [h, hopX]
        intro hh
        exact hne (Option.some.inj hh).symm
      · exact hlater hne o h
  obtain ⟨p, b, q, h1, h2, h3, h4, h5⟩ := inv.blocks X
  have hopb : op ∈ b := by
    rw [h1] at hopmem
    rcases List.mem_append.mp hopmem with h | h
    · rcases List.mem_append.mp h with h | h
      · exact absurd hopX (h2 op h)
      · exact h
    · exact absurd hopX (h3 op h)
  have hout : ∀ l : List SyncOperation, (∀ o ∈ l, o.affectedNode ≠ some X) →
      (∀ o ∈ l, o ∈ r.state.syncOps) →
      l.filter (fun o => decide (o.type = t) &&
        (decide (o.affectedNode = some X) || decide (o.affectedNode = some c))) = [] := by
    intro l hl hin
    rw [List.filter_eq_nil_iff]
    intro o hmem
    simp [hl o hmem, hnoc o (hin o hmem)]
  have hb : b.filter (fun o => decide (o.type = t) &&
      (decide (o.affectedNode = some X) || decide (o.affectedNode = some c))) = [op] := by
    rw [← hopt]
    apply filter_eq_singleton (fun o : SyncOperation => o.type) _ b op hopb
    · exact h5.nodup (by decide)
    · intro y hy
      simp [h4 y hy]
  rw [h1, List.filter_append, List.filter_append, hb,
    hout p h2 (fun o ho => by rw [h1]; simp [ho]),
    hout q h3 (fun o ho => by rw [h1]; simp [ho])]
  rfl

/-- C13 (amended) on the sample synchronisation: the walk reaches the moved local `m.txt`
(`2`) after 3 passes, unprocessed; its move is a pseudo-conflict with the move of the remote
`m.txt` (`12`), and the list of `execute` has one omitted Move for the pair. -/
theorem pseudo_conflict_single_omitted_operation_witness :
    ∃ r, generatorExecute (genEnv 1000) 10 16 [] genState = some r ∧
      ∃ pre op post, r.state.syncOps = pre ++ op :: post ∧
        op.type = OperationType.Move ∧ op.affectedNode = some 2 ∧
        op.omit_ = true ∧ op.correspondingNode = some 12 ∧
        r.state.status 12 = NodeStatus.Processed ∧
        (∀ o ∈ post, o.affectedNode ≠ some 12) ∧
        ((∀ o ∈ pre, o.affectedNode ≠ some 12) →
          r.state.syncOps.filter (fun o =>
            decide (o.type = OperationType.Move) &&
              (decide (o.affectedNode = some 2) || decide (o.affectedNode = some 12)))
            = [op]) := by
  have hs : (loopPrefix (genEnv 1000) 10 3
      (startConfig (genEnv 1000) [] genState)).isSome = true := rfl
  exact pseudo_conflict_single_omitted_operation (genEnv 1000) genWeight 10 16 [] genState
    (genEnv_wellFormed 1000) (by decide) 3 2 12 _ (Option.get _ hs) OperationType.Move
    (Option.some_get hs).symm rfl rfl
    (fun h => absurd ((show _ = NodeStatus.Unprocessed from rfl).symm.trans h) (by decide))
    (by decide) rfl (by decide) rfl (Or.inr (Or.inr rfl)) rfl
    (fun h => absurd h (by decide))

/-- C13 (counterexample): in the sample synchronisation in which the local `g.txt` (`5`) and
the remote `g.txt` (`15`) carry the same edit, a pseudo-conflict, the local directory `A`
(`1`) that holds `g.txt` was deleted. `execute` ends with `Ok` and its list has the Delete of
`A` but no operation with `5` or `15` as affected node: the pair gets no operation at all. -/
theorem pseudo_conflict_below_delete_counterexample :
    (genEnvPseudo 1000).isPseudoConflict 5 15 = true ∧
    (genEnvPseudo 1000).isPseudoConflict 15 5 = true ∧
    (genEnvPseudo 1000).correspondingNodeInOtherTree 5 = some 15 ∧
    (genEnvPseudo 1000).correspondingNodeInOtherTree 15 = some 5 ∧
    ((genEnvPseudo 1000).nodes 5).hasChangeEvent OperationType.Edit = true ∧
    ((genEnvPseudo 1000).nodes 15).hasChangeEvent OperationType.Edit = true ∧
    ((genEnvPseudo 1000).nodes 5).parentNode = some 1 ∧
    ∃ r, generatorExecute (genEnvPseudo 1000) 10 16 [] genState = some r ∧
      r.exitCode = ExitCode.Ok ∧ r.queued = [] ∧ r.state.syncOps = genOps ∧
      (∃ op ∈ r.state.syncOps, op.type = OperationType.Delete ∧ op.affectedNode = some 1) ∧
      (∀ op ∈ r.state.syncOps, op.affectedNode ≠ some 5 ∧ op.affectedNode ≠ some 15) :=
  ⟨rfl, rfl, rfl, rfl, rfl, rfl, rfl, _, rfl, rfl, rfl, rfl, by decide, by decide⟩

/-! ## C14: a Delete subsumes the subtree -/

/-- C14: on well-formed update trees in which only directories have children `execute`
returns, and for every Delete operation of the list, with affected node `N` and corresponding
node `c`: every descendant of `N` and every descendant of `c` has status `Processed`, and no
operation after the Delete has a descendant of `N` as affected node. -/
theorem delete_subsumes_subtree (env : GeneratorEnv) (weight : NodePtr → Nat)
    (markFuel fuel : Nat) (queued : List (Option NodePtr)) (st : GeneratorState)
    (hW : WellFormedTrees env weight markFuel)
    (hfuel : queueWeight weight
      (queued ++ [env.rootNode ReplicaSide.Local, env.rootNode ReplicaSide.Remote]) ≤ fuel)
    (hF : OnlyDirectoriesHaveChildren env.nodes) :
    ∃ r, generatorExecute env markFuel fuel queued st = some r ∧
      ∀ pre op post, r.state.syncOps = pre ++ op :: post → op.type = OperationType.Delete →
        ∃ N c, op.affectedNode = some N ∧ op.correspondingNode = some c ∧
          (∀ d, TreeDescendant env.nodes N d ∨ TreeDescendant env.nodes c d →
            r.state.status d = NodeStatus.Processed) ∧
          (∀ o ∈ post, ∀ d, o.affectedNode = some d → ¬ TreeDescendant env.nodes N d) := by
  obtain ⟨r, hr⟩ := generatorExecute_isSome env weight markFuel fuel queued hW st hfuel
  have inv := generatorExecute_inv env markFuel fuel queued st r hr
  refine ⟨r, hr, fun pre op post hsplit ht => ?_⟩
  obtain ⟨N, c, hN, hc, _, h⟩ := inv.deletes pre op post hsplit ht
  refine ⟨N, c, hN, hc, (h hF).1, fun o ho d hd hdesc => ?_⟩
  have hdN := (h hF).2 o ho d hd hdesc
  rw [hdN] at hdesc
  exact Nat.lt_irrefl _ (treeDescendant_rank_lt env.nodes weight hW.wellRanked N N hdesc)

theorem delete_subsumes_subtree_witness :
    ∃ r, generatorExecute (genEnv 1000) 10 16 [] genState = some r ∧
      ∀ pre op post, r.state.syncOps = pre ++ op :: post → op.type = OperationType.Delete →
        ∃ N c, op.affectedNode = some N ∧ op.correspondingNode = some c ∧
          (∀ d, TreeDescendant (genEnv 1000).nodes N d ∨
              TreeDescendant (genEnv 1000).nodes c d →
            r.state.status d = NodeStatus.Processed) ∧
          (∀ o ∈ post, ∀ d, o.affectedNode = some d →
            ¬ TreeDescendant (genEnv 1000).nodes N d) :=
  delete_subsumes_subtree (genEnv 1000) genWeight 10 16 [] genState
    (genEnv_wellFormed 1000) (by decide) genNodes_shape

/-! ## C15: order of the operations of a node -/

/-- C15: on well-formed update trees `execute` returns, and for every node the operations
with that node as affected node are one contiguous block of the operation list (no operation
before or after the block has the node as affected node); the types of the block are in the
order Create, Delete, Edit, Move, each at most once, and each is a change event of the
node. -/
theorem node_operations_contiguous_and_ordered (env : GeneratorEnv) (weight : NodePtr → Nat)
    (markFuel fuel : Nat) (queued : List (Option NodePtr)) (st : GeneratorState)
    (hW : WellFormedTrees env weight markFuel)
    (hfuel : queueWeight weight
      (queued ++ [env.rootNode ReplicaSide.Local, env.rootNode ReplicaSide.Remote]) ≤ fuel) :
    ∃ r, generatorExecute env markFuel fuel queued st = some r ∧
      ∀ n, ∃ pre block post, r.state.syncOps = pre ++ block ++ post ∧
        (∀ op ∈ pre, op.affectedNode ≠ some n) ∧
        (∀ op ∈ post, op.affectedNode ≠ some n) ∧
        (∀ op ∈ block, op.affectedNode = some n ∧
          (env.nodes n).hasChangeEvent op.type = true) ∧
        (block.map (fun op => op.type)).Sublist
          [OperationType.Create, OperationType.Delete, OperationType.Edit,
            OperationType.Move] := by
  obtain ⟨r, hr⟩ := generatorExecute_isSome env weight markFuel fuel queued hW st hfuel
  have inv := generatorExecute_inv env markFuel fuel queued st r hr
  refine ⟨r, hr, fun n => ?_⟩
  obtain ⟨pre, block, post, h1, h2, h3, h4, h5⟩ := inv.blocks n
  refine ⟨pre, block, post, h1, h2, h3, fun op hop => ⟨h4 op hop, ?_⟩, h5⟩
  obtain ⟨m, hm, hev⟩ := inv.affected op (by rw [h1]; simp [hop])
  rw [h4 op hop] at hm
  cases hm
  exact hev

theorem node_operations_contiguous_and_ordered_witness :
    ∃ r, generatorExecute (genEnv 1000) 10 16 [] genState = some r ∧
      ∀ n, ∃ pre block post, r.state.syncOps = pre ++ block ++ post ∧
        (∀ op ∈ pre, op.affectedNode ≠ some n) ∧
        (∀ op ∈ post, op.affectedNode ≠ some n) ∧
        (∀ op ∈ block, op.affectedNode = some n ∧
          ((genEnv 1000).nodes n).hasChangeEvent op.type = true) ∧
        (block.map (fun op => op.type)).Sublist
          [OperationType.Create, OperationType.Delete, OperationType.Edit,
            OperationType.Move] :=
  node_operations_contiguous_and_ordered (genEnv 1000) genWeight 10 16 [] genState
    (genEnv_wellFormed 1000) (by decide)

/-! ## C16: edit and move on the same node -/

/-- C16 (amended): let a node be `Unprocessed` when the exploration loop visits it, carry
neither a create nor a delete event, and have a corresponding node, which is another node. If
it carries both an edit and a move event, the pass over it pushes an Edit operation, after which
its status is `PartiallyProcessed`, and then a Move operation, after which its status is
`Processed`, and nothing else. If it carries only one of the two events, the pass pushes this
one operation and the status is `Processed` right after it. -/
theorem edit_and_move_status (env : GeneratorEnv) (markFuel : Nat) (st : GeneratorState)
    (n c : NodePtr) (hcorr : env.correspondingNodeInOtherTree n = some c) (hne : c ≠ n)
    (hU : st.status n = NodeStatus.Unprocessed)
    (hC : (env.nodes n).hasChangeEvent OperationType.Create = false)
    (hD : (env.nodes n).hasChangeEvent OperationType.Delete = false) :
    ((env.nodes n).hasChangeEvent OperationType.Edit = true →
      (env.nodes n).hasChangeEvent OperationType.Move = true →
      ∃ (st1 st2 : GeneratorState) (opE opM : SyncOperation),
        generateEditOperation env st n (some c) = some st1 ∧
        st1.syncOps = st.syncOps ++ [opE] ∧
        st1.status n = NodeStatus.PartiallyProcessed ∧
        generateMoveOperation env st1 n (some c) = some st2 ∧
        st2.syncOps = st.syncOps ++ [opE, opM] ∧
        st2.status n = NodeStatus.Processed ∧
        opE.type = OperationType.Edit ∧ opE.affectedNode = some n ∧
        opM.type = OperationType.Move ∧ opM.affectedNode = some n ∧
        visitNode env markFuel st n = some (ExitCode.Unknown, st2)) ∧
    ((env.nodes n).hasChangeEvent OperationType.Edit = true →
      (env.nodes n).hasChangeEvent OperationType.Move = false →
      ∃ (st1 : GeneratorState) (opE : SyncOperation),
        generateEditOperation env st n (some c) = some st1 ∧
        st1.syncOps = st.syncOps ++ [opE] ∧
        opE.type = OperationType.Edit ∧ opE.affectedNode = some n ∧
        st1.status n = NodeStatus.Processed ∧
        visitNode env markFuel st n = some (ExitCode.Unknown, st1)) ∧
    ((env.nodes n).hasChangeEvent OperationType.Edit = false →
      (env.nodes n).hasChangeEvent OperationType.Move = true →
      ∃ (st1 : GeneratorState) (opM : SyncOperation),
        generateMoveOperation env st n (some c) = some st1 ∧
        st1.syncOps = st.syncOps ++ [opM] ∧
        opM.type = OperationType.Move ∧ opM.affectedNode = some n ∧
        st1.status n = NodeStatus.Processed ∧
        visitNode env markFuel st n = some (ExitCode.Unknown, st1)) := by
  have hnc : n ≠ c := fun h => hne h.symm
  have hs1 := pseudoMark_other env st.status n c hnc
  have hdata : ¬ (env.correspondingNodeInOtherTree n = none
      ∧ (env.nodes n).hasChangeEvent OperationType.Create = false
      ∧ ((env.nodes n).hasChangeEvent OperationType.Delete = true
        ∨ (env.nodes n).hasChangeEvent OperationType.Edit = true
        ∨ (env.nodes n).hasChangeEvent OperationType.Move = true)) := by
    rintro ⟨h, _⟩
    rw [hcorr] at h
    cases h
  have hvisit : visitNode env markFuel st n
      = ((if (env.nodes n).hasChangeEvent OperationType.Edit = true
          then generateEditOperation env st n (some c) else some st).bind fun st3 =>
        (if (env.nodes n).hasChangeEvent OperationType.Move = true
          then generateMoveOperation env st3 n (some c) else some st3).bind fun st4 =>
        some (ExitCode.Unknown, st4)) := by
    simp only [visitNode, if_neg hdata]
    rw [if_neg (by rw [hD]; exact Bool.false_ne_true),
      if_neg (fun h => by rw [hC] at h; exact Bool.false_ne_true h.1)]
    simp only [Option.bind_eq_bind, Option.some_bind, hcorr]
  refine ⟨?_, ?_, ?_⟩
  · intro hE hM
    refine ⟨_, _,
      { type := OperationType.Edit, affectedNode := some n, correspondingNode := some c,
        targetSide := (env.nodes c).side, omit_ := env.isPseudoConflict n c },
      { type := OperationType.Move, affectedNode := some n, correspondingNode := some c,
        targetSide := (env.nodes c).side,
        omit_ := env.isPseudoConflict n c ||
          (decide ((env.nodes n).side = ReplicaSide.Remote)
            && decide ((env.nodes c).validLocalName = "")
            && decide ((env.nodes n).validLocalName = (env.nodes c).name)),
        newName :=
          if (env.nodes c).side = ReplicaSide.Local then env.finalLocalName n
          else (env.nodes n).name },
      rfl, rfl, ?_, rfl, ?_, ?_, rfl, rfl, rfl, rfl, ?_⟩
    · show (ite _ _ _ : NodePtr → NodeStatus) n = _
      rw [if_pos ⟨hM, by rw [hs1]; exact hU⟩, setStatus_same]
    · simp
    · show (ite _ _ _ : NodePtr → NodeStatus) n = _
      rw [if_neg, setStatus_same]
      rintro ⟨_, h2⟩
      rw [pseudoMark_other _ _ _ _ hnc] at h2
      change (ite _ _ _ : NodePtr → NodeStatus) n = _ at h2
      rw [if_pos ⟨hM, by rw [hs1]; exact hU⟩, setStatus_same] at h2
      cases h2
    · rw [hvisit]
      simp only [if_pos hE, if_pos hM]
      rfl
  · intro hE hM
    refine ⟨_,
      { type := OperationType.Edit, affectedNode := some n, correspondingNode := some c,
        targetSide := (env.nodes c).side, omit_ := env.isPseudoConflict n c },
      rfl, rfl, rfl, rfl, ?_, ?_⟩
    · show (ite _ _ _ : NodePtr → NodeStatus) n = _
      rw [if_neg (by rw [hM]; simp), setStatus_same]
    · have hM1 : ¬ (env.nodes n).hasChangeEvent OperationType.Move = true := by
        rw [hM]
        exact Bool.false_ne_true
      rw [hvisit]
      simp only [if_pos hE, if_neg hM1]
      rfl
  · intro hE hM
    refine ⟨_,
      { type := OperationType.Move, affectedNode := some n, correspondingNode := some c,
        targetSide := (env.nodes c).side,
        omit_ := env.isPseudoConflict n c ||
          (decide ((env.nodes n).side = ReplicaSide.Remote)
            && decide ((env.nodes c).validLocalName = "")
            && decide ((env.nodes n).validLocalName = (env.nodes c).name)),
        newName :=
          if (env.nodes c).side = ReplicaSide.Local then env.finalLocalName n
          else (env.nodes n).name },
      rfl, rfl, rfl, rfl, ?_, ?_⟩
    · show (ite _ _ _ : NodePtr → NodeStatus) n = _
      rw [if_neg (by rw [hE]; simp), setStatus_same]
    · have hE1 : ¬ (env.nodes n).hasChangeEvent OperationType.Edit = true := by
        rw [hE]
        exact Bool.false_ne_true
      rw [hvisit]
      simp only [if_neg hE1, if_pos hM]
      rfl

/-- C16 (amended) on the sample synchronisation: the edited and moved local `e.txt` (`3`),
visited in the state in which the exploration loop starts. -/
theorem edit_and_move_status_witness :
    ∃ (st1 st2 : GeneratorState) (opE opM : SyncOperation),
      generateEditOperation (genEnv 1000) (initialGeneratorState genState) 3 (some 13)
        = some st1 ∧
      st1.syncOps = (initialGeneratorState genState).syncOps ++ [opE] ∧
      st1.status 3 = NodeStatus.PartiallyProcessed ∧
      generateMoveOperation (genEnv 1000) st1 3 (some 13) = some st2 ∧
      st2.syncOps = (initialGeneratorState genState).syncOps ++ [opE, opM] ∧
      st2.status 3 = NodeStatus.Processed ∧
      opE.type = OperationType.Edit ∧ opE.affectedNode = some 3 ∧
      opM.type = OperationType.Move ∧ opM.affectedNode = some 3 ∧
      visitNode (genEnv 1000) 10 (initialGeneratorState genState) 3
        = some (ExitCode.Unknown, st2) :=
  (edit_and_move_status (genEnv 1000) 10 (initialGeneratorState genState) 3 13 rfl
    (by decide) rfl rfl rfl).1 rfl rfl

/-- C16 (counterexample): in the sample synchronisation in which the local `e.txt` (`3`) was
edited, moved and deleted, the node is `Unprocessed` when the exploration loop visits it, in
the state in which the loop starts. The pass pushes a Delete, an Edit and a Move operation; the
Delete leaves the node `Processed`, so its status after the Edit operation is `Processed` and
not `PartiallyProcessed`. -/
theorem edit_after_delete_processed_counterexample :
    (initialGeneratorState genState).status 3 = NodeStatus.Unprocessed ∧
    ((genEnvDeleted 1000).nodes 3).hasChangeEvent OperationType.Edit = true ∧
    ((genEnvDeleted 1000).nodes 3).hasChangeEvent OperationType.Move = true ∧
    (genEnvDeleted 1000).correspondingNodeInOtherTree 3 = some 13 ∧
    ∃ (st1 st2 st3 : GeneratorState) (opD opE opM : SyncOperation),
      generateDeleteOperation (genEnvDeleted 1000) 10 (initialGeneratorState genState) 3
        (some 13) = some st1 ∧
      generateEditOperation (genEnvDeleted 1000) st1 3 (some 13) = some st2 ∧
      generateMoveOperation (genEnvDeleted 1000) st2 3 (some 13) = some st3 ∧
      visitNode (genEnvDeleted 1000) 10 (initialGeneratorState genState) 3
        = some (ExitCode.Unknown, st3) ∧
      st3.syncOps = [opD, opE, opM] ∧
      opD.type = OperationType.Delete ∧ opE.type = OperationType.Edit ∧
      opM.type = OperationType.Move ∧
      opD.affectedNode = some 3 ∧ opE.affectedNode = some 3 ∧ opM.affectedNode = some 3 ∧
      st1.status 3 = NodeStatus.Processed ∧
      st2.status 3 = NodeStatus.Processed ∧
      st2.status 3 ≠ NodeStatus.PartiallyProcessed ∧
      st3.status 3 = NodeStatus.Processed :=
  ⟨rfl, rfl, rfl, rfl, _, _, _, _, _, _, rfl, rfl, rfl, rfl, rfl, rfl, rfl, rfl, rfl, rfl,
    rfl, rfl, rfl, by decide, rfl⟩

/-! ## C17: not enough disk space -/

/-- C17: on well-formed update trees in which the nodes with an edit event are files,
`execute` returns. Let `B` be the byte budget of the operation list: with virtual files off the
sizes of the files of the non-omitted Create operations targeting the local side plus the size
differences of the non-omitted Edit operations targeting the local side, zero with virtual
files on. The bytes `execute` has counted are `B` in `int64_t` arithmetic, and it ends with
exit code `SystemError` and cause `NotEnoughDiskSpace` if and only if the counted bytes are
positive, the free space `F` is not negative and `F` is below the counted bytes plus the free
space floor in `int64_t` arithmetic. When `B` and `B` plus the floor are values of `int64_t`
(no overflow), the counted bytes are `B` and this is: `B > 0`, `F ≥ 0` and
`F < B + floor`. -/
theorem not_enough_disk_space_iff (env : GeneratorEnv) (weight : NodePtr → Nat)
    (markFuel fuel : Nat) (queued : List (Option NodePtr)) (st : GeneratorState)
    (hW : WellFormedTrees env weight markFuel)
    (hfuel : queueWeight weight
      (queued ++ [env.rootNode ReplicaSide.Local, env.rootNode ReplicaSide.Remote]) ≤ fuel)
    (hEF : ∀ n, (env.nodes n).hasChangeEvent OperationType.Edit = true →
      (env.nodes n).type = NodeType.File) :
    ∃ r, generatorExecute env markFuel fuel queued st = some r ∧
      r.state.bytesToDownload = wrapInt64 (byteBudget env r.state.syncOps) ∧
      ((r.exitCode = ExitCode.SystemError ∧
          r.state.exitCause = ExitCause.NotEnoughDiskSpace) ↔
        (0 < wrapInt64 (byteBudget env r.state.syncOps) ∧ 0 ≤ env.freeDiskSpace ∧
          env.freeDiskSpace
            < wrapInt64 (byteBudget env r.state.syncOps + env.freeDiskSpaceLimit))) ∧
      (isInt64 (byteBudget env r.state.syncOps) →
        isInt64 (byteBudget env r.state.syncOps + env.freeDiskSpaceLimit) →
        r.state.bytesToDownload = byteBudget env r.state.syncOps ∧
        ((r.exitCode = ExitCode.SystemError ∧
            r.state.exitCause = ExitCause.NotEnoughDiskSpace) ↔
          (0 < byteBudget env r.state.syncOps ∧ 0 ≤ env.freeDiskSpace ∧
            env.freeDiskSpace
              < byteBudget env r.state.syncOps + env.freeDiskSpaceLimit))) := by
  obtain ⟨r, hr⟩ := generatorExecute_isSome env weight markFuel fuel queued hW st hfuel
  have inv := generatorExecute_inv env markFuel fuel queued st r hr
  have hb : r.state.bytesToDownload = wrapInt64 (byteBudget env r.state.syncOps) := by
    rw [inv.bytes, opBytes_sum_eq_byteBudget env hEF _ inv.affected]
  have hiff := generatorExecute_exitCode env markFuel fuel queued st r hr
  rw [hb, wrapInt64_add_left] at hiff
  refine ⟨r, hr, hb, hiff, fun h1 h2 => ?_⟩
  rw [wrapInt64_of_isInt64 _ h1, wrapInt64_of_isInt64 _ h2] at hiff
  exact ⟨by rw [hb, wrapInt64_of_isInt64 _ h1], hiff⟩

/-- C17 on the sample synchronisation with 105 bytes of free space and a floor of 100 bytes:
the budget is the 10 bytes of the created remote `f.txt`, no overflow occurs, and `execute`
ends with `SystemError` and `NotEnoughDiskSpace`. -/
theorem not_enough_disk_space_iff_witness :
    (∃ r, generatorExecute (genEnv 105) 10 16 [] genState = some r ∧
      r.state.bytesToDownload = wrapInt64 (byteBudget (genEnv 105) r.state.syncOps) ∧
      ((r.exitCode = ExitCode.SystemError ∧
          r.state.exitCause = ExitCause.NotEnoughDiskSpace) ↔
        (0 < wrapInt64 (byteBudget (genEnv 105) r.state.syncOps) ∧
          0 ≤ (genEnv 105).freeDiskSpace ∧
          (genEnv 105).freeDiskSpace
            < wrapInt64 (byteBudget (genEnv 105) r.state.syncOps
                + (genEnv 105).freeDiskSpaceLimit))) ∧
      (isInt64 (byteBudget (genEnv 105) r.state.syncOps) →
        isInt64 (byteBudget (genEnv 105) r.state.syncOps
          + (genEnv 105).freeDiskSpaceLimit) →
        r.state.bytesToDownload = byteBudget (genEnv 105) r.state.syncOps ∧
        ((r.exitCode = ExitCode.SystemError ∧
            r.state.exitCause = ExitCause.NotEnoughDiskSpace) ↔
          (0 < byteBudget (genEnv 105) r.state.syncOps ∧ 0 ≤ (genEnv 105).freeDiskSpace ∧
            (genEnv 105).freeDiskSpace
              < byteBudget (genEnv 105) r.state.syncOps
                + (genEnv 105).freeDiskSpaceLimit)))) ∧
    (generatorExecute (genEnv 105) 10 16 [] genState).map
        (fun r => (r.exitCode, r.state.exitCause, r.state.bytesToDownload,
          byteBudget (genEnv 105) r.state.syncOps))
      = some (ExitCode.SystemError, ExitCause.NotEnoughDiskSpace, 10, 10) ∧
    isInt64 10 ∧ isInt64 (10 + (genEnv 105).freeDiskSpaceLimit) :=
  ⟨not_enough_disk_space_iff (genEnv 105) genWeight 10 16 [] genState
      (genEnv_wellFormed 105) (by decide) genNodes_editFiles,
    rfl, by unfold isInt64; decide, by unfold isInt64; decide⟩

/-! ## C18: managed errors -/

/-- C18: `isManagedError(code, cause)` is true exactly when the code is `BackError` and the
cause is one of InvalidName, ApiErr, FileTooBig, NotFound, QuotaExceeded, FileAlreadyExist, or
the code is `NetworkError` and the cause is NetworkTimeout. -/
theorem isManagedError_iff (exitCode : ExitCode) (exitCause : ExitCause) :
    isManagedError exitCode exitCause = true ↔
      (exitCode = ExitCode.BackError ∧
        (exitCause = ExitCause.InvalidName ∨ exitCause = ExitCause.ApiErr ∨
          exitCause = ExitCause.FileTooBig ∨ exitCause = ExitCause.NotFound ∨
          exitCause = ExitCause.QuotaExceeded ∨ exitCause = ExitCause.FileAlreadyExist)) ∨
      (exitCode = ExitCode.NetworkError ∧ exitCause = ExitCause.NetworkTimeout) := by
  cases exitCode <;> cases exitCause <;> simp [isManagedError]

/-! ## C19: rate limit -/

/-- C19 (code at the failing input): every pass of the request loop is answered with HTTP 429
and `handleError` returns true leaving `RateLimited` in `_exitCode`. Whatever the initial
`_trials >= 1`, `runJob` makes five passes, each of which resets the exit code to `Ok`, and the
job ends with exit code `Ok`, not `RateLimited`. -/
theorem runJob_rateLimited_ends_ok (job : NetworkJob) (hTrials : 1 ≤ job.trials) :
    runJob (fun _ => rateLimitedAttempt) true job
      = some ({ job with exitCode := ExitCode.Ok, trials := job.trials + 5 }, 5) := by
  have c1 : ((1 : Nat) : Int) ≤ min job.trials MAX_TRIALS := by
    unfold MAX_TRIALS; omega
  have c2 : ((1 + 1 : Nat) : Int) ≤ min (job.trials + 1) MAX_TRIALS := by
    unfold MAX_TRIALS; omega
  have c3 : ((1 + 1 + 1 : Nat) : Int) ≤ min (job.trials + 1 + 1) MAX_TRIALS := by
    unfold MAX_TRIALS; omega
  have c4 : ((1 + 1 + 1 + 1 : Nat) : Int) ≤ min (job.trials + 1 + 1 + 1) MAX_TRIALS := by
    unfold MAX_TRIALS; omega
  have c5 : ((1 + 1 + 1 + 1 + 1 : Nat) : Int) ≤ min (job.trials + 1 + 1 + 1 + 1) MAX_TRIALS := by
    unfold MAX_TRIALS; omega
  have c6 : ¬ ((1 + 1 + 1 + 1 + 1 + 1 : Nat) : Int)
      ≤ min (job.trials + 1 + 1 + 1 + 1 + 1) MAX_TRIALS := by
    unfold MAX_TRIALS; omega
  unfold runJob
  simp only [Bool.not_true, Bool.false_eq_true, if_false]
  rw [requestLoop, if_pos c1, requestLoopBody_rateLimited]
  dsimp only
  rw [requestLoop, if_pos c2, requestLoopBody_rateLimited]
  dsimp only
  rw [requestLoop, if_pos c3, requestLoopBody_rateLimited]
  dsimp only
  rw [requestLoop, if_pos c4, requestLoopBody_rateLimited]
  dsimp only
  rw [requestLoop, if_pos c5, requestLoopBody_rateLimited]
  dsimp only
  rw [requestLoop, if_neg c6]
  simp only [Option.some.injEq, Prod.mk.injEq, and_true]
  congr 1
  omega

/-- Witness of C19: a fresh job with `_trials = 1`, rate limited on every pass, ends with exit
code `Ok` after five passes. -/
theorem runJob_rateLimited_ends_ok_witness :
    runJob (fun _ => rateLimitedAttempt) true { trials := 1 }
      = some ({ exitCode := ExitCode.Ok, exitCause := ExitCause.Unknown, trials := 6 }, 5) :=
  runJob_rateLimited_ends_ok { trials := 1 } (by decide)

/-! ## C20: bounded retries -/

/-- C20: for every initial `_trials` and every behaviour of the passes, `runJob` returns and
the body of its request loop runs at most `MAX_TRIALS = 5` times. A pass leaves `_trials`
unchanged or raises it by one, the latter exactly on the `TokenRefreshed` / `RateLimited`
branch (exit code reset to `Ok`, `continue`); the number of passes stays within the cap
whatever `_trials` becomes. -/
theorem runJob_bounded_retries (attempts : Nat → Attempt) (urlSet : Bool) (job : NetworkJob) :
    (∃ r, runJob attempts urlSet job = some r ∧ (r.2 : Int) ≤ MAX_TRIALS) ∧
    (∀ (a : Attempt) (trials : Int) (j : NetworkJob),
      (requestLoopBody a trials j).2.trials = j.trials ∨
      ((requestLoopBody a trials j).2.trials = j.trials + 1 ∧
        (requestLoopBody a trials j).1 = LoopExit.continue_ ∧
        (requestLoopBody a trials j).2.exitCode = ExitCode.Ok)) ∧
    (∀ j : NetworkJob,
      j.exitCode = ExitCode.TokenRefreshed ∨ j.exitCode = ExitCode.RateLimited →
      onReceiveSuccess j
        = (LoopExit.continue_, { j with exitCode := ExitCode.Ok, trials := j.trials + 1 })) := by
  refine ⟨?_, requestLoopBody_trials, ?_⟩
  · unfold runJob
    cases urlSet with
    | false => exact ⟨_, rfl, by unfold MAX_TRIALS; simp⟩
    | true =>
      obtain ⟨r, hr, hle⟩ := requestLoop_terminates attempts 6 1 job 0 (by omega) (by omega)
      refine ⟨r, by simpa using hr, ?_⟩
      unfold MAX_TRIALS
      omega
  · intro j hj
    unfold onReceiveSuccess
    simp [hj]

/-- Witness of C20: a pass that ends with `RateLimited` after a received response raises
`_trials` from 2 to 3 and continues. -/
theorem runJob_bounded_retries_witness :
    onReceiveSuccess { exitCode := ExitCode.RateLimited, trials := 2 }
      = (LoopExit.continue_,
          { exitCode := ExitCode.Ok, exitCause := ExitCause.Unknown, trials := 2 + 1 }) :=
  (runJob_bounded_retries (fun _ => rateLimitedAttempt) true {}).2.2
    { exitCode := ExitCode.RateLimited, trials := 2 } (Or.inr rfl)

/-! ## C21: an aborted job ends with Ok -/

/-- C21: in a pass of the request loop that reaches `sendRequest`, when sending fails and
`isAborted()` holds after it, or sending succeeds, receiving fails and `isAborted()` holds
after it, the loop ends with this pass (no further pass runs) and the exit code of the job is
`Ok`, whatever exit code and cause the failed call had set and whatever `_trials` allows. -/
theorem aborted_failure_ends_ok (attempts : Nat → Attempt) (fuel trials passes : Nat)
    (job : NetworkJob)
    (hcond : (trials : Int) ≤ min job.trials MAX_TRIALS)
    (hreach : reachesSend (attempts trials) job = true)
    (hfail : (sendFails (attempts trials) job = true ∧
        (attempts trials).abortedAfterSend = true) ∨
      (sendFails (attempts trials) job = false ∧ receiveFails (attempts trials) job = true ∧
        (attempts trials).abortedAfterReceive = true)) :
    ∃ j, requestLoop attempts (fuel + 1) trials job passes = some (j, passes + 1) ∧
      j.exitCode = ExitCode.Ok ∧
      (trials = 1 → passes = 0 → runJob attempts true job = some (j, 1)) := by
  have hbody : ∃ j, requestLoopBody (attempts trials) trials job = (LoopExit.break_, j) ∧
      j.exitCode = ExitCode.Ok := by
    simp only [reachesSend, Bool.and_eq_true, decide_eq_true_eq, Bool.not_eq_true'] at hreach
    obtain ⟨⟨h1, h2⟩, h3⟩ := hreach
    rcases hfail with ⟨hs, ha⟩ | ⟨hs, hr, ha⟩
    · simp only [sendFails, decide_eq_true_eq] at hs
      simp only [requestLoopBody, h1, h2, h3, Bool.false_eq_true, if_false, if_pos hs,
        onSendFailure, ha, if_true]
      exact ⟨_, rfl, rfl⟩
    · simp only [sendFails, decide_eq_false_iff_not, not_not] at hs
      simp only [receiveFails, jobAfterSend, decide_eq_true_eq] at hr
      simp only [requestLoopBody, h1, h2, h3, Bool.false_eq_true, if_false, hs, ne_eq,
        not_true_eq_false]
      rcases hrr : receiveResponse (attempts trials)
          (afterSendRequest
            ((attempts trials).sendRequest
              ((attempts trials).canRun job.exitCode job.exitCause).exitCode
              ((attempts trials).canRun job.exitCode job.exitCause).exitCause)
            { job with
              exitCode := ((attempts trials).canRun job.exitCode job.exitCause).exitCode,
              exitCause := ((attempts trials).canRun job.exitCode job.exitCause).exitCause })
        with ⟨r, j2⟩
      rw [hrr] at hr
      cases r with
      | none =>
        simp only [onReceiveFailure, ha, if_true]
        exact ⟨_, rfl, rfl⟩
      | some b =>
        cases b with
        | false =>
          simp only [onReceiveFailure, ha, if_true]
          exact ⟨_, rfl, rfl⟩
        | true => exact absurd rfl hr
  obtain ⟨j, hj, hok⟩ := hbody
  have hloop : ∀ f, requestLoop attempts (f + 1) trials job passes = some (j, passes + 1) := by
    intro f
    simp only [requestLoop, if_pos hcond, hj]
  refine ⟨j, hloop fuel, hok, ?_⟩
  intro h1 h0
  subst h1
  subst h0
  have := hloop 5
  simpa [runJob] using this

/-- C21 on a job whose first `sendRequest` fails with a network error while the job is aborted:
the loop ends after this one pass with `Ok`, although `_trials` is 3. -/
theorem aborted_failure_ends_ok_witness :
    ∃ j, requestLoop (fun _ => abortedSendAttempt) (5 + 1) 1 { trials := 3 } 0
        = some (j, 0 + 1) ∧
      j.exitCode = ExitCode.Ok ∧
      (1 = 1 → 0 = 0 → runJob (fun _ => abortedSendAttempt) true { trials := 3 }
        = some (j, 1)) :=
  aborted_failure_ends_ok (fun _ => abortedSendAttempt) 5 1 0 { trials := 3 }
    (by decide) (by decide) (Or.inl ⟨by decide, rfl⟩)

/-! ## C22: trash or direct delete -/

/-- C22 (amended): once `canRun` has passed, a job whose `forceToTrash` is not set deletes a
dehydrated placeholder directly whatever the `moveToTrash` preference is, and moves any other
item to the trash when `moveToTrash` is set and deletes it directly otherwise; a job whose
`forceToTrash` is set moves the item to the trash in every case. -/
theorem runJob_trash_or_delete (env : LocalDeleteEnv) (job : LocalDeleteJob)
    (hrun : (job.canRun env).1 = true) :
    (job.forceToTrash = false → job.isDehydratedPlaceholder = true →
      (job.runJob env).2 = DeleteCall.RemoveAll) ∧
    (job.forceToTrash = false → job.isDehydratedPlaceholder = false →
      (job.runJob env).2
        = if env.moveToTrash then DeleteCall.MoveItemToTrash else DeleteCall.RemoveAll) ∧
    (job.forceToTrash = true → (job.runJob env).2 = DeleteCall.MoveItemToTrash) := by
  have hjob : (job.canRun env).2 = job := by
    simp only [LocalDeleteJob.canRun] at hrun ⊢
    split_ifs at hrun ⊢ <;> rfl
  refine ⟨?_, ?_, ?_⟩
  · intro hf hd
    simp only [LocalDeleteJob.runJob, hrun, hjob, hf, hd]
    split_ifs <;> simp_all
  · intro hf hd
    simp only [LocalDeleteJob.runJob, hrun, hjob, hf, hd]
    cases env.moveToTrash <;> split_ifs <;> simp_all
  · intro hf
    simp only [LocalDeleteJob.runJob, hrun, hjob, hf]
    split_ifs <;> simp_all

/-- C22 (amended) on the sample replica: the job for a dehydrated placeholder without
`forceToTrash` passes `canRun` and removes the item directly although `moveToTrash` is set. -/
theorem runJob_trash_or_delete_witness :
    ((deleteJob true false).canRun (deleteEnv true)).1 = true ∧
    ((deleteJob true false).runJob (deleteEnv true)).2 = DeleteCall.RemoveAll :=
  ⟨by decide, (runJob_trash_or_delete (deleteEnv true) (deleteJob true false) (by decide)).1
    rfl rfl⟩

/-- C22 as stated fails: with `forceToTrash` set, `canRun` passes and `runJob` moves a
dehydrated placeholder to the trash, and moves an item that is not a dehydrated placeholder to
the trash although `moveToTrash` is not set; both jobs end with `Ok`. -/
theorem forceToTrash_moves_placeholder_counterexample :
    ((deleteJob true true).canRun (deleteEnv false)).1 = true ∧
    (deleteJob true true).isDehydratedPlaceholder = true ∧
    ((deleteJob true true).runJob (deleteEnv false)).2 = DeleteCall.MoveItemToTrash ∧
    ((deleteJob true true).runJob (deleteEnv false)).1.exitCode = ExitCode.Ok ∧
    ((deleteJob false true).canRun (deleteEnv false)).1 = true ∧
    (deleteJob false true).isDehydratedPlaceholder = false ∧
    (deleteEnv false).moveToTrash = false ∧
    ((deleteJob false true).runJob (deleteEnv false)).2 = DeleteCall.MoveItemToTrash ∧
    ((deleteJob false true).runJob (deleteEnv false)).1.exitCode = ExitCode.Ok := by
  decide

/-! ## C23: the origin path of a node -/

/-- C23: for a node from which `getPath` reaches the root, `getOriginPath` returns; when the
database is the state before the moves of this pass, it returns `Ok` with the path the node has
in the database, that is the path before any move. For a node with no move on itself or its
ancestors this is the current path of `getPath`. For a moved node it is the path of the origin
parent in the database followed by the file name of the move origin, whatever directory the
stored move origin names (it may have been recorded before or after the move of an ancestor);
it is the move origin itself when the origin parent is in the database at the parent path of
the move origin. For a node that was not moved it is the origin path of its parent followed by
its name, while `getPath` is the current path of the parent followed by the name. -/
theorem getOriginPath_before_moves (nodes : NodePtr → Node)
    (dbPath : DbNodeId → Option SyncPath) (fuel : Nat) (n : NodePtr) (cur : SyncPath)
    (hpath : nodePath nodes fuel n = some cur) :
    (∃ r, getOriginPath nodes dbPath fuel n = some r) ∧
    (DbBaseline nodes dbPath → ∀ d, (nodes n).idb = some d →
      ∃ path, dbPath d = some path ∧
        getOriginPath nodes dbPath fuel n = some (ExitCode.Ok, path)) ∧
    ((∀ a, AncestorOrSelf nodes a n → movedNode (nodes a) = false) →
      getOriginPath nodes dbPath fuel n = some (ExitCode.Ok, cur)) ∧
    (∀ p dp origin originParentPath, (nodes n).parentNode = some p →
      (nodes n).moveOriginParentDbId = some dp → (nodes n).moveOrigin = some origin →
      dbPath dp = some originParentPath →
      getOriginPath nodes dbPath fuel n
        = some (ExitCode.Ok, originParentPath ++ [filename origin]) ∧
      (origin ≠ [] → originParentPath = parent_path origin →
        getOriginPath nodes dbPath fuel n = some (ExitCode.Ok, origin))) ∧
    (∀ p fuel1, fuel = fuel1 + 1 → (nodes n).parentNode = some p →
      movedNode (nodes n) = false →
      (∃ parentPath, nodePath nodes fuel1 p = some parentPath ∧
        cur = parentPath ++ [(nodes n).name]) ∧
      ∀ q, getOriginPath nodes dbPath fuel1 p = some (ExitCode.Ok, q) →
        getOriginPath nodes dbPath fuel n = some (ExitCode.Ok, q ++ [(nodes n).name])) := by
  refine ⟨originWalk_total nodes dbPath fuel n [] cur hpath, ?_, ?_, ?_, ?_⟩
  · intro hdb d hd
    obtain ⟨path, h1, h2⟩ := originWalk_baseline nodes dbPath hdb fuel n [] cur d hpath hd
    exact ⟨path, h1, by rw [getOriginPath, h2, List.append_nil]⟩
  · intro hall
    rw [getOriginPath, originWalk_unmoved nodes dbPath fuel n [] cur hpath hall,
      List.append_nil]
  · intro p dp origin opp hp hdp ho hopp
    have hmain : getOriginPath nodes dbPath fuel n
        = some (ExitCode.Ok, opp ++ [filename origin]) := by
      cases fuel with
      | zero => simp [nodePath] at hpath
      | succ fuel1 => simp [getOriginPath, originWalk, hp, movedNode, hdp, ho, hopp]
    refine ⟨hmain, fun hne hpar => ?_⟩
    rw [hmain, hpar, parent_path_append_filename origin hne]
  · intro p fuel1 hfuel hp hm
    subst hfuel
    simp only [nodePath, hp] at hpath
    constructor
    · cases hq : nodePath nodes fuel1 p with
      | none => rw [hq] at hpath; simp at hpath
      | some parentPath =>
        rw [hq] at hpath
        exact ⟨parentPath, rfl, (Option.some.inj hpath).symm⟩
    · intro q hq
      have h := originWalk_names nodes dbPath fuel1 p [] [(nodes n).name] q hq
      simp only [getOriginPath, originWalk, hp, hm]
      simpa using h

/-- C23 on the tree of `testGetOriginPath4`: `Dir 4.1.1` was moved under `Dir 4` and
`File 4.1.1.1` was renamed afterwards. `getPath` of the file is
`Dir 4/Dir 4.1.1/File 4.1.1.1 renamed`, and `getOriginPath` returns
`Dir 4/Dir 4.1/Dir 4.1.1/File 4.1.1.1`, the path of the file in the database, although the
stored move origin is `Dir 4/Dir 4.1.1/File 4.1.1.1`. -/
theorem getOriginPath_before_moves_witness :
    nodePath originNodes 5 4 = some ["Dir 4", "Dir 4.1.1", "File 4.1.1.1 renamed"] ∧
    (originNodes 4).moveOrigin = some ["Dir 4", "Dir 4.1.1", "File 4.1.1.1"] ∧
    originDbPath 14 = some ["Dir 4", "Dir 4.1", "Dir 4.1.1", "File 4.1.1.1"] ∧
    getOriginPath originNodes originDbPath 5 4
      = some (ExitCode.Ok, ["Dir 4", "Dir 4.1", "Dir 4.1.1", "File 4.1.1.1"]) ∧
    ∃ path, originDbPath 14 = some path ∧
      getOriginPath originNodes originDbPath 5 4 = some (ExitCode.Ok, path) :=
  have h := getOriginPath_before_moves originNodes originDbPath 5 4
    ["Dir 4", "Dir 4.1.1", "File 4.1.1.1 renamed"] rfl
  ⟨rfl, rfl, rfl, (h.2.2.2.1 3 13 _ _ rfl rfl rfl rfl).1,
    h.2.1 originNodes_baseline 14 rfl⟩

/-! ## C24: step 4, delete files -/

/-- C24: let the operation set hold a Delete operation on a file, and let the tree hold at most
one node at its path. When the set holds a Create operation on a file with another id at the
same path (the only Create operation on a file there, its id not being deleted there, and the
node at the path not being marked deleted before), the tree after step 4 holds a single node at
the path, with the creating id, an Edit event and no Delete event. When no such Create
operation is in the set (the Delete operation being the only one on a file at the path, and
the node at the path, when there is one, having the deleted id), the tree after step 4 holds a
single node at the path, with the deleted id, a Delete event and the modification time of the
operation. -/
theorem step4_collapses_delete_create (ops : List FSOperation) (tree : List PathNode)
    (deleteOp : FSOperation) (hdel : deleteOp ∈ ops) (hkind : isDeleteFile deleteOp = true)
    (hone : (nodesAtPath tree deleteOp.path).length ≤ 1) :
    (∀ createOp, createOp ∈ ops → isCreateFile createOp = true →
      createOp.path = deleteOp.path → createOp.nodeId ≠ deleteOp.nodeId →
      (∀ op ∈ ops, isCreateFile op = true → op.path = deleteOp.path → op = createOp) →
      (∀ op ∈ ops, isDeleteFile op = true → op.path = deleteOp.path →
        op.nodeId ≠ createOp.nodeId) →
      (∀ n ∈ nodesAtPath tree deleteOp.path, OperationType.Delete ∉ n.changeEvents) →
      ∃ n, nodesAtPath (step4DeleteFile ops tree) deleteOp.path = [n] ∧
        n.id = createOp.nodeId ∧ OperationType.Edit ∈ n.changeEvents ∧
        OperationType.Delete ∉ n.changeEvents) ∧
    (createAtSamePath ops deleteOp = none →
      (∀ op ∈ ops, isDeleteFile op = true → op.path = deleteOp.path → op = deleteOp) →
      (∀ n ∈ nodesAtPath tree deleteOp.path, n.id = deleteOp.nodeId) →
      ∃ n, nodesAtPath (step4DeleteFile ops tree) deleteOp.path = [n] ∧
        n.id = deleteOp.nodeId ∧ OperationType.Delete ∈ n.changeEvents ∧
        n.lastmodified = deleteOp.lastModified) := by
  have hmem : deleteOp ∈ ops.filter isDeleteFile := List.mem_filter.mpr ⟨hdel, hkind⟩
  constructor
  · intro createOp hc hckind hcpath hcid hunique hnot hnodel
    refine foldl_deleteFile_collapse ops createOp deleteOp.path _ tree ?_ hone hnodel
      (Or.inl ⟨deleteOp, hmem, rfl⟩)
    intro op hop hp
    have hop1 := List.mem_filter.mp hop
    refine createAtSamePath_unique ops op createOp hc hckind (hcpath.trans hp.symm)
      (fun h => hnot op hop1.1 hop1.2 hp h.symm) ?_
    intro x hx hxk hxp
    exact hunique x hx hxk (hxp.trans hp)
  · intro hnone hunique hid
    refine foldl_deleteFile_marks ops deleteOp hnone _ tree ?_ hone hid (Or.inl hmem)
    intro op hop hp
    have hop1 := List.mem_filter.mp hop
    exact hunique op hop1.1 hop1.2 hp

/-- C24 on the operations of `testStep4`: the Delete of `id51` and the Create of `id511` at
`Dir 5/File 5.1` leave one node there, with the id `id511` and an Edit event; the Delete of
`id4111` leaves the node of `File 4.1.1.1` with a Delete event and the modification time
`1654798667`. -/
theorem step4_collapses_delete_create_witness :
    (∃ n, nodesAtPath (step4DeleteFile step4Ops step4Tree) ["Dir 5", "File 5.1"] = [n] ∧
      n.id = "id511" ∧ OperationType.Edit ∈ n.changeEvents ∧
      OperationType.Delete ∉ n.changeEvents) ∧
    (∃ n, nodesAtPath (step4DeleteFile step4Ops step4Tree)
        ["Dir 4", "Dir 4.1", "Dir 4.1.1", "File 4.1.1.1"] = [n] ∧
      n.id = "id4111" ∧ OperationType.Delete ∈ n.changeEvents ∧
      n.lastmodified = 1654798667) :=
  ⟨(step4_collapses_delete_create step4Ops step4Tree
      { operationType := OperationType.Delete, nodeId := "id51", objectType := NodeType.File,
        createdAt := 1654788552, lastModified := 1654788552, size := 12345,
        path := ["Dir 5", "File 5.1"] }
      (by decide) (by decide) (by decide)).1
      { operationType := OperationType.Create, nodeId := "id511", objectType := NodeType.File,
        createdAt := 1654798336, lastModified := 1654798336, size := 12345,
        path := ["Dir 5", "File 5.1"] }
      (by decide) (by decide) rfl (by decide) (by decide) (by decide) (by decide),
    (step4_collapses_delete_create step4Ops step4Tree
      { operationType := OperationType.Delete, nodeId := "id4111", objectType := NodeType.File,
        createdAt := 1654798667, lastModified := 1654798667, size := 12345,
        path := ["Dir 4", "Dir 4.1", "Dir 4.1.1", "File 4.1.1.1"] }
      (by decide) (by decide) (by decide)).2 (by decide) (by decide) (by decide)⟩

/-! ## C25: data error of the operation generator -/

/-- C26: `TimeoutHelper::add` on the rounded duration `r`: below the threshold the state is
unchanged; at the threshold one event is appended and the threshold is unchanged; above the
threshold the threshold becomes `r` and the queue holds exactly the new event. Hence over any
sequence of calls of `add` the threshold does not decrease, the queue is the initial queue (if
the threshold is still the initial one) followed by the events of the calls whose duration is
the final threshold, and, starting from an empty queue, every queued event was recorded by a
call whose duration is the current threshold. -/
theorem add_threshold_and_events (h : TimeoutHelper) (r t : Nat)
    (calls : List (Nat × Nat)) :
    (r < h.maxDuration → h.add r t = h) ∧
    (r = h.maxDuration → h.add r t = { h with eventsQueue := h.eventsQueue ++ [t] }) ∧
    (h.maxDuration < r → h.add r t = { maxDuration := r, eventsQueue := [t] }) ∧
    h.maxDuration ≤ (h.add r t).maxDuration ∧
    h.maxDuration ≤ (h.addAll calls).maxDuration ∧
    (h.addAll calls).eventsQueue
      = (if (h.addAll calls).maxDuration = h.maxDuration then h.eventsQueue else []) ++
        (calls.filter (fun call => decide (call.1 = (h.addAll calls).maxDuration))).map
          Prod.snd ∧
    (h.eventsQueue = [] → ∀ e ∈ (h.addAll calls).eventsQueue,
      ∃ call ∈ calls, call.2 = e ∧ call.1 = (h.addAll calls).maxDuration) := by
  refine ⟨?_, ?_, ?_, ?_, (TimeoutHelper.addAll_maxDuration calls h).1,
    TimeoutHelper.addAll_eventsQueue calls h, ?_⟩
  · intro hr
    simp only [TimeoutHelper.add]
    rw [if_neg (by omega)]
  · intro hr
    simp only [TimeoutHelper.add]
    rw [if_pos (by omega), if_neg (by omega)]
  · intro hr
    simp only [TimeoutHelper.add, TimeoutHelper.clearAllEvents]
    rw [if_pos (by omega), if_pos hr]
    rfl
  · rw [TimeoutHelper.add_maxDuration]
    omega
  · intro hq e he
    rw [TimeoutHelper.addAll_eventsQueue, hq] at he
    simp only [ite_self, List.nil_append, List.mem_map, List.mem_filter,
      decide_eq_true_eq] at he
    obtain ⟨call, ⟨hc, hd⟩, hcall⟩ := he
    exact ⟨call, hc, hcall, hd⟩

/-- C26 on sample calls: a duration of 20 above the threshold 10 raises the threshold and
leaves the new event alone in the queue; after four calls from an empty queue every queued
event belongs to a call whose duration is the final threshold. -/
theorem add_threshold_and_events_witness :
    ({ maxDuration := 10, eventsQueue := [5] } : TimeoutHelper).add 20 100
      = { maxDuration := 20, eventsQueue := [100] } ∧
    ∀ e ∈ (({ maxDuration := 10, eventsQueue := [] } : TimeoutHelper).addAll
        [(10, 100), (20, 200), (15, 250), (20, 300)]).eventsQueue,
      ∃ call ∈ [(10, 100), (20, 200), (15, 250), (20, 300)], call.2 = e ∧
        call.1 = (({ maxDuration := 10, eventsQueue := [] } : TimeoutHelper).addAll
          [(10, 100), (20, 200), (15, 250), (20, 300)]).maxDuration :=
  ⟨(add_threshold_and_events { maxDuration := 10, eventsQueue := [5] } 20 100 []).2.2.1
      (by decide),
    (add_threshold_and_events { maxDuration := 10, eventsQueue := [] } 0 0
      [(10, 100), (20, 200), (15, 250), (20, 300)]).2.2.2.2.2.2 rfl⟩

/-! ## C27: a Delete dropped on an equal id -/

/-- C27 (failing input): in the sample synchronisation the local directory `A` (`1`) and the
remote directory `P` (`16`) have the same id string `42`. The walk reaches the remote `h.txt`
(`17`) after 15 passes: it is unprocessed, carries a delete event, has a corresponding node,
and no operation was generated for its parent `P`. `generateDeleteOperation` finds the id of
`P` among the deleted ids, where the Delete of `A` has put it, and returns without operation:
the operation list of `execute` has no Delete for `h.txt`. -/
theorem delete_dropped_on_equal_id :
    ∃ c r,
      loopPrefix (genEnv 1000) 10 15 (startConfig (genEnv 1000) [] genState) = some c ∧
      c.queue = [some 17] ∧
      c.state.status 17 = NodeStatus.Unprocessed ∧
      ((genEnv 1000).nodes 17).hasChangeEvent OperationType.Delete = true ∧
      (genEnv 1000).correspondingNodeInOtherTree 17 = some 7 ∧
      ((genEnv 1000).nodes 17).parentNode = some 16 ∧
      ((genEnv 1000).nodes 16).side = ReplicaSide.Remote ∧
      ((genEnv 1000).nodes 16).id = some "42" ∧
      ((genEnv 1000).nodes 1).side = ReplicaSide.Local ∧
      ((genEnv 1000).nodes 1).id = some "42" ∧
      c.state.syncOps = genOps ∧
      (∀ op ∈ genOps, op.affectedNode ≠ some 16) ∧
      c.state.deletedNodes = ["42"] ∧
      generateDeleteOperation (genEnv 1000) 10 c.state 17 (some 7) = some c.state ∧
      generatorExecute (genEnv 1000) 10 16 [] genState = some r ∧
      r.exitCode = ExitCode.Ok ∧
      r.state.syncOps = genOps ∧
      (∀ op ∈ genOps, op.affectedNode ≠ some 17) :=
  ⟨_, _, rfl, rfl, rfl, rfl, rfl, rfl, rfl, rfl, rfl, rfl, rfl, by decide, rfl, rfl, rfl, rfl,
    rfl, by decide⟩

/-! ## C28: deleteOldestEvents on a queue of old events -/

/-- C28 (failing inputs): when the queue is not empty and every queued event is older than
`PERIOD`, `deleteOldestEvents` pops all events and then calls `front()` on the empty queue;
in every other case it leaves the queue from the first event on that is not older than
`PERIOD`. -/
theorem deleteOldestEvents_reads_empty_queue (period : Int) (eventTime : Nat)
    (h : TimeoutHelper) (hne : h.eventsQueue ≠ []) :
    ((∀ e ∈ h.eventsQueue, (eventTime : Int) - (e : Int) > period) →
      h.deleteOldestEvents period eventTime = none) ∧
    ((∃ e ∈ h.eventsQueue, ¬ (eventTime : Int) - (e : Int) > period) →
      h.deleteOldestEvents period eventTime
        = some { h with
            eventsQueue := h.eventsQueue.dropWhile
              (fun e : Nat => decide ((eventTime : Int) - (e : Int) > period)) }) := by
  simp only [TimeoutHelper.deleteOldestEvents, if_pos hne, deleteOldestLoop_eq]
  constructor
  · intro hold
    rw [if_pos]
    · rfl
    · rw [List.all_eq_true]
      intro e he
      exact decide_eq_true (hold e he)
  · rintro ⟨e, he, hfresh⟩
    rw [if_neg]
    · rfl
    · rw [List.all_eq_true]
      intro hall
      exact hfresh (of_decide_eq_true (hall e he))

/-- C28 on the queue `[100]` with `PERIOD = 60` at time `200`: the only event is popped and
`front()` is called on the empty queue. -/
theorem deleteOldestEvents_reads_empty_queue_witness :
    ({ maxDuration := 10, eventsQueue := [100] } : TimeoutHelper).deleteOldestEvents 60 200
      = none :=
  (deleteOldestEvents_reads_empty_queue 60 200 { maxDuration := 10, eventsQueue := [100] }
    (by decide)).1 (by decide)

/-! ## C29: update of the sync node cache -/

/-- C29 (failing inputs): `SyncNodeCache::update` leaves the cache as it is when it returns
`DataError`; but when the sync and the type are known and `SyncDb::updateAllSyncNodes` fails,
it returns `DbError` and the cache holds the new set `syncNodes` for the pair, not the set
`old` it held before. -/
theorem update_keeps_new_set_on_db_error {Db : Type} (db : SyncDbCalls Db)
    (c : SyncNodeCache Db) (syncDbId : Int) (type : SyncNodeType) (syncNodes : List NodeId) :
    ((c.update db syncDbId type syncNodes).1 = ExitCode.DataError →
      (c.update db syncDbId type syncNodes).2 = c) ∧
    (∀ syncDb types old, c.syncDbMap syncDbId = some syncDb →
      c.syncNodesMap syncDbId = some types → types type = some old →
      (db.updateAllSyncNodes (c.databases syncDb) type syncNodes).1 = false →
      c.syncNodes syncDbId type = (ExitCode.Ok, some old) ∧
      (c.update db syncDbId type syncNodes).1 = ExitCode.DbError ∧
      (c.update db syncDbId type syncNodes).2.syncNodes syncDbId type
        = (ExitCode.Ok, some syncNodes)) := by
  constructor
  · intro h
    simp only [SyncNodeCache.update] at h ⊢
    cases h1 : c.syncDbMap syncDbId with
    | none => rfl
    | some syncDb =>
      cases h2 : c.syncNodesMap syncDbId with
      | none => rfl
      | some types =>
        cases h3 : types type with
        | none => simp only [h3]
        | some old =>
          rw [h1, h2] at h
          simp only [h3] at h
          split_ifs at h
  · intro syncDb types old h1 h2 h3 hfail
    refine ⟨?_, ?_, ?_⟩
    · simp only [SyncNodeCache.syncNodes, h2, h3]
    · simp only [SyncNodeCache.update, h1, h2, h3, hfail, Bool.not_false, if_true]
    · simp only [SyncNodeCache.update, h1, h2, h3, hfail, Bool.not_false, if_true,
        SyncNodeCache.syncNodes, assignSyncNodes]

/-- C29 on the read-only sample database: after `initCache(1, db)` the black list is `["7"]`;
`update(1, 1, ["9"])` returns `DbError` and `syncNodes(1, 1)` then gives `["9"]`. -/
theorem update_keeps_new_set_on_db_error_witness :
    ((emptyCache true).initCache sampleDbCalls 1 0).1 = ExitCode.Ok ∧
    ((emptyCache true).initCache sampleDbCalls 1 0).2.syncNodes 1 1
      = (ExitCode.Ok, some ["7"]) ∧
    (((emptyCache true).initCache sampleDbCalls 1 0).2.update sampleDbCalls 1 1 ["9"]).1
      = ExitCode.DbError ∧
    (((emptyCache true).initCache sampleDbCalls 1 0).2.update sampleDbCalls 1 1
        ["9"]).2.syncNodes 1 1
      = (ExitCode.Ok, some ["9"]) :=
  ⟨rfl,
    (update_keeps_new_set_on_db_error sampleDbCalls
      ((emptyCache true).initCache sampleDbCalls 1 0).2 1 1 ["9"]).2
      0 _ ["7"] rfl rfl rfl rfl⟩

/-! ## C30: round trip of the sync node cache -/

/-- C30: after `initCache(id, db)` has returned `Ok`: whenever `update(id, type, S)` returns
`Ok`, `syncNodes(id, type)` returns `Ok` with exactly `S` and every other pair of a sync and a
type gives what it gave before; `update` does return `Ok` for every type of the enumeration
when the database accepts the write, and `clearCache(id)` returns `Ok` when the enumeration is
not empty. After `clearCache(id)` has returned `Ok` on any cache, `syncNodes(id, type)` and
`update(id, type, S)` return `DataError` for every type and set, and `update` leaves the cache
as it is. -/
theorem cache_round_trip {Db : Type} (db : SyncDbCalls Db) (c c1 : SyncNodeCache Db)
    (syncDbId : Int) (syncDb : SyncDbPtr)
    (hinit : c.initCache db syncDbId syncDb = (ExitCode.Ok, c1)) :
    (∀ type S c2, c1.update db syncDbId type S = (ExitCode.Ok, c2) →
      c2.syncNodes syncDbId type = (ExitCode.Ok, some S) ∧
      ∀ i t, ¬ (i = syncDbId ∧ t = type) → c2.syncNodes i t = c1.syncNodes i t) ∧
    (∀ type S, db.firstType ≤ type → type ≤ db.lastType →
      (db.updateAllSyncNodes (c1.databases syncDb) type S).1 = true →
      (c1.update db syncDbId type S).1 = ExitCode.Ok) ∧
    (db.firstType ≤ db.lastType → (c1.clearCache syncDbId).1 = ExitCode.Ok) ∧
    (∀ c2 c3 : SyncNodeCache Db, c2.clearCache syncDbId = (ExitCode.Ok, c3) →
      ∀ type S, (c3.syncNodes syncDbId type).1 = ExitCode.DataError ∧
        c3.update db syncDbId type S = (ExitCode.DataError, c3)) := by
  obtain ⟨hmap, -, hall⟩ := initCacheLoop_ok db syncDbId syncDb _ _ c1 hinit
  have hdb : c1.syncDbMap syncDbId = some syncDb := by
    rw [hmap]
    exact if_pos rfl
  have hty : ∀ type, db.firstType ≤ type → type ≤ db.lastType →
      ∃ types s, c1.syncNodesMap syncDbId = some types ∧ types type = some s := fun type h1 h2 =>
    (syncNodes_ok_iff c1 syncDbId type).mp
      (hall type (Or.inl ((mem_syncNodeTypes db type).mpr ⟨h1, h2⟩)))
  refine ⟨?_, ?_, ?_, ?_⟩
  · intro type S c2 h
    simp only [SyncNodeCache.update, hdb] at h
    cases h1 : c1.syncNodesMap syncDbId with
    | none => simp [h1] at h
    | some types =>
      cases h2 : types type with
      | none => simp [h1, h2] at h
      | some old =>
        simp only [h1, h2] at h
        split_ifs at h
        · exact absurd (Prod.mk.inj h).1 (by decide)
        have h3 := (Prod.mk.inj h).2
        subst h3
        constructor
        · have := syncNodes_assign c1 syncDbId type S syncDbId type
          simp only [and_self, if_true] at this
          exact this
        · intro i t hit
          have := syncNodes_assign c1 syncDbId type S i t
          rw [if_neg hit] at this
          exact this
  · intro type S h1 h2 hw
    obtain ⟨types, s, h3, h4⟩ := hty type h1 h2
    simp only [SyncNodeCache.update, hdb, h3, h4, hw]
    rfl
  · intro hne
    obtain ⟨types, s, h3, -⟩ := hty db.firstType (le_refl _) hne
    simp only [SyncNodeCache.clearCache, hdb, h3]
  · intro c2 c3 h type S
    simp only [SyncNodeCache.clearCache] at h
    cases h1 : c2.syncDbMap syncDbId with
    | none => simp [h1] at h
    | some p =>
      cases h2 : c2.syncNodesMap syncDbId with
      | none => simp [h1, h2] at h
      | some types =>
        simp only [h1, h2, Prod.mk.injEq, true_and] at h
        subst h
        exact ⟨by simp [SyncNodeCache.syncNodes], by simp [SyncNodeCache.update]⟩

/-- C30 on the sample database: after `initCache(1, db)`, `update(1, 1, ["9"])` returns `Ok`
and `syncNodes(1, 1)` then gives `["9"]`; after `clearCache(1)` both calls return
`DataError`. -/
theorem cache_round_trip_witness :
    (emptyCache false).initCache sampleDbCalls 1 0
        = (ExitCode.Ok, ((emptyCache false).initCache sampleDbCalls 1 0).2) ∧
    ((((emptyCache false).initCache sampleDbCalls 1 0).2.update sampleDbCalls 1 1 ["9"]).1
        = ExitCode.Ok ∧
      ((((emptyCache false).initCache sampleDbCalls 1 0).2.update sampleDbCalls 1 1
        ["9"]).2.syncNodes 1 1) = (ExitCode.Ok, some ["9"])) ∧
    (((((emptyCache false).initCache sampleDbCalls 1 0).2.clearCache 1).2.syncNodes 1 1).1
        = ExitCode.DataError ∧
      (((((emptyCache false).initCache sampleDbCalls 1 0).2.clearCache 1).2.update
        sampleDbCalls 1 1 ["9"]).1) = ExitCode.DataError) :=
  have hinit : (emptyCache false).initCache sampleDbCalls 1 0
      = (ExitCode.Ok, ((emptyCache false).initCache sampleDbCalls 1 0).2) := rfl
  have h := cache_round_trip sampleDbCalls (emptyCache false) _ 1 0 hinit
  have hu : (((emptyCache false).initCache sampleDbCalls 1 0).2.update sampleDbCalls 1 1 ["9"]).1
      = ExitCode.Ok := h.2.1 1 ["9"] (by decide) (by decide) rfl
  have hc : (((emptyCache false).initCache sampleDbCalls 1 0).2.clearCache 1).1 = ExitCode.Ok :=
    h.2.2.1 (by decide)
  ⟨hinit, ⟨hu, (h.1 1 ["9"] _ (Prod.ext hu rfl)).1⟩,
    ⟨(h.2.2.2 _ _ (Prod.ext hc rfl) 1 ["9"]).1,
      congrArg Prod.fst (h.2.2.2 _ _ (Prod.ext hc rfl) 1 ["9"]).2⟩⟩

end KDC
